import Mathlib

/-!
# WebSocket engine of Embedded-Journey: a shallow embedding

Source files embedded here: `src/websocket/ws_common.c`, `ws_common.h`,
`ws_crypto.c`, `ws_client.c`, `ws_client.h`, `ws_server.c`, `test_ws.c`, and the
calendar utilities of `src/ntp/src/utils_datetime.c`.

Conventions.
* A byte is a `Nat` below 256; a C buffer is a `List Nat`.
* `int` results are `Int`; `size_t`/`uint64_t` quantities are `Nat`, with an
  explicit reduction wherever the C code narrows or casts.
* The transport (`net_sock_*`), the tick counter (`HAL_*`) and `rand()` are not
  part of the sources; they are a scripted `World` threaded through every call.
* `while` loops carry a fuel argument, and a function that contains one returns
  an `Option`: `none` means that the fuel ran out. Each wrapper supplies a fuel
  that bounds the number of rounds the loop can make on the given world, so
  `none` stands for a run of the C code that does not terminate (such as the
  drain loop with a scratch capacity of 0).
* NULL checks on pointers that the embedding passes by value (`ctx`, `h`, `buf`)
  have no counterpart; `payload`, `scratch` and `out_opcode`, for which NULL is
  a meaningful argument, keep theirs.
-/

namespace WS

/-! ## Constants of `ws_common.h` -/

/-- `#define WS_OK 0`. -/
def WS_OK : Int := 0
/-- `#define WS_ERR -1`. -/
def WS_ERR : Int := -1
/-- `#define WS_TIMEOUT -2`. -/
def WS_TIMEOUT : Int := -2
/-- `#define WS_CLOSED -3`. -/
def WS_CLOSED : Int := -3

/-- `#define WS_CLOSE_NORMAL 1000`. -/
def WS_CLOSE_NORMAL : Nat := 1000
/-- `#define WS_CLOSE_PROTOCOL_ERROR 1002`. -/
def WS_CLOSE_PROTOCOL_ERROR : Nat := 1002

/-- `WS_OPCODE_CONT = 0x0` of `ws_opcode_t`. -/
def WS_OPCODE_CONT : Nat := 0x0
/-- `WS_OPCODE_TEXT = 0x1`. -/
def WS_OPCODE_TEXT : Nat := 0x1
/-- `WS_OPCODE_BINARY = 0x2`. -/
def WS_OPCODE_BINARY : Nat := 0x2
/-- `WS_OPCODE_CLOSE = 0x8`. -/
def WS_OPCODE_CLOSE : Nat := 0x8
/-- `WS_OPCODE_PING = 0x9`. -/
def WS_OPCODE_PING : Nat := 0x9
/-- `WS_OPCODE_PONG = 0xA`. -/
def WS_OPCODE_PONG : Nat := 0xA

/-- The struct `ws_frame_hdr_t`; `opcode` holds the enum's integer value. -/
structure ws_frame_hdr_t where
  opcode : Nat
  fin : Bool
  rsv1 : Bool
  rsv2 : Bool
  rsv3 : Bool
  payload_len : Nat
  masked : Bool
  mask_key : List Nat
  deriving DecidableEq, Repr

/-- `ws_validate_frame_hdr` of `ws_common.c` (the header is passed by value, so
the `!h` guard has no counterpart). `h.opcode % 256` is the `(uint8_t)` cast. -/
def ws_validate_frame_hdr (h : ws_frame_hdr_t) (expect_masked : Bool)
    (reject_fragmentation : Bool) : Int :=
  if h.rsv1 || h.rsv2 || h.rsv3 then WS_ERR
  else if (if expect_masked then !h.masked else h.masked) then WS_ERR
  else if reject_fragmentation && (!h.fin || h.opcode % 256 == 0x00) then WS_ERR
  else
    match h.opcode % 256 with
    | 0x1 | 0x2 | 0x8 | 0x9 | 0xA =>
      if h.opcode % 256 ≥ 0x8 then
        if !h.fin then WS_ERR
        else if h.payload_len > 125 then WS_ERR
        else if h.opcode % 256 == 0x8 && h.payload_len == 1 then WS_ERR
        else WS_OK
      else WS_OK
    | _ => WS_ERR

/-! ## The environment: transport, tick counter, `rand()`

`net_internal.h`, the HAL and libc are not part of the sources. -/

/-- Numeric values of the transport's return codes that the code compares
against (`net_internal.h` is not among the sources, so they are parameters). -/
structure NetCodes where
  NET_NO_DATA : Int
  NET_TIMEOUT : Int
  NET_EOF : Int
  deriving DecidableEq, Repr

/-- One entry of the receive script of the transport. -/
inductive RxEvent where
  /-- Bytes that have arrived; a receive call takes a non-empty prefix of them. -/
  | data (bs : List Nat)
  /-- A receive call returns `-c` (`code 0` is the peer's orderly close). -/
  | code (c : Nat)
  /-- The tick counter advances by `ms` before the next entry is looked at. -/
  | elapse (ms : Nat)
  deriving DecidableEq, Repr

/-- One entry of the send script of the transport. -/
inductive TxEvent where
  /-- A send call accepts at most `k` of the offered bytes and returns that count. -/
  | accept (k : Nat)
  /-- A send call returns `-c` and accepts nothing. -/
  | fail (c : Nat)
  deriving DecidableEq, Repr

/-- Everything outside the program that its calls observe or change. -/
structure World where
  /-- What successive `net_sock_recv` calls will see. -/
  rx : List RxEvent
  /-- How successive `net_sock_send` calls behave; when exhausted every send
  accepts all that is offered. -/
  txScript : List TxEvent
  /-- Bytes accepted by each `net_sock_send` call so far, oldest first. -/
  tx : List (List Nat)
  /-- Values returned by successive `rand()` calls (0 when exhausted). -/
  rand : List Nat
  /-- Milliseconds since start, read by `HAL_GetTick`. -/
  tick : Nat
  /-- Number of `net_sock_close` calls so far. -/
  sockClosed : Nat
  /-- Number of `net_sock_destroy` calls so far. -/
  sockDestroyed : Nat
  deriving DecidableEq, Repr

/-- The `(int)` cast of a `size_t` value on the 32-bit target. -/
def toInt32 (n : Nat) : Int :=
  if n % 2 ^ 32 < 2 ^ 31 then ((n % 2 ^ 32 : Nat) : Int) else ((n % 2 ^ 32 : Nat) : Int) - 2 ^ 32

/-- Modelled from the spec: the receive primitive of the Transport Capability
(`recv(buffer, max_len) -> bytes_read (>0) | 0 (peer closed) | no_data/timeout |
fatal_error`), run on a script. Result: return code, bytes stored at the start
of the destination, rest of the script, tick counter. -/
def recvScript : List RxEvent → Nat → Nat → Int × List Nat × List RxEvent × Nat
  | [], tick, _ => (0, [], [], tick)
  | RxEvent.elapse ms :: rest, tick, n => recvScript rest (tick + ms) n
  | RxEvent.code c :: rest, tick, _ => (-(c : Int), [], rest, tick)
  | RxEvent.data bs :: rest, tick, n =>
    if bs.length = 0 then recvScript rest tick n
    else if bs.length ≤ n then ((bs.length : Int), bs, rest, tick)
    else ((n : Int), bs.take n, RxEvent.data (bs.drop n) :: rest, tick)

/-- Modelled from the spec: `net_sock_recv(sock, buf, len)`; the bytes are
returned and stored by the caller at `buf`. A call with `len ≤ 0` gets no
bytes. -/
def net_sock_recv (w : World) (len : Int) : Int × List Nat × World :=
  match recvScript w.rx w.tick len.toNat with
  | (rc, bs, rx, tick) => (rc, bs, { w with rx := rx, tick := tick })

/-- Modelled from the spec: `net_sock_send(sock, buf, len)` of the Transport
Capability (`send(bytes) -> bytes_written | would_block | fatal_error`). Every
call is recorded in `tx` with the bytes it accepted; a call with `len ≤ 0`
moves no bytes. -/
def net_sock_send (w : World) (buf : List Nat) (len : Int) : Int × World :=
  match w.txScript with
  | [] => ((len.toNat : Int), { w with tx := w.tx ++ [buf.take len.toNat] })
  | TxEvent.accept k :: rest =>
    ((min k len.toNat : Nat), { w with txScript := rest, tx := w.tx ++ [buf.take (min k len.toNat)] })
  | TxEvent.fail c :: rest => (-(c : Int), { w with txScript := rest, tx := w.tx ++ [[]] })

/-- Modelled from the spec: libc `rand()`, drawn from the script. -/
def rand (w : World) : Nat × World :=
  (w.rand.headD 0, { w with rand := w.rand.tail })

/-- Modelled from the spec: `HAL_GetTick()`, a 32-bit millisecond counter. -/
def HAL_GetTick (w : World) : Nat := w.tick % 2 ^ 32

/-- Modelled from the spec: `HAL_Delay(ms)`. -/
def HAL_Delay (w : World) (ms : Nat) : World := { w with tick := w.tick + ms }

/-- Modelled from the spec: `net_sock_close(sock)`. -/
def net_sock_close (w : World) : World := { w with sockClosed := w.sockClosed + 1 }

/-- Modelled from the spec: `net_sock_destroy(sock)`. -/
def net_sock_destroy (w : World) : World := { w with sockDestroyed := w.sockDestroyed + 1 }

/-- All bytes the transport has accepted so far, in order. -/
def World.sent (w : World) : List Nat := w.tx.flatten

/-- Store `bs` into the buffer `buf` starting at index `off` (`memcpy` into
`buf + off`). -/
def writeAt (buf : List Nat) (off : Nat) (bs : List Nat) : List Nat :=
  buf.take off ++ bs ++ buf.drop (off + bs.length)

/-! ## Transport helpers of `ws_common.c` -/

/-- The `while (sent < len)` loop of `ws_send_all`. -/
def ws_send_all_loop : Nat → World → List Nat → Nat → Nat → Option (Int × World)
  | 0, _, _, _, _ => none
  | fuel + 1, w, buf, len, sent =>
    if sent < len then
      match net_sock_send w (buf.drop sent) (toInt32 (len - sent)) with
      | (rc, w1) =>
        if rc ≤ 0 then some (WS_ERR, w1)
        else ws_send_all_loop fuel w1 buf len (sent + rc.toNat)
    else some (WS_OK, w)

/-- `ws_send_all`: every continuing iteration adds at least one to `sent`. -/
def ws_send_all (w : World) (buf : List Nat) (len : Nat) : Option (Int × World) :=
  ws_send_all_loop (len + 1) w buf len 0

/-- The `while (got < len)` loop of `ws_recv_exact`. -/
def ws_recv_exact_loop (nc : NetCodes) :
    Nat → World → List Nat → Nat → Nat → Option (Int × List Nat × World)
  | 0, _, _, _, _ => none
  | fuel + 1, w, buf, len, got =>
    if got < len then
      match net_sock_recv w (toInt32 (len - got)) with
      | (rc, bs, w1) =>
        if rc = 0 then some (WS_CLOSED, writeAt buf got bs, w1)
        else if rc = nc.NET_NO_DATA then some (WS_TIMEOUT, writeAt buf got bs, w1)
        else if rc < 0 then some (WS_ERR, writeAt buf got bs, w1)
        else ws_recv_exact_loop nc fuel w1 (writeAt buf got bs) len (got + rc.toNat)
    else some (WS_OK, buf, w)

/-- `ws_recv_exact`: result code, buffer contents afterwards, world. -/
def ws_recv_exact (nc : NetCodes) (w : World) (buf : List Nat) (len : Nat) :
    Option (Int × List Nat × World) :=
  ws_recv_exact_loop nc (len + 1) w buf len 0

/-! ## Frame parsing and sending (`ws_common.c`) -/

/-- The frame header struct before `ws_read_frame_hdr` has stored anything. -/
def hdr0 : ws_frame_hdr_t :=
  { opcode := 0, fin := false, rsv1 := false, rsv2 := false, rsv3 := false,
    payload_len := 0, masked := false, mask_key := [0, 0, 0, 0] }

/-- The loop `for (i = 0; i < 8; i++) plen = (plen << 8) | ext[i]` on a
`uint64_t` accumulator, as a fold over the bytes of `ext`. -/
def be_accumulate (ext : List Nat) : Nat :=
  ext.foldl (fun plen b => ((plen <<< 8) % 2 ^ 64) ||| b) 0

/-- The extended-length part of `ws_read_frame_hdr`
(`if (plen == 126) … else if (plen == 127) …`): result code, `plen`, world. -/
def ws_read_frame_hdr_ext (nc : NetCodes) (w : World) (plen : Nat) :
    Option (Int × Nat × World) :=
  if plen = 126 then
    match ws_recv_exact nc w [0, 0] 2 with
    | none => none
    | some (rc, ext, w1) => some (rc, ((ext.getD 0 0) <<< 8) ||| (ext.getD 1 0), w1)
  else if plen = 127 then
    match ws_recv_exact nc w [0, 0, 0, 0, 0, 0, 0, 0] 8 with
    | none => none
    | some (rc, ext, w1) => some (rc, be_accumulate (ext.take 8), w1)
  else some (WS_OK, plen, w)

/-- The mask-key part of `ws_read_frame_hdr` (`if (h->masked) … else memset`). -/
def ws_read_frame_hdr_key (nc : NetCodes) (w : World) (h : ws_frame_hdr_t) :
    Option (Int × ws_frame_hdr_t × World) :=
  if h.masked then
    match ws_recv_exact nc w h.mask_key 4 with
    | none => none
    | some (rc, key, w1) => some (rc, { h with mask_key := key }, w1)
  else some (WS_OK, { h with mask_key := [0, 0, 0, 0] }, w)

/-- `ws_read_frame_hdr`: result code, header struct afterwards, world. The
argument `h` is the caller's struct before the call. -/
def ws_read_frame_hdr (nc : NetCodes) (w : World) (h : ws_frame_hdr_t) :
    Option (Int × ws_frame_hdr_t × World) :=
  match ws_recv_exact nc w [0, 0] 2 with
  | none => none
  | some (rc, b, w1) =>
    if rc ≠ WS_OK then some (rc, h, w1)
    else
      let b0 := b.getD 0 0
      let b1 := b.getD 1 0
      let h1 : ws_frame_hdr_t :=
        { h with fin := (b0 &&& 0x80) != 0, rsv1 := (b0 &&& 0x40) != 0,
                 rsv2 := (b0 &&& 0x20) != 0, rsv3 := (b0 &&& 0x10) != 0,
                 opcode := b0 &&& 0x0F, masked := (b1 &&& 0x80) != 0 }
      match ws_read_frame_hdr_ext nc w1 (b1 &&& 0x7F) with
      | none => none
      | some (rc, plen, w2) =>
        if rc ≠ WS_OK then some (rc, h1, w2)
        else ws_read_frame_hdr_key nc w2 { h1 with payload_len := plen }

/-- The loop body `buf[i] ^= mask_key[i & 3]` run over the bytes of a list whose
first element has index `i`. -/
def xor_from (mask_key : List Nat) : Nat → List Nat → List Nat
  | _, [] => []
  | i, b :: bs => (b ^^^ mask_key.getD (i &&& 3) 0) :: xor_from mask_key (i + 1) bs

/-- `ws_unmask` (and the identical `ws_unmask_local` of the client and the
server): `buf[i] ^= mask_key[i & 3]` for `i < len`. -/
def ws_unmask (buf : List Nat) (len : Nat) (mask_key : List Nat) : List Nat :=
  xor_from mask_key 0 (buf.take len) ++ buf.drop len

/-- The drain loop `while (to_drain)` of `ws_read_frame_payload`, with
`chunk = (to_drain > scratch_cap) ? scratch_cap : to_drain` written as a
minimum; the scratch contents are never read back, so only the stream is
tracked. -/
def ws_drain_loop (nc : NetCodes) (scratch_cap : Nat) :
    Nat → World → Nat → Option (Int × World)
  | 0, _, _ => none
  | fuel + 1, w, to_drain =>
    if to_drain ≠ 0 then
      let chunk := min to_drain scratch_cap
      match ws_recv_exact nc w (List.replicate scratch_cap 0) chunk with
      | none => none
      | some (rc, _, w1) =>
        if rc ≠ WS_OK then some (rc, w1)
        else ws_drain_loop nc scratch_cap fuel w1 (to_drain - chunk)
    else some (WS_ERR, w)

/-- `ws_read_frame_payload`: result code, contents of `dst`, `*out_len`, world. -/
def ws_read_frame_payload (nc : NetCodes) (w : World) (h : ws_frame_hdr_t)
    (dst : List Nat) (dst_cap : Nat) (scratch_cap : Nat) :
    Option (Int × List Nat × Nat × World) :=
  if h.payload_len > dst_cap then
    match ws_drain_loop nc scratch_cap (h.payload_len + 1) w h.payload_len with
    | none => none
    | some (rc, w1) => some (rc, dst, 0, w1)
  else if h.payload_len = 0 then some (WS_OK, dst, 0, w)
  else
    match ws_recv_exact nc w dst h.payload_len with
    | none => none
    | some (rc, dst1, w1) =>
      if rc ≠ WS_OK then some (rc, dst1, 0, w1)
      else
        let dst2 := if h.masked then ws_unmask dst1 h.payload_len h.mask_key else dst1
        some (WS_OK, dst2, h.payload_len, w1)

/-- `ws_make_mask_key`: four `rand() & 0xFF` bytes. -/
def ws_make_mask_key (w : World) : List Nat × World :=
  let r0 := rand w
  let r1 := rand r0.2
  let r2 := rand r1.2
  let r3 := rand r2.2
  ([r0.1 &&& 0xFF, r1.1 &&& 0xFF, r2.1 &&& 0xFF, r3.1 &&& 0xFF], r3.2)

/-- The header bytes `hdr[0 .. hdr_len)` that `ws_send_frame` builds before the
mask key is appended and the mask bit is set. -/
def ws_frame_hdr_bytes (opcode : Nat) (payload_len : Nat) (fin : Bool) : List Nat :=
  let b0 := ((if fin then 0x80 else 0x00) ||| ((opcode % 256) &&& 0x0F)) % 256
  if payload_len ≤ 125 then [b0, (payload_len &&& 0x7F) % 256]
  else if payload_len ≤ 0xFFFF then
    [b0, 126, ((payload_len >>> 8) &&& 0xFF) % 256, (payload_len &&& 0xFF) % 256]
  else
    let L := payload_len % 2 ^ 64
    [b0, 127,
     ((L >>> 56) &&& 0xFF) % 256, ((L >>> 48) &&& 0xFF) % 256,
     ((L >>> 40) &&& 0xFF) % 256, ((L >>> 32) &&& 0xFF) % 256,
     ((L >>> 24) &&& 0xFF) % 256, ((L >>> 16) &&& 0xFF) % 256,
     ((L >>> 8) &&& 0xFF) % 256, (L &&& 0xFF) % 256]

/-- The bytes `scratch[i] = payload[off + i] ^ mask_key[(off + i) & 3]`,
`i < chunk`, of one round of the masked send. -/
def ws_mask_chunk (payload : List Nat) (mask_key : List Nat) (off chunk : Nat) : List Nat :=
  (List.range chunk).map (fun i => payload.getD (off + i) 0 ^^^ mask_key.getD ((off + i) &&& 3) 0)

/-- The loop `while (off < payload_len)` of the masked send in `ws_send_frame`;
`chunk` is `payload_len - off` capped at `scratch_cap`. -/
def ws_send_masked_loop (payload : List Nat) (payload_len : Nat) (mask_key : List Nat)
    (scratch_cap : Nat) : Nat → World → Nat → Option (Int × World)
  | 0, _, _ => none
  | fuel + 1, w, off =>
    if off < payload_len then
      let chunk := min (payload_len - off) scratch_cap
      match ws_send_all w (ws_mask_chunk payload mask_key off chunk) chunk with
      | none => none
      | some (rc, w1) =>
        if rc ≠ WS_OK then some (WS_ERR, w1)
        else ws_send_masked_loop payload payload_len mask_key scratch_cap fuel w1 (off + chunk)
    else some (WS_OK, w)

/-- `ws_send_frame`. `payload = none` is a NULL pointer; `scratch` tells whether
the scratch pointer is non-NULL. -/
def ws_send_frame (w : World) (opcode : Nat) (payload : Option (List Nat)) (payload_len : Nat)
    (fin : Bool) (mask_outgoing : Bool) (scratch : Bool) (scratch_cap : Nat) :
    Option (Int × World) :=
  let hdr := ws_frame_hdr_bytes opcode payload_len fin
  let keyed : List Nat × List Nat × World :=
    if mask_outgoing then
      match ws_make_mask_key w with
      | (key, w1) => (writeAt hdr 1 [hdr.getD 1 0 ||| 0x80] ++ key, key, w1)
    else (hdr, [0, 0, 0, 0], w)
  match keyed with
  | (hdr1, mask_key, w1) =>
    match ws_send_all w1 hdr1 hdr1.length with
    | none => none
    | some (rc, w2) =>
      if rc ≠ WS_OK then some (WS_ERR, w2)
      else
        match payload with
        | none => some (WS_OK, w2)
        | some p =>
          if payload_len = 0 then some (WS_OK, w2)
          else if !mask_outgoing then ws_send_all w2 p payload_len
          else if !scratch || scratch_cap = 0 then some (WS_ERR, w2)
          else ws_send_masked_loop p payload_len mask_key scratch_cap (payload_len + 1) w2 0

/-! ## Crypto helpers (`ws_crypto.c`) and the accept key (`ws_common.c`)

`ws_sha1` and `ws_base64` forward to mbedTLS, which is not among the sources. -/

/-- Rotate a 32-bit word left by `n` bits. -/
def rotl32 (x n : Nat) : Nat := ((x <<< n) ||| (x >>> (32 - n))) % 2 ^ 32

/-- Big-endian value of a list of bytes. -/
def be_value (bs : List Nat) : Nat := bs.foldl (fun acc b => acc * 256 + b) 0

/-- The `n` big-endian bytes of `v`. -/
def be_bytes : Nat → Nat → List Nat
  | 0, _ => []
  | n + 1, v => (v / 256 ^ n) % 256 :: be_bytes n v

/-- Cut a list into consecutive pieces of `k + 1` elements. -/
def chunks_of (k : Nat) : Nat → List Nat → List (List Nat)
  | 0, _ => []
  | fuel + 1, l => if l.length = 0 then [] else l.take (k + 1) :: chunks_of k fuel (l.drop (k + 1))

/-- SHA-1 message padding: a 0x80 byte, zero bytes up to 56 modulo 64, and the
bit length in 8 big-endian bytes. -/
def sha1_pad (msg : List Nat) : List Nat :=
  msg ++ [0x80] ++ List.replicate ((119 - msg.length % 64) % 64) 0 ++ be_bytes 8 (msg.length * 8)

/-- Extend the message schedule; `rev` holds the words so far, newest first. -/
def sha1_schedule : Nat → List Nat → List Nat
  | 0, rev => rev.reverse
  | n + 1, rev =>
    sha1_schedule n
      (rotl32 (rev.getD 2 0 ^^^ rev.getD 7 0 ^^^ rev.getD 13 0 ^^^ rev.getD 15 0) 1 :: rev)

/-- The five chaining words of SHA-1. -/
structure Sha1State where
  a : Nat
  b : Nat
  c : Nat
  d : Nat
  e : Nat
  deriving DecidableEq, Repr

/-- One round of the SHA-1 compression function, for round number `t` and
schedule word `wt`. -/
def sha1_round (s : Sha1State) (t wt : Nat) : Sha1State :=
  let f :=
    if t < 20 then (s.b &&& s.c) ||| ((s.b ^^^ 0xFFFFFFFF) &&& s.d)
    else if t < 40 then s.b ^^^ s.c ^^^ s.d
    else if t < 60 then (s.b &&& s.c) ||| (s.b &&& s.d) ||| (s.c &&& s.d)
    else s.b ^^^ s.c ^^^ s.d
  let k :=
    if t < 20 then 0x5A827999 else if t < 40 then 0x6ED9EBA1
    else if t < 60 then 0x8F1BBCDC else 0xCA62C1D6
  { a := (rotl32 s.a 5 + f + s.e + k + wt) % 2 ^ 32, b := s.a, c := rotl32 s.b 30,
    d := s.c, e := s.d }

/-- The rounds of one block, over the schedule words from round `t` on. -/
def sha1_rounds : List Nat → Nat → Sha1State → Sha1State
  | [], _, s => s
  | wt :: ws, t, s => sha1_rounds ws (t + 1) (sha1_round s t wt)

/-- Process one 64-byte block. -/
def sha1_block (s : Sha1State) (block : List Nat) : Sha1State :=
  let w16 := (chunks_of 3 16 block).map be_value
  let r := sha1_rounds (sha1_schedule 64 w16.reverse) 0 s
  { a := (s.a + r.a) % 2 ^ 32, b := (s.b + r.b) % 2 ^ 32, c := (s.c + r.c) % 2 ^ 32,
    d := (s.d + r.d) % 2 ^ 32, e := (s.e + r.e) % 2 ^ 32 }

/-- Modelled from the spec: `mbedtls_sha1(data, len, out)`, the SHA-1 digest
primitive of the Crypto Capability (`sha1(bytes) -> 20-byte digest`), as
defined by FIPS 180-4. -/
def mbedtls_sha1 (data : List Nat) (len : Nat) : List Nat :=
  let padded := sha1_pad (data.take len)
  let s := (chunks_of 63 (padded.length / 64) padded).foldl sha1_block
    { a := 0x67452301, b := 0xEFCDAB89, c := 0x98BADCFE, d := 0x10325476, e := 0xC3D2E1F0 }
  be_bytes 4 s.a ++ be_bytes 4 s.b ++ be_bytes 4 s.c ++ be_bytes 4 s.d ++ be_bytes 4 s.e

/-- `ws_sha1` of `ws_crypto.c`. -/
def ws_sha1 (data : List Nat) (len : Nat) : List Nat := mbedtls_sha1 data len

/-- The base64 alphabet of RFC 4648, as character codes. -/
def base64_char (v : Nat) : Nat :=
  if v < 26 then 65 + v
  else if v < 52 then 97 + (v - 26)
  else if v < 62 then 48 + (v - 52)
  else if v = 62 then 43
  else 47

/-- Base64 text of a byte list (RFC 4648, with `=` padding). -/
def base64_text : List Nat → List Nat
  | [] => []
  | [x] => [base64_char (x / 4), base64_char (x % 4 * 16), 61, 61]
  | [x, y] =>
    [base64_char (x / 4), base64_char (x % 4 * 16 + y / 16), base64_char (y % 16 * 4), 61]
  | x :: y :: z :: rest =>
    base64_char (x / 4) :: base64_char (x % 4 * 16 + y / 16)
      :: base64_char (y % 16 * 4 + z / 64) :: base64_char (z % 64) :: base64_text rest

/-- Modelled from the spec: `mbedtls_base64_encode(dst, dlen, &olen, src, slen)`,
the base64 primitive of the Crypto Capability (`base64_encode(bytes) -> text`).
It fails when `dst` cannot hold the text and its terminating NUL. Result:
return code (0 on success), text written, `olen`. -/
def mbedtls_base64_encode (dlen : Nat) (src : List Nat) (slen : Nat) : Int × List Nat × Nat :=
  if slen = 0 then (0, [], 0)
  else
    let n := ((slen + 2) / 3) * 4
    if dlen < n + 1 then (-0x002A, [], n + 1)
    else (0, base64_text (src.take slen), n)

/-- `ws_base64` of `ws_crypto.c`: return value and the string left in `out`
(`none` when nothing was stored). -/
def ws_base64 (inp : List Nat) (in_len : Nat) (out_len : Nat) : Int × Option (List Nat) :=
  match mbedtls_base64_encode out_len inp in_len with
  | (rc, text, olen) => if rc ≠ 0 then (-1, none) else ((olen : Int), some text)

/-- The characters of a string literal as byte values. -/
def cstr (s : String) : List Nat := s.toList.map Char.toNat

/-- `#define WS_GUID "258EAFA5-E914-47DA-95CA-C5AB0DC85B11"`. -/
def WS_GUID : List Nat := cstr "258EAFA5-E914-47DA-95CA-C5AB0DC85B11"

/-- `ws_compute_accept`. A C string is the list of its characters before the
NUL; `accept_out` is the string in the output buffer before the call, and the
second component of the result is the string in it afterwards. -/
def ws_compute_accept (client_key_b64 : List Nat) (accept_out : List Nat)
    (accept_out_len : Nat) : Int × List Nat :=
  if accept_out_len = 0 then (WS_ERR, accept_out)
  else
    let klen := client_key_b64.length
    let glen := WS_GUID.length
    if klen + glen > 128 then (WS_ERR, accept_out)
    else
      let sha_in := client_key_b64 ++ WS_GUID
      let sha_out := ws_sha1 sha_in (klen + glen)
      match ws_base64 sha_out 20 64 with
      | (rc, b64) =>
        if rc < 0 then (WS_ERR, accept_out)
        else
          let blen := (b64.getD []).length
          if blen + 1 > accept_out_len then (WS_ERR, accept_out)
          else (WS_OK, b64.getD [])

/-! ## Server session (`ws_server.c`) -/

/-- The struct `ws_server_client_t`. The socket lives in the `World`; `scratch`
tells whether the scratch pointer is non-NULL; `open_` is the field `open`. -/
structure ws_server_client_t where
  open_ : Bool
  rxbuf : List Nat
  rxcap : Nat
  scratch : Bool
  scratch_cap : Nat
  deriving DecidableEq, Repr

/-- The block that `ws_server_recv` repeats at each protocol violation: send an
unmasked CLOSE frame with payload `03 EA` (1002), ignore the result of the send,
clear `open` and return `WS_ERR`. -/
def ws_server_protocol_error (c : ws_server_client_t) (w : World) (buffer : List Nat)
    (out_opcode : Option Nat) :
    Option (Int × ws_server_client_t × List Nat × Option Nat × World) :=
  match ws_send_frame w WS_OPCODE_CLOSE (some [0x03, 0xEA]) 2 true false c.scratch c.scratch_cap with
  | none => none
  | some (_, w1) => some (WS_ERR, { c with open_ := false }, buffer, out_opcode, w1)

/-- The drain loop of `ws_server_recv` (`uint8_t tmp[64]`): `true` when the
whole payload was drained, `false` when a read failed. -/
def ws_server_drain_loop (nc : NetCodes) : Nat → World → Nat → Option (Bool × World)
  | 0, _, _ => none
  | fuel + 1, w, to_drain =>
    if to_drain ≠ 0 then
      let chunk := min to_drain 64
      match ws_recv_exact nc w (List.replicate 64 0) chunk with
      | none => none
      | some (rr, _, w1) =>
        if rr ≠ WS_OK then some (false, w1)
        else ws_server_drain_loop nc fuel w1 (to_drain - chunk)
    else some (true, w)

/-- What `ws_server_recv` does with a frame once its payload is in `buffer`:
the PING, PONG, CLOSE, TEXT/BINARY and unknown-opcode branches. `none` in the
first component means `continue`. -/
def ws_server_dispatch (c : ws_server_client_t) (w : World) (h : ws_frame_hdr_t)
    (buffer : List Nat) (out_opcode : Option Nat) :
    Option (Option Int × ws_server_client_t × List Nat × Option Nat × World) :=
  if h.opcode = WS_OPCODE_PING then
    match ws_send_frame w WS_OPCODE_PONG (some buffer) h.payload_len true false
        c.scratch c.scratch_cap with
    | none => none
    | some (_, w1) => some (none, c, buffer, out_opcode, w1)
  else if h.opcode = WS_OPCODE_PONG then some (none, c, buffer, out_opcode, w)
  else if h.opcode = WS_OPCODE_CLOSE then
    let close_payload :=
      if h.payload_len ≥ 2 then [buffer.getD 0 0, buffer.getD 1 0] else [0x03, 0xE8]
    match ws_send_frame w WS_OPCODE_CLOSE (some close_payload) 2 true false
        c.scratch c.scratch_cap with
    | none => none
    | some (_, w1) => some (some 0, { c with open_ := false }, buffer, out_opcode, w1)
  else if h.opcode = WS_OPCODE_TEXT ∨ h.opcode = WS_OPCODE_BINARY then
    some (some (toInt32 h.payload_len), c, buffer, out_opcode.map (fun _ => h.opcode), w)
  else
    match ws_server_protocol_error c w buffer out_opcode with
    | none => none
    | some (rc, c1, buffer1, oo1, w1) => some (some rc, c1, buffer1, oo1, w1)

/-- One pass through the body of the `while (1)` loop of `ws_server_recv`;
`none` in the first component means that the loop goes round again. -/
def ws_server_recv_step (nc : NetCodes) (c : ws_server_client_t) (w : World)
    (buffer : List Nat) (buffer_size : Nat) (out_opcode : Option Nat) :
    Option (Option Int × ws_server_client_t × List Nat × Option Nat × World) :=
  match ws_read_frame_hdr nc w hdr0 with
  | none => none
  | some (rc, h, w1) =>
    if rc ≠ WS_OK then some (some 0, { c with open_ := false }, buffer, out_opcode, w1)
    else if h.rsv1 || h.rsv2 || h.rsv3 then
      (ws_server_protocol_error c w1 buffer out_opcode).map
        (fun r => (some r.1, r.2))
    else if !h.fin || h.opcode == WS_OPCODE_CONT then
      (ws_server_protocol_error c w1 buffer out_opcode).map
        (fun r => (some r.1, r.2))
    else if !h.masked then
      (ws_server_protocol_error c w1 buffer out_opcode).map
        (fun r => (some r.1, r.2))
    else if (h.opcode == WS_OPCODE_CLOSE || h.opcode == WS_OPCODE_PING
              || h.opcode == WS_OPCODE_PONG) && decide (h.payload_len > 125) then
      (ws_server_protocol_error c w1 buffer out_opcode).map
        (fun r => (some r.1, r.2))
    else if h.payload_len > buffer_size then
      match ws_server_drain_loop nc (h.payload_len + 1) w1 h.payload_len with
      | none => none
      | some (ok, w2) =>
        if ok then some (some WS_ERR, c, buffer, out_opcode, w2)
        else some (some 0, { c with open_ := false }, buffer, out_opcode, w2)
    else if h.payload_len > 0 then
      match ws_recv_exact nc w1 buffer h.payload_len with
      | none => none
      | some (rr, buffer1, w2) =>
        if rr ≠ WS_OK then some (some 0, { c with open_ := false }, buffer1, out_opcode, w2)
        else ws_server_dispatch c w2 h (ws_unmask buffer1 h.payload_len h.mask_key) out_opcode
    else ws_server_dispatch c w1 h buffer out_opcode

/-- The `while (1)` loop of `ws_server_recv`. -/
def ws_server_recv_loop (nc : NetCodes) (buffer_size : Nat) :
    Nat → ws_server_client_t → World → List Nat → Option Nat →
      Option (Int × ws_server_client_t × List Nat × Option Nat × World)
  | 0, _, _, _, _ => none
  | fuel + 1, c, w, buffer, out_opcode =>
    match ws_server_recv_step nc c w buffer buffer_size out_opcode with
    | none => none
    | some (none, c1, buffer1, oo1, w1) => ws_server_recv_loop nc buffer_size fuel c1 w1 buffer1 oo1
    | some (some rc, c1, buffer1, oo1, w1) => some (rc, c1, buffer1, oo1, w1)

/-- A bound on the number of receive calls that can make progress on a script:
one per entry plus one per data byte. -/
def rx_weight : List RxEvent → Nat
  | [] => 0
  | RxEvent.data bs :: rest => 1 + bs.length + rx_weight rest
  | RxEvent.code _ :: rest => 1 + rx_weight rest
  | RxEvent.elapse _ :: rest => 1 + rx_weight rest

/-- `ws_server_recv`: return value, client struct, caller's buffer, `*out_opcode`
(`none` for a NULL pointer) and world afterwards. Every pass of the loop that
goes round again has consumed a frame header from the script. -/
def ws_server_recv (nc : NetCodes) (c : ws_server_client_t) (w : World) (buffer : List Nat)
    (buffer_size : Nat) (out_opcode : Option Nat) :
    Option (Int × ws_server_client_t × List Nat × Option Nat × World) :=
  if !c.open_ || buffer_size == 0 then some (WS_ERR, c, buffer, out_opcode, w)
  else ws_server_recv_loop nc buffer_size (rx_weight w.rx + 1) c w buffer out_opcode

/-! ## Client session (`ws_client.c`) -/

/-- The struct `ws_client_cfg_t`; strings are the lists of their characters,
optional strings are `none` when the pointer is NULL. -/
structure ws_client_cfg_t where
  host : List Nat
  port : Int
  resource : List Nat
  proto : Nat
  origin : Option (List Nat)
  subprotocol : Option (List Nat)
  extra_headers : Option (List Nat)
  tls_ca_certs : Option (List Nat)
  tls_dev_cert : Option (List Nat)
  tls_dev_key : Option (List Nat)
  deriving DecidableEq, Repr

/-- The struct `ws_client_ctx_t`. The socket lives in the `World`; `scratch`
tells whether the scratch pointer is non-NULL; `open_` is the field `open`;
`key_b64` is the string held in the 64-byte array; `pending` is the 256-byte
array. -/
structure ws_client_ctx_t where
  cfg : ws_client_cfg_t
  open_ : Bool
  handshake_ok : Bool
  rxbuf : List Nat
  rxcap : Nat
  scratch : Bool
  scratch_cap : Nat
  key_b64 : List Nat
  pending : List Nat
  pending_len : Nat
  pending_off : Nat
  deriving DecidableEq, Repr

/-- The first loop of `ws_client_recv_exact`:
`while (got < len && pending_off < pending_len) buf[got++] = pending[pending_off++]`.
It makes at most `len` rounds, which is the fuel the caller passes. -/
def ws_client_take_pending :
    Nat → ws_client_ctx_t → List Nat → Nat → Nat → ws_client_ctx_t × List Nat × Nat
  | 0, ctx, buf, _, got => (ctx, buf, got)
  | fuel + 1, ctx, buf, len, got =>
    if got < len ∧ ctx.pending_off < ctx.pending_len then
      ws_client_take_pending fuel { ctx with pending_off := ctx.pending_off + 1 }
        (writeAt buf got [ctx.pending.getD ctx.pending_off 0]) len (got + 1)
    else (ctx, buf, got)

/-- The second loop of `ws_client_recv_exact`, `while (got < len)` over the
socket; `start` is the tick read at the beginning of the call. -/
def ws_client_recv_exact_loop (nc : NetCodes) (len start : Nat) :
    Nat → World → List Nat → Nat → Option (Int × List Nat × World)
  | 0, _, _, _ => none
  | fuel + 1, w, buf, got =>
    if got < len then
      match net_sock_recv w (toInt32 (len - got)) with
      | (rc, bs, w1) =>
        if rc > 0 then
          ws_client_recv_exact_loop nc len start fuel w1 (writeAt buf got bs) (got + rc.toNat)
        else if rc = 0 then some (WS_CLOSED, buf, w1)
        else if rc = nc.NET_NO_DATA ∨ rc = nc.NET_TIMEOUT then
          if (HAL_GetTick w1 + 2 ^ 32 - start) % 2 ^ 32 > 5000 then some (WS_TIMEOUT, buf, w1)
          else ws_client_recv_exact_loop nc len start fuel (HAL_Delay w1 1) buf got
        else some (WS_ERR, buf, w1)
    else some (WS_OK, buf, w)

/-- `ws_client_recv_exact`: result code, context, buffer and world afterwards.
Every round of the socket loop that goes round again has consumed an entry or
a byte of the receive script. -/
def ws_client_recv_exact (nc : NetCodes) (ctx : ws_client_ctx_t) (w : World) (buf : List Nat)
    (len : Nat) : Option (Int × ws_client_ctx_t × List Nat × World) :=
  if len = 0 then some (WS_OK, ctx, buf, w)
  else
    match ws_client_take_pending len ctx buf len 0 with
    | (ctx1, buf1, got) =>
      let ctx2 :=
        if ctx1.pending_off ≥ ctx1.pending_len then { ctx1 with pending_off := 0, pending_len := 0 }
        else ctx1
      match ws_client_recv_exact_loop nc len (HAL_GetTick w) (rx_weight w.rx + 1) w buf1 got with
      | none => none
      | some (rc, buf2, w1) => some (rc, ctx2, buf2, w1)

/-- The extended-length part of `ws_client_read_frame_hdr`. -/
def ws_client_read_frame_hdr_ext (nc : NetCodes) (ctx : ws_client_ctx_t) (w : World)
    (plen : Nat) : Option (Int × Nat × ws_client_ctx_t × World) :=
  if plen = 126 then
    match ws_client_recv_exact nc ctx w [0, 0] 2 with
    | none => none
    | some (rc, ctx1, ext, w1) =>
      some (rc, ((ext.getD 0 0) <<< 8) ||| (ext.getD 1 0), ctx1, w1)
  else if plen = 127 then
    match ws_client_recv_exact nc ctx w [0, 0, 0, 0, 0, 0, 0, 0] 8 with
    | none => none
    | some (rc, ctx1, ext, w1) => some (rc, be_accumulate (ext.take 8), ctx1, w1)
  else some (WS_OK, plen, ctx, w)

/-- The checks that `ws_client_read_frame_hdr` makes on the parsed header
before it reads the mask key: `true` when it returns `WS_ERR`. -/
def ws_client_hdr_rejected (h : ws_frame_hdr_t) : Bool :=
  if h.rsv1 || h.rsv2 || h.rsv3 then true
  else if !h.fin || h.opcode == WS_OPCODE_CONT then true
  else if h.opcode == WS_OPCODE_CLOSE || h.opcode == WS_OPCODE_PING
      || h.opcode == WS_OPCODE_PONG then
    if !h.fin then true
    else if h.payload_len > 125 then true
    else false
  else false

/-- The mask-key part of `ws_client_read_frame_hdr`. -/
def ws_client_read_frame_hdr_key (nc : NetCodes) (ctx : ws_client_ctx_t) (w : World)
    (h : ws_frame_hdr_t) : Option (Int × ws_frame_hdr_t × ws_client_ctx_t × World) :=
  if h.masked then
    match ws_client_recv_exact nc ctx w h.mask_key 4 with
    | none => none
    | some (rc, ctx1, key, w1) => some (rc, { h with mask_key := key }, ctx1, w1)
  else some (WS_OK, { h with mask_key := [0, 0, 0, 0] }, ctx, w)

/-- `ws_client_read_frame_hdr`: result code, header struct, context and world
afterwards. -/
def ws_client_read_frame_hdr (nc : NetCodes) (ctx : ws_client_ctx_t) (w : World)
    (h : ws_frame_hdr_t) : Option (Int × ws_frame_hdr_t × ws_client_ctx_t × World) :=
  match ws_client_recv_exact nc ctx w [0, 0] 2 with
  | none => none
  | some (rc, ctx1, b, w1) =>
    if rc ≠ WS_OK then some (rc, h, ctx1, w1)
    else
      let b0 := b.getD 0 0
      let b1 := b.getD 1 0
      let h1 : ws_frame_hdr_t :=
        { h with fin := (b0 &&& 0x80) != 0, rsv1 := (b0 &&& 0x40) != 0,
                 rsv2 := (b0 &&& 0x20) != 0, rsv3 := (b0 &&& 0x10) != 0,
                 opcode := b0 &&& 0x0F, masked := (b1 &&& 0x80) != 0 }
      match ws_client_read_frame_hdr_ext nc ctx1 w1 (b1 &&& 0x7F) with
      | none => none
      | some (rc, plen, ctx2, w2) =>
        if rc ≠ WS_OK then some (rc, h1, ctx2, w2)
        else if ws_client_hdr_rejected { h1 with payload_len := plen } then
          some (WS_ERR, { h1 with payload_len := plen }, ctx2, w2)
        else ws_client_read_frame_hdr_key nc ctx2 w2 { h1 with payload_len := plen }

/-- The drain loop of `ws_client_read_frame_payload`. -/
def ws_client_drain_loop (nc : NetCodes) (scratch_cap : Nat) :
    Nat → ws_client_ctx_t → World → Nat → Option (Int × ws_client_ctx_t × World)
  | 0, _, _, _ => none
  | fuel + 1, ctx, w, to_drain =>
    if to_drain ≠ 0 then
      let chunk := min to_drain scratch_cap
      match ws_client_recv_exact nc ctx w (List.replicate scratch_cap 0) chunk with
      | none => none
      | some (rc, ctx1, _, w1) =>
        if rc ≠ WS_OK then some (rc, ctx1, w1)
        else ws_client_drain_loop nc scratch_cap fuel ctx1 w1 (to_drain - chunk)
    else some (WS_ERR, ctx, w)

/-- `ws_client_read_frame_payload`: result code, context, contents of `dst`,
`*out_len` and world afterwards. The payload is read as one probe byte and
then the remainder into `dst + 1`. -/
def ws_client_read_frame_payload (nc : NetCodes) (ctx : ws_client_ctx_t) (w : World)
    (h : ws_frame_hdr_t) (dst : List Nat) (dst_cap : Nat) (scratch_cap : Nat) :
    Option (Int × ws_client_ctx_t × List Nat × Nat × World) :=
  if h.payload_len > dst_cap then
    match ws_client_drain_loop nc scratch_cap (h.payload_len + 1) ctx w h.payload_len with
    | none => none
    | some (rc, ctx1, w1) => some (rc, ctx1, dst, 0, w1)
  else if h.payload_len = 0 then some (WS_OK, ctx, dst, 0, w)
  else
    match ws_client_recv_exact nc ctx w dst 1 with
    | none => none
    | some (rc, ctx1, dst1, w1) =>
      if rc ≠ WS_OK then some (rc, ctx1, dst1, 0, w1)
      else
        let rest : Option (Int × ws_client_ctx_t × List Nat × World) :=
          if h.payload_len > 1 then
            match ws_client_recv_exact nc ctx1 w1 (dst1.drop 1) (h.payload_len - 1) with
            | none => none
            | some (rc, ctx2, tail, w2) => some (rc, ctx2, dst1.take 1 ++ tail, w2)
          else some (rc, ctx1, dst1, w1)
        match rest with
        | none => none
        | some (rc, ctx2, dst2, w2) =>
          if rc ≠ WS_OK then some (rc, ctx2, dst2, 0, w2)
          else
            let dst3 := if h.masked then ws_unmask dst2 h.payload_len h.mask_key else dst2
            some (WS_OK, ctx2, dst3, h.payload_len, w2)

/-- `ws_client_send_close_code`: the result of the send is discarded. -/
def ws_client_send_close_code (ctx : ws_client_ctx_t) (w : World) (code : Nat) : Option World :=
  match ws_send_frame w WS_OPCODE_CLOSE (some [(code >>> 8) % 256, (code &&& 0xFF) % 256]) 2
      true true ctx.scratch ctx.scratch_cap with
  | none => none
  | some (_, w1) => some w1

/-- `ws_client_is_open`. -/
def ws_client_is_open (ctx : ws_client_ctx_t) : Bool := ctx.open_ && ctx.handshake_ok

/-- What `ws_client_recv` does with a frame once its payload has been read
successfully: the CLOSE, PING, PONG and TEXT/BINARY branches. `none` in the
first component means `continue`. The logging code is left out. -/
def ws_client_dispatch (ctx : ws_client_ctx_t) (w : World) (h : ws_frame_hdr_t)
    (buffer : List Nat) (payload_len : Nat) (out_opcode : Option Nat) :
    Option (Option Int × ws_client_ctx_t × List Nat × Option Nat × World) :=
  if h.opcode = WS_OPCODE_CLOSE then
    match ws_send_frame w WS_OPCODE_CLOSE (some [0x03, 0xE8]) 2 true true
        ctx.scratch ctx.scratch_cap with
    | none => none
    | some (_, w1) => some (some WS_CLOSED, { ctx with open_ := false }, buffer, out_opcode, w1)
  else if h.opcode = WS_OPCODE_PING then
    match ws_send_frame w WS_OPCODE_PONG (some buffer) payload_len true true
        ctx.scratch ctx.scratch_cap with
    | none => none
    | some (_, w1) => some (none, ctx, buffer, out_opcode, w1)
  else if h.opcode = WS_OPCODE_PONG then some (none, ctx, buffer, out_opcode, w)
  else if h.opcode = WS_OPCODE_TEXT ∨ h.opcode = WS_OPCODE_BINARY then
    some (some (toInt32 payload_len), ctx, buffer, out_opcode.map (fun _ => h.opcode), w)
  else some (none, ctx, buffer, out_opcode, w)

/-- One pass through the body of the `while (1)` loop of `ws_client_recv`;
`none` in the first component means that the loop goes round again. -/
def ws_client_recv_step (nc : NetCodes) (ctx : ws_client_ctx_t) (w : World)
    (buffer : List Nat) (buffer_size : Nat) (out_opcode : Option Nat) :
    Option (Option Int × ws_client_ctx_t × List Nat × Option Nat × World) :=
  match ws_client_read_frame_hdr nc ctx w hdr0 with
  | none => none
  | some (rc, h, ctx1, w1) =>
    if rc = WS_CLOSED then some (some rc, { ctx1 with open_ := false }, buffer, out_opcode, w1)
    else if rc = WS_TIMEOUT then some (none, ctx1, buffer, out_opcode, w1)
    else if rc ≠ WS_OK then some (some WS_ERR, ctx1, buffer, out_opcode, w1)
    else if ws_validate_frame_hdr h false true ≠ WS_OK then
      match ws_client_send_close_code ctx1 w1 WS_CLOSE_PROTOCOL_ERROR with
      | none => none
      | some w2 =>
        some (some WS_ERR, { ctx1 with open_ := false }, buffer, out_opcode,
          net_sock_destroy (net_sock_close w2))
    else
      match ws_client_read_frame_payload nc ctx1 w1 h buffer buffer_size ctx1.scratch_cap with
      | none => none
      | some (rc, ctx2, buffer1, payload_len, w2) =>
        if rc ≠ WS_OK then some (some WS_ERR, ctx2, buffer1, out_opcode, w2)
        else ws_client_dispatch ctx2 w2 h buffer1 payload_len out_opcode

/-- The `while (1)` loop of `ws_client_recv`. -/
def ws_client_recv_loop (nc : NetCodes) (buffer_size : Nat) :
    Nat → ws_client_ctx_t → World → List Nat → Option Nat →
      Option (Int × ws_client_ctx_t × List Nat × Option Nat × World)
  | 0, _, _, _, _ => none
  | fuel + 1, ctx, w, buffer, out_opcode =>
    match ws_client_recv_step nc ctx w buffer buffer_size out_opcode with
    | none => none
    | some (none, ctx1, buffer1, oo1, w1) =>
      ws_client_recv_loop nc buffer_size fuel ctx1 w1 buffer1 oo1
    | some (some rc, ctx1, buffer1, oo1, w1) => some (rc, ctx1, buffer1, oo1, w1)

/-- `ws_client_recv`: return value, context, caller's buffer, `*out_opcode`
(`none` for a NULL pointer) and world afterwards. Every pass of the loop that
goes round again has consumed pending bytes or part of the receive script. -/
def ws_client_recv (nc : NetCodes) (ctx : ws_client_ctx_t) (w : World) (buffer : List Nat)
    (buffer_size : Nat) (out_opcode : Option Nat) :
    Option (Int × ws_client_ctx_t × List Nat × Option Nat × World) :=
  if !ws_client_is_open ctx || buffer_size == 0 then some (WS_ERR, ctx, buffer, out_opcode, w)
  else
    ws_client_recv_loop nc buffer_size
      (rx_weight w.rx + (ctx.pending_len - ctx.pending_off) + 1) ctx w buffer out_opcode

/-! ## Handshake helpers (`ws_common.c`) and the client handshake -/

/-- The C string that starts at index `p` of `buf`: the bytes up to the first
NUL. -/
def c_string_at (buf : List Nat) (p : Nat) : List Nat :=
  (buf.drop p).takeWhile (fun b => b != 0)

/-- The test `memcmp(buf + i, pat, n) == 0`. -/
def mem_eq (buf : List Nat) (i : Nat) (pat : List Nat) (n : Nat) : Bool :=
  (buf.drop i).take n == pat.take n

/-- Modelled from the spec: libc `strstr(buf + p, needle)`, as the index into
`buf` of the first occurrence of `needle` in the C string at `p`. -/
def c_strstr (buf : List Nat) (p : Nat) (needle : List Nat) : Option Nat :=
  ((List.range ((c_string_at buf p).length + 1 - needle.length)).find?
    (fun i => mem_eq (c_string_at buf p) i needle needle.length)).map (fun i => p + i)

/-- Modelled from the spec: libc `tolower` on ASCII. -/
def c_tolower (c : Nat) : Nat := if 65 ≤ c ∧ c ≤ 90 then c + 32 else c

/-- Modelled from the spec: the test `strncasecmp(buf + p, name, n) == 0` for a
`name` of `n` characters that holds no NUL. -/
def c_strncasecmp_eq (buf : List Nat) (p : Nat) (name : List Nat) (n : Nat) : Bool :=
  (List.range n).all (fun i => c_tolower (buf.getD (p + i) 0) == c_tolower (name.getD i 0))

/-- The delimiter search at the top of the loop of `ws_recv_until`:
`for (i = 0; i + delim_len <= len; i++) if (memcmp(buf + i, delim, delim_len) == 0)`. -/
def has_delim (buf : List Nat) (len : Nat) (delim : List Nat) (delim_len : Nat) : Bool :=
  (List.range (len + 1 - delim_len)).any (fun i => mem_eq buf i delim delim_len)

/-- The `while (len < buf_cap - 1)` loop of `ws_recv_until`: result code, buffer,
`*out_len`, world. -/
def ws_recv_until_loop (nc : NetCodes) (buf_cap : Nat) (delim : List Nat) (delim_len : Nat) :
    Nat → World → List Nat → Nat → Option (Int × List Nat × Nat × World)
  | 0, _, _, _ => none
  | fuel + 1, w, buf, len =>
    if len < buf_cap - 1 then
      if len ≥ delim_len ∧ has_delim buf len delim delim_len = true then some (WS_OK, buf, len, w)
      else
        match net_sock_recv w (toInt32 (buf_cap - 1 - len)) with
        | (rc, bs, w1) =>
          if rc = nc.NET_NO_DATA ∨ rc = nc.NET_TIMEOUT then
            ws_recv_until_loop nc buf_cap delim delim_len fuel w1 (writeAt buf len bs) len
          else if rc = 0 ∨ rc = nc.NET_EOF then some (WS_CLOSED, writeAt buf len bs, len, w1)
          else if rc < 0 then
            if len = 0 then some (WS_CLOSED, writeAt buf len bs, len, w1)
            else some (WS_ERR, writeAt buf len bs, len, w1)
          else
            ws_recv_until_loop nc buf_cap delim delim_len fuel w1
              (writeAt (writeAt buf len bs) (len + rc.toNat) [0]) (len + rc.toNat)
    else some (WS_ERR, buf, len, w)

/-- `ws_recv_until`: result code, buffer, `*out_len` and world afterwards;
`out_len` is the value of `*out_len` before the call. Every round of the loop
that goes round again has consumed an entry or a byte of the receive script. -/
def ws_recv_until (nc : NetCodes) (w : World) (buf : List Nat) (buf_cap : Nat)
    (delim : List Nat) (delim_len : Nat) (out_len : Nat) :
    Option (Int × List Nat × Nat × World) :=
  if buf_cap = 0 ∨ delim_len = 0 then some (WS_ERR, buf, out_len, w)
  else
    ws_recv_until_loop nc buf_cap delim delim_len (rx_weight w.rx + 1) w
      (writeAt buf 0 (List.replicate buf_cap 0)) 0

/-- `ws_http_status_is_101`, as a truth value. -/
def ws_http_status_is_101 (hdr : List Nat) (len : Nat) : Bool :=
  if len < 12 then false
  else if !mem_eq hdr 0 (cstr "HTTP/1.") 7 then false
  else
    match (List.range len).find? (fun i => hdr.getD i 0 == 32) with
    | none => false
    | some sp =>
      if len - sp < 5 then false
      else hdr.getD (sp + 1) 0 == 49 && hdr.getD (sp + 2) 0 == 48 && hdr.getD (sp + 3) 0 == 49

/-- End of the line that starts at `p`, with the width of its terminator, as
`ws_http_find_header_value` finds it: the next CRLF of the C string, else the
next LF, else `fallback`. -/
def http_eol (hdr : List Nat) (p : Nat) (fallback : Option Nat) : Option (Nat × Nat) :=
  match c_strstr hdr p [13, 10] with
  | some e => some (e, 2)
  | none =>
    match c_strstr hdr p [10] with
    | some e => some (e, 1)
    | none => fallback.map (fun e => (e, 1))

/-- The value that `ws_http_find_header_value` copies out for the header line
`hdr[p .. eol)` once the name has matched: leading blanks skipped, cut to
`out_cap - 1` bytes, trailing blanks removed, read back as a C string. -/
def http_header_value (hdr : List Nat) (p eol name_len out_cap : Nat) : List Nat :=
  let line := (hdr.drop (p + name_len + 1)).take (eol - (p + name_len + 1))
  let v := line.dropWhile (fun b => b == 32 || b == 9)
  let cut := if v.length ≥ out_cap then v.take (out_cap - 1) else v
  ((cut.reverse.dropWhile (fun b => b == 32 || b == 9)).reverse).takeWhile (fun b => b != 0)

/-- The `while (p < end)` loop of `ws_http_find_header_value`; the inner `none`
is the NULL result. -/
def ws_http_find_header_loop (hdr : List Nat) (len : Nat) (name : List Nat) (out_cap : Nat) :
    Nat → Nat → Option (Option (List Nat))
  | 0, _ => none
  | fuel + 1, p =>
    if p < len then
      match http_eol hdr p (some len) with
      | none => some none
      | some (eol, adv) =>
        if eol = p then some none
        else if eol - p > name.length + 1 ∧ c_strncasecmp_eq hdr p name name.length = true ∧
            hdr.getD (p + name.length) 0 = 58 then
          some (some (http_header_value hdr p eol name.length out_cap))
        else ws_http_find_header_loop hdr len name out_cap fuel (eol + adv)
    else some none

/-- `ws_http_find_header_value`: the string left in `out`, or the inner `none`
for NULL. Each round of the loop moves `p` forward. -/
def ws_http_find_header_value (hdr : List Nat) (len : Nat) (name : List Nat) (out_cap : Nat) :
    Option (Option (List Nat)) :=
  if out_cap = 0 then some none
  else
    match http_eol hdr 0 none with
    | none => some none
    | some (line, eol_advance) =>
      ws_http_find_header_loop hdr len name out_cap (len + 1) (line + eol_advance)

/-- The loop `for (i = 0; i < 16; i++) key_raw[i] = rand() & 0xFF`, for `n` bytes. -/
def rand_bytes : Nat → World → List Nat × World
  | 0, w => ([], w)
  | n + 1, w => (((rand w).1 &&& 0xFF) :: (rand_bytes n (rand w).2).1, (rand_bytes n (rand w).2).2)

/-- The text that the `snprintf` calls of `ws_client_handshake` add up to. -/
def ws_client_request (cfg : ws_client_cfg_t) (key_b64 : List Nat) : List Nat :=
  cstr "GET " ++ cfg.resource ++ cstr " HTTP/1.1\r\n" ++
  cstr "Host: " ++ cfg.host ++ cstr "\r\n" ++
  cstr "Upgrade: websocket\r\n" ++
  cstr "Connection: Upgrade\r\n" ++
  cstr "Sec-WebSocket-Key: " ++ key_b64 ++ cstr "\r\n" ++
  cstr "Sec-WebSocket-Version: 13\r\n" ++
  (match cfg.origin with
   | some o => cstr "Origin: " ++ o ++ cstr "\r\n"
   | none => []) ++
  (match cfg.subprotocol with
   | some sp => cstr "Sec-WebSocket-Protocol: " ++ sp ++ cstr "\r\n"
   | none => []) ++
  (match cfg.extra_headers with
   | some e => e
   | none => []) ++
  cstr "\r\n"

/-- The search for the end of the header block in `ws_client_handshake`:
`j + 4` for the first `j` with `j + 3 < got` and CR LF CR LF at `rxbuf[j]`,
else 0. -/
def ws_find_hdr_end (rxbuf : List Nat) (got : Nat) : Nat :=
  match (List.range (got - 3)).find? (fun j => mem_eq rxbuf j [13, 10, 13, 10] 4) with
  | some j => j + 4
  | none => 0

/-- The part of `ws_client_handshake` after a successful `ws_recv_until`: the
bytes past the header block are copied to `pending` (at most `sizeof pending`
= 256 of them) and the response is validated. -/
def ws_client_handshake_validate (ctx : ws_client_ctx_t) (got : Nat) : Int × ws_client_ctx_t :=
  let hdr_end := ws_find_hdr_end ctx.rxbuf got
  let ctx1 : ws_client_ctx_t :=
    if hdr_end ≠ 0 ∧ got > hdr_end then
      { ctx with
          pending := writeAt ctx.pending 0
            ((ctx.rxbuf.drop hdr_end).take (if got - hdr_end > 256 then 256 else got - hdr_end)),
          pending_len := if got - hdr_end > 256 then 256 else got - hdr_end,
          pending_off := 0 }
    else { ctx with pending_len := 0, pending_off := 0 }
  let http_len := if hdr_end ≠ 0 then hdr_end else got
  if !ws_http_status_is_101 ctx1.rxbuf http_len then (WS_ERR, ctx1)
  else
    match ws_http_find_header_value ctx1.rxbuf http_len (cstr "Sec-WebSocket-Accept") 128 with
    | none => (WS_ERR, ctx1)
    | some none => (WS_ERR, ctx1)
    | some (some accept_hdr) =>
      match ws_compute_accept ctx1.key_b64 [] 64 with
      | (rc, expected) =>
        if rc ≠ WS_OK then (WS_ERR, ctx1)
        else if accept_hdr ≠ expected then (WS_ERR, ctx1)
        else (WS_OK, ctx1)

/-- `ws_client_handshake`: result code, context and world afterwards. A request
of 512 characters or more is refused (`n >= sizeof(req)`). -/
def ws_client_handshake (nc : NetCodes) (ctx : ws_client_ctx_t) (w : World) :
    Option (Int × ws_client_ctx_t × World) :=
  match rand_bytes 16 w with
  | (key_raw, w1) =>
    match ws_base64 key_raw 16 64 with
    | (rc, b64) =>
      if rc < 0 then some (WS_ERR, ctx, w1)
      else
        let ctx1 : ws_client_ctx_t := { ctx with key_b64 := b64.getD [] }
        let req := ws_client_request ctx1.cfg ctx1.key_b64
        if req.length = 0 ∨ req.length ≥ 512 then some (WS_ERR, ctx1, w1)
        else
          match ws_send_all w1 req req.length with
          | none => none
          | some (rc, w2) =>
            if rc ≠ WS_OK then some (WS_ERR, ctx1, w2)
            else
              match ws_recv_until nc w2 ctx1.rxbuf ctx1.rxcap (cstr "\r\n\r\n") 4 0 with
              | none => none
              | some (rc, rxbuf, got, w3) =>
                if rc ≠ WS_OK then some (rc, { ctx1 with rxbuf := rxbuf }, w3)
                else
                  match ws_client_handshake_validate { ctx1 with rxbuf := rxbuf } got with
                  | (rc, ctx2) => some (rc, ctx2, w3)

/-! ## Sending and closing (`ws_client.c`, `ws_server.c`) -/

/-- `ws_client_send`: `data = none` is a NULL pointer. -/
def ws_client_send (ctx : ws_client_ctx_t) (w : World) (op : Nat) (data : Option (List Nat))
    (len : Nat) : Option (Int × World) :=
  if !ws_client_is_open ctx then some (WS_ERR, w)
  else ws_send_frame w op data len true true ctx.scratch ctx.scratch_cap

/-- `ws_client_send_text`. -/
def ws_client_send_text (ctx : ws_client_ctx_t) (w : World) (data : Option (List Nat))
    (len : Nat) : Option (Int × World) :=
  ws_client_send ctx w WS_OPCODE_TEXT data len

/-- `ws_client_send_binary`. -/
def ws_client_send_binary (ctx : ws_client_ctx_t) (w : World) (data : Option (List Nat))
    (len : Nat) : Option (Int × World) :=
  ws_client_send ctx w WS_OPCODE_BINARY data len

/-- `ws_client_send_ping`. -/
def ws_client_send_ping (ctx : ws_client_ctx_t) (w : World) (data : Option (List Nat))
    (len : Nat) : Option (Int × World) :=
  ws_client_send ctx w WS_OPCODE_PING data len

/-- `ws_client_send_pong`. -/
def ws_client_send_pong (ctx : ws_client_ctx_t) (w : World) (data : Option (List Nat))
    (len : Nat) : Option (Int × World) :=
  ws_client_send ctx w WS_OPCODE_PONG data len

/-- The objects that the close functions hand to `free`. -/
inductive Freed where
  | rxbuf
  | scratch
  | session
  deriving DecidableEq, Repr

/-- The loop `while ((uint32_t)(HAL_GetTick() - start) < timeout_ms)` of
`ws_client_close`, with `timeout_ms = 2000`; `tmp` is the 128-byte array of the
loop body. -/
def ws_client_close_loop (nc : NetCodes) (start : Nat) :
    Nat → ws_client_ctx_t → World → Option (ws_client_ctx_t × World)
  | 0, _, _ => none
  | fuel + 1, ctx, w =>
    if (HAL_GetTick w + 2 ^ 32 - start) % 2 ^ 32 < 2000 then
      match ws_client_read_frame_hdr nc ctx w hdr0 with
      | none => none
      | some (hr, h, ctx1, w1) =>
        if hr = WS_TIMEOUT then ws_client_close_loop nc start fuel ctx1 (HAL_Delay w1 10)
        else if hr = WS_CLOSED then some (ctx1, w1)
        else if hr ≠ WS_OK then some (ctx1, w1)
        else
          match ws_client_read_frame_payload nc ctx1 w1 h (List.replicate 128 0) 128
              ctx1.scratch_cap with
          | none => none
          | some (pr, ctx2, tmp, out_len, w2) =>
            if pr ≠ WS_OK then some (ctx2, w2)
            else if h.opcode = WS_OPCODE_CLOSE then some (ctx2, w2)
            else if h.opcode = WS_OPCODE_PING then
              match ws_send_frame w2 WS_OPCODE_PONG (some tmp) out_len true true
                  ctx2.scratch ctx2.scratch_cap with
              | none => none
              | some (_, w3) => ws_client_close_loop nc start fuel ctx2 w3
            else ws_client_close_loop nc start fuel ctx2 w2
    else some (ctx, w)

/-- The calls `if (ctx->rxbuf) free(ctx->rxbuf); if (ctx->scratch)
free(ctx->scratch); free(ctx);` of `ws_client_close`. The `rxbuf` of a context
is a buffer in this model, never NULL. -/
def ws_client_frees (ctx : ws_client_ctx_t) : List Freed :=
  [Freed.rxbuf] ++ (if ctx.scratch then [Freed.scratch] else []) ++ [Freed.session]

/-- `ws_client_close`: return value, the context as it was when it was freed,
the objects freed, and the world afterwards. Every pass of the wait loop that
goes round again has consumed pending bytes or part of the receive script. -/
def ws_client_close (nc : NetCodes) (ctx : ws_client_ctx_t) (w : World) :
    Option (Int × ws_client_ctx_t × List Freed × World) :=
  if !ctx.open_ then some (WS_OK, ctx, ws_client_frees ctx, w)
  else
    match ws_send_frame w WS_OPCODE_CLOSE (some [0x03, 0xE8]) 2 true true
        ctx.scratch ctx.scratch_cap with
    | none => none
    | some (_, w1) =>
      match ws_client_close_loop nc (HAL_GetTick w1)
          (rx_weight w1.rx + (ctx.pending_len - ctx.pending_off) + 1) ctx w1 with
      | none => none
      | some (ctx1, w2) =>
        some (WS_OK, { ctx1 with open_ := false }, ws_client_frees ctx1,
          net_sock_destroy (net_sock_close w2))

/-- `ws_server_send`. -/
def ws_server_send (c : ws_server_client_t) (w : World) (op : Nat) (data : Option (List Nat))
    (len : Nat) : Option (Int × World) :=
  if !c.open_ then some (WS_ERR, w)
  else ws_send_frame w op data len true false c.scratch c.scratch_cap

/-- `ws_server_send_text`. -/
def ws_server_send_text (c : ws_server_client_t) (w : World) (data : Option (List Nat))
    (len : Nat) : Option (Int × World) :=
  ws_server_send c w WS_OPCODE_TEXT data len

/-- `ws_server_send_binary`. -/
def ws_server_send_binary (c : ws_server_client_t) (w : World) (data : Option (List Nat))
    (len : Nat) : Option (Int × World) :=
  ws_server_send c w WS_OPCODE_BINARY data len

/-- `ws_server_send_ping`. -/
def ws_server_send_ping (c : ws_server_client_t) (w : World) (data : Option (List Nat))
    (len : Nat) : Option (Int × World) :=
  ws_server_send c w WS_OPCODE_PING data len

/-- `ws_server_send_pong`. -/
def ws_server_send_pong (c : ws_server_client_t) (w : World) (data : Option (List Nat))
    (len : Nat) : Option (Int × World) :=
  ws_server_send c w WS_OPCODE_PONG data len

/-- `ws_server_client_close`. `listening` tells whether `s && s->srv.sock`
holds, in which case `net_srv_next_conn` is called. Result: return value, the
client struct after `memset(c, 0, sizeof(*c))`, whether `net_srv_next_conn` was
called, the objects freed, and the world. The `rxbuf` of a client struct is a
buffer in this model, never NULL. -/
def ws_server_client_close (listening : Bool) (c : ws_server_client_t) (w : World) :
    Option (Int × ws_server_client_t × Bool × List Freed × World) :=
  let sent : Option World :=
    if c.open_ then
      match ws_send_frame w WS_OPCODE_CLOSE (some [0x03, 0xE8]) 2 true false
          c.scratch c.scratch_cap with
      | none => none
      | some (_, w1) => some w1
    else some w
  match sent with
  | none => none
  | some w1 =>
    some (WS_OK, { open_ := false, rxbuf := [], rxcap := 0, scratch := false, scratch_cap := 0 },
      listening, [Freed.rxbuf] ++ (if c.scratch then [Freed.scratch] else []), w1)

/-! ## Client life cycle (`ws_client.c`, `test_ws.c`) -/

/-- `ws_client_create`, for arguments that are not NULL and `calloc`/`malloc`
calls that succeed. `created` tells whether `net_sock_create` returned
`NET_OK`; the `net_sock_setopt` calls have no counterpart. The fresh buffers are
taken as zero-filled (`ws_recv_until` clears `rxbuf` before it is read). Result:
return value, `*out` (`none` when it was not stored), the objects freed, and
the world. -/
def ws_client_create (nc : NetCodes) (cfg : ws_client_cfg_t) (created : Bool) (w : World) :
    Option (Int × Option ws_client_ctx_t × List Freed × World) :=
  let ctx : ws_client_ctx_t :=
    { cfg := cfg, open_ := false, handshake_ok := false, rxbuf := List.replicate 2048 0,
      rxcap := 2048, scratch := true, scratch_cap := 1500, key_b64 := [],
      pending := List.replicate 256 0, pending_len := 0, pending_off := 0 }
  if !created then
    match ws_client_close nc ctx w with
    | none => none
    | some (_, _, freed, w1) => some (WS_ERR, none, freed, w1)
  else some (WS_OK, some ctx, [], w)

/-- `ws_client_connect`. `opened` tells whether `net_sock_open` returned
`NET_OK`. Result: return value, the context (after a failed handshake: as it
was when `ws_client_close` freed it), the objects freed, and the world. -/
def ws_client_connect (nc : NetCodes) (ctx : ws_client_ctx_t) (opened : Bool) (w : World) :
    Option (Int × ws_client_ctx_t × List Freed × World) :=
  if !opened then some (WS_ERR, ctx, [], w)
  else
    match ws_client_handshake nc { ctx with open_ := true } w with
    | none => none
    | some (rc, ctx1, w1) =>
      if rc ≠ WS_OK then
        match ws_client_close nc ctx1 w1 with
        | none => none
        | some (_, ctx2, freed, w2) => some (WS_ERR, ctx2, freed, w2)
      else some (WS_OK, { ctx1 with handshake_ok := true }, [], w1)

/-- The text that `sprintf(msg, "%s - %d", ..., tries)` of `ws_echo_smoketest`
leaves in `msg`; `tries` is below 20. -/
def smoketest_msg (use_tls : Bool) (tries : Nat) : List Nat :=
  (if use_tls then cstr "hello over WSS from STM32" else cstr "hello over WS from STM32") ++
    cstr " - " ++ (if tries < 10 then [48 + tries] else [48 + tries / 10, 48 + tries % 10])

/-- The loop `for (tries = 0; tries < 20; tries++)` of `ws_echo_smoketest` and
the `ws_client_close` after it; `left` counts the rounds that remain. A context
that was freed is read as it was when it was freed. Result: return value, the
objects freed, and the world. -/
def ws_echo_smoketest_loop (nc : NetCodes) (use_tls : Bool) :
    Nat → Nat → ws_client_ctx_t → World → Option Nat → Option (Int × List Freed × World)
  | 0, _, ctx, w, _ =>
    match ws_client_close nc ctx w with
    | none => none
    | some (rc, _, freed, w1) => some (if rc ≠ WS_OK then WS_ERR else WS_OK, freed, w1)
  | left + 1, tries, ctx, w, op =>
    match ws_client_send_text ctx w (some (smoketest_msg use_tls tries))
        (smoketest_msg use_tls tries).length with
    | none => none
    | some (rc, w1) =>
      if rc ≠ WS_OK then
        match ws_client_close nc ctx w1 with
        | none => none
        | some (_, _, freed, w2) => some (rc, freed, w2)
      else
        match ws_client_recv nc ctx w1 (List.replicate 512 0) 511 op with
        | none => none
        | some (n, ctx1, _, op1, w2) =>
          if n = WS_TIMEOUT then ws_echo_smoketest_loop nc use_tls left (tries + 1) ctx1 w2 op1
          else if n < 0 then
            match ws_client_close nc ctx1 w2 with
            | none => none
            | some (_, _, freed, w3) => some (n, freed, w3)
          else if n = WS_CLOSED then
            match ws_client_close nc ctx1 w2 with
            | none => none
            | some (_, _, freed, w3) => some (0, freed, w3)
          else ws_echo_smoketest_loop nc use_tls left (tries + 1) ctx1 w2 op1

/-- `ws_echo_smoketest` of `test_ws.c`. `ca` stands for the string
`AWS_ROOT_CA1` of `aws_cert.h`; `created` and `opened` tell whether
`net_sock_create` and `net_sock_open` returned `NET_OK`. Result: return value,
all the objects handed to `free` in the order of the calls, and the world. -/
def ws_echo_smoketest (nc : NetCodes) (use_tls : Bool) (ca : List Nat) (created opened : Bool)
    (w : World) : Option (Int × List Freed × World) :=
  let cfg : ws_client_cfg_t :=
    { host := cstr "a1rowpbf3j3tx6-ats.iot.us-east-2.amazonaws.com",
      port := if use_tls then 443 else 80, resource := cstr "/",
      proto := if use_tls then 1 else 0, origin := none, subprotocol := none,
      extra_headers := none, tls_ca_certs := some ca, tls_dev_cert := none,
      tls_dev_key := none }
  match ws_client_create nc cfg created w with
  | none => none
  | some (rc, c, freed, w1) =>
    match (if rc ≠ WS_OK then none else c) with
    | none => some (rc, freed, w1)
    | some ctx =>
      match ws_client_connect nc ctx opened w1 with
      | none => none
      | some (rc1, ctx1, freed1, w2) =>
        if rc1 ≠ WS_OK then
          match ws_client_close nc ctx1 w2 with
          | none => none
          | some (_, _, freed2, w3) => some (rc1, freed ++ freed1 ++ freed2, w3)
        else
          match ws_echo_smoketest_loop nc use_tls 20 0 ctx1 w2 (some WS_OPCODE_CONT) with
          | none => none
          | some (rc2, freed2, w3) => some (rc2, freed ++ freed1 ++ freed2, w3)

/-! ## Server handshake (`ws_server.c`) -/

/-- The rounds of the loop `while (*p)` of `ws_http_header_has_token`: `s` is
the C string at `p` and `tok` the token. A round skips blanks and commas, takes
the element up to the next comma, drops its trailing blanks and compares. -/
def ws_http_header_has_token_loop (tok : List Nat) : Nat → List Nat → Option Bool
  | 0, _ => none
  | fuel + 1, s =>
    if s = [] then some false
    else
      let s1 := s.dropWhile (fun b => b == 32 || b == 9 || b == 44)
      if s1 = [] then some false
      else
        let elem := s1.takeWhile (fun b => b != 44)
        let stop := (elem.reverse.dropWhile (fun b => b == 32 || b == 9)).reverse
        if stop.length = tok.length ∧ c_strncasecmp_eq s1 0 tok tok.length = true then some true
        else
          let r := s1.dropWhile (fun b => b != 44)
          ws_http_header_has_token_loop tok fuel (if r.head? = some 44 then r.tail else r)

/-- `ws_http_header_has_token`; `none` is a NULL pointer, and a string is read
up to its first NUL. Every round of the loop moves `p` forward. -/
def ws_http_header_has_token (value token : Option (List Nat)) : Option Bool :=
  match value, token with
  | some v, some t =>
    if c_string_at t 0 = [] then some false
    else
      ws_http_header_has_token_loop (c_string_at t 0) ((c_string_at v 0).length + 1)
        (c_string_at v 0)
  | _, _ => some false

/-- Modelled from the spec: the test `strcasecmp(a, b) == 0` of libc on two C
strings. -/
def c_strcasecmp_eq (a b : List Nat) : Bool := a.map c_tolower == b.map c_tolower

/-- The text that the `snprintf` call of `ws_server_handshake` produces for the
accept value `accept`. -/
def ws_server_response (accept : List Nat) : List Nat :=
  cstr "HTTP/1.1 101 Switching Protocols\r\nUpgrade: websocket\r\nConnection: Upgrade\r\nSec-WebSocket-Accept: "
    ++ accept ++ cstr "\r\n\r\n"

/-- `ws_server_handshake`: result code, client struct and world afterwards. The
arrays `key`, `upgrade` and `conn` hold 128, 64 and 64 bytes; a response of 256
characters or more is refused (`n >= sizeof(resp)`). -/
def ws_server_handshake (nc : NetCodes) (c : ws_server_client_t) (w : World) :
    Option (Int × ws_server_client_t × World) :=
  match ws_recv_until nc w c.rxbuf c.rxcap (cstr "\r\n\r\n") 4 0 with
  | none => none
  | some (rc, rxbuf, got, w1) =>
    if rc ≠ WS_OK then some (WS_ERR, { c with rxbuf := rxbuf }, w1)
    else if got < 4 ∨ mem_eq rxbuf 0 (cstr "GET ") 4 = false then
      some (WS_ERR, { c with rxbuf := rxbuf }, w1)
    else
      match ws_http_find_header_value rxbuf got (cstr "Sec-WebSocket-Key") 128 with
      | none => none
      | some none => some (WS_ERR, { c with rxbuf := rxbuf }, w1)
      | some (some key) =>
        match ws_http_find_header_value rxbuf got (cstr "Upgrade") 64 with
        | none => none
        | some none => some (WS_ERR, { c with rxbuf := rxbuf }, w1)
        | some (some upgrade) =>
          if c_strcasecmp_eq upgrade (cstr "websocket") = false then
            some (WS_ERR, { c with rxbuf := rxbuf }, w1)
          else
            match ws_http_find_header_value rxbuf got (cstr "Connection") 64 with
            | none => none
            | some none => some (WS_ERR, { c with rxbuf := rxbuf }, w1)
            | some (some conn) =>
              match ws_http_header_has_token (some conn) (some (cstr "Upgrade")) with
              | none => none
              | some false => some (WS_ERR, { c with rxbuf := rxbuf }, w1)
              | some true =>
                match ws_compute_accept key [] 64 with
                | (rc2, accept) =>
                  if rc2 ≠ WS_OK then some (WS_ERR, { c with rxbuf := rxbuf }, w1)
                  else if (ws_server_response accept).length = 0 ∨
                      (ws_server_response accept).length ≥ 256 then
                    some (WS_ERR, { c with rxbuf := rxbuf }, w1)
                  else
                    match ws_send_all w1 (ws_server_response accept)
                        (ws_server_response accept).length with
                    | none => none
                    | some (rc3, w2) =>
                      if rc3 ≠ WS_OK then some (WS_ERR, { c with rxbuf := rxbuf }, w2)
                      else some (WS_OK, { c with rxbuf := rxbuf }, w2)

/-! ## What `ws_client_recv` reads from the caller's buffer for its log -/

/-- The indices of the caller's `buffer` that `ws_client_recv` reads in the
block `if (h.opcode == 0x8) { ... }` which follows the call of
`ws_client_read_frame_payload` and precedes the test `if (rc != WS_OK)`:
`buffer[0]` and `buffer[1]` when `payload_len >= 2`, and
`memcpy(tmp, buffer + 2, n)` with `n = min(payload_len - 2, 127)` when
`payload_len > 2`. -/
def ws_client_close_log_reads (h : ws_frame_hdr_t) : List Nat :=
  if h.opcode = 0x8 then
    (if h.payload_len ≥ 2 then [0, 1] else []) ++
    (if h.payload_len > 2 then
      (List.range (if h.payload_len - 2 < 127 then h.payload_len - 2 else 127)).map
        (fun i => 2 + i)
     else [])
  else []

/-- The indices of the caller's buffer that one pass of the loop of
`ws_client_recv` reads in that block: none when the pass ends before the block
is reached (header not read, or refused by the validator). -/
def ws_client_recv_step_log_reads (nc : NetCodes) (ctx : ws_client_ctx_t) (w : World)
    (buffer : List Nat) (buffer_size : Nat) : Option (List Nat) :=
  match ws_client_read_frame_hdr nc ctx w hdr0 with
  | none => none
  | some (rc, h, ctx1, w1) =>
    if rc = WS_CLOSED then some []
    else if rc = WS_TIMEOUT then some []
    else if rc ≠ WS_OK then some []
    else if ws_validate_frame_hdr h false true ≠ WS_OK then some []
    else
      match ws_client_read_frame_payload nc ctx1 w1 h buffer buffer_size ctx1.scratch_cap with
      | none => none
      | some _ => some (ws_client_close_log_reads h)

/-! ## Calendar utilities (`src/ntp/src/utils_datetime.c`) -/

/-- The fields of `RTC_t` (`rtc.h`) that the calendar utilities read and write;
`wday` and `unixtime` take no part in them. -/
structure RTC_t where
  year : Nat
  month : Nat
  mday : Nat
  hour : Nat
  min : Nat
  sec : Nat
  deriving DecidableEq, Repr

/-- `const uint8_t daysArray[] = { 31,28,31,30,31,30,31,31,30,31,30,31 }`. -/
def daysArray : List Nat := [31, 28, 31, 30, 31, 30, 31, 31, 30, 31, 30, 31]

/-- `isLeapYear`. -/
def isLeapYear (year : Nat) : Bool := year % 4 == 0

/-- `time2long`: the expression is evaluated in `long`, 32 bits wide on the
target, taken with wrap-around. -/
def time2long (days hours minutes seconds : Nat) : Int :=
  toInt32 (((days * 24 + hours) * 60 + minutes) * 60 + seconds)

/-- `date2days`; `year`, `days16` and the result are `uint16_t`, the loop
counter is `uint8_t`. -/
def date2days (year month day : Nat) : Nat :=
  let year := (year + 65536 - 2000) % 65536
  let days16 := (List.range (month - 1)).foldl
    (fun d i => (d + daysArray.getD i 0) % 65536) day
  let days16 := if month == 2 && isLeapYear year then (days16 + 1) % 65536 else days16
  (days16 + 365 * year + (year + 3) / 4 + 65536 - 1) % 65536

/-- `unixtime`: the `long` is stored in a `uint32_t` and the offset added. -/
def unixtime (t : RTC_t) : Nat :=
  ((time2long (date2days t.year t.month t.mday) t.hour t.min t.sec % 4294967296).toNat
    + 946681200) % 4294967296

/-- The loop `for (year = 0; ; ++year)` of `dateutils_setDateTime_word`: the
year, the days left in it and `leap`. -/
def setDateTime_year_loop : Nat → Nat → Nat → Option (Nat × Nat × Nat)
  | 0, _, _ => none
  | fuel + 1, year, days =>
    if days < 365 + (if year % 4 == 0 then 1 else 0) then
      some (year, days, if year % 4 == 0 then 1 else 0)
    else
      setDateTime_year_loop fuel ((year + 1) % 65536)
        (days - (365 + (if year % 4 == 0 then 1 else 0)))

/-- The loop `for (month = 1; ; ++month)` of `dateutils_setDateTime_word`: the
month and the days left in it. A read past the end of `daysArray` gives 0. -/
def setDateTime_month_loop (leap : Nat) : Nat → Nat → Nat → Option (Nat × Nat)
  | 0, _, _ => none
  | fuel + 1, month, days =>
    if days < (daysArray.getD (month - 1) 0 + (if leap ≠ 0 ∧ month = 2 then 1 else 0)) % 256 then
      some (month, days)
    else
      setDateTime_month_loop leap fuel ((month + 1) % 256)
        (days - (daysArray.getD (month - 1) 0 + (if leap ≠ 0 ∧ month = 2 then 1 else 0)) % 256)

/-- `dateutils_setDateTime_word`: the date and time that it hands to
`dateutils_setDateTime` (and so to `rtc_settime`). The year loop takes off at
least 365 days per round and the month loop ends within the twelve months. -/
def dateutils_setDateTime_word (t : Nat) : Option RTC_t :=
  let t0 := (t % 4294967296 + 4294967296 - 946681200) % 4294967296
  let second := (t0 % 60) % 256
  let t1 := t0 / 60
  let minute := (t1 % 60) % 256
  let t2 := t1 / 60
  let hour := (t2 % 24) % 256
  let days := (t2 / 24) % 65536
  match setDateTime_year_loop (days + 1) 0 days with
  | none => none
  | some (year, days1, leap) =>
    match setDateTime_month_loop leap 13 1 days1 with
    | none => none
    | some (month, days2) =>
      some { year := (year + 2000) % 65536, month := month, mday := (days2 + 1) % 256,
             hour := hour, min := minute, sec := second }

/-! ## Vocabulary of the statements

Views of the state that the theorems are stated with; none of them is part of
the program. -/

/-- The bytes that are ready to be read: the data entries at the head of the
receive script, up to the first return-code entry. -/
def rx_avail : List RxEvent → List Nat
  | [] => []
  | RxEvent.data bs :: rest => bs ++ rx_avail rest
  | RxEvent.elapse _ :: rest => rx_avail rest
  | RxEvent.code _ :: _ => []

/-- Relation between the worlds before and after calls that only receive:
nothing was sent, drawn from `rand()`, closed or destroyed. -/
def RecvOnly (w w1 : World) : Prop :=
  w1.txScript = w.txScript ∧ w1.tx = w.tx ∧ w1.rand = w.rand ∧
    w1.sockClosed = w.sockClosed ∧ w1.sockDestroyed = w.sockDestroyed

/-- The payload length that a header announces: the 7-bit field of the second
byte, or the extended length that follows it. -/
def wire_payload_len (b1 : Nat) (ext : List Nat) : Nat :=
  if b1 &&& 0x7F = 126 then ((ext.getD 0 0) <<< 8) ||| (ext.getD 1 0)
  else if b1 &&& 0x7F = 127 then be_accumulate ext
  else b1 &&& 0x7F

/-- The header struct that the two header bytes, the extended length and the
mask key stand for. -/
def wire_hdr (b0 b1 : Nat) (ext key : List Nat) : ws_frame_hdr_t :=
  { opcode := b0 &&& 0x0F, fin := (b0 &&& 0x80) != 0, rsv1 := (b0 &&& 0x40) != 0,
    rsv2 := (b0 &&& 0x20) != 0, rsv3 := (b0 &&& 0x10) != 0,
    payload_len := wire_payload_len b1 ext, masked := (b1 &&& 0x80) != 0,
    mask_key := if (b1 &&& 0x80) != 0 then key else [0, 0, 0, 0] }

/-- Number of extended-length bytes announced by the second header byte. -/
def wire_ext_len (b1 : Nat) : Nat :=
  if b1 &&& 0x7F = 126 then 2 else if b1 &&& 0x7F = 127 then 8 else 0

/-- Number of mask-key bytes announced by the second header byte. -/
def wire_key_len (b1 : Nat) : Nat := if (b1 &&& 0x80) != 0 then 4 else 0

/-- The payload bytes of a frame as they travel on the wire: nothing for a NULL
payload, the first `payload_len` bytes as they are for an unmasked frame, and
byte `i` XOR `mask_key[i & 3]` for a masked one. Used to state what
`ws_send_frame` has written. -/
def ws_wire_payload (payload : Option (List Nat)) (payload_len : Nat) (mask_outgoing : Bool)
    (mask_key : List Nat) : List Nat :=
  match payload with
  | none => []
  | some p => if mask_outgoing then ws_mask_chunk p mask_key 0 payload_len else p.take payload_len

/-- The pending bytes that have not been handed out yet. -/
def pending_bytes (ctx : ws_client_ctx_t) : List Nat :=
  (ctx.pending.take ctx.pending_len).drop ctx.pending_off

/-- The bytes the client reads next: the pending ones first, then those ready on
the transport. -/
def client_avail (ctx : ws_client_ctx_t) (w : World) : List Nat :=
  pending_bytes ctx ++ rx_avail w.rx

/-- The pending markers lie within the pending array. -/
def PendingOk (ctx : ws_client_ctx_t) : Prop :=
  ctx.pending_off ≤ ctx.pending_len ∧ ctx.pending_len ≤ ctx.pending.length

/-- Two contexts that differ at most in the pending markers. -/
def SameSession (ctx ctx1 : ws_client_ctx_t) : Prop :=
  ctx1.cfg = ctx.cfg ∧ ctx1.open_ = ctx.open_ ∧ ctx1.handshake_ok = ctx.handshake_ok ∧
    ctx1.rxbuf = ctx.rxbuf ∧ ctx1.rxcap = ctx.rxcap ∧ ctx1.scratch = ctx.scratch ∧
    ctx1.scratch_cap = ctx.scratch_cap ∧ ctx1.key_b64 = ctx.key_b64 ∧ ctx1.pending = ctx.pending

/-- Relation between the worlds before and after calls that only send: the
receive script, the send script, the tick counter and the close counters are
the same. -/
def SendOnly (w w1 : World) : Prop :=
  w1.rx = w.rx ∧ w1.txScript = w.txScript ∧ w1.tick = w.tick ∧
    w1.sockClosed = w.sockClosed ∧ w1.sockDestroyed = w.sockDestroyed

/-- All the bytes that the transport will deliver, in order, whatever return
codes and pauses lie between them. -/
def rx_stream : List RxEvent → List Nat
  | [] => []
  | RxEvent.data bs :: rest => bs ++ rx_stream rest
  | RxEvent.code _ :: rest => rx_stream rest
  | RxEvent.elapse _ :: rest => rx_stream rest

/-- An upper bound on the time that passes while a receive script is consumed:
the pauses of the script plus one millisecond (the `HAL_Delay(1)` of a retry)
for each return-code entry. -/
def rx_duration : List RxEvent → Nat
  | [] => 0
  | RxEvent.data _ :: rest => rx_duration rest
  | RxEvent.code _ :: rest => 1 + rx_duration rest
  | RxEvent.elapse ms :: rest => ms + rx_duration rest

/-- The result of the byte-exact reader as the specification words it, read off
the transport's script: `need` bytes are still wanted, `now` is the time and
`start` the time at which the call began. The result is decided by the first
non-positive return met before `need` bytes are collected: 0 gives `WS_CLOSED`;
a no-data or timeout return gives `WS_TIMEOUT` when more than 5000 ms have
passed since `start` and is retried (one millisecond later) otherwise; any
other negative return gives `WS_ERR`; when `need` bytes are collected the
result is `WS_OK`. The second component holds the bytes collected, in order. -/
def recv_exact_outcome (nc : NetCodes) (start : Nat) :
    List RxEvent → Nat → Nat → Int × List Nat
  | [], _, need => if need = 0 then (WS_OK, []) else (WS_CLOSED, [])
  | RxEvent.elapse ms :: rest, now, need =>
    if need = 0 then (WS_OK, []) else recv_exact_outcome nc start rest (now + ms) need
  | RxEvent.data bs :: rest, now, need =>
    if need = 0 then (WS_OK, [])
    else if bs.length < need then
      ((recv_exact_outcome nc start rest now (need - bs.length)).1,
        bs ++ (recv_exact_outcome nc start rest now (need - bs.length)).2)
    else (WS_OK, bs.take need)
  | RxEvent.code c :: rest, now, need =>
    if need = 0 then (WS_OK, [])
    else if c = 0 then (WS_CLOSED, [])
    else if -(c : Int) = nc.NET_NO_DATA ∨ -(c : Int) = nc.NET_TIMEOUT then
      if now - start > 5000 then (WS_TIMEOUT, [])
      else recv_exact_outcome nc start rest (now + 1) need
    else (WS_ERR, [])

/-- The bytes `bs` are exactly one frame whose mask bit is `m`: two header
bytes, the extended length that the second byte announces, a 4-byte key exactly
when the mask bit is set, and as many payload bytes as the header announces. -/
def frame_mask_ok (m : Bool) (bs : List Nat) : Bool :=
  match bs with
  | _ :: b1 :: rest =>
    (((b1 &&& 0x80) != 0) == m) &&
      (rest.length == wire_ext_len b1 + wire_key_len b1 +
        wire_payload_len b1 (rest.take (wire_ext_len b1)))
  | _ => false

/-- Relation between the worlds before and after a call: the send script is the
same, and what has been written in between is a sequence of complete frames
whose mask bit is `m`. -/
def RoleWrites (m : Bool) (w w1 : World) : Prop :=
  w1.txScript = w.txScript ∧
    ∃ frames : List (List Nat), w1.sent = w.sent ++ frames.flatten ∧
      ∀ f ∈ frames, frame_mask_ok m f = true

/-- A bound on the number of passes that the client's receive loops can make:
the weight of the receive script plus the number of pending bytes. -/
def client_weight (ctx : ws_client_ctx_t) (w : World) : Nat :=
  rx_weight w.rx + (ctx.pending_len - ctx.pending_off)

/-! ## Sample values for concrete runs -/

/-- Sample values for the transport's return codes, used in concrete runs. -/
def sample_codes : NetCodes := { NET_NO_DATA := -3, NET_TIMEOUT := -4, NET_EOF := -5 }

/-- A world in which `rx` is the receive script, every send is accepted and
nothing has happened yet. -/
def sample_world (rx : List RxEvent) : World :=
  { rx := rx, txScript := [], tx := [], rand := [], tick := 0, sockClosed := 0,
    sockDestroyed := 0 }

/-- An open server-side client as `ws_server_accept` leaves it. -/
def sample_server_client : ws_server_client_t :=
  { open_ := true, rxbuf := [], rxcap := 2048, scratch := true, scratch_cap := 1500 }

/-- A client configuration like the one of `ws_client_run`. -/
def sample_cfg : ws_client_cfg_t :=
  { host := cstr "ws.postman-echo.com", port := 80, resource := cstr "/raw", proto := 0,
    origin := none, subprotocol := none, extra_headers := none, tls_ca_certs := none,
    tls_dev_cert := none, tls_dev_key := none }

/-- An open client context after a completed handshake, with no pending bytes. -/
def sample_client_ctx : ws_client_ctx_t :=
  { cfg := sample_cfg, open_ := true, handshake_ok := true, rxbuf := [], rxcap := 2048,
    scratch := true, scratch_cap := 1500, key_b64 := [], pending := List.replicate 256 0,
    pending_len := 0, pending_off := 0 }

/-- A client context as `ws_client_create` and `net_sock_open` leave it, before
the handshake. -/
def sample_fresh_ctx : ws_client_ctx_t :=
  { cfg := sample_cfg, open_ := true, handshake_ok := false, rxbuf := List.replicate 2048 0,
    rxcap := 2048, scratch := true, scratch_cap := 1500, key_b64 := [],
    pending := List.replicate 256 0, pending_len := 0, pending_off := 0 }

/-- The 101 response that answers the key `AAAAAAAAAAAAAAAAAAAAAA==` (sixteen
zero bytes from `rand()`). -/
def sample_response : List Nat :=
  cstr "HTTP/1.1 101 Switching Protocols\r\nUpgrade: websocket\r\nConnection: Upgrade\r\nSec-WebSocket-Accept: ICX+Yqv66kxgM0FcWaLWlFLwTAI=\r\n\r\n"

/-- A BINARY frame of 257 bytes: header `82 7E 00 FD` and a 253-byte payload
whose last byte is 9. -/
def sample_frame_257 : List Nat := [0x82, 0x7E, 0x00, 0xFD] ++ List.replicate 252 7 ++ [9]

/-- What is observed of a client handshake and of the first reads after it: the
result of the handshake, the number of pending bytes it left, and the result
code and buffer of a following `ws_client_recv_exact` and `ws_client_recv`. -/
structure HandshakeProbe where
  rc : Int
  pending_len : Nat
  recv_exact : Option (Int × List Nat)
  recv : Option (Int × List Nat)
  deriving DecidableEq, Repr

/-- Run the client handshake on `w` and then, each from the state the handshake
left, `ws_client_recv_exact` for `n` bytes and `ws_client_recv` with a buffer of
`size` bytes, of which the first `n_payload` are reported. -/
def handshake_probe (nc : NetCodes) (ctx : ws_client_ctx_t) (w : World) (n size n_payload : Nat) :
    Option HandshakeProbe :=
  (ws_client_handshake nc ctx w).map (fun r =>
    { rc := r.1, pending_len := r.2.1.pending_len,
      recv_exact := (ws_client_recv_exact nc r.2.1 r.2.2 (List.replicate n 0) n).map
        (fun q => (q.1, q.2.2.1)),
      recv := (ws_client_recv nc { r.2.1 with handshake_ok := true } r.2.2
          (List.replicate size 0) size (some 0)).map
        (fun q => (q.1, q.2.2.1.take n_payload)) })

/-- A client context with the single byte `81` pending from the handshake. -/
def sample_pending_ctx : ws_client_ctx_t :=
  { sample_client_ctx with pending := [0x81], pending_len := 1 }

/-- A receive script in which one byte arrives, the transport then reports no
data once, and two more bytes arrive 10 ms later. -/
def sample_retry_script : List RxEvent :=
  [RxEvent.data [1], RxEvent.code 3, RxEvent.elapse 10, RxEvent.data [2, 3]]

/-! ## The header helpers as the specification words them -/

/-- The pieces of a string between its commas. -/
def split_commas : List Nat → List (List Nat)
  | [] => [[]]
  | b :: bs =>
    if b = 44 then [] :: split_commas bs
    else
      match split_commas bs with
      | [] => [[b]]
      | e :: es => (b :: e) :: es

/-- A string without its leading and trailing spaces and tabs. -/
def trim_blanks (l : List Nat) : List Nat :=
  ((l.dropWhile (fun b => b == 32 || b == 9)).reverse.dropWhile
    (fun b => b == 32 || b == 9)).reverse

/-- Equality of two strings under ASCII case folding. -/
def ascii_ci_eq (a b : List Nat) : Bool := a.map c_tolower == b.map c_tolower

/-- The token test as the specification words it: `value`, split at commas,
has an element that equals `token` after its leading and trailing spaces and
tabs are removed, compared without regard to ASCII case. -/
def header_has_token_spec (value token : List Nat) : Bool :=
  (split_commas value).any (fun e => ascii_ci_eq (trim_blanks e) token)

/-- A header block with CRLF line endings: the request or status line `first`,
the header lines `lines`, and the blank line. -/
def header_block (first : List Nat) (lines : List (List Nat)) : List Nat :=
  first ++ [13, 10] ++ (lines.map (fun l => l ++ [13, 10])).flatten ++ [13, 10]

/-- The header line `line` has the name `name`: its first characters equal
`name` without regard to ASCII case and a colon follows them directly. -/
def header_line_named (name line : List Nat) : Bool :=
  ascii_ci_eq (line.take name.length) name && line.getD name.length 0 == 58

/-- The value of a header line as the specification words it: what follows the
colon, without its leading spaces and tabs, cut to `out_cap - 1` bytes and then
stripped of trailing spaces and tabs. -/
def header_line_value (name line : List Nat) (out_cap : Nat) : List Nat :=
  ((((line.drop (name.length + 1)).dropWhile (fun b => b == 32 || b == 9)).take
    (out_cap - 1)).reverse.dropWhile (fun b => b == 32 || b == 9)).reverse

/-- The header lookup as the specification words it: the value of the first
header line named `name`, and `none` (NULL) when there is no such line. -/
def header_lookup_spec (name : List Nat) (out_cap : Nat) (lines : List (List Nat)) :
    Option (List Nat) :=
  (lines.find? (header_line_named name)).map (fun l => header_line_value name l out_cap)

/-- The header lookup as amended: only a line that has at least one character
after the colon counts as a header line named `name`. -/
def header_lookup_amended (name : List Nat) (out_cap : Nat) (lines : List (List Nat)) :
    Option (List Nat) :=
  (lines.find? (fun l => header_line_named name l && decide (name.length + 1 < l.length))).map
    (fun l => header_line_value name l out_cap)

/-! ## The pending buffer and the handshake exchange -/

/-- The invariant of the pending buffer of a client context: the markers are in
order and within the capacity of `uint8_t pending[256]`. -/
def PendingInv (ctx : ws_client_ctx_t) : Prop :=
  ctx.pending_off ≤ ctx.pending_len ∧ ctx.pending_len ≤ 256 ∧ ctx.pending.length = 256

/-- The `Sec-WebSocket-Key` that `ws_client_handshake` makes in the world `w`:
the base64 text of the 16 bytes it draws from `rand()`. -/
def ws_client_key (w : World) : List Nat :=
  ((ws_base64 (rand_bytes 16 w).1 16 64).2).getD []

/-- The raw extra headers of a configuration are the header lines `lines`, each
ended by CR LF (`extra_headers` of `ws_client.h`: optional raw header lines
ending with CR LF); a NULL pointer stands for no lines. -/
def extra_header_lines (e : Option (List Nat)) (lines : List (List Nat)) : Prop :=
  match e with
  | none => lines = []
  | some t => t = (lines.map (fun l => l ++ [13, 10])).flatten

/-! ## The handshake exchange: the upgrade request and sample deliveries -/

/-- The condition on an upgrade request as the specification words it, for the
request line `first` and the header lines `lines`: the request begins with
`GET `; it has a `Sec-WebSocket-Key` header; its `Upgrade` header equals
`websocket` without regard to case; its `Connection` header contains the
comma-separated token `Upgrade` without regard to case. `lookup name cap lines`
is the lookup that gives the value of a header, for an array of `cap` bytes
that takes the value. -/
def handshake_request_ok (lookup : List Nat → Nat → List (List Nat) → Option (List Nat))
    (kcap ucap ccap : Nat) (first : List Nat) (lines : List (List Nat)) : Bool :=
  (first.take 4 == cstr "GET ") &&
    (lookup (cstr "Sec-WebSocket-Key") kcap lines).isSome &&
    (match lookup (cstr "Upgrade") ucap lines with
     | some u => ascii_ci_eq u (cstr "websocket")
     | none => false) &&
    (match lookup (cstr "Connection") ccap lines with
     | some c => header_has_token_spec c (cstr "Upgrade")
     | none => false)

/-- The key of an upgrade request: the value of its `Sec-WebSocket-Key` header
(empty when it has none). -/
def request_key (lines : List (List Nat)) : List Nat :=
  (header_lookup_amended (cstr "Sec-WebSocket-Key") 128 lines).getD []

/-- The header lines of an upgrade request whose `Connection` header has the
value `conn`. -/
def sample_upgrade_lines (conn : String) : List (List Nat) :=
  [cstr "Host: example.com", cstr "Upgrade: websocket", cstr "Connection: " ++ cstr conn,
    cstr "Sec-WebSocket-Key: dGhlIHNhbXBsZSBub25jZQ=="]

/-- A world of the client in which the transport delivers, in two reads, the 101
response for the key that the client makes when `rand()` returns zeros. -/
def sample_interop_client_world : World :=
  sample_world
    [RxEvent.data
      ((ws_server_response (ws_compute_accept (ws_client_key (sample_world [])) [] 64).2).take
        100),
     RxEvent.elapse 3,
     RxEvent.data
      ((ws_server_response (ws_compute_accept (ws_client_key (sample_world [])) [] 64).2).drop
        100)]

/-- A world of the server in which the transport delivers, in two reads, the
request that the client builds for `sample_cfg` with that key. -/
def sample_interop_server_world : World :=
  sample_world
    [RxEvent.data ((ws_client_request sample_cfg (ws_client_key (sample_world []))).take 40),
     RxEvent.elapse 3,
     RxEvent.data ((ws_client_request sample_cfg (ws_client_key (sample_world []))).drop 40)]

/-! ## Theorems -/

/-- C9: a header with any of rsv1, rsv2, rsv3 set is rejected by
`ws_validate_frame_hdr`, for every opcode, fin, masked flag, payload length and
for both values of each of the two flags. -/
theorem validate_rejects_rsv (h : ws_frame_hdr_t) (expect_masked reject_fragmentation : Bool)
    (hrsv : h.rsv1 = true ∨ h.rsv2 = true ∨ h.rsv3 = true) :
    ws_validate_frame_hdr h expect_masked reject_fragmentation = WS_ERR := by
  unfold ws_validate_frame_hdr
  rcases hrsv with h1 | h2 | h3
  · simp [h1]
  · simp [h2]
  · simp [h3]

/-- Witness for C9: the header of a final TEXT frame with rsv2 set. -/
theorem validate_rejects_rsv_witness :
    ((⟨1, true, false, true, false, 5, false, [0, 0, 0, 0]⟩ : ws_frame_hdr_t).rsv1 = true ∨
      (⟨1, true, false, true, false, 5, false, [0, 0, 0, 0]⟩ : ws_frame_hdr_t).rsv2 = true ∨
      (⟨1, true, false, true, false, 5, false, [0, 0, 0, 0]⟩ : ws_frame_hdr_t).rsv3 = true) ∧
    ws_validate_frame_hdr ⟨1, true, false, true, false, 5, false, [0, 0, 0, 0]⟩ false true
      = WS_ERR :=
  ⟨Or.inr (Or.inl rfl),
    validate_rejects_rsv ⟨1, true, false, true, false, 5, false, [0, 0, 0, 0]⟩ false true
      (Or.inr (Or.inl rfl))⟩

/-- C10: with `reject_fragmentation = true`, a header with fin clear or with
opcode 0 (continuation) is rejected by `ws_validate_frame_hdr`, for either
value of `expect_masked` and any payload length. -/
theorem validate_rejects_fragmentation (h : ws_frame_hdr_t) (expect_masked : Bool)
    (hfrag : h.fin = false ∨ h.opcode = WS_OPCODE_CONT) :
    ws_validate_frame_hdr h expect_masked true = WS_ERR := by
  unfold ws_validate_frame_hdr
  rcases hfrag with hf | ho
  · simp [hf]
  · simp [ho, WS_OPCODE_CONT]

/-- Witness for C10: a non-final TEXT header and a final continuation header. -/
theorem validate_rejects_fragmentation_witness :
    ws_validate_frame_hdr ⟨1, false, false, false, false, 5, false, [0, 0, 0, 0]⟩ false true
      = WS_ERR ∧
    ws_validate_frame_hdr ⟨0, true, false, false, false, 5, true, [1, 2, 3, 4]⟩ true true
      = WS_ERR :=
  ⟨validate_rejects_fragmentation ⟨1, false, false, false, false, 5, false, [0, 0, 0, 0]⟩ false
      (Or.inl rfl),
    validate_rejects_fragmentation ⟨0, true, false, false, false, 5, true, [1, 2, 3, 4]⟩ true
      (Or.inr rfl)⟩

/-! ### Sending -/

theorem toInt32_toNat_le (n : Nat) : (toInt32 n).toNat ≤ n := by
  unfold toInt32
  split_ifs with h
  · rw [Int.toNat_ofNat]
    exact Nat.mod_le n (2 ^ 32)
  · have : n % 2 ^ 32 < 2 ^ 32 := Nat.mod_lt _ (by norm_num)
    omega

theorem toInt32_of_lt (n : Nat) (h : n < 2 ^ 31) : toInt32 n = (n : Int) := by
  unfold toInt32
  have : n % 2 ^ 32 = n := Nat.mod_eq_of_lt (by omega)
  rw [this, if_pos h]

theorem net_sock_send_spec (w w1 : World) (buf : List Nat) (n rc : Int)
    (h : net_sock_send w buf n = (rc, w1)) :
    rc ≤ 0 ∨ (0 < rc ∧ rc.toNat ≤ n.toNat ∧ w1.sent = w.sent ++ buf.take rc.toNat) := by
  unfold net_sock_send at h
  split at h
  · simp only [Prod.mk.injEq] at h
    obtain ⟨h1, h2⟩ := h
    subst h1 h2
    by_cases hn : n.toNat = 0
    · left; simp [hn]
    · right
      refine ⟨by omega, by rw [Int.toNat_ofNat], ?_⟩
      rw [Int.toNat_ofNat]
      simp [World.sent]
  · simp only [Prod.mk.injEq] at h
    obtain ⟨h1, h2⟩ := h
    subst h1 h2
    rename_i k rest _
    by_cases hn : min k n.toNat = 0
    · left; simp [hn]
    · right
      refine ⟨by omega, by rw [Int.toNat_ofNat]; exact Nat.min_le_right _ _, ?_⟩
      rw [Int.toNat_ofNat]
      simp [World.sent]
  · simp only [Prod.mk.injEq] at h
    left; omega

theorem take_drop_split (buf : List Nat) (len sent r : Nat) (h : sent + r ≤ len) :
    (buf.drop sent).take r ++ (buf.take len).drop (sent + r) = (buf.take len).drop sent := by
  rw [List.drop_take, List.drop_take]
  have : len - sent = r + (len - (sent + r)) := by omega
  rw [this, List.take_add, ← List.drop_drop]

theorem ws_send_all_loop_sent (buf : List Nat) (len : Nat) :
    ∀ (fuel : Nat) (w w' : World) (sent : Nat), sent ≤ len →
      ws_send_all_loop fuel w buf len sent = some (WS_OK, w') →
      w'.sent = w.sent ++ (buf.take len).drop sent := by
  intro fuel
  induction fuel with
  | zero => intro w w' sent _ h; simp [ws_send_all_loop] at h
  | succ fuel ih =>
    intro w w' sent hle h
    unfold ws_send_all_loop at h
    split_ifs at h with hlt
    · generalize hs : net_sock_send w (buf.drop sent) (toInt32 (len - sent)) = res at h
      obtain ⟨rc, w1⟩ := res
      simp only at h
      split_ifs at h with hrc
      · simp [WS_ERR, WS_OK] at h
      · rcases net_sock_send_spec _ _ _ _ _ hs with hneg | ⟨_, hb, hsent⟩
        · exact absurd hneg hrc
        · have hb2 := toInt32_toNat_le (len - sent)
          have hle2 : sent + rc.toNat ≤ len := by omega
          rw [ih w1 w' _ hle2 h, hsent, List.append_assoc, take_drop_split buf len sent _ hle2]
    · simp only [Option.some.injEq, Prod.mk.injEq, true_and] at h
      subst h
      have : (buf.take len).drop sent = [] := by
        apply List.drop_eq_nil_of_le
        simp; omega
      simp [this]

/-- A successful `ws_send_all` has handed exactly `buf[0 .. len)` to the
transport, in order, however the transport split the writes. -/
theorem ws_send_all_sent (w w' : World) (buf : List Nat) (len : Nat)
    (h : ws_send_all w buf len = some (WS_OK, w')) :
    w'.sent = w.sent ++ buf.take len := by
  have := ws_send_all_loop_sent buf len (len + 1) w w' 0 (Nat.zero_le _) h
  simpa using this

theorem ws_mask_chunk_length (payload key : List Nat) (off chunk : Nat) :
    (ws_mask_chunk payload key off chunk).length = chunk := by
  simp [ws_mask_chunk]

theorem ws_mask_chunk_append (payload key : List Nat) (off a b : Nat) :
    ws_mask_chunk payload key off a ++ ws_mask_chunk payload key (off + a) b
      = ws_mask_chunk payload key off (a + b) := by
  simp [ws_mask_chunk, List.range_add, Nat.add_assoc, Function.comp_def]

theorem ws_send_masked_loop_sent (payload : List Nat) (len : Nat) (key : List Nat) (cap : Nat) :
    ∀ (fuel : Nat) (w w' : World) (off : Nat), off ≤ len →
      ws_send_masked_loop payload len key cap fuel w off = some (WS_OK, w') →
      w'.sent = w.sent ++ ws_mask_chunk payload key off (len - off) := by
  intro fuel
  induction fuel with
  | zero => intro w w' off _ h; simp [ws_send_masked_loop] at h
  | succ fuel ih =>
    intro w w' off hle h
    rw [ws_send_masked_loop] at h
    by_cases hlt : off < len
    · rw [if_pos hlt] at h
      simp only at h
      have hchunk : min (len - off) cap ≤ len - off := Nat.min_le_left _ _
      generalize min (len - off) cap = chunk at h hchunk
      cases hs : ws_send_all w (ws_mask_chunk payload key off chunk) chunk with
      | none => rw [hs] at h; simp at h
      | some r =>
        obtain ⟨rc, w1⟩ := r
        rw [hs] at h
        simp only at h
        by_cases hrc : rc = WS_OK
        · subst hrc
          rw [if_neg (by simp)] at h
          have h1 := ws_send_all_sent _ _ _ _ hs
          rw [List.take_of_length_le (by rw [ws_mask_chunk_length])] at h1
          rw [ih w1 w' (off + chunk) (by omega) h, h1, List.append_assoc, ws_mask_chunk_append]
          congr 2
          omega
        · rw [if_pos hrc] at h
          simp [WS_ERR, WS_OK] at h
    · rw [if_neg hlt] at h
      simp only [Option.some.injEq, Prod.mk.injEq, true_and] at h
      subst h
      have : len - off = 0 := by omega
      simp [this, ws_mask_chunk]

theorem ws_make_mask_key_sent (w : World) : (ws_make_mask_key w).2.sent = w.sent := rfl

/-- The bytes of the frame that `ws_send_frame` puts on the wire. -/
theorem ws_send_frame_sent (w w' : World) (opcode : Nat) (payload : Option (List Nat))
    (L : Nat) (fin mask scratch : Bool) (cap : Nat)
    (h : ws_send_frame w opcode payload L fin mask scratch cap = some (WS_OK, w')) :
    w'.sent = w.sent ++
      (if mask then
        writeAt (ws_frame_hdr_bytes opcode L fin) 1
          [(ws_frame_hdr_bytes opcode L fin).getD 1 0 ||| 0x80] ++ (ws_make_mask_key w).1
       else ws_frame_hdr_bytes opcode L fin) ++
      ws_wire_payload payload L mask (ws_make_mask_key w).1 := by
  unfold ws_wire_payload
  cases mask with
  | false =>
    simp only [ws_send_frame, Bool.false_eq_true, if_false] at h
    cases hs : ws_send_all w (ws_frame_hdr_bytes opcode L fin)
      (ws_frame_hdr_bytes opcode L fin).length with
    | none => rw [hs] at h; simp at h
    | some r =>
      obtain ⟨rc, w1⟩ := r
      rw [hs] at h
      simp only at h
      by_cases hrc : rc = WS_OK
      · subst hrc
        rw [if_neg (by simp)] at h
        have h1 := ws_send_all_sent _ _ _ _ hs
        rw [List.take_length] at h1
        cases payload with
        | none =>
          simp only [Option.some.injEq, Prod.mk.injEq, true_and] at h
          subst h
          simp [h1]
        | some p =>
          simp only [Bool.not_false, if_true] at h
          by_cases hz : L = 0
          · rw [if_pos hz] at h
            simp only [Option.some.injEq, Prod.mk.injEq, true_and] at h
            subst h
            simp [h1, hz]
          · rw [if_neg hz] at h
            have h2 := ws_send_all_sent _ _ _ _ h
            simp [h1, h2]
      · rw [if_pos hrc] at h
        simp [WS_ERR, WS_OK] at h
  | true =>
    simp only [ws_send_frame, if_true] at h
    have hks := ws_make_mask_key_sent w
    generalize ws_make_mask_key w = kw at h hks
    obtain ⟨key, wk⟩ := kw
    simp only at h hks
    generalize writeAt (ws_frame_hdr_bytes opcode L fin) 1
      [(ws_frame_hdr_bytes opcode L fin).getD 1 0 ||| 0x80] ++ key = hdr1 at h
    cases hs : ws_send_all wk hdr1 hdr1.length with
    | none => rw [hs] at h; simp at h
    | some r =>
      obtain ⟨rc, w1⟩ := r
      rw [hs] at h
      simp only at h
      by_cases hrc : rc = WS_OK
      · subst hrc
        rw [if_neg (by simp)] at h
        have h1 := ws_send_all_sent _ _ _ _ hs
        rw [List.take_length, hks] at h1
        cases payload with
        | none =>
          simp only [Option.some.injEq, Prod.mk.injEq, true_and] at h
          subst h
          simp [h1]
        | some p =>
          simp only [Bool.not_true, Bool.false_eq_true, if_false] at h
          by_cases hz : L = 0
          · rw [if_pos hz] at h
            simp only [Option.some.injEq, Prod.mk.injEq, true_and] at h
            subst h
            simp [h1, hz, ws_mask_chunk]
          · rw [if_neg hz] at h
            by_cases hsc : (!scratch || decide (cap = 0)) = true
            · rw [if_pos hsc] at h
              simp [WS_ERR, WS_OK] at h
            · rw [if_neg hsc] at h
              have h2 := ws_send_masked_loop_sent p L key _ _ _ _ 0 (Nat.zero_le _) h
              simp [h1, h2]
      · rw [if_pos hrc] at h
        simp [WS_ERR, WS_OK] at h

/-! ### Bit arithmetic of the header bytes -/

theorem and_0F (x : Nat) : x &&& 0x0F = x % 16 := Nat.and_pow_two_sub_one_eq_mod x 4

theorem and_7F (x : Nat) : x &&& 0x7F = x % 128 := Nat.and_pow_two_sub_one_eq_mod x 7

theorem and_FF (x : Nat) : x &&& 0xFF = x % 256 := Nat.and_pow_two_sub_one_eq_mod x 8

theorem or_80_of_lt (x : Nat) (h : x < 128) : x ||| 0x80 = 128 + x := by
  have := Nat.mul_add_lt_is_or (i := 7) (b := x) (by simpa using h) 1
  simp only [Nat.reducePow, mul_one] at this
  rw [Nat.lor_comm, ← this]

/-- First header byte: the fin bit and the low four bits of the opcode. -/
theorem hdr_byte0 (fin : Bool) (opcode : Nat) :
    ((if fin then 0x80 else 0x00) ||| ((opcode % 256) &&& 0x0F)) % 256
      = (if fin then 128 else 0) + opcode % 16 := by
  have h16 : opcode % 256 % 16 = opcode % 16 := Nat.mod_mod_of_dvd opcode (by norm_num)
  have hlt : opcode % 16 < 16 := Nat.mod_lt _ (by norm_num)
  rw [and_0F, h16]
  cases fin
  · simp only [Bool.false_eq_true, if_false, Nat.zero_or, Nat.zero_add]
    omega
  · simp only [if_true]
    rw [Nat.lor_comm, or_80_of_lt _ (by omega)]
    omega

theorem ws_frame_hdr_bytes_small (opcode L : Nat) (fin : Bool) (hL : L ≤ 125) :
    ws_frame_hdr_bytes opcode L fin = [(if fin then 128 else 0) + opcode % 16, L] := by
  have h0 := hdr_byte0 fin opcode
  simp only [ws_frame_hdr_bytes, if_pos hL, and_7F]
  rw [h0]
  congr 2
  omega

theorem ws_frame_hdr_bytes_medium (opcode L : Nat) (fin : Bool) (h1 : 125 < L)
    (h2 : L ≤ 65535) :
    ws_frame_hdr_bytes opcode L fin
      = [(if fin then 128 else 0) + opcode % 16, 126, L / 256, L % 256] := by
  have h0 := hdr_byte0 fin opcode
  simp only [ws_frame_hdr_bytes, if_neg (Nat.not_le.mpr h1), and_FF, Nat.shiftRight_eq_div_pow]
  rw [if_pos (by omega), h0]
  congr 3
  · omega
  · congr 1
    omega

theorem ws_frame_hdr_bytes_large (opcode L : Nat) (fin : Bool) (h1 : 65535 < L)
    (h2 : L < 2 ^ 64) :
    ws_frame_hdr_bytes opcode L fin
      = [(if fin then 128 else 0) + opcode % 16, 127,
         L / 2 ^ 56 % 256, L / 2 ^ 48 % 256, L / 2 ^ 40 % 256, L / 2 ^ 32 % 256,
         L / 2 ^ 24 % 256, L / 2 ^ 16 % 256, L / 2 ^ 8 % 256, L % 256] := by
  have h0 := hdr_byte0 fin opcode
  have hm : L % 2 ^ 64 = L := Nat.mod_eq_of_lt h2
  simp only [ws_frame_hdr_bytes, and_FF, Nat.shiftRight_eq_div_pow, hm, Nat.mod_mod]
  rw [if_neg (by omega), if_neg (by omega), h0]

theorem byte0_or (fin : Bool) (opcode : Nat) :
    (if fin then 0x80 else 0) ||| (opcode &&& 0x0F) = (if fin then 128 else 0) + opcode % 16 := by
  have hlt : opcode % 16 < 16 := Nat.mod_lt _ (by norm_num)
  rw [and_0F]
  cases fin
  · simp
  · simp only [if_true]
    rw [Nat.lor_comm, or_80_of_lt _ (by omega)]

theorem byte0_rsv_clear (fin : Bool) (opcode : Nat) :
    ((if fin then 0x80 else 0) ||| (opcode &&& 0x0F)) &&& 0x70 = 0 := by
  have hlt : opcode % 16 < 16 := Nat.mod_lt _ (by norm_num)
  rw [byte0_or]
  generalize opcode % 16 = o at hlt
  cases fin <;> interval_cases o <;> rfl

/-- C2: `ws_send_frame` uses the minimal length encoding. When it succeeds the
bytes put on the wire are: the first byte `(fin ? 0x80 : 0) | (opcode & 0x0F)`
(RSV bits clear), a second byte holding the mask bit and the 7-bit length field,
the extended length, the mask key (masked frames only) and the payload. For
`L ≤ 125` the length field is `L` and there is no extended length; for
`126 ≤ L ≤ 65535` the field is 126 followed by `L` in 2 big-endian bytes; for
`L > 65535` the field is 127 followed by `L` in 8 big-endian bytes. -/
theorem send_frame_minimal_length (w w' : World) (opcode : Nat) (payload : Option (List Nat))
    (L : Nat) (fin mask scratch : Bool) (cap : Nat) (hL : L < 2 ^ 64)
    (h : ws_send_frame w opcode payload L fin mask scratch cap = some (WS_OK, w')) :
    ∃ b1 ext,
      w'.sent = w.sent ++ [(if fin then 0x80 else 0) ||| (opcode &&& 0x0F), b1] ++ ext
        ++ (if mask then (ws_make_mask_key w).1 else [])
        ++ ws_wire_payload payload L mask (ws_make_mask_key w).1 ∧
      ((if fin then 0x80 else 0) ||| (opcode &&& 0x0F)) &&& 0x70 = 0 ∧
      b1 / 128 = (if mask then 1 else 0) ∧
      (L ≤ 125 → b1 % 128 = L ∧ ext = []) ∧
      (125 < L → L ≤ 65535 → b1 % 128 = 126 ∧ ext = [L / 256, L % 256]) ∧
      (65535 < L → b1 % 128 = 127 ∧
        ext = [L / 2 ^ 56 % 256, L / 2 ^ 48 % 256, L / 2 ^ 40 % 256, L / 2 ^ 32 % 256,
               L / 2 ^ 24 % 256, L / 2 ^ 16 % 256, L / 2 ^ 8 % 256, L % 256]) := by
  have hs := ws_send_frame_sent _ _ _ _ _ _ _ _ _ h
  have hr := byte0_rsv_clear fin opcode
  rw [byte0_or] at hr ⊢
  rcases Nat.lt_or_ge 125 L with h1 | h1
  · rcases Nat.lt_or_ge 65535 L with h2 | h2
    · rw [ws_frame_hdr_bytes_large _ _ _ h2 hL] at hs
      refine ⟨(if mask then 128 else 0) + 127,
        [L / 2 ^ 56 % 256, L / 2 ^ 48 % 256, L / 2 ^ 40 % 256, L / 2 ^ 32 % 256,
         L / 2 ^ 24 % 256, L / 2 ^ 16 % 256, L / 2 ^ 8 % 256, L % 256], ?_, hr, ?_, ?_, ?_, ?_⟩
      · rw [hs]; cases mask <;> simp [writeAt]
      · cases mask <;> simp
      · intro h3; omega
      · intro _ h3; omega
      · intro _; exact ⟨by cases mask <;> simp, rfl⟩
    · rw [ws_frame_hdr_bytes_medium _ _ _ h1 h2] at hs
      refine ⟨(if mask then 128 else 0) + 126, [L / 256, L % 256], ?_, hr, ?_, ?_, ?_, ?_⟩
      · rw [hs]; cases mask <;> simp [writeAt]
      · cases mask <;> simp
      · intro h3; omega
      · intro _ _; exact ⟨by cases mask <;> simp, rfl⟩
      · intro h3; omega
  · rw [ws_frame_hdr_bytes_small _ _ _ h1] at hs
    refine ⟨(if mask then 128 else 0) + L, [], ?_, hr, ?_, ?_, ?_, ?_⟩
    · rw [hs]
      cases mask
      · simp
      · simp [writeAt, or_80_of_lt L (by omega)]
    · cases mask
      · simp; omega
      · simp; omega
    · intro _
      refine ⟨?_, rfl⟩
      cases mask
      · simp; omega
      · simp; omega
    · intro h3; omega
    · intro h3; omega

/-- Witness for C2: a final masked TEXT frame of 200 bytes sent on a transport
that accepts everything, with `rand()` returning 0x11, 0x22, 0x33, 0x44. -/
theorem send_frame_minimal_length_witness :
    ∃ b1 ext,
      ([[129, 254, 0, 200, 17, 34, 51, 68], ws_mask_chunk (List.replicate 200 65) [17, 34, 51, 68] 0 200]
          : List (List Nat)).flatten
        = ([] : List Nat) ++ [(if true then 0x80 else 0) ||| (1 &&& 0x0F), b1] ++ ext
          ++ (if true then [17, 34, 51, 68] else [])
          ++ ws_wire_payload (some (List.replicate 200 65)) 200 true [17, 34, 51, 68] ∧
      ((if true then 0x80 else 0) ||| (1 &&& 0x0F)) &&& 0x70 = 0 ∧
      b1 / 128 = (if true then 1 else 0) ∧
      (200 ≤ 125 → b1 % 128 = 200 ∧ ext = []) ∧
      (125 < 200 → 200 ≤ 65535 → b1 % 128 = 126 ∧ ext = [200 / 256, 200 % 256]) ∧
      (65535 < 200 → b1 % 128 = 127 ∧
        ext = [200 / 2 ^ 56 % 256, 200 / 2 ^ 48 % 256, 200 / 2 ^ 40 % 256, 200 / 2 ^ 32 % 256,
               200 / 2 ^ 24 % 256, 200 / 2 ^ 16 % 256, 200 / 2 ^ 8 % 256, 200 % 256]) :=
  send_frame_minimal_length
    ⟨[], [], [], [0x11, 0x22, 0x33, 0x44], 0, 0, 0⟩
    ⟨[], [], [[129, 254, 0, 200, 17, 34, 51, 68],
      ws_mask_chunk (List.replicate 200 65) [17, 34, 51, 68] 0 200], [], 0, 0, 0⟩
    1 (some (List.replicate 200 65)) 200 true true true 1500 (by norm_num) (by decide!)

/-! ### Accept key -/

/-- The model of SHA-1 reproduces the FIPS 180 test vector for `abc`. -/
theorem sha1_abc : mbedtls_sha1 (cstr "abc") 3
    = [0xA9, 0x99, 0x3E, 0x36, 0x47, 0x06, 0x81, 0x6A, 0xBA, 0x3E,
       0x25, 0x71, 0x78, 0x50, 0xC2, 0x6C, 0x9C, 0xD0, 0xD8, 0x9D] := by decide!

/-- SHA-1 and base64 of the RFC 6455 sample key followed by the GUID. -/
theorem accept_of_sample_key :
    ws_base64 (ws_sha1 (cstr "dGhlIHNhbXBsZSBub25jZQ==" ++ WS_GUID) 60) 20 64
      = (28, some (cstr "s3pPLMBiTxaQ9kYGzzhZRbK+xOo=")) := by decide!

/-- C3: on the RFC 6455 sample key `dGhlIHNhbXBsZSBub25jZQ==` and an output
buffer of at least 29 bytes, `ws_compute_accept` returns `WS_OK` and leaves
`s3pPLMBiTxaQ9kYGzzhZRbK+xOo=` in the output buffer. -/
theorem compute_accept_rfc_sample (accept_out : List Nat) (accept_out_len : Nat)
    (hcap : 29 ≤ accept_out_len) :
    ws_compute_accept (cstr "dGhlIHNhbXBsZSBub25jZQ==") accept_out accept_out_len
      = (WS_OK, cstr "s3pPLMBiTxaQ9kYGzzhZRbK+xOo=") := by
  have hk : (cstr "dGhlIHNhbXBsZSBub25jZQ==").length = 24 := by decide
  have hg : WS_GUID.length = 36 := by decide
  have hb : (cstr "s3pPLMBiTxaQ9kYGzzhZRbK+xOo=").length = 28 := by decide
  unfold ws_compute_accept
  rw [if_neg (by omega)]
  simp only [hk, hg]
  rw [if_neg (by omega), accept_of_sample_key]
  simp only [Option.getD_some, hb]
  rw [if_neg (by decide), if_neg (by omega)]

/-- Witness for C3: an output buffer of exactly 29 bytes. -/
theorem compute_accept_rfc_sample_witness :
    ws_compute_accept (cstr "dGhlIHNhbXBsZSBub25jZQ==") [] 29
      = (WS_OK, cstr "s3pPLMBiTxaQ9kYGzzhZRbK+xOo=") :=
  compute_accept_rfc_sample [] 29 (by decide)

/-! ### Receiving -/

theorem RecvOnly.same (w : World) : RecvOnly w w := ⟨rfl, rfl, rfl, rfl, rfl⟩

theorem RecvOnly.chain {w w1 w2 : World} (h1 : RecvOnly w w1) (h2 : RecvOnly w1 w2) :
    RecvOnly w w2 := by
  obtain ⟨a1, a2, a3, a4, a5⟩ := h1
  obtain ⟨b1, b2, b3, b4, b5⟩ := h2
  exact ⟨b1.trans a1, b2.trans a2, b3.trans a3, b4.trans a4, b5.trans a5⟩

theorem writeAt_writeAt (buf a b : List Nat) (off : Nat) :
    writeAt (writeAt buf off a) (off + a.length) b = writeAt buf off (a ++ b) := by
  unfold writeAt
  by_cases h : off ≤ buf.length
  · have h1 : (buf.take off).length = off := by simp [h]
    have e1 : List.take (off + a.length) (List.take off buf ++ a ++ List.drop (off + a.length) buf)
        = List.take off buf ++ a := by
      rw [List.take_append_eq_append_take]
      simp [h1]
    have e2 : List.drop (off + a.length + b.length)
        (List.take off buf ++ a ++ List.drop (off + a.length) buf)
        = List.drop (off + (a ++ b).length) buf := by
      rw [List.drop_append_eq_append_drop]
      simp only [List.length_append, h1, List.length_take]
      rw [List.drop_eq_nil_of_le (by simp; omega)]
      simp only [List.nil_append, List.drop_drop]
      congr 1
      omega
    rw [e1, e2]
    simp
  · have h2 : buf.length < off := by omega
    have t1 : List.take off buf = buf := List.take_of_length_le (by omega)
    have d1 : List.drop (off + a.length) buf = [] := List.drop_eq_nil_of_le (by omega)
    have d2 : List.drop (off + (a ++ b).length) buf = [] := List.drop_eq_nil_of_le (by omega)
    rw [t1, d1, d2]
    simp only [List.append_nil]
    rw [List.take_of_length_le (by simp; omega), List.drop_eq_nil_of_le (by simp; omega)]
    simp

theorem writeAt_zero (buf bs : List Nat) : writeAt buf 0 bs = bs ++ buf.drop bs.length := by
  simp [writeAt]

/-- What one `recvScript` step does when bytes are ready and at least one is
asked for. -/
theorem recvScript_data : ∀ (rx : List RxEvent) (tick n : Nat), 0 < n → rx_avail rx ≠ [] →
    ∃ (k : Nat) (rx1 : List RxEvent) (tick1 : Nat),
      recvScript rx tick n = ((k : Int), (rx_avail rx).take k, rx1, tick1) ∧
      0 < k ∧ k ≤ n ∧ rx_avail rx1 = (rx_avail rx).drop k := by
  intro rx
  induction rx with
  | nil => intro tick n _ h; simp [rx_avail] at h
  | cons e rest ih =>
    intro tick n hn h
    cases e with
    | code c => simp [rx_avail] at h
    | elapse ms =>
      simp only [rx_avail] at h ⊢
      obtain ⟨k, rx1, tick1, h1, h2, h3, h4⟩ := ih (tick + ms) n hn h
      exact ⟨k, rx1, tick1, by simp only [recvScript]; exact h1, h2, h3, h4⟩
    | data bs =>
      by_cases hb : bs.length = 0
      · have hbs : bs = [] := List.length_eq_zero.mp hb
        subst hbs
        simp only [rx_avail, List.nil_append] at h ⊢
        obtain ⟨k, rx1, tick1, h1, h2, h3, h4⟩ := ih tick n hn h
        exact ⟨k, rx1, tick1, by simp only [recvScript, List.length_nil, if_true]; exact h1,
          h2, h3, h4⟩
      · by_cases hle : bs.length ≤ n
        · refine ⟨bs.length, rest, tick, ?_, by omega, hle, ?_⟩
          · simp only [recvScript, if_neg hb, if_pos hle, rx_avail]
            simp
          · simp [rx_avail]
        · refine ⟨n, RxEvent.data (bs.drop n) :: rest, tick, ?_, hn, le_refl _, ?_⟩
          · simp only [recvScript, if_neg hb, if_neg hle, rx_avail]
            rw [List.take_append_of_le_length (by omega)]
          · simp only [rx_avail]
            rw [List.drop_append_of_le_length (by omega)]

theorem net_sock_recv_data (w : World) (n : Int) (hn : 0 < n) (h : rx_avail w.rx ≠ []) :
    ∃ (k : Nat) (w1 : World), net_sock_recv w n = ((k : Int), (rx_avail w.rx).take k, w1) ∧
      0 < k ∧ k ≤ n.toNat ∧ rx_avail w1.rx = (rx_avail w.rx).drop k ∧ RecvOnly w w1 := by
  obtain ⟨k, rx1, tick1, h1, h2, h3, h4⟩ :=
    recvScript_data w.rx w.tick n.toNat (by omega) h
  refine ⟨k, { w with rx := rx1, tick := tick1 }, ?_, h2, h3, h4, RecvOnly.same _⟩
  simp only [net_sock_recv, h1]

theorem writeAt_nil (buf : List Nat) (off : Nat) : writeAt buf off [] = buf := by
  simp [writeAt]

theorem ws_recv_exact_loop_ok (nc : NetCodes) (hnc : nc.NET_NO_DATA < 0) :
    ∀ (fuel : Nat) (w : World) (buf : List Nat) (len got : Nat), got ≤ len → len - got < fuel →
      len - got ≤ (rx_avail w.rx).length → len - got < 2 ^ 31 →
      ∃ w1, ws_recv_exact_loop nc fuel w buf len got
          = some (WS_OK, writeAt buf got ((rx_avail w.rx).take (len - got)), w1) ∧
        rx_avail w1.rx = (rx_avail w.rx).drop (len - got) ∧ RecvOnly w w1 := by
  intro fuel
  induction fuel with
  | zero => intro w buf len got _ h; omega
  | succ fuel ih =>
    intro w buf len got hle hfuel havail hint
    rw [ws_recv_exact_loop]
    by_cases hlt : got < len
    · rw [if_pos hlt]
      have hne : rx_avail w.rx ≠ [] := by
        intro h0
        rw [h0] at havail
        simp at havail
        omega
      have hn : toInt32 (len - got) = ((len - got : Nat) : Int) := toInt32_of_lt _ hint
      obtain ⟨k, w1, hr, hk0, hkn, hav, hro⟩ :=
        net_sock_recv_data w (toInt32 (len - got)) (by rw [hn]; omega) hne
      rw [hn, Int.toNat_ofNat] at hkn
      rw [hr]
      simp only
      rw [if_neg (by omega), if_neg (by omega), if_neg (by omega), Int.toNat_ofNat]
      obtain ⟨w2, h2, hav2, hro2⟩ := ih w1 (writeAt buf got ((rx_avail w.rx).take k)) len (got + k)
        (by omega) (by omega) (by rw [hav, List.length_drop]; omega) (by omega)
      refine ⟨w2, ?_, ?_, hro.chain hro2⟩
      · rw [h2, hav]
        have hlen : ((rx_avail w.rx).take k).length = k := by
          rw [List.length_take]; omega
        have := writeAt_writeAt buf ((rx_avail w.rx).take k)
          (List.take (len - (got + k)) (List.drop k (rx_avail w.rx))) got
        rw [hlen] at this
        rw [this]
        have e : len - got = k + (len - (got + k)) := by omega
        rw [e, List.take_add]
      · rw [hav2, hav, List.drop_drop]
        congr 1
        omega
    · rw [if_neg hlt]
      have e : len - got = 0 := by omega
      refine ⟨w, ?_, ?_, RecvOnly.same w⟩
      · rw [e, List.take_zero, writeAt_nil]
      · rw [e, List.drop_zero]

/-- When `len` bytes are ready, `ws_recv_exact` stores exactly the next `len`
bytes of the stream at the start of `buf` and returns `WS_OK`. -/
theorem ws_recv_exact_ok (nc : NetCodes) (hnc : nc.NET_NO_DATA < 0) (w : World)
    (buf : List Nat) (len : Nat) (havail : len ≤ (rx_avail w.rx).length) (hint : len < 2 ^ 31) :
    ∃ w1, ws_recv_exact nc w buf len
        = some (WS_OK, (rx_avail w.rx).take len ++ buf.drop len, w1) ∧
      rx_avail w1.rx = (rx_avail w.rx).drop len ∧ RecvOnly w w1 := by
  obtain ⟨w1, h1, h2, h3⟩ := ws_recv_exact_loop_ok nc hnc (len + 1) w buf len 0 (Nat.zero_le _)
    (by omega) (by simpa using havail) (by simpa using hint)
  refine ⟨w1, ?_, by simpa using h2, h3⟩
  rw [ws_recv_exact, h1, writeAt_zero]
  simp only [Nat.sub_zero, List.length_take]
  rw [Nat.min_eq_left havail]

theorem ws_read_frame_hdr_ext_ok (nc : NetCodes) (hnc : nc.NET_NO_DATA < 0) (w : World)
    (b1 : Nat) (ext rest : List Nat) (hrx : rx_avail w.rx = ext ++ rest)
    (hext : ext.length = wire_ext_len b1) :
    ∃ w1, ws_read_frame_hdr_ext nc w (b1 &&& 0x7F) = some (WS_OK, wire_payload_len b1 ext, w1) ∧
      rx_avail w1.rx = rest ∧ RecvOnly w w1 := by
  unfold ws_read_frame_hdr_ext wire_payload_len
  unfold wire_ext_len at hext
  by_cases h126 : b1 &&& 0x7F = 126
  · rw [if_pos h126] at hext ⊢
    rw [if_pos h126]
    obtain ⟨wb, hb, havb, hrob⟩ := ws_recv_exact_ok nc hnc w [0, 0] 2
      (by rw [hrx]; simp; omega) (by norm_num)
    rw [hrx] at hb havb
    rw [List.take_append_of_le_length (by omega), List.take_of_length_le (by omega)] at hb
    rw [List.drop_append_of_le_length (by omega), List.drop_of_length_le (by omega)] at havb
    refine ⟨wb, ?_, by simpa using havb, hrob⟩
    rw [hb]
    simp
  · rw [if_neg h126] at hext ⊢
    rw [if_neg h126]
    by_cases h127 : b1 &&& 0x7F = 127
    · rw [if_pos h127] at hext ⊢
      rw [if_pos h127]
      obtain ⟨wb, hb, havb, hrob⟩ := ws_recv_exact_ok nc hnc w [0, 0, 0, 0, 0, 0, 0, 0] 8
        (by rw [hrx]; simp; omega) (by norm_num)
      rw [hrx] at hb havb
      rw [List.take_append_of_le_length (by omega), List.take_of_length_le (by omega)] at hb
      rw [List.drop_append_of_le_length (by omega), List.drop_of_length_le (by omega)] at havb
      refine ⟨wb, ?_, by simpa using havb, hrob⟩
      rw [hb]
      simp only [List.drop_succ_cons, List.drop_nil, List.append_nil]
      rw [List.take_of_length_le (by omega)]
    · rw [if_neg h127] at hext ⊢
      rw [if_neg h127]
      have : ext = [] := List.length_eq_zero.mp hext
      subst this
      exact ⟨w, rfl, by simpa using hrx, RecvOnly.same _⟩

theorem ws_read_frame_hdr_key_ok (nc : NetCodes) (hnc : nc.NET_NO_DATA < 0) (w : World)
    (h : ws_frame_hdr_t) (key rest : List Nat) (hk0 : h.mask_key.length ≤ 4)
    (hrx : rx_avail w.rx = key ++ rest)
    (hkey : key.length = if h.masked then 4 else 0) :
    ∃ w1, ws_read_frame_hdr_key nc w h
        = some (WS_OK, { h with mask_key := if h.masked then key else [0, 0, 0, 0] }, w1) ∧
      rx_avail w1.rx = rest ∧ RecvOnly w w1 := by
  unfold ws_read_frame_hdr_key
  by_cases hm : h.masked = true
  · rw [if_pos hm] at hkey ⊢
    rw [if_pos hm]
    obtain ⟨wc, hc, havc, hroc⟩ := ws_recv_exact_ok nc hnc w h.mask_key 4
      (by rw [hrx]; simp; omega) (by norm_num)
    rw [hrx] at hc havc
    rw [List.take_append_of_le_length (by omega), List.take_of_length_le (by omega),
      List.drop_of_length_le (by omega)] at hc
    rw [List.drop_append_of_le_length (by omega), List.drop_of_length_le (by omega)] at havc
    refine ⟨wc, ?_, by simpa using havc, hroc⟩
    rw [hc]
    simp
  · rw [if_neg hm] at hkey ⊢
    rw [if_neg hm]
    have : key = [] := List.length_eq_zero.mp hkey
    subst this
    exact ⟨w, rfl, by simpa using hrx, RecvOnly.same _⟩

/-- `ws_read_frame_hdr` on a stream that starts with a complete frame header:
it returns `WS_OK` with the header the bytes stand for and consumes exactly the
header. -/
theorem ws_read_frame_hdr_ok (nc : NetCodes) (hnc : nc.NET_NO_DATA < 0) (w : World)
    (h0 : ws_frame_hdr_t) (b0 b1 : Nat) (ext key rest : List Nat)
    (hk0 : h0.mask_key.length ≤ 4)
    (hrx : rx_avail w.rx = b0 :: b1 :: (ext ++ (key ++ rest)))
    (hext : ext.length = wire_ext_len b1) (hkey : key.length = wire_key_len b1) :
    ∃ w1, ws_read_frame_hdr nc w h0 = some (WS_OK, wire_hdr b0 b1 ext key, w1) ∧
      rx_avail w1.rx = rest ∧ RecvOnly w w1 := by
  obtain ⟨wa, ha, hava, hroa⟩ := ws_recv_exact_ok nc hnc w [0, 0] 2 (by rw [hrx]; simp)
    (by norm_num)
  rw [hrx] at ha hava
  simp only [List.take_succ_cons, List.take_zero, List.drop_succ_cons, List.drop_zero,
    List.drop_nil, List.append_nil] at ha hava
  obtain ⟨wb, hb, havb, hrob⟩ := ws_read_frame_hdr_ext_ok nc hnc wa b1 ext (key ++ rest) hava hext
  obtain ⟨wc, hc, havc, hroc⟩ := ws_read_frame_hdr_key_ok nc hnc wb
    { h0 with fin := (b0 &&& 0x80) != 0, rsv1 := (b0 &&& 0x40) != 0,
              rsv2 := (b0 &&& 0x20) != 0, rsv3 := (b0 &&& 0x10) != 0,
              opcode := b0 &&& 0x0F, masked := (b1 &&& 0x80) != 0,
              payload_len := wire_payload_len b1 ext } key rest hk0 havb hkey
  refine ⟨wc, ?_, havc, (hroa.chain hrob).chain hroc⟩
  unfold ws_read_frame_hdr
  rw [ha]
  simp only [ne_eq, not_true_eq_false, if_false, List.getD_cons_zero, List.getD_cons_succ]
  rw [hb]
  simp only [ne_eq, not_true_eq_false, if_false]
  rw [hc]
  rfl

theorem ws_unmask_eq (body tail key : List Nat) :
    ws_unmask (body ++ tail) body.length key = xor_from key 0 body ++ tail := by
  simp [ws_unmask]

/-- `ws_read_frame_payload` on a stream that starts with the whole payload of a
frame that fits `dst`. -/
theorem ws_read_frame_payload_ok (nc : NetCodes) (hnc : nc.NET_NO_DATA < 0) (w : World)
    (h : ws_frame_hdr_t) (dst : List Nat) (dst_cap scratch_cap : Nat) (body rest : List Nat)
    (hfit : h.payload_len ≤ dst_cap) (hint : h.payload_len < 2 ^ 31)
    (hrx : rx_avail w.rx = body ++ rest) (hbody : body.length = h.payload_len) :
    ∃ w1, ws_read_frame_payload nc w h dst dst_cap scratch_cap
        = some (WS_OK, (if h.masked then xor_from h.mask_key 0 body else body)
            ++ dst.drop h.payload_len, h.payload_len, w1) ∧
      rx_avail w1.rx = rest ∧ RecvOnly w w1 := by
  unfold ws_read_frame_payload
  rw [if_neg (by omega)]
  by_cases hz : h.payload_len = 0
  · rw [if_pos hz]
    have : body = [] := List.length_eq_zero.mp (by omega)
    subst this
    refine ⟨w, ?_, by simpa using hrx, RecvOnly.same _⟩
    rw [hz]
    cases h.masked <;> simp [xor_from]
  · rw [if_neg hz]
    obtain ⟨w1, h1, hav1, hro1⟩ := ws_recv_exact_ok nc hnc w dst h.payload_len
      (by rw [hrx]; simp; omega) hint
    rw [hrx] at h1 hav1
    rw [List.take_append_of_le_length (by omega), List.take_of_length_le (by omega)] at h1
    rw [List.drop_append_of_le_length (by omega), List.drop_of_length_le (by omega)] at hav1
    refine ⟨w1, ?_, by simpa using hav1, hro1⟩
    rw [h1]
    simp only [ne_eq, not_true_eq_false, if_false]
    cases hm : h.masked
    · simp
    · simp only [if_true]
      rw [← hbody, ws_unmask_eq]

theorem ws_mask_chunk_succ (p key : List Nat) (off n : Nat) :
    ws_mask_chunk p key off (n + 1)
      = (p.getD off 0 ^^^ key.getD (off &&& 3) 0) :: ws_mask_chunk p key (off + 1) n := by
  simp only [ws_mask_chunk, List.range_succ_eq_map, List.map_cons, List.map_map, Nat.add_zero]
  congr 1
  apply List.map_congr_left
  intro i _
  simp only [Function.comp, Nat.succ_eq_add_one]
  have : off + (i + 1) = off + 1 + i := by omega
  rw [this]

theorem xor_xor_cancel (a k : Nat) : (a ^^^ k) ^^^ k = a := by
  rw [Nat.xor_assoc, Nat.xor_self, Nat.xor_zero]

/-- Unmasking what the masked send produced gives back the payload bytes. -/
theorem xor_from_mask_chunk (p key : List Nat) :
    ∀ (n off : Nat), off + n ≤ p.length →
      xor_from key off (ws_mask_chunk p key off n) = (p.drop off).take n := by
  intro n
  induction n with
  | zero => intro off _; simp [ws_mask_chunk, xor_from]
  | succ n ih =>
    intro off h
    rw [ws_mask_chunk_succ, xor_from, ih (off + 1) (by omega), xor_xor_cancel]
    have hlt : off < p.length := by omega
    rw [List.getD_eq_getElem _ _ hlt]
    rw [List.drop_eq_getElem_cons hlt, List.take_succ_cons]

theorem byte_bits : ∀ y, y < 256 →
    ((y &&& 0x80 != 0) = decide (128 ≤ y)) ∧ (y &&& 0x7F = y % 128) ∧
    ((y &&& 0x40 != 0) = decide (64 ≤ y % 128)) ∧ ((y &&& 0x20 != 0) = decide (32 ≤ y % 64)) ∧
    ((y &&& 0x10 != 0) = decide (16 ≤ y % 32)) ∧ (y &&& 0x0F = y % 16) := by decide!

theorem decode_len16 (L : Nat) : ((L / 256) <<< 8) ||| (L % 256) = L := by
  have := Nat.mul_add_lt_is_or (i := 8) (b := L % 256) (Nat.mod_lt _ (by norm_num)) (L / 256)
  rw [Nat.shiftLeft_eq, Nat.mul_comm, ← this]
  simp only [Nat.reducePow]
  omega

theorem be_step (acc b : Nat) (ha : acc < 72057594037927936) (hb : b < 256) :
    ((acc <<< 8) % 18446744073709551616) ||| b = acc * 256 + b := by
  have := Nat.mul_add_lt_is_or (i := 8) (b := b) (by simpa using hb) acc
  rw [Nat.shiftLeft_eq, Nat.mod_eq_of_lt (by omega), Nat.mul_comm, ← this]

theorem decode_len64 (L : Nat) (hL : L < 2 ^ 64) :
    be_accumulate [L / 2 ^ 56 % 256, L / 2 ^ 48 % 256, L / 2 ^ 40 % 256, L / 2 ^ 32 % 256,
      L / 2 ^ 24 % 256, L / 2 ^ 16 % 256, L / 2 ^ 8 % 256, L % 256] = L := by
  simp only [be_accumulate, List.foldl_cons, List.foldl_nil, Nat.reducePow] at hL ⊢
  rw [be_step 0 (L / 72057594037927936 % 256) (by norm_num) (by omega)]
  rw [be_step (0 * 256 + L / 72057594037927936 % 256) (L / 281474976710656 % 256)
    (by omega) (by omega)]
  rw [be_step ((0 * 256 + L / 72057594037927936 % 256) * 256 + L / 281474976710656 % 256)
    (L / 1099511627776 % 256) (by omega) (by omega)]
  rw [be_step (((0 * 256 + L / 72057594037927936 % 256) * 256 + L / 281474976710656 % 256) * 256
    + L / 1099511627776 % 256) (L / 4294967296 % 256) (by omega) (by omega)]
  rw [be_step ((((0 * 256 + L / 72057594037927936 % 256) * 256 + L / 281474976710656 % 256) * 256
    + L / 1099511627776 % 256) * 256 + L / 4294967296 % 256) (L / 16777216 % 256)
    (by omega) (by omega)]
  rw [be_step (((((0 * 256 + L / 72057594037927936 % 256) * 256 + L / 281474976710656 % 256) * 256
    + L / 1099511627776 % 256) * 256 + L / 4294967296 % 256) * 256 + L / 16777216 % 256)
    (L / 65536 % 256) (by omega) (by omega)]
  rw [be_step ((((((0 * 256 + L / 72057594037927936 % 256) * 256 + L / 281474976710656 % 256)
    * 256 + L / 1099511627776 % 256) * 256 + L / 4294967296 % 256) * 256 + L / 16777216 % 256)
    * 256 + L / 65536 % 256) (L / 256 % 256) (by omega) (by omega)]
  rw [be_step (((((((0 * 256 + L / 72057594037927936 % 256) * 256 + L / 281474976710656 % 256)
    * 256 + L / 1099511627776 % 256) * 256 + L / 4294967296 % 256) * 256 + L / 16777216 % 256)
    * 256 + L / 65536 % 256) * 256 + L / 256 % 256) (L % 256) (by omega) (by omega)]
  omega

/-- Shape of the header bytes built by `ws_send_frame`, with the facts needed to
decode them again. -/
theorem ws_frame_hdr_bytes_shape (opcode L : Nat) (fin : Bool) (hL : L < 2 ^ 64) :
    ∃ l7 ext, ws_frame_hdr_bytes opcode L fin
        = ((if fin then 128 else 0) + opcode % 16) :: l7 :: ext ∧ l7 < 128 ∧
      ext.length = (if l7 = 126 then 2 else if l7 = 127 then 8 else 0) ∧
      (if l7 = 126 then ((ext.getD 0 0) <<< 8) ||| (ext.getD 1 0)
        else if l7 = 127 then be_accumulate ext else l7) = L := by
  rcases Nat.lt_or_ge 125 L with h1 | h1
  · rcases Nat.lt_or_ge 65535 L with h2 | h2
    · refine ⟨127, _, ws_frame_hdr_bytes_large _ _ _ h2 hL, by norm_num, by simp, ?_⟩
      rw [if_neg (by norm_num), if_pos rfl]
      exact decode_len64 L hL
    · refine ⟨126, _, ws_frame_hdr_bytes_medium _ _ _ h1 h2, by norm_num, by simp, ?_⟩
      rw [if_pos rfl]
      simp only [List.getD_cons_zero, List.getD_cons_succ]
      exact decode_len16 L
  · refine ⟨L, [], ws_frame_hdr_bytes_small _ _ _ h1, by omega, ?_, ?_⟩
    · rw [if_neg (by omega), if_neg (by omega)]; rfl
    · rw [if_neg (by omega), if_neg (by omega)]

/-- C1: encode/decode round trip. Whatever bytes a successful `ws_send_frame`
has put on the wire for opcode, fin, masking choice and payload `P`, when a
reader finds them at the head of its stream, `ws_read_frame_hdr` and then
`ws_read_frame_payload` (destination capacity at least the payload length, any
scratch capacity) both return `WS_OK`; the decoded opcode, fin and masked flag
are the encoded ones, the RSV flags are clear, `payload_len` and `*out_len` are
the length of `P`, the first bytes of the destination are `P`, the rest of the
destination is untouched and the stream is left at the byte after the frame. -/
theorem frame_round_trip (nc : NetCodes) (hnc : nc.NET_NO_DATA < 0)
    (ws ws1 : World) (opcode : Nat) (P : List Nat) (fin mask scratch : Bool) (cap : Nat)
    (hop : opcode < 16) (hL : P.length < 2 ^ 31)
    (hsend : ws_send_frame ws opcode (some P) P.length fin mask scratch cap = some (WS_OK, ws1))
    (wr : World) (rest : List Nat)
    (hrx : rx_avail wr.rx = ws1.sent.drop ws.sent.length ++ rest)
    (h0 : ws_frame_hdr_t) (hk0 : h0.mask_key.length ≤ 4)
    (dst : List Nat) (dst_cap scratch_cap : Nat) (hcap : P.length ≤ dst_cap) :
    ∃ h w1 dst1 w2,
      ws_read_frame_hdr nc wr h0 = some (WS_OK, h, w1) ∧
      ws_read_frame_payload nc w1 h dst dst_cap scratch_cap = some (WS_OK, dst1, P.length, w2) ∧
      h.opcode = opcode ∧ h.fin = fin ∧ h.masked = mask ∧ h.payload_len = P.length ∧
      h.rsv1 = false ∧ h.rsv2 = false ∧ h.rsv3 = false ∧
      dst1.take P.length = P ∧ dst1.drop P.length = dst.drop P.length ∧
      rx_avail w2.rx = rest := by
  have hs := ws_send_frame_sent _ _ _ _ _ _ _ _ _ hsend
  obtain ⟨l7, ext, hH, hl7, hextlen, hdec⟩ :=
    ws_frame_hdr_bytes_shape opcode P.length fin (by
      have : (2 : Nat) ^ 31 < 2 ^ 64 := by norm_num
      omega)
  rw [hH] at hs
  have ho : opcode % 16 = opcode := Nat.mod_eq_of_lt hop
  rw [ho] at hs
  generalize hkey : (ws_make_mask_key ws).1 = key at hs
  have hkl : key.length = 4 := by rw [← hkey]; rfl
  -- the two header bytes, the key and the body as they are on the wire
  obtain ⟨b0, hb0⟩ : ∃ b0, b0 = (if fin then 128 else 0) + opcode := ⟨_, rfl⟩
  obtain ⟨b1, hb1⟩ : ∃ b1, b1 = (if mask then 128 else 0) + l7 := ⟨_, rfl⟩
  have hb0lt : b0 < 256 := by rw [hb0]; cases fin <;> simp <;> omega
  have hb1lt : b1 < 256 := by rw [hb1]; cases mask <;> simp <;> omega
  obtain ⟨f0, _, f1, f2, f3, f4⟩ := byte_bits b0 hb0lt
  obtain ⟨g0, g1, _⟩ := byte_bits b1 hb1lt
  have hfin : (b0 &&& 0x80 != 0) = fin := by
    rw [f0, hb0]
    cases fin
    · simp; omega
    · simp
  have hmask : (b1 &&& 0x80 != 0) = mask := by
    rw [g0, hb1]
    cases mask
    · simp; omega
    · simp
  have h7 : b1 &&& 0x7F = l7 := by
    rw [g1, hb1]; cases mask <;> simp <;> omega
  have hwire : ws1.sent.drop ws.sent.length
      = b0 :: b1 :: (ext ++ ((if mask then key else []) ++
          (if mask then ws_mask_chunk P key 0 P.length else P))) := by
    rw [hs, hb0, hb1]
    cases mask
    · simp [ws_wire_payload]
    · simp [ws_wire_payload, writeAt, or_80_of_lt l7 hl7]
  rw [hwire] at hrx
  have hrx2 : rx_avail wr.rx = b0 :: b1 :: (ext ++ ((if mask then key else []) ++
      ((if mask then ws_mask_chunk P key 0 P.length else P) ++ rest))) := by
    rw [hrx]; simp
  obtain ⟨w1, hr1, hav1, _⟩ := ws_read_frame_hdr_ok nc hnc wr h0 b0 b1 ext
    (if mask then key else []) _ hk0 hrx2
    (by unfold wire_ext_len; rw [h7]; exact hextlen)
    (by unfold wire_key_len; rw [hmask]; cases mask <;> simp [hkl])
  have hplen : (wire_hdr b0 b1 ext (if mask then key else [])).payload_len = P.length := by
    simp only [wire_hdr, wire_payload_len]
    rw [h7]; exact hdec
  have hmk : (wire_hdr b0 b1 ext (if mask then key else [])).masked = mask := by
    simp only [wire_hdr]; exact hmask
  obtain ⟨w2, hr2, hav2, _⟩ := ws_read_frame_payload_ok nc hnc w1
    (wire_hdr b0 b1 ext (if mask then key else [])) dst dst_cap scratch_cap
    (if mask then ws_mask_chunk P key 0 P.length else P) rest
    (by rw [hplen]; exact hcap) (by rw [hplen]; exact hL) hav1
    (by rw [hplen]; cases mask <;> simp [ws_mask_chunk_length])
  rw [hplen, hmk] at hr2
  have hbody : (if mask = true then
        xor_from (wire_hdr b0 b1 ext (if mask then key else [])).mask_key 0
          (if mask then ws_mask_chunk P key 0 P.length else P)
      else (if mask then ws_mask_chunk P key 0 P.length else P)) = P := by
    cases hm : mask
    · simp
    · simp only [if_true, wire_hdr]
      rw [hmask, hm]
      simp only [if_true]
      rw [xor_from_mask_chunk P key P.length 0 (by omega)]
      simp
  rw [hbody] at hr2
  refine ⟨_, w1, _, w2, hr1, hr2, ?_, ?_, hmk, hplen, ?_, ?_, ?_, ?_, ?_, hav2⟩
  · simp only [wire_hdr]; rw [f4, hb0]; cases fin <;> simp <;> omega
  · simp only [wire_hdr]; exact hfin
  · simp only [wire_hdr]; rw [f1, hb0]; cases fin <;> simp <;> omega
  · simp only [wire_hdr]; rw [f2, hb0]; cases fin <;> simp <;> omega
  · simp only [wire_hdr]; rw [f3, hb0]; cases fin <;> simp <;> omega
  · simp
  · simp

/-- Witness for C1: a final masked BINARY frame with a 126-byte payload (the
2-byte extended length), delivered to the reader in three pieces and followed
by two further bytes. -/
theorem frame_round_trip_witness :
    ∃ h w1 dst1 w2,
      ws_read_frame_hdr ⟨-3, -4, -5⟩
        ⟨[RxEvent.data [130], RxEvent.elapse 3,
          RxEvent.data ([254, 0, 126, 17, 34, 51, 68]
            ++ ws_mask_chunk (List.replicate 126 7) [17, 34, 51, 68] 0 100),
          RxEvent.data (ws_mask_chunk (List.replicate 126 7) [17, 34, 51, 68] 100 26
            ++ [129, 0])], [], [], [], 0, 0, 0⟩ hdr0 = some (WS_OK, h, w1) ∧
      ws_read_frame_payload ⟨-3, -4, -5⟩ w1 h (List.replicate 200 0) 200 16
        = some (WS_OK, dst1, (List.replicate 126 7).length, w2) ∧
      h.opcode = 2 ∧ h.fin = true ∧ h.masked = true ∧
      h.payload_len = (List.replicate 126 7).length ∧
      h.rsv1 = false ∧ h.rsv2 = false ∧ h.rsv3 = false ∧
      dst1.take (List.replicate 126 7).length = List.replicate 126 7 ∧
      dst1.drop (List.replicate 126 7).length
        = (List.replicate 200 0).drop (List.replicate 126 7).length ∧
      rx_avail w2.rx = [129, 0] :=
  frame_round_trip ⟨-3, -4, -5⟩ (by decide)
    ⟨[], [], [], [0x11, 0x22, 0x33, 0x44], 0, 0, 0⟩
    ⟨[], [], [[130, 254, 0, 126, 17, 34, 51, 68],
      ws_mask_chunk (List.replicate 126 7) [17, 34, 51, 68] 0 126], [], 0, 0, 0⟩
    2 (List.replicate 126 7) true true true 1500 (by decide) (by decide!) (by decide!)
    _ [129, 0] (by decide!) hdr0 (by decide) (List.replicate 200 0) 200 16 (by decide!)

/-- On a transport that accepts everything, `ws_send_all` of a non-empty range
succeeds with a single write. -/
theorem ws_send_all_accepting (w : World) (buf : List Nat) (len : Nat)
    (htx : w.txScript = []) (h0 : 0 < len) (hint : len < 2 ^ 31) :
    ws_send_all w buf len = some (WS_OK, { w with tx := w.tx ++ [buf.take len] }) := by
  have hn : toInt32 (len - 0) = ((len : Nat) : Int) := by simpa using toInt32_of_lt len hint
  unfold ws_send_all
  rw [ws_send_all_loop, if_pos h0, hn]
  simp only [net_sock_send, htx, List.drop_zero, Int.toNat_ofNat]
  rw [if_neg (by omega)]
  cases len with
  | zero => omega
  | succ n =>
    rw [ws_send_all_loop, if_neg (by omega)]

/-- On a transport that accepts everything, an unmasked `ws_send_frame` with a
non-empty payload succeeds with two writes: the header and the payload. -/
theorem ws_send_frame_unmasked_accepting (w : World) (opcode : Nat) (p : List Nat) (L : Nat)
    (fin scratch : Bool) (cap : Nat) (htx : w.txScript = []) (h0 : 0 < L) (hint : L < 2 ^ 31) :
    ws_send_frame w opcode (some p) L fin false scratch cap
      = some (WS_OK, { w with tx := w.tx ++ [ws_frame_hdr_bytes opcode L fin] ++ [p.take L] }) := by
  have hlen : 0 < (ws_frame_hdr_bytes opcode L fin).length ∧
      (ws_frame_hdr_bytes opcode L fin).length < 2 ^ 31 := by
    unfold ws_frame_hdr_bytes
    simp only
    split_ifs <;> simp
  simp only [ws_send_frame, Bool.false_eq_true, if_false]
  rw [ws_send_all_accepting w _ _ htx hlen.1 hlen.2, List.take_length]
  simp only [ne_eq, not_true_eq_false, if_false, Bool.not_false, if_true]
  rw [if_neg (by omega), ws_send_all_accepting
    { w with tx := w.tx ++ [ws_frame_hdr_bytes opcode L fin] } p L htx h0 hint]

theorem xor_from_involutive (key : List Nat) :
    ∀ (P : List Nat) (i : Nat), xor_from key i (xor_from key i P) = P := by
  intro P
  induction P with
  | nil => intro i; rfl
  | cons b bs ih => intro i; simp only [xor_from, xor_xor_cancel, ih]

theorem xor_from_length (key : List Nat) :
    ∀ (P : List Nat) (i : Nat), (xor_from key i P).length = P.length := by
  intro P
  induction P with
  | nil => intro i; rfl
  | cons b bs ih => intro i; simp only [xor_from, List.length_cons, ih]

theorem rx_avail_le_weight : ∀ rx : List RxEvent, (rx_avail rx).length ≤ rx_weight rx := by
  intro rx
  induction rx with
  | nil => simp [rx_avail, rx_weight]
  | cons e rest ih =>
    cases e with
    | data bs => simp only [rx_avail, rx_weight, List.length_append]; omega
    | code c => simp [rx_avail, rx_weight]
    | elapse ms => simp only [rx_avail, rx_weight]; omega

/-- Server side of C5: a well-formed masked TEXT or BINARY frame whose payload
fits the caller's buffer is returned with its opcode and length, unmasked, and
the session stays open. -/
theorem ws_server_recv_data_frame (nc : NetCodes) (hnc : nc.NET_NO_DATA < 0)
    (c : ws_server_client_t) (w : World) (buffer : List Nat) (buffer_size : Nat)
    (out_opcode : Option Nat) (b0 b1 : Nat) (ext key P rest : List Nat)
    (hopen : c.open_ = true)
    (hrx : rx_avail w.rx = b0 :: b1 :: (ext ++ (key ++ (xor_from key 0 P ++ rest))))
    (hext : ext.length = wire_ext_len b1) (hkey : key.length = wire_key_len b1)
    (hlen : (wire_hdr b0 b1 ext key).payload_len = P.length)
    (hfin : (wire_hdr b0 b1 ext key).fin = true)
    (hrsv1 : (wire_hdr b0 b1 ext key).rsv1 = false)
    (hrsv2 : (wire_hdr b0 b1 ext key).rsv2 = false)
    (hrsv3 : (wire_hdr b0 b1 ext key).rsv3 = false)
    (hmasked : (wire_hdr b0 b1 ext key).masked = true)
    (hop : (wire_hdr b0 b1 ext key).opcode = WS_OPCODE_TEXT ∨
      (wire_hdr b0 b1 ext key).opcode = WS_OPCODE_BINARY)
    (h1 : 1 ≤ P.length) (hfit : P.length ≤ buffer_size) (hint : P.length < 2 ^ 31) :
    ∃ w1, ws_server_recv nc c w buffer buffer_size out_opcode
        = some ((P.length : Int), c, P ++ buffer.drop P.length,
            out_opcode.map (fun _ => (wire_hdr b0 b1 ext key).opcode), w1) ∧
      rx_avail w1.rx = rest ∧ RecvOnly w w1 := by
  obtain ⟨wa, ha, hava, hroa⟩ := ws_read_frame_hdr_ok nc hnc w hdr0 b0 b1 ext key _
    (by decide) hrx hext hkey
  have hmk : (wire_hdr b0 b1 ext key).mask_key = key := by
    simp only [wire_hdr] at hmasked ⊢
    rw [if_pos hmasked]
  generalize wire_hdr b0 b1 ext key = h at *
  obtain ⟨wb, hb, havb, hrob⟩ := ws_recv_exact_ok nc hnc wa buffer h.payload_len
    (by rw [hava, hlen]; simp [xor_from_length]) (by rw [hlen]; exact hint)
  rw [hava, hlen] at hb havb
  have hxl := xor_from_length key P 0
  rw [List.take_append_of_le_length (by omega), List.take_of_length_le (by omega)] at hb
  rw [List.drop_append_of_le_length (by omega), List.drop_of_length_le (by omega)] at havb
  refine ⟨wb, ?_, by simpa using havb, hroa.chain hrob⟩
  unfold ws_server_recv
  rw [if_neg (by simp [hopen]; omega)]
  rw [ws_server_recv_loop]
  unfold ws_server_recv_step
  rw [ha]
  simp only [ne_eq, not_true_eq_false, if_false, hrsv1, hrsv2, hrsv3, hfin, hmasked,
    Bool.or_self, Bool.false_eq_true, Bool.not_true, Bool.false_or]
  have hnc0 : (h.opcode == WS_OPCODE_CONT) = false := by
    rcases hop with e | e <;> rw [e] <;> decide
  have hnctl : (h.opcode == WS_OPCODE_CLOSE || h.opcode == WS_OPCODE_PING
      || h.opcode == WS_OPCODE_PONG) = false := by
    rcases hop with e | e <;> rw [e] <;> decide
  rw [hnc0, hnctl]
  simp only [Bool.false_eq_true, if_false, Bool.false_and]
  rw [if_neg (by omega), if_pos (by omega), hlen, hb]
  simp only [ne_eq, not_true_eq_false, if_false]
  rw [hmk, ← hxl, ws_unmask_eq, xor_from_involutive, hxl]
  unfold ws_server_dispatch
  have hping : h.opcode ≠ WS_OPCODE_PING := by
    rcases hop with e | e <;> rw [e] <;> decide
  have hpong : h.opcode ≠ WS_OPCODE_PONG := by
    rcases hop with e | e <;> rw [e] <;> decide
  have hclose : h.opcode ≠ WS_OPCODE_CLOSE := by
    rcases hop with e | e <;> rw [e] <;> decide
  rw [if_neg hping, if_neg hpong, if_neg hclose, if_pos hop, hlen, toInt32_of_lt _ hint]

/-- On a transport that accepts everything, the protocol-error block of the
server writes the unmasked CLOSE frame `88 02 03 EA`. -/
theorem ws_server_protocol_error_accepting (c : ws_server_client_t) (w : World)
    (buffer : List Nat) (out_opcode : Option Nat) (htx : w.txScript = []) :
    ws_server_protocol_error c w buffer out_opcode
      = some (WS_ERR, { c with open_ := false }, buffer, out_opcode,
          { w with tx := w.tx ++ [[0x88, 0x02]] ++ [[0x03, 0xEA]] }) := by
  unfold ws_server_protocol_error
  rw [ws_send_frame_unmasked_accepting w WS_OPCODE_CLOSE [0x03, 0xEA] 2 true c.scratch
    c.scratch_cap htx (by norm_num) (by norm_num)]
  rfl

/-- The protocol violations that `ws_server_recv` answers. When the header of
the next frame has been received and has an RSV bit set, FIN clear, opcode
CONT, the mask bit clear, or a control opcode with `payload_len > 125`, then,
whatever the payload length and the buffer size, `ws_server_recv` writes the
unmasked CLOSE frame `88 02 03 EA` (code 1002), clears `open` and returns
`WS_ERR`. For an unknown opcode (3..7, 0xB..0xF) it does so when the payload
fits the caller's buffer and has been received. -/
theorem server_protocol_violation (nc : NetCodes) (hnc : nc.NET_NO_DATA < 0)
    (c : ws_server_client_t) (w : World) (buffer : List Nat) (buffer_size : Nat)
    (out_opcode : Option Nat) (b0 b1 : Nat) (ext key rest : List Nat)
    (hopen : c.open_ = true) (hbs : 1 ≤ buffer_size) (htx : w.txScript = [])
    (hrx : rx_avail w.rx = b0 :: b1 :: (ext ++ (key ++ rest)))
    (hext : ext.length = wire_ext_len b1) (hkey : key.length = wire_key_len b1)
    (hviol :
      ((wire_hdr b0 b1 ext key).rsv1 = true ∨ (wire_hdr b0 b1 ext key).rsv2 = true ∨
        (wire_hdr b0 b1 ext key).rsv3 = true ∨ (wire_hdr b0 b1 ext key).fin = false ∨
        (wire_hdr b0 b1 ext key).opcode = WS_OPCODE_CONT ∨
        (wire_hdr b0 b1 ext key).masked = false ∨
        (((wire_hdr b0 b1 ext key).opcode = WS_OPCODE_CLOSE ∨
            (wire_hdr b0 b1 ext key).opcode = WS_OPCODE_PING ∨
            (wire_hdr b0 b1 ext key).opcode = WS_OPCODE_PONG) ∧
          (wire_hdr b0 b1 ext key).payload_len > 125)) ∨
      (((wire_hdr b0 b1 ext key).opcode ≠ WS_OPCODE_TEXT ∧
          (wire_hdr b0 b1 ext key).opcode ≠ WS_OPCODE_BINARY ∧
          (wire_hdr b0 b1 ext key).opcode ≠ WS_OPCODE_CLOSE ∧
          (wire_hdr b0 b1 ext key).opcode ≠ WS_OPCODE_PING ∧
          (wire_hdr b0 b1 ext key).opcode ≠ WS_OPCODE_PONG) ∧
        (wire_hdr b0 b1 ext key).payload_len ≤ buffer_size ∧
        (wire_hdr b0 b1 ext key).payload_len ≤ rest.length ∧
        (wire_hdr b0 b1 ext key).payload_len < 2 ^ 31)) :
    ∃ buffer1 w1, ws_server_recv nc c w buffer buffer_size out_opcode
        = some (WS_ERR, { c with open_ := false }, buffer1, out_opcode, w1) ∧
      w1.sent = w.sent ++ [0x88, 0x02, 0x03, 0xEA] := by
  obtain ⟨wa, ha, hava, hroa⟩ := ws_read_frame_hdr_ok nc hnc w hdr0 b0 b1 ext key _
    (by decide) hrx hext hkey
  generalize wire_hdr b0 b1 ext key = h at *
  obtain ⟨ra1, ra2, _⟩ := hroa
  have htxa : wa.txScript = [] := by rw [ra1, htx]
  have hsent : ∀ wx : World, wx.tx = w.tx →
      ({ wx with tx := wx.tx ++ [[0x88, 0x02]] ++ [[0x03, 0xEA]] } : World).sent
        = w.sent ++ [0x88, 0x02, 0x03, 0xEA] := by
    intro wx hx
    simp [World.sent, hx]
  unfold ws_server_recv
  rw [if_neg (by simp [hopen]; omega)]
  rw [ws_server_recv_loop]
  unfold ws_server_recv_step
  rw [ha]
  simp only [ne_eq, not_true_eq_false, if_false]
  by_cases c1 : (h.rsv1 || h.rsv2 || h.rsv3) = true
  · rw [if_pos c1, ws_server_protocol_error_accepting c wa buffer out_opcode htxa]
    exact ⟨buffer, _, rfl, hsent wa ra2⟩
  rw [if_neg c1]
  by_cases c2 : (!h.fin || h.opcode == WS_OPCODE_CONT) = true
  · rw [if_pos c2, ws_server_protocol_error_accepting c wa buffer out_opcode htxa]
    exact ⟨buffer, _, rfl, hsent wa ra2⟩
  rw [if_neg c2]
  by_cases c3 : (!h.masked) = true
  · rw [if_pos c3, ws_server_protocol_error_accepting c wa buffer out_opcode htxa]
    exact ⟨buffer, _, rfl, hsent wa ra2⟩
  rw [if_neg c3]
  by_cases c4 : ((h.opcode == WS_OPCODE_CLOSE || h.opcode == WS_OPCODE_PING
      || h.opcode == WS_OPCODE_PONG) && decide (h.payload_len > 125)) = true
  · rw [if_pos c4, ws_server_protocol_error_accepting c wa buffer out_opcode htxa]
    exact ⟨buffer, _, rfl, hsent wa ra2⟩
  rw [if_neg c4]
  -- only the unknown-opcode case is left
  have hunk : (h.opcode ≠ WS_OPCODE_TEXT ∧ h.opcode ≠ WS_OPCODE_BINARY ∧
      h.opcode ≠ WS_OPCODE_CLOSE ∧ h.opcode ≠ WS_OPCODE_PING ∧ h.opcode ≠ WS_OPCODE_PONG) ∧
      h.payload_len ≤ buffer_size ∧ h.payload_len ≤ rest.length ∧ h.payload_len < 2 ^ 31 := by
    rcases hviol with hv | hv
    · exfalso
      simp only [Bool.or_eq_true, not_or, Bool.not_eq_true, Bool.not_eq_true', beq_iff_eq,
        Bool.and_eq_true, decide_eq_true_eq, not_and] at c1 c2 c3 c4
      rcases hv with v | v | v | v | v | v | ⟨v1, v2⟩
      · rw [c1.1.1] at v; cases v
      · rw [c1.1.2] at v; cases v
      · rw [c1.2] at v; cases v
      · exact c2.1 v
      · exact c2.2 v
      · exact c3 v
      · have := c4 (by
          rcases v1 with e | e | e
          · exact Or.inl (Or.inl e)
          · exact Or.inl (Or.inr e)
          · exact Or.inr e)
        omega
    · exact hv
  obtain ⟨⟨u1, u2, u3, u4, u5⟩, hfit, havl, hint⟩ := hunk
  rw [if_neg (by omega)]
  have hdisp : ∀ (wx : World) (bufx : List Nat), wx.txScript = [] →
      ws_server_dispatch c wx h bufx out_opcode
        = some (some WS_ERR, { c with open_ := false }, bufx, out_opcode,
            { wx with tx := wx.tx ++ [[0x88, 0x02]] ++ [[0x03, 0xEA]] }) := by
    intro wx bufx hx
    unfold ws_server_dispatch
    rw [if_neg u4, if_neg u5, if_neg u3, if_neg (by
      intro hh; rcases hh with e | e
      · exact u1 e
      · exact u2 e), ws_server_protocol_error_accepting c wx bufx out_opcode hx]
  by_cases hz : h.payload_len > 0
  · rw [if_pos hz]
    obtain ⟨wb, hb, _, hrob⟩ := ws_recv_exact_ok nc hnc wa buffer h.payload_len
      (by rw [hava]; exact havl) hint
    obtain ⟨rb1, rb2, _⟩ := hrob
    rw [hb]
    simp only [ne_eq, not_true_eq_false, if_false]
    rw [hdisp wb _ (by rw [rb1, htxa])]
    exact ⟨_, _, rfl, hsent wb (by rw [rb2, ra2])⟩
  · rw [if_neg hz, hdisp wa _ htxa]
    exact ⟨_, _, rfl, hsent wa ra2⟩

theorem pending_bytes_length (ctx : ws_client_ctx_t) (h : PendingOk ctx) :
    (pending_bytes ctx).length = ctx.pending_len - ctx.pending_off := by
  unfold pending_bytes
  rw [List.length_drop, List.length_take, Nat.min_eq_left h.2]

theorem ws_client_take_pending_spec :
    ∀ (fuel : Nat) (ctx : ws_client_ctx_t) (buf : List Nat) (len got : Nat),
      PendingOk ctx → got ≤ len → len - got ≤ fuel →
      ws_client_take_pending fuel ctx buf len got
        = ({ ctx with pending_off :=
              ctx.pending_off + min (len - got) (ctx.pending_len - ctx.pending_off) },
            writeAt buf got ((pending_bytes ctx).take (len - got)),
            got + min (len - got) (ctx.pending_len - ctx.pending_off)) := by
  intro fuel
  induction fuel with
  | zero =>
    intro ctx buf len got hp hle hf
    have e : len - got = 0 := by omega
    simp [ws_client_take_pending, e, writeAt]
  | succ fuel ih =>
    intro ctx buf len got hp hle hf
    rw [ws_client_take_pending]
    by_cases hc : got < len ∧ ctx.pending_off < ctx.pending_len
    · rw [if_pos hc]
      have hp1 : PendingOk { ctx with pending_off := ctx.pending_off + 1 } :=
        ⟨by show ctx.pending_off + 1 ≤ ctx.pending_len; omega, hp.2⟩
      rw [ih _ _ len (got + 1) hp1 (by omega) (by omega)]
      have hlt : ctx.pending_off < (ctx.pending.take ctx.pending_len).length := by
        rw [List.length_take, Nat.min_eq_left hp.2]; exact hc.2
      have hpb : pending_bytes ctx
          = ctx.pending.getD ctx.pending_off 0
            :: pending_bytes { ctx with pending_off := ctx.pending_off + 1 } := by
        unfold pending_bytes
        rw [List.drop_eq_getElem_cons hlt]
        congr 1
        rw [List.getElem_take, List.getD_eq_getElem]
      have e1 : len - got = (len - (got + 1)) + 1 := by omega
      have hw := writeAt_writeAt buf [ctx.pending.getD ctx.pending_off 0]
        ((pending_bytes { ctx with pending_off := ctx.pending_off + 1 }).take (len - (got + 1)))
        got
      simp only [List.length_singleton] at hw
      rw [hw, hpb, e1, List.take_succ_cons]
      simp only [Prod.mk.injEq, List.singleton_append, true_and]
      constructor
      · congr 1
        show ctx.pending_off + 1 + min (len - (got + 1)) (ctx.pending_len - (ctx.pending_off + 1))
          = ctx.pending_off + min (len - (got + 1) + 1) (ctx.pending_len - ctx.pending_off)
        omega
      · show got + 1 + min (len - (got + 1)) (ctx.pending_len - (ctx.pending_off + 1))
          = got + min (len - (got + 1) + 1) (ctx.pending_len - ctx.pending_off)
        omega
    · rw [if_neg hc]
      have hm : min (len - got) (ctx.pending_len - ctx.pending_off) = 0 := by
        have := hp.1
        omega
      rw [hm]
      have ht : (pending_bytes ctx).take (len - got) = [] := by
        by_cases hg : got < len
        · have : ctx.pending_len - ctx.pending_off = 0 := by omega
          have hl := pending_bytes_length ctx hp
          rw [this] at hl
          rw [List.length_eq_zero.mp hl]
          simp
        · have : len - got = 0 := by omega
          rw [this]; simp
      rw [ht]
      simp [writeAt]

theorem SameSession.same_ctx (ctx : ws_client_ctx_t) : SameSession ctx ctx :=
  ⟨rfl, rfl, rfl, rfl, rfl, rfl, rfl, rfl, rfl⟩

theorem SameSession.chain_ctx {a b c : ws_client_ctx_t} (h1 : SameSession a b)
    (h2 : SameSession b c) : SameSession a c := by
  obtain ⟨a1, a2, a3, a4, a5, a6, a7, a8, a9⟩ := h1
  obtain ⟨b1, b2, b3, b4, b5, b6, b7, b8, b9⟩ := h2
  exact ⟨b1.trans a1, b2.trans a2, b3.trans a3, b4.trans a4, b5.trans a5, b6.trans a6,
    b7.trans a7, b8.trans a8, b9.trans a9⟩

theorem ws_client_recv_exact_loop_ok (nc : NetCodes) (len start : Nat) :
    ∀ (fuel : Nat) (w : World) (buf : List Nat) (got : Nat), got ≤ len → len - got < fuel →
      len - got ≤ (rx_avail w.rx).length → len - got < 2 ^ 31 →
      ∃ w1, ws_client_recv_exact_loop nc len start fuel w buf got
          = some (WS_OK, writeAt buf got ((rx_avail w.rx).take (len - got)), w1) ∧
        rx_avail w1.rx = (rx_avail w.rx).drop (len - got) ∧ RecvOnly w w1 := by
  intro fuel
  induction fuel with
  | zero => intro w buf got _ h; omega
  | succ fuel ih =>
    intro w buf got hle hfuel havail hint
    rw [ws_client_recv_exact_loop]
    by_cases hlt : got < len
    · rw [if_pos hlt]
      have hne : rx_avail w.rx ≠ [] := by
        intro h0
        rw [h0] at havail
        simp at havail
        omega
      have hn : toInt32 (len - got) = ((len - got : Nat) : Int) := toInt32_of_lt _ hint
      obtain ⟨k, w1, hr, hk0, hkn, hav, hro⟩ :=
        net_sock_recv_data w (toInt32 (len - got)) (by rw [hn]; omega) hne
      rw [hn, Int.toNat_ofNat] at hkn
      rw [hr]
      simp only
      rw [if_pos (by omega), Int.toNat_ofNat]
      obtain ⟨w2, h2, hav2, hro2⟩ := ih w1 (writeAt buf got ((rx_avail w.rx).take k)) (got + k)
        (by omega) (by omega) (by rw [hav, List.length_drop]; omega) (by omega)
      refine ⟨w2, ?_, ?_, hro.chain hro2⟩
      · rw [h2, hav]
        have hlen : ((rx_avail w.rx).take k).length = k := by
          rw [List.length_take]; omega
        have := writeAt_writeAt buf ((rx_avail w.rx).take k)
          (List.take (len - (got + k)) (List.drop k (rx_avail w.rx))) got
        rw [hlen] at this
        rw [this]
        have e : len - got = k + (len - (got + k)) := by omega
        rw [e, List.take_add]
      · rw [hav2, hav, List.drop_drop]
        congr 1
        omega
    · rw [if_neg hlt]
      have e : len - got = 0 := by omega
      refine ⟨w, ?_, ?_, RecvOnly.same w⟩
      · rw [e, List.take_zero, writeAt_nil]
      · rw [e, List.drop_zero]

/-- When `len > 0` bytes are ready in the pending buffer and on the transport
together, `ws_client_recv_exact` returns `WS_OK` with exactly the next `len`
bytes of that stream, pending bytes first. -/
theorem ws_client_recv_exact_ok (nc : NetCodes) (ctx : ws_client_ctx_t) (w : World)
    (buf : List Nat) (len : Nat) (hp : PendingOk ctx) (h0 : 0 < len)
    (havail : len ≤ (client_avail ctx w).length) (hint : len < 2 ^ 31) :
    ∃ ctx1 w1, ws_client_recv_exact nc ctx w buf len
        = some (WS_OK, ctx1, (client_avail ctx w).take len ++ buf.drop len, w1) ∧
      client_avail ctx1 w1 = (client_avail ctx w).drop len ∧ PendingOk ctx1 ∧
      SameSession ctx ctx1 ∧ RecvOnly w w1 := by
  have hpl := pending_bytes_length ctx hp
  unfold client_avail at havail ⊢
  rw [List.length_append] at havail
  obtain ⟨n, hn⟩ : ∃ n, n = min len (ctx.pending_len - ctx.pending_off) := ⟨_, rfl⟩
  have hnle : n ≤ len := by omega
  have hnpb : n ≤ (pending_bytes ctx).length := by omega
  obtain ⟨w1, hloop, hav1, hro1⟩ := ws_client_recv_exact_loop_ok nc len (HAL_GetTick w)
    (rx_weight w.rx + 1) w (writeAt buf 0 ((pending_bytes ctx).take len)) n hnle
    (by have := rx_avail_le_weight w.rx; omega) (by omega) (by omega)
  unfold ws_client_recv_exact
  rw [if_neg (by omega), ws_client_take_pending_spec len ctx buf len 0 hp (Nat.zero_le _)
    (by omega)]
  simp only [Nat.sub_zero, Nat.zero_add, ← hn]
  rw [hloop]
  simp only
  have htl : ((pending_bytes ctx).take len).length = n := by
    rw [List.length_take]; omega
  have hbuf : writeAt (writeAt buf 0 ((pending_bytes ctx).take len)) n
        ((rx_avail w.rx).take (len - n))
      = (pending_bytes ctx ++ rx_avail w.rx).take len ++ buf.drop len := by
    have hw := writeAt_writeAt buf ((pending_bytes ctx).take len)
      ((rx_avail w.rx).take (len - n)) 0
    rw [Nat.zero_add, htl] at hw
    rw [hw, writeAt_zero, List.take_append_eq_append_take]
    have e : len - (pending_bytes ctx).length = len - n := by omega
    rw [e]
    congr 2
    simp only [List.length_append, htl, List.length_take]
    omega
  rw [hbuf]
  have hpd : ∀ ctx2 : ws_client_ctx_t,
      ctx2 = (if ctx.pending_off + n ≥ ctx.pending_len then
          { ctx with pending_off := 0, pending_len := 0 }
        else { ctx with pending_off := ctx.pending_off + n }) →
      pending_bytes ctx2 = (pending_bytes ctx).drop len ∧ PendingOk ctx2 ∧
        SameSession ctx ctx2 := by
    intro ctx2 h2
    by_cases hc : ctx.pending_off + n ≥ ctx.pending_len
    · rw [if_pos hc] at h2
      subst h2
      refine ⟨?_, ⟨Nat.le_refl _, Nat.zero_le _⟩, SameSession.same_ctx _⟩
      rw [List.drop_eq_nil_of_le (by omega)]
      simp [pending_bytes]
    · rw [if_neg hc] at h2
      subst h2
      refine ⟨?_, ⟨by show ctx.pending_off + n ≤ ctx.pending_len; omega, hp.2⟩,
        SameSession.same_ctx _⟩
      have : n = len := by omega
      simp only [pending_bytes, List.drop_drop, this]
  obtain ⟨q1, q2, q3⟩ := hpd _ rfl
  refine ⟨_, w1, rfl, ?_, q2, q3, hro1⟩
  rw [q1, hav1, List.drop_append_eq_append_drop]
  congr 2
  omega

theorem ws_client_read_frame_hdr_ext_ok (nc : NetCodes) (ctx : ws_client_ctx_t) (w : World)
    (b1 : Nat) (ext rest : List Nat) (hp : PendingOk ctx)
    (hrx : client_avail ctx w = ext ++ rest) (hext : ext.length = wire_ext_len b1) :
    ∃ ctx1 w1, ws_client_read_frame_hdr_ext nc ctx w (b1 &&& 0x7F)
        = some (WS_OK, wire_payload_len b1 ext, ctx1, w1) ∧
      client_avail ctx1 w1 = rest ∧ PendingOk ctx1 ∧ SameSession ctx ctx1 ∧ RecvOnly w w1 := by
  unfold ws_client_read_frame_hdr_ext wire_payload_len
  unfold wire_ext_len at hext
  by_cases h126 : b1 &&& 0x7F = 126
  · rw [if_pos h126] at hext ⊢
    rw [if_pos h126]
    obtain ⟨cb, wb, hb, havb, hpb, hsb, hrob⟩ := ws_client_recv_exact_ok nc ctx w [0, 0] 2 hp
      (by norm_num) (by rw [hrx]; simp; omega) (by norm_num)
    rw [hrx] at hb havb
    rw [List.take_append_of_le_length (by omega), List.take_of_length_le (by omega)] at hb
    rw [List.drop_append_of_le_length (by omega), List.drop_of_length_le (by omega)] at havb
    refine ⟨cb, wb, ?_, by simpa using havb, hpb, hsb, hrob⟩
    rw [hb]
    simp
  · rw [if_neg h126] at hext ⊢
    rw [if_neg h126]
    by_cases h127 : b1 &&& 0x7F = 127
    · rw [if_pos h127] at hext ⊢
      rw [if_pos h127]
      obtain ⟨cb, wb, hb, havb, hpb, hsb, hrob⟩ := ws_client_recv_exact_ok nc ctx w
        [0, 0, 0, 0, 0, 0, 0, 0] 8 hp (by norm_num) (by rw [hrx]; simp; omega) (by norm_num)
      rw [hrx] at hb havb
      rw [List.take_append_of_le_length (by omega), List.take_of_length_le (by omega)] at hb
      rw [List.drop_append_of_le_length (by omega), List.drop_of_length_le (by omega)] at havb
      refine ⟨cb, wb, ?_, by simpa using havb, hpb, hsb, hrob⟩
      rw [hb]
      simp only [List.drop_succ_cons, List.drop_nil, List.append_nil]
      rw [List.take_of_length_le (by omega)]
    · rw [if_neg h127] at hext ⊢
      rw [if_neg h127]
      have : ext = [] := List.length_eq_zero.mp hext
      subst this
      exact ⟨ctx, w, rfl, by simpa using hrx, hp, SameSession.same_ctx _, RecvOnly.same _⟩

theorem ws_client_read_frame_hdr_key_ok (nc : NetCodes) (ctx : ws_client_ctx_t) (w : World)
    (h : ws_frame_hdr_t) (key rest : List Nat) (hp : PendingOk ctx)
    (hk0 : h.mask_key.length ≤ 4) (hrx : client_avail ctx w = key ++ rest)
    (hkey : key.length = if h.masked then 4 else 0) :
    ∃ ctx1 w1, ws_client_read_frame_hdr_key nc ctx w h
        = some (WS_OK, { h with mask_key := if h.masked then key else [0, 0, 0, 0] },
            ctx1, w1) ∧
      client_avail ctx1 w1 = rest ∧ PendingOk ctx1 ∧ SameSession ctx ctx1 ∧ RecvOnly w w1 := by
  unfold ws_client_read_frame_hdr_key
  by_cases hm : h.masked = true
  · rw [if_pos hm] at hkey ⊢
    rw [if_pos hm]
    obtain ⟨cc, wc, hc, havc, hpc, hsc, hroc⟩ := ws_client_recv_exact_ok nc ctx w h.mask_key 4
      hp (by norm_num) (by rw [hrx]; simp; omega) (by norm_num)
    rw [hrx] at hc havc
    rw [List.take_append_of_le_length (by omega), List.take_of_length_le (by omega),
      List.drop_of_length_le (by omega)] at hc
    rw [List.drop_append_of_le_length (by omega), List.drop_of_length_le (by omega)] at havc
    refine ⟨cc, wc, ?_, by simpa using havc, hpc, hsc, hroc⟩
    rw [hc]
    simp
  · rw [if_neg hm] at hkey ⊢
    rw [if_neg hm]
    have : key = [] := List.length_eq_zero.mp hkey
    subst this
    exact ⟨ctx, w, rfl, by simpa using hrx, hp, SameSession.same_ctx _, RecvOnly.same _⟩

/-- The header checks of the client's reader do not look at the mask key. -/
theorem ws_client_hdr_rejected_key (h : ws_frame_hdr_t) (k : List Nat) :
    ws_client_hdr_rejected { h with mask_key := k } = ws_client_hdr_rejected h := rfl

/-- `ws_client_read_frame_hdr` on a stream that starts with a complete frame
header which passes the reader's own checks. -/
theorem ws_client_read_frame_hdr_ok (nc : NetCodes) (ctx : ws_client_ctx_t) (w : World)
    (h0 : ws_frame_hdr_t) (b0 b1 : Nat) (ext key rest : List Nat) (hp : PendingOk ctx)
    (hk0 : h0.mask_key.length ≤ 4)
    (hrx : client_avail ctx w = b0 :: b1 :: (ext ++ (key ++ rest)))
    (hext : ext.length = wire_ext_len b1) (hkey : key.length = wire_key_len b1)
    (hacc : ws_client_hdr_rejected (wire_hdr b0 b1 ext key) = false) :
    ∃ ctx1 w1, ws_client_read_frame_hdr nc ctx w h0
        = some (WS_OK, wire_hdr b0 b1 ext key, ctx1, w1) ∧
      client_avail ctx1 w1 = rest ∧ PendingOk ctx1 ∧ SameSession ctx ctx1 ∧ RecvOnly w w1 := by
  obtain ⟨ca, wa, ha, hava, hpa, hsa, hroa⟩ := ws_client_recv_exact_ok nc ctx w [0, 0] 2 hp
    (by norm_num) (by rw [hrx]; simp) (by norm_num)
  rw [hrx] at ha hava
  simp only [List.take_succ_cons, List.take_zero, List.drop_succ_cons, List.drop_zero,
    List.drop_nil, List.append_nil] at ha hava
  obtain ⟨cb, wb, hb, havb, hpb, hsb, hrob⟩ :=
    ws_client_read_frame_hdr_ext_ok nc ca wa b1 ext (key ++ rest) hpa hava hext
  obtain ⟨cc, wc, hc, havc, hpc, hsc, hroc⟩ := ws_client_read_frame_hdr_key_ok nc cb wb
    { h0 with fin := (b0 &&& 0x80) != 0, rsv1 := (b0 &&& 0x40) != 0,
              rsv2 := (b0 &&& 0x20) != 0, rsv3 := (b0 &&& 0x10) != 0,
              opcode := b0 &&& 0x0F, masked := (b1 &&& 0x80) != 0,
              payload_len := wire_payload_len b1 ext } key rest hpb hk0 havb hkey
  refine ⟨cc, wc, ?_, havc, hpc, (hsa.chain_ctx hsb).chain_ctx hsc, (hroa.chain hrob).chain hroc⟩
  unfold ws_client_read_frame_hdr
  rw [ha]
  simp only [ne_eq, not_true_eq_false, if_false, List.getD_cons_zero, List.getD_cons_succ]
  rw [hb]
  simp only [ne_eq, not_true_eq_false, if_false]
  have hrej : ws_client_hdr_rejected
      { h0 with fin := (b0 &&& 0x80) != 0, rsv1 := (b0 &&& 0x40) != 0,
                rsv2 := (b0 &&& 0x20) != 0, rsv3 := (b0 &&& 0x10) != 0,
                opcode := b0 &&& 0x0F, masked := (b1 &&& 0x80) != 0,
                payload_len := wire_payload_len b1 ext } = false := by
    rw [← hacc]; rfl
  rw [hrej]
  simp only [Bool.false_eq_true, if_false]
  rw [hc]
  rfl

/-- `ws_client_read_frame_hdr` on a stream that starts with the two header
bytes and the extended length of a header that fails the reader's own checks:
it returns `WS_ERR` without reading the mask key. -/
theorem ws_client_read_frame_hdr_rejected (nc : NetCodes) (ctx : ws_client_ctx_t) (w : World)
    (h0 : ws_frame_hdr_t) (b0 b1 : Nat) (ext rest : List Nat) (hp : PendingOk ctx)
    (hrx : client_avail ctx w = b0 :: b1 :: (ext ++ rest))
    (hext : ext.length = wire_ext_len b1)
    (hrej : ws_client_hdr_rejected (wire_hdr b0 b1 ext []) = true) :
    ∃ h ctx1 w1, ws_client_read_frame_hdr nc ctx w h0 = some (WS_ERR, h, ctx1, w1) ∧
      client_avail ctx1 w1 = rest ∧ PendingOk ctx1 ∧ SameSession ctx ctx1 ∧ RecvOnly w w1 := by
  obtain ⟨ca, wa, ha, hava, hpa, hsa, hroa⟩ := ws_client_recv_exact_ok nc ctx w [0, 0] 2 hp
    (by norm_num) (by rw [hrx]; simp) (by norm_num)
  rw [hrx] at ha hava
  simp only [List.take_succ_cons, List.take_zero, List.drop_succ_cons, List.drop_zero,
    List.drop_nil, List.append_nil] at ha hava
  obtain ⟨cb, wb, hb, havb, hpb, hsb, hrob⟩ :=
    ws_client_read_frame_hdr_ext_ok nc ca wa b1 ext rest hpa hava hext
  refine ⟨{ h0 with fin := (b0 &&& 0x80) != 0, rsv1 := (b0 &&& 0x40) != 0,
                     rsv2 := (b0 &&& 0x20) != 0, rsv3 := (b0 &&& 0x10) != 0,
                     opcode := b0 &&& 0x0F, masked := (b1 &&& 0x80) != 0,
                     payload_len := wire_payload_len b1 ext },
    cb, wb, ?_, havb, hpb, hsa.chain_ctx hsb, hroa.chain hrob⟩
  unfold ws_client_read_frame_hdr
  rw [ha]
  simp only [ne_eq, not_true_eq_false, if_false, List.getD_cons_zero, List.getD_cons_succ]
  rw [hb]
  simp only [ne_eq, not_true_eq_false, if_false]
  have hrej2 : ws_client_hdr_rejected
      { h0 with fin := (b0 &&& 0x80) != 0, rsv1 := (b0 &&& 0x40) != 0,
                rsv2 := (b0 &&& 0x20) != 0, rsv3 := (b0 &&& 0x10) != 0,
                opcode := b0 &&& 0x0F, masked := (b1 &&& 0x80) != 0,
                payload_len := wire_payload_len b1 ext } = true := by
    rw [← hrej]; rfl
  rw [hrej2]
  simp only [if_true]

/-- `ws_client_read_frame_payload` on a stream that starts with the whole payload
of a frame that fits `dst`. -/
theorem ws_client_read_frame_payload_ok (nc : NetCodes) (ctx : ws_client_ctx_t) (w : World)
    (h : ws_frame_hdr_t) (dst : List Nat) (dst_cap scratch_cap : Nat) (body rest : List Nat)
    (hp : PendingOk ctx) (hfit : h.payload_len ≤ dst_cap) (hint : h.payload_len < 2 ^ 31)
    (hrx : client_avail ctx w = body ++ rest) (hbody : body.length = h.payload_len) :
    ∃ ctx1 w1, ws_client_read_frame_payload nc ctx w h dst dst_cap scratch_cap
        = some (WS_OK, ctx1, (if h.masked then xor_from h.mask_key 0 body else body)
            ++ dst.drop h.payload_len, h.payload_len, w1) ∧
      client_avail ctx1 w1 = rest ∧ PendingOk ctx1 ∧ SameSession ctx ctx1 ∧ RecvOnly w w1 := by
  unfold ws_client_read_frame_payload
  rw [if_neg (by omega)]
  by_cases hz : h.payload_len = 0
  · rw [if_pos hz]
    have : body = [] := List.length_eq_zero.mp (by omega)
    subst this
    refine ⟨ctx, w, ?_, by simpa using hrx, hp, SameSession.same_ctx _, RecvOnly.same _⟩
    rw [hz]
    cases h.masked <;> simp [xor_from]
  · rw [if_neg hz]
    cases body with
    | nil => simp at hbody; omega
    | cons x xs =>
      simp only [List.length_cons] at hbody
      obtain ⟨c1, w1, h1, hav1, hp1, hs1, hro1⟩ := ws_client_recv_exact_ok nc ctx w dst 1 hp
        (by norm_num) (by rw [hrx]; simp) (by norm_num)
      rw [hrx] at h1 hav1
      simp only [List.cons_append, List.take_succ_cons, List.take_zero, List.drop_succ_cons,
        List.drop_zero, List.nil_append] at h1 hav1
      rw [h1]
      simp only [ne_eq, not_true_eq_false, if_false, List.drop_succ_cons, List.drop_zero,
        List.take_succ_cons, List.take_zero]
      by_cases hgt : h.payload_len > 1
      · rw [if_pos hgt]
        obtain ⟨c2, w2, h2, hav2, hp2, hs2, hro2⟩ := ws_client_recv_exact_ok nc c1 w1
          (dst.drop 1) (h.payload_len - 1) hp1 (by omega)
          (by rw [hav1]; simp; omega) (by omega)
        rw [hav1] at h2 hav2
        rw [List.take_append_of_le_length (by omega), List.take_of_length_le (by omega)] at h2
        rw [List.drop_append_of_le_length (by omega), List.drop_of_length_le (by omega)] at hav2
        rw [h2]
        simp only [ne_eq, not_true_eq_false, if_false]
        refine ⟨c2, w2, ?_, by simpa using hav2, hp2, hs1.chain_ctx hs2, hro1.chain hro2⟩
        have hb2 : [x] ++ (xs ++ List.drop (h.payload_len - 1) (List.drop 1 dst))
            = (x :: xs) ++ dst.drop h.payload_len := by
          simp only [List.singleton_append, List.drop_drop, List.cons_append]
          have e : 1 + (h.payload_len - 1) = h.payload_len := by omega
          rw [e, List.nil_append]
        rw [hb2]
        cases hm : h.masked
        · simp
        · simp only [if_true]
          have : h.payload_len = (x :: xs).length := by simp; omega
          rw [this, ws_unmask_eq]
      · rw [if_neg hgt]
        have hxs : xs = [] := List.length_eq_zero.mp (by omega)
        subst hxs
        have hl1 : h.payload_len = 1 := by omega
        simp only [ne_eq, not_true_eq_false, if_false]
        refine ⟨c1, w1, ?_, by simpa using hav1, hp1, hs1, hro1⟩
        rw [hl1]
        cases hm : h.masked
        · simp
        · simp only [if_true]
          have := ws_unmask_eq [x] (dst.drop 1) h.mask_key
          simp only [List.length_singleton, List.singleton_append] at this
          rw [this]

/-- Client side of C5: a well-formed unmasked TEXT or BINARY frame whose payload
fits the caller's buffer is returned with its opcode and length, and the
session stays open. -/
theorem ws_client_recv_data_frame (nc : NetCodes) (ctx : ws_client_ctx_t) (w : World)
    (buffer : List Nat) (buffer_size : Nat) (out_opcode : Option Nat) (b0 b1 : Nat)
    (ext key P rest : List Nat)
    (hopen : ws_client_is_open ctx = true) (hp : PendingOk ctx)
    (hrx : client_avail ctx w = b0 :: b1 :: (ext ++ (key ++ (P ++ rest))))
    (hext : ext.length = wire_ext_len b1) (hkey : key.length = wire_key_len b1)
    (hlen : (wire_hdr b0 b1 ext key).payload_len = P.length)
    (hfin : (wire_hdr b0 b1 ext key).fin = true)
    (hrsv1 : (wire_hdr b0 b1 ext key).rsv1 = false)
    (hrsv2 : (wire_hdr b0 b1 ext key).rsv2 = false)
    (hrsv3 : (wire_hdr b0 b1 ext key).rsv3 = false)
    (hmasked : (wire_hdr b0 b1 ext key).masked = false)
    (hop : (wire_hdr b0 b1 ext key).opcode = WS_OPCODE_TEXT ∨
      (wire_hdr b0 b1 ext key).opcode = WS_OPCODE_BINARY)
    (h1 : 1 ≤ P.length) (hfit : P.length ≤ buffer_size) (hint : P.length < 2 ^ 31) :
    ∃ ctx1 w1, ws_client_recv nc ctx w buffer buffer_size out_opcode
        = some ((P.length : Int), ctx1, P ++ buffer.drop P.length,
            out_opcode.map (fun _ => (wire_hdr b0 b1 ext key).opcode), w1) ∧
      client_avail ctx1 w1 = rest ∧ PendingOk ctx1 ∧ SameSession ctx ctx1 ∧ RecvOnly w w1 := by
  have hrej : ws_client_hdr_rejected (wire_hdr b0 b1 ext key) = false := by
    unfold ws_client_hdr_rejected
    rcases hop with e | e <;>
      simp [hrsv1, hrsv2, hrsv3, hfin, e, WS_OPCODE_TEXT, WS_OPCODE_BINARY, WS_OPCODE_CONT,
        WS_OPCODE_CLOSE, WS_OPCODE_PING, WS_OPCODE_PONG]
  have hval : ws_validate_frame_hdr (wire_hdr b0 b1 ext key) false true = WS_OK := by
    unfold ws_validate_frame_hdr
    rcases hop with e | e <;>
      simp [hrsv1, hrsv2, hrsv3, hfin, hmasked, e, WS_OPCODE_TEXT, WS_OPCODE_BINARY, WS_OK]
  obtain ⟨ca, wa, ha, hava, hpa, hsa, hroa⟩ := ws_client_read_frame_hdr_ok nc ctx w hdr0 b0 b1
    ext key _ hp (by decide) hrx hext hkey hrej
  generalize wire_hdr b0 b1 ext key = h at *
  obtain ⟨cb, wb, hb, havb, hpb, hsb, hrob⟩ := ws_client_read_frame_payload_ok nc ca wa h
    buffer buffer_size ca.scratch_cap P rest hpa (by omega) (by omega) hava hlen.symm
  refine ⟨cb, wb, ?_, havb, hpb, hsa.chain_ctx hsb, hroa.chain hrob⟩
  unfold ws_client_recv
  rw [hopen, if_neg (by simp; omega)]
  rw [ws_client_recv_loop]
  unfold ws_client_recv_step
  rw [ha]
  simp only
  rw [if_neg (by decide), if_neg (by decide), if_neg (by simp), hval, if_neg (by simp), hb]
  simp only [ne_eq, not_true_eq_false, if_false]
  unfold ws_client_dispatch
  have hping : h.opcode ≠ WS_OPCODE_PING := by
    rcases hop with e | e <;> rw [e] <;> decide
  have hpong : h.opcode ≠ WS_OPCODE_PONG := by
    rcases hop with e | e <;> rw [e] <;> decide
  have hclose : h.opcode ≠ WS_OPCODE_CLOSE := by
    rcases hop with e | e <;> rw [e] <;> decide
  rw [if_neg hclose, if_neg hping, if_neg hpong, if_pos hop, hlen, toInt32_of_lt _ hint, hmasked]
  simp

/-- C5: a well-formed TEXT or BINARY frame (FIN set, RSV clear, masking
direction right for the role) with payload `P`, `1 ≤ |P| ≤ buffer_size`, that
is at the head of the incoming stream is returned by `ws_server_recv` and by
`ws_client_recv`: the return value is `|P|`, `*out_opcode` holds the frame's
opcode, the first `|P|` bytes of the buffer are `P` (on the server the wire
bytes unmasked with the frame's key), the session stays open and the stream is
left at the next frame. -/
theorem recv_data_frame (nc : NetCodes) (hnc : nc.NET_NO_DATA < 0)
    (buffer : List Nat) (buffer_size : Nat) (out_opcode : Option Nat) (b0 b1 : Nat)
    (ext key P rest : List Nat)
    (hext : ext.length = wire_ext_len b1) (hkey : key.length = wire_key_len b1)
    (hlen : (wire_hdr b0 b1 ext key).payload_len = P.length)
    (hfin : (wire_hdr b0 b1 ext key).fin = true)
    (hrsv1 : (wire_hdr b0 b1 ext key).rsv1 = false)
    (hrsv2 : (wire_hdr b0 b1 ext key).rsv2 = false)
    (hrsv3 : (wire_hdr b0 b1 ext key).rsv3 = false)
    (hop : (wire_hdr b0 b1 ext key).opcode = WS_OPCODE_TEXT ∨
      (wire_hdr b0 b1 ext key).opcode = WS_OPCODE_BINARY)
    (h1 : 1 ≤ P.length) (hfit : P.length ≤ buffer_size) (hint : P.length < 2 ^ 31) :
    (∀ (c : ws_server_client_t) (w : World), c.open_ = true →
      (wire_hdr b0 b1 ext key).masked = true →
      rx_avail w.rx = b0 :: b1 :: (ext ++ (key ++ (xor_from key 0 P ++ rest))) →
      ∃ c1 buffer1 w1, ws_server_recv nc c w buffer buffer_size out_opcode
          = some ((P.length : Int), c1, buffer1,
              out_opcode.map (fun _ => (wire_hdr b0 b1 ext key).opcode), w1) ∧
        buffer1.take P.length = P ∧ c1.open_ = true ∧ rx_avail w1.rx = rest) ∧
    (∀ (ctx : ws_client_ctx_t) (w : World), ws_client_is_open ctx = true → PendingOk ctx →
      (wire_hdr b0 b1 ext key).masked = false →
      client_avail ctx w = b0 :: b1 :: (ext ++ (key ++ (P ++ rest))) →
      ∃ ctx1 buffer1 w1, ws_client_recv nc ctx w buffer buffer_size out_opcode
          = some ((P.length : Int), ctx1, buffer1,
              out_opcode.map (fun _ => (wire_hdr b0 b1 ext key).opcode), w1) ∧
        buffer1.take P.length = P ∧ ws_client_is_open ctx1 = true ∧
        client_avail ctx1 w1 = rest) := by
  constructor
  · intro c w hopen hmasked hrx
    obtain ⟨w1, hr, hav, _⟩ := ws_server_recv_data_frame nc hnc c w buffer buffer_size
      out_opcode b0 b1 ext key P rest hopen hrx hext hkey hlen hfin hrsv1 hrsv2 hrsv3 hmasked
      hop h1 hfit hint
    exact ⟨c, _, w1, hr, by simp, hopen, hav⟩
  · intro ctx w hopen hp hmasked hrx
    obtain ⟨ctx1, w1, hr, hav, _, hs, _⟩ := ws_client_recv_data_frame nc ctx w buffer
      buffer_size out_opcode b0 b1 ext key P rest hopen hp hrx hext hkey hlen hfin hrsv1 hrsv2
      hrsv3 hmasked hop h1 hfit hint
    refine ⟨ctx1, _, w1, hr, by simp, ?_, hav⟩
    obtain ⟨_, s2, s3, _⟩ := hs
    unfold ws_client_is_open at hopen ⊢
    rw [s2, s3]
    exact hopen

/-- Witness for C5: the server reads the masked BINARY frame
`82 83 01 02 03 04 | 0B 16 1D` (payload `0A 14 1E`) delivered in two pieces, and
the client reads the unmasked TEXT frame `81 03 | 61 62 63` whose first two
bytes are pending from the handshake. -/
theorem recv_data_frame_witness :
    (∃ c1 buffer1 w1, ws_server_recv sample_codes sample_server_client
        (sample_world [RxEvent.data [0x82, 0x83, 1], RxEvent.data [2, 3, 4, 0x0B, 0x16, 0x1D, 0x88]])
        [0, 0, 0, 0, 0, 0, 0, 0] 8 (some 0)
        = some ((([0x0A, 0x14, 0x1E] : List Nat).length : Int), c1, buffer1,
            (some 0).map (fun _ => (wire_hdr 0x82 0x83 [] [1, 2, 3, 4]).opcode), w1) ∧
      buffer1.take ([0x0A, 0x14, 0x1E] : List Nat).length = [0x0A, 0x14, 0x1E] ∧
      c1.open_ = true ∧ rx_avail w1.rx = [0x88]) ∧
    (∃ ctx1 buffer1 w1, ws_client_recv sample_codes
        { sample_client_ctx with pending := [0x81, 0x03], pending_len := 2 }
        (sample_world [RxEvent.data [0x61, 0x62], RxEvent.data [0x63, 0x89]])
        [0, 0, 0, 0, 0, 0, 0, 0] 8 (some 0)
        = some ((([0x61, 0x62, 0x63] : List Nat).length : Int), ctx1, buffer1,
            (some 0).map (fun _ => (wire_hdr 0x81 0x03 [] []).opcode), w1) ∧
      buffer1.take ([0x61, 0x62, 0x63] : List Nat).length = [0x61, 0x62, 0x63] ∧
      ws_client_is_open ctx1 = true ∧ client_avail ctx1 w1 = [0x89]) :=
  ⟨(recv_data_frame sample_codes (by decide) [0, 0, 0, 0, 0, 0, 0, 0] 8 (some 0) 0x82 0x83 []
      [1, 2, 3, 4] [0x0A, 0x14, 0x1E] [0x88] (by decide) (by decide) (by decide) (by decide)
      (by decide) (by decide) (by decide) (by decide) (by decide) (by decide) (by decide)).1
      sample_server_client
      (sample_world [RxEvent.data [0x82, 0x83, 1],
        RxEvent.data [2, 3, 4, 0x0B, 0x16, 0x1D, 0x88]])
      (by decide) (by decide) (by decide),
    (recv_data_frame sample_codes (by decide) [0, 0, 0, 0, 0, 0, 0, 0] 8 (some 0) 0x81 0x03 []
      [] [0x61, 0x62, 0x63] [0x89] (by decide) (by decide) (by decide) (by decide)
      (by decide) (by decide) (by decide) (by decide) (by decide) (by decide) (by decide)).2
      { sample_client_ctx with pending := [0x81, 0x03], pending_len := 2 }
      (sample_world [RxEvent.data [0x61, 0x62], RxEvent.data [0x63, 0x89]])
      (by decide) ⟨by decide, by decide⟩ (by decide) (by decide)⟩

/-- C6, evaluation at the failing input: the client receives the two bytes
`C1 00` (a final TEXT frame with RSV1 set). `ws_client_recv` returns `WS_ERR`,
but nothing is written to the transport, the socket is not closed and the
session is still open. -/
theorem client_rsv_frame_not_closed :
    ws_client_recv sample_codes sample_client_ctx (sample_world [RxEvent.data [0xC1, 0x00]])
        [0, 0, 0, 0] 4 (some 0)
      = some (WS_ERR, sample_client_ctx, [0, 0, 0, 0], some 0, sample_world []) ∧
    ws_client_is_open sample_client_ctx = true ∧ (sample_world []).sent = [] := by
  decide!

/-- C7, evaluation at the failing input: a final masked frame with the unknown
opcode 3 and a 5-byte payload arrives while the caller's buffer has 4 bytes.
`ws_server_recv` returns `WS_ERR` after draining the payload, but it writes no
CLOSE frame and leaves the session open. The same frame read with an 8-byte
buffer is answered with the CLOSE frame `88 02 03 EA` (code 1002) and closes
the session. -/
theorem server_unknown_opcode_overflow_not_closed :
    (ws_server_recv sample_codes sample_server_client
        (sample_world [RxEvent.data [0x83, 0x85, 1, 2, 3, 4, 9, 9, 9, 9, 9]])
        [0, 0, 0, 0] 4 (some 0)
      = some (WS_ERR, sample_server_client, [0, 0, 0, 0], some 0, sample_world []) ∧
    sample_server_client.open_ = true ∧ (sample_world []).sent = []) ∧
    (ws_server_recv sample_codes sample_server_client
        (sample_world [RxEvent.data [0x83, 0x85, 1, 2, 3, 4, 9, 9, 9, 9, 9]])
        [0, 0, 0, 0, 0, 0, 0, 0] 8 (some 0)).map
      (fun r => (r.1, r.2.1.open_, r.2.2.2.2.sent)) =
      some (WS_ERR, false, [0x88, 0x02, 0x03, 0xEA]) :=
  ⟨by decide!, by decide!⟩

/-- An instance: the masked frame `C1 80 01 02 03 04` (RSV1 set), read with a
4-byte buffer. -/
theorem server_protocol_violation_witness :
    ∃ buffer1 w1, ws_server_recv sample_codes sample_server_client
        (sample_world [RxEvent.data [0xC1, 0x80, 1, 2, 3, 4]]) [0, 0, 0, 0] 4 none
        = some (WS_ERR, { sample_server_client with open_ := false }, buffer1, none, w1) ∧
      w1.sent = (sample_world [RxEvent.data [0xC1, 0x80, 1, 2, 3, 4]]).sent
        ++ [0x88, 0x02, 0x03, 0xEA] :=
  server_protocol_violation sample_codes (by decide) sample_server_client
    (sample_world [RxEvent.data [0xC1, 0x80, 1, 2, 3, 4]]) [0, 0, 0, 0] 4 none 0xC1 0x80 []
    [1, 2, 3, 4] [] (by decide) (by decide) (by decide) (by decide) (by decide) (by decide)
    (Or.inl (Or.inl (by decide)))

/-- C8, evaluation at the failing input: the server receives the masked final
CLOSE frame `88 81 01 02 03 04 54` whose payload length is 1. The shared
validator rejects this header, but `ws_server_recv` answers with the CLOSE
frame `88 02 03 E8` (code 1000) and returns 0, a clean close. -/
theorem server_accepts_close_len1 :
    ws_server_recv sample_codes sample_server_client
        (sample_world [RxEvent.data [0x88, 0x81, 1, 2, 3, 4, 0x54]]) [0, 0, 0, 0] 4 (some 0)
      = some (0, { sample_server_client with open_ := false }, [0x55, 0, 0, 0], some 0,
          { sample_world [] with tx := [[0x88, 0x02], [0x03, 0xE8]] }) ∧
    ws_validate_frame_hdr (wire_hdr 0x88 0x81 [] [1, 2, 3, 4]) true true = WS_ERR := by
  decide!

/-- C4, evaluation at the failing input: the read that completes the 101
response also delivers a 257-byte frame, and the transport delivers `AA BB`
next. The handshake returns `WS_OK`, but only 256 of the 257 bytes are kept as
pending: the next 257 bytes that `ws_client_recv_exact` returns are the first
256 bytes of the frame followed by `AA`, which is not the frame, and
`ws_client_recv` hands the caller a 253-byte payload that ends in `AA` instead
of `09`. -/
theorem handshake_drops_bytes_beyond_256 :
    handshake_probe sample_codes sample_fresh_ctx
        (sample_world [RxEvent.data (sample_response ++ sample_frame_257),
          RxEvent.data [0xAA, 0xBB]]) 257 300 253
      = some { rc := WS_OK, pending_len := 256,
               recv_exact := some (WS_OK, sample_frame_257.take 256 ++ [0xAA]),
               recv := some (253, List.replicate 252 7 ++ [0xAA]) } ∧
    sample_frame_257.take 256 ++ [0xAA] ≠ sample_frame_257 ∧
    sample_frame_257.length = 257 := by
  decide!

/-! ### Sending on a transport that accepts everything -/

theorem SendOnly.same_world (w : World) : SendOnly w w := ⟨rfl, rfl, rfl, rfl, rfl⟩

theorem SendOnly.chain_world {w w1 w2 : World} (h1 : SendOnly w w1) (h2 : SendOnly w1 w2) :
    SendOnly w w2 := by
  obtain ⟨a1, a2, a3, a4, a5⟩ := h1
  obtain ⟨b1, b2, b3, b4, b5⟩ := h2
  exact ⟨b1.trans a1, b2.trans a2, b3.trans a3, b4.trans a4, b5.trans a5⟩

theorem ws_send_all_accepting_any (w : World) (buf : List Nat) (len : Nat)
    (htx : w.txScript = []) (hint : len < 2 ^ 31) :
    ∃ w1, ws_send_all w buf len = some (WS_OK, w1) ∧ SendOnly w w1 ∧ w1.rand = w.rand := by
  by_cases h0 : 0 < len
  · exact ⟨_, ws_send_all_accepting w buf len htx h0 hint, ⟨rfl, rfl, rfl, rfl, rfl⟩, rfl⟩
  · have e : len = 0 := by omega
    subst e
    refine ⟨w, ?_, SendOnly.same_world w, rfl⟩
    unfold ws_send_all
    rw [ws_send_all_loop, if_neg (by omega)]

theorem ws_send_masked_loop_accepting (p : List Nat) (L : Nat) (key : List Nat) (cap : Nat)
    (hcap : 0 < cap) (hint : L < 2 ^ 31) :
    ∀ (fuel : Nat) (w : World) (off : Nat), w.txScript = [] → L - off < fuel →
      ∃ w1, ws_send_masked_loop p L key cap fuel w off = some (WS_OK, w1) ∧
        SendOnly w w1 ∧ w1.rand = w.rand := by
  intro fuel
  induction fuel with
  | zero => intro w off _ h; omega
  | succ fuel ih =>
    intro w off htx hfuel
    rw [ws_send_masked_loop]
    by_cases hlt : off < L
    · rw [if_pos hlt]
      simp only
      obtain ⟨w1, h1, hs1, hr1⟩ := ws_send_all_accepting_any w
        (ws_mask_chunk p key off (min (L - off) cap)) (min (L - off) cap) htx (by omega)
      rw [h1]
      simp only [ne_eq, not_true_eq_false, if_false]
      obtain ⟨w2, h2, hs2, hr2⟩ := ih w1 (off + min (L - off) cap) (by rw [hs1.2.1, htx])
        (by omega)
      exact ⟨w2, h2, hs1.chain_world hs2, hr2.trans hr1⟩
    · rw [if_neg hlt]
      exact ⟨w, rfl, SendOnly.same_world w, rfl⟩

theorem ws_frame_hdr_bytes_length (opcode L : Nat) (fin : Bool) :
    2 ≤ (ws_frame_hdr_bytes opcode L fin).length ∧
      (ws_frame_hdr_bytes opcode L fin).length ≤ 10 := by
  unfold ws_frame_hdr_bytes
  simp only
  split_ifs <;> simp

/-- On a transport that accepts everything `ws_send_frame` succeeds, provided
that a masked send has a scratch buffer; it only appends to the send log and,
for a masked frame, draws the key from `rand()`. -/
theorem ws_send_frame_accepting (w : World) (opcode : Nat) (p : List Nat) (L : Nat)
    (fin mask scratch : Bool) (cap : Nat) (htx : w.txScript = []) (hint : L < 2 ^ 31)
    (hm : mask = true → scratch = true ∧ 0 < cap) :
    ∃ w1, ws_send_frame w opcode (some p) L fin mask scratch cap = some (WS_OK, w1) ∧
      SendOnly w w1 ∧ w1.rand = (if mask then (ws_make_mask_key w).2.rand else w.rand) := by
  have hl := ws_frame_hdr_bytes_length opcode L fin
  cases mask with
  | false =>
    simp only [ws_send_frame, Bool.false_eq_true, if_false]
    obtain ⟨w1, h1, hs1, hr1⟩ := ws_send_all_accepting_any w (ws_frame_hdr_bytes opcode L fin)
      (ws_frame_hdr_bytes opcode L fin).length htx (by omega)
    rw [h1]
    simp only [ne_eq, not_true_eq_false, if_false, Bool.not_false, if_true]
    by_cases hz : L = 0
    · rw [if_pos hz]
      exact ⟨w1, rfl, hs1, hr1⟩
    · rw [if_neg hz]
      obtain ⟨w2, h2, hs2, hr2⟩ := ws_send_all_accepting_any w1 p L (by rw [hs1.2.1, htx]) hint
      exact ⟨w2, h2, hs1.chain_world hs2, hr2.trans hr1⟩
  | true =>
    obtain ⟨hsc, hcap⟩ := hm rfl
    have hk : SendOnly w (ws_make_mask_key w).2 := ⟨rfl, rfl, rfl, rfl, rfl⟩
    simp only [ws_send_frame, if_true]
    obtain ⟨w1, h1, hs1, hr1⟩ := ws_send_all_accepting_any (ws_make_mask_key w).2
      (writeAt (ws_frame_hdr_bytes opcode L fin) 1
        [(ws_frame_hdr_bytes opcode L fin).getD 1 0 ||| 0x80] ++ (ws_make_mask_key w).1)
      (writeAt (ws_frame_hdr_bytes opcode L fin) 1
        [(ws_frame_hdr_bytes opcode L fin).getD 1 0 ||| 0x80] ++ (ws_make_mask_key w).1).length
      (by rw [hk.2.1, htx])
      (by
        simp only [writeAt, List.length_append, List.length_take, List.length_drop,
          List.length_singleton, ws_make_mask_key, List.length_cons, List.length_nil]
        omega)
    rw [h1]
    simp only [ne_eq, not_true_eq_false, if_false, Bool.not_true, Bool.false_eq_true, hsc,
      Bool.false_or, decide_eq_true_eq]
    by_cases hz : L = 0
    · rw [if_pos hz]
      exact ⟨w1, rfl, hk.chain_world hs1, hr1⟩
    · rw [if_neg hz, if_neg (by omega)]
      obtain ⟨w2, h2, hs2, hr2⟩ := ws_send_masked_loop_accepting p L (ws_make_mask_key w).1 cap
        hcap hint (L + 1) w1 0 (by rw [hs1.2.1, hk.2.1, htx]) (by omega)
      exact ⟨w2, h2, (hk.chain_world hs1).chain_world hs2, hr2.trans hr1⟩

theorem ws_mask_chunk_eq_xor (p key : List Nat) (n : Nat) (h : n ≤ p.length) :
    ws_mask_chunk p key 0 n = xor_from key 0 (p.take n) := by
  have h1 := xor_from_mask_chunk p key n 0 (by omega)
  rw [List.drop_zero] at h1
  rw [← h1, xor_from_involutive]

/-- The bytes of a masked frame with a payload of at most 125 bytes, as
`ws_send_frame` writes them on a transport that accepts everything. -/
theorem ws_send_frame_masked_small (w : World) (opcode : Nat) (p : List Nat) (L : Nat)
    (fin : Bool) (cap : Nat) (htx : w.txScript = []) (hL : L ≤ 125) (hp : L ≤ p.length)
    (hcap : 0 < cap) :
    ∃ w1, ws_send_frame w opcode (some p) L fin true true cap = some (WS_OK, w1) ∧
      SendOnly w w1 ∧ w1.rand = (ws_make_mask_key w).2.rand ∧
      w1.sent = w.sent ++ ([(if fin then 128 else 0) + opcode % 16, 128 + L] ++
        (ws_make_mask_key w).1 ++ xor_from (ws_make_mask_key w).1 0 (p.take L)) := by
  obtain ⟨w1, h1, hs1, hr1⟩ := ws_send_frame_accepting w opcode p L fin true true cap htx
    (by omega) (fun _ => ⟨rfl, hcap⟩)
  refine ⟨w1, h1, hs1, by simpa using hr1, ?_⟩
  have hb := ws_send_frame_sent w w1 opcode (some p) L fin true true cap h1
  rw [hb, ws_frame_hdr_bytes_small opcode L fin hL]
  simp only [if_true, ws_wire_payload, ws_mask_chunk_eq_xor p _ L hp, writeAt, List.getD_cons_succ,
    List.getD_cons_zero]
  rw [or_80_of_lt L (by omega)]
  simp

/-- The bytes of an unmasked frame with a payload of at most 125 bytes, as
`ws_send_frame` writes them on a transport that accepts everything. -/
theorem ws_send_frame_unmasked_small (w : World) (opcode : Nat) (p : List Nat) (L : Nat)
    (fin scratch : Bool) (cap : Nat) (htx : w.txScript = []) (hL : L ≤ 125) :
    ∃ w1, ws_send_frame w opcode (some p) L fin false scratch cap = some (WS_OK, w1) ∧
      SendOnly w w1 ∧ w1.rand = w.rand ∧
      w1.sent = w.sent ++ ([(if fin then 128 else 0) + opcode % 16, L] ++ p.take L) := by
  obtain ⟨w1, h1, hs1, hr1⟩ := ws_send_frame_accepting w opcode p L fin false scratch cap htx
    (by omega) (fun h => by cases h)
  refine ⟨w1, h1, hs1, by simpa using hr1, ?_⟩
  have hb := ws_send_frame_sent w w1 opcode (some p) L fin false scratch cap h1
  rw [hb, ws_frame_hdr_bytes_small opcode L fin hL]
  simp [ws_wire_payload]

/-- C11: every header that `ws_validate_frame_hdr` accepts and whose opcode is
CLOSE, PING or PONG has `payload_len ≤ 125`, and `payload_len ≠ 1` when the
opcode is CLOSE, whatever the other fields and the two flags are. -/
theorem validate_control_frame_limits (h : ws_frame_hdr_t)
    (expect_masked reject_fragmentation : Bool)
    (hok : ws_validate_frame_hdr h expect_masked reject_fragmentation = WS_OK)
    (hctl : h.opcode = WS_OPCODE_CLOSE ∨ h.opcode = WS_OPCODE_PING ∨
      h.opcode = WS_OPCODE_PONG) :
    h.payload_len ≤ 125 ∧ (h.opcode = WS_OPCODE_CLOSE → h.payload_len ≠ 1) := by
  unfold ws_validate_frame_hdr at hok
  by_cases c1 : (h.rsv1 || h.rsv2 || h.rsv3) = true
  · rw [if_pos c1] at hok; exact absurd hok (by decide)
  rw [if_neg c1] at hok
  by_cases c2 : (if expect_masked then !h.masked else h.masked) = true
  · rw [if_pos c2] at hok; exact absurd hok (by decide)
  rw [if_neg c2] at hok
  by_cases c3 : (reject_fragmentation && (!h.fin || h.opcode % 256 == 0x00)) = true
  · rw [if_pos c3] at hok; exact absurd hok (by decide)
  rw [if_neg c3] at hok
  by_cases c4 : h.payload_len > 125
  · exfalso
    rcases hctl with e | e | e <;>
      · rw [e] at hok
        simp [WS_OPCODE_CLOSE, WS_OPCODE_PING, WS_OPCODE_PONG, c4, WS_ERR, WS_OK] at hok
  refine ⟨by omega, ?_⟩
  intro e e1
  rw [e] at hok
  simp [WS_OPCODE_CLOSE, e1, WS_ERR, WS_OK] at hok

/-- Witness for C11: the header of a final unmasked CLOSE frame that carries a
2-byte status code, validated as the client does. -/
theorem validate_control_frame_limits_witness :
    (⟨8, true, false, false, false, 2, false, [0, 0, 0, 0]⟩ : ws_frame_hdr_t).payload_len ≤ 125 ∧
    ((⟨8, true, false, false, false, 2, false, [0, 0, 0, 0]⟩ : ws_frame_hdr_t).opcode
        = WS_OPCODE_CLOSE →
      (⟨8, true, false, false, false, 2, false, [0, 0, 0, 0]⟩ : ws_frame_hdr_t).payload_len ≠ 1) :=
  validate_control_frame_limits ⟨8, true, false, false, false, 2, false, [0, 0, 0, 0]⟩ false true
    (by decide) (Or.inl (by decide))

/-- C20: masking is its own inverse. For every byte sequence `P` and every key
`K`, `ws_unmask` (which is also `ws_unmask_local` of the client and of the
server) applied twice with `K` gives `P` back, and `ws_unmask` with `K` applied
to the bytes that the masking loop of `ws_send_frame` produces from `P` with
`K` gives `P` back as well. -/
theorem mask_self_inverse (P K : List Nat) :
    ws_unmask (ws_unmask P P.length K) P.length K = P ∧
    ws_unmask (ws_mask_chunk P K 0 P.length) P.length K = P := by
  have hu : ∀ Q : List Nat, ws_unmask Q Q.length K = xor_from K 0 Q := by
    intro Q
    have := ws_unmask_eq Q [] K
    simpa using this
  have hl : (xor_from K 0 P).length = P.length := xor_from_length K P 0
  constructor
  · rw [hu P]
    have := hu (xor_from K 0 P)
    rw [hl] at this
    rw [this, xor_from_involutive]
  · have hq := hu (ws_mask_chunk P K 0 P.length)
    rw [ws_mask_chunk_length] at hq
    rw [hq, xor_from_mask_chunk P K P.length 0 (by omega)]
    simp

/-- One pass of the server loop over a frame that passes the header checks and
whose payload fits the caller's buffer: the payload is read and unmasked into
the buffer and the frame is handed to the dispatch on opcode. -/
theorem ws_server_recv_step_dispatch (nc : NetCodes) (hnc : nc.NET_NO_DATA < 0)
    (c : ws_server_client_t) (w : World) (buffer : List Nat) (buffer_size : Nat)
    (out_opcode : Option Nat) (b0 b1 : Nat) (ext key P rest : List Nat)
    (hrx : rx_avail w.rx = b0 :: b1 :: (ext ++ (key ++ (xor_from key 0 P ++ rest))))
    (hext : ext.length = wire_ext_len b1) (hkey : key.length = wire_key_len b1)
    (hlen : (wire_hdr b0 b1 ext key).payload_len = P.length)
    (hfin : (wire_hdr b0 b1 ext key).fin = true)
    (hrsv1 : (wire_hdr b0 b1 ext key).rsv1 = false)
    (hrsv2 : (wire_hdr b0 b1 ext key).rsv2 = false)
    (hrsv3 : (wire_hdr b0 b1 ext key).rsv3 = false)
    (hmasked : (wire_hdr b0 b1 ext key).masked = true)
    (hcont : (wire_hdr b0 b1 ext key).opcode ≠ WS_OPCODE_CONT)
    (hctl : P.length ≤ 125 ∨ ((wire_hdr b0 b1 ext key).opcode ≠ WS_OPCODE_CLOSE ∧
      (wire_hdr b0 b1 ext key).opcode ≠ WS_OPCODE_PING ∧
      (wire_hdr b0 b1 ext key).opcode ≠ WS_OPCODE_PONG))
    (hfit : P.length ≤ buffer_size) (hint : P.length < 2 ^ 31) :
    ∃ w1, ws_server_recv_step nc c w buffer buffer_size out_opcode
        = ws_server_dispatch c w1 (wire_hdr b0 b1 ext key) (P ++ buffer.drop P.length)
            out_opcode ∧
      rx_avail w1.rx = rest ∧ RecvOnly w w1 := by
  obtain ⟨wa, ha, hava, hroa⟩ := ws_read_frame_hdr_ok nc hnc w hdr0 b0 b1 ext key _
    (by decide) hrx hext hkey
  have hmk : (wire_hdr b0 b1 ext key).mask_key = key := by
    simp only [wire_hdr] at hmasked ⊢
    rw [if_pos hmasked]
  generalize wire_hdr b0 b1 ext key = h at *
  have hxl := xor_from_length key P 0
  have hpre :
      ws_server_recv_step nc c w buffer buffer_size out_opcode
        = (if h.payload_len > 0 then
            match ws_recv_exact nc wa buffer h.payload_len with
            | none => none
            | some (rr, buffer1, w2) =>
              if rr ≠ WS_OK then
                some (some 0, { c with open_ := false }, buffer1, out_opcode, w2)
              else ws_server_dispatch c w2 h (ws_unmask buffer1 h.payload_len h.mask_key)
                out_opcode
          else ws_server_dispatch c wa h buffer out_opcode) := by
    unfold ws_server_recv_step
    rw [ha]
    simp only [ne_eq, not_true_eq_false, if_false, hrsv1, hrsv2, hrsv3, hfin, hmasked,
      Bool.or_self, Bool.false_eq_true, Bool.not_true, Bool.false_or]
    have hnc0 : (h.opcode == WS_OPCODE_CONT) = false := by simpa using hcont
    have hnctl : ((h.opcode == WS_OPCODE_CLOSE || h.opcode == WS_OPCODE_PING
        || h.opcode == WS_OPCODE_PONG) && decide (h.payload_len > 125)) = false := by
      rcases hctl with e | ⟨e1, e2, e3⟩
      · have : ¬ h.payload_len > 125 := by omega
        simp [this]
      · simp [e1, e2, e3]
    rw [hnc0, hnctl]
    simp only [Bool.false_eq_true, if_false]
    rw [if_neg (by omega)]
    try rfl
  rw [hpre]
  by_cases hz : h.payload_len > 0
  · rw [if_pos hz]
    obtain ⟨wb, hb, havb, hrob⟩ := ws_recv_exact_ok nc hnc wa buffer h.payload_len
      (by rw [hava, hlen]; simp [xor_from_length]) (by rw [hlen]; exact hint)
    rw [hava, hlen] at hb havb
    rw [List.take_append_of_le_length (by omega), List.take_of_length_le (by omega)] at hb
    rw [List.drop_append_of_le_length (by omega), List.drop_of_length_le (by omega)] at havb
    refine ⟨wb, ?_, by simpa using havb, hroa.chain hrob⟩
    rw [hlen, hb]
    simp only [ne_eq, not_true_eq_false, if_false]
    rw [hmk, ← hxl, ws_unmask_eq, xor_from_involutive, hxl]
  · rw [if_neg hz]
    have hP : P = [] := List.length_eq_zero.mp (by omega)
    subst hP
    refine ⟨wa, by simp, by simpa [xor_from] using hava, hroa⟩

/-- One pass of the client loop over a frame that passes the header checks and
the validator and whose payload fits the caller's buffer: the payload is read
into the buffer and the frame is handed to the dispatch on opcode. -/
theorem ws_client_recv_step_dispatch (nc : NetCodes) (ctx : ws_client_ctx_t) (w : World)
    (buffer : List Nat) (buffer_size : Nat) (out_opcode : Option Nat) (b0 b1 : Nat)
    (ext key P rest : List Nat) (hp : PendingOk ctx)
    (hrx : client_avail ctx w = b0 :: b1 :: (ext ++ (key ++ (P ++ rest))))
    (hext : ext.length = wire_ext_len b1) (hkey : key.length = wire_key_len b1)
    (hlen : (wire_hdr b0 b1 ext key).payload_len = P.length)
    (hrej : ws_client_hdr_rejected (wire_hdr b0 b1 ext key) = false)
    (hval : ws_validate_frame_hdr (wire_hdr b0 b1 ext key) false true = WS_OK)
    (hmasked : (wire_hdr b0 b1 ext key).masked = false)
    (hfit : P.length ≤ buffer_size) (hint : P.length < 2 ^ 31) :
    ∃ ctx1 w1, ws_client_recv_step nc ctx w buffer buffer_size out_opcode
        = ws_client_dispatch ctx1 w1 (wire_hdr b0 b1 ext key) (P ++ buffer.drop P.length)
            P.length out_opcode ∧
      client_avail ctx1 w1 = rest ∧ PendingOk ctx1 ∧ SameSession ctx ctx1 ∧ RecvOnly w w1 := by
  obtain ⟨ca, wa, ha, hava, hpa, hsa, hroa⟩ := ws_client_read_frame_hdr_ok nc ctx w hdr0 b0 b1
    ext key _ hp (by decide) hrx hext hkey hrej
  generalize wire_hdr b0 b1 ext key = h at *
  obtain ⟨cb, wb, hb, havb, hpb, hsb, hrob⟩ := ws_client_read_frame_payload_ok nc ca wa h
    buffer buffer_size ca.scratch_cap P rest hpa (by omega) (by omega) hava hlen.symm
  refine ⟨cb, wb, ?_, havb, hpb, hsa.chain_ctx hsb, hroa.chain hrob⟩
  unfold ws_client_recv_step
  rw [ha]
  simp only
  rw [if_neg (by decide), if_neg (by decide), if_neg (by simp), hval, if_neg (by simp), hb]
  simp only [ne_eq, not_true_eq_false, if_false]
  rw [hlen, hmasked]
  simp

theorem ws_make_mask_key_congr (w w1 : World) (h : w1.rand = w.rand) :
    (ws_make_mask_key w1).1 = (ws_make_mask_key w).1 ∧
      (ws_make_mask_key w1).2.rand = (ws_make_mask_key w).2.rand := by
  simp [ws_make_mask_key, rand, h]

/-- On a transport that accepts everything, `ws_client_send_close_code` writes a
masked CLOSE frame whose payload is the status code. -/
theorem ws_client_send_close_code_accepting (ctx : ws_client_ctx_t) (w : World) (code : Nat)
    (htx : w.txScript = []) (hsc : ctx.scratch = true) (hcap : 0 < ctx.scratch_cap) :
    ∃ w1, ws_client_send_close_code ctx w code = some w1 ∧ SendOnly w w1 ∧
      w1.sent = w.sent ++ ([0x88, 0x82] ++ (ws_make_mask_key w).1 ++
        xor_from (ws_make_mask_key w).1 0 [(code >>> 8) % 256, (code &&& 0xFF) % 256]) := by
  obtain ⟨w1, h1, hs1, _, hb⟩ := ws_send_frame_masked_small w WS_OPCODE_CLOSE
    [(code >>> 8) % 256, (code &&& 0xFF) % 256] 2 true ctx.scratch_cap htx (by omega)
    (by simp) hcap
  refine ⟨w1, ?_, hs1, ?_⟩
  · unfold ws_client_send_close_code
    rw [hsc, h1]
  · rw [hb]
    simp [WS_OPCODE_CLOSE]

/-- C12 as amended: a masked TEXT or BINARY frame that reaches the client and
is otherwise well-formed (FIN set, RSV clear) is not delivered. Once its header
and mask key have been read, `ws_client_recv` writes a masked CLOSE frame with
status 1002 (`88 82`, the key, `03 EA` masked), closes and destroys the socket,
clears `open` and returns `WS_ERR`; the payload is left unread and the caller's
buffer and `*out_opcode` are untouched. -/
theorem client_rejects_masked_frame (nc : NetCodes) (ctx : ws_client_ctx_t) (w : World)
    (buffer : List Nat) (buffer_size : Nat) (out_opcode : Option Nat) (b0 b1 : Nat)
    (ext key rest : List Nat)
    (hopen : ws_client_is_open ctx = true) (hp : PendingOk ctx) (hbs : 1 ≤ buffer_size)
    (htx : w.txScript = []) (hsc : ctx.scratch = true) (hcap : 0 < ctx.scratch_cap)
    (hrx : client_avail ctx w = b0 :: b1 :: (ext ++ (key ++ rest)))
    (hext : ext.length = wire_ext_len b1) (hkey : key.length = wire_key_len b1)
    (hfin : (wire_hdr b0 b1 ext key).fin = true)
    (hrsv1 : (wire_hdr b0 b1 ext key).rsv1 = false)
    (hrsv2 : (wire_hdr b0 b1 ext key).rsv2 = false)
    (hrsv3 : (wire_hdr b0 b1 ext key).rsv3 = false)
    (hmasked : (wire_hdr b0 b1 ext key).masked = true)
    (hop : (wire_hdr b0 b1 ext key).opcode = WS_OPCODE_TEXT ∨
      (wire_hdr b0 b1 ext key).opcode = WS_OPCODE_BINARY) :
    ∃ ctx1 w1, ws_client_recv nc ctx w buffer buffer_size out_opcode
        = some (WS_ERR, ctx1, buffer, out_opcode, w1) ∧
      ws_client_is_open ctx1 = false ∧
      w1.sent = w.sent ++ ([0x88, 0x82] ++ (ws_make_mask_key w).1 ++
        xor_from (ws_make_mask_key w).1 0 [0x03, 0xEA]) ∧
      w1.sockClosed = w.sockClosed + 1 ∧ w1.sockDestroyed = w.sockDestroyed + 1 ∧
      client_avail ctx1 w1 = rest := by
  have hrej : ws_client_hdr_rejected (wire_hdr b0 b1 ext key) = false := by
    unfold ws_client_hdr_rejected
    rcases hop with e | e <;>
      simp [hrsv1, hrsv2, hrsv3, hfin, e, WS_OPCODE_TEXT, WS_OPCODE_BINARY, WS_OPCODE_CONT,
        WS_OPCODE_CLOSE, WS_OPCODE_PING, WS_OPCODE_PONG]
  have hval : ws_validate_frame_hdr (wire_hdr b0 b1 ext key) false true = WS_ERR := by
    unfold ws_validate_frame_hdr
    simp [hrsv1, hrsv2, hrsv3, hmasked]
  obtain ⟨ca, wa, ha, hava, hpa, hsa, hroa⟩ := ws_client_read_frame_hdr_ok nc ctx w hdr0 b0 b1
    ext key _ hp (by decide) hrx hext hkey hrej
  generalize wire_hdr b0 b1 ext key = h at *
  obtain ⟨ra1, ra2, ra3, ra4, ra5⟩ := hroa
  obtain ⟨_, sa2, sa3, _, _, sa6, sa7, _, _⟩ := hsa
  obtain ⟨wb, hb, hsb, hsent⟩ := ws_client_send_close_code_accepting ca wa
    WS_CLOSE_PROTOCOL_ERROR (by rw [ra1, htx]) (by rw [sa6, hsc]) (by rw [sa7]; exact hcap)
  obtain ⟨sb1, sb2, sb3, sb4, sb5⟩ := hsb
  refine ⟨{ ca with open_ := false }, net_sock_destroy (net_sock_close wb), ?_, ?_, ?_, ?_, ?_, ?_⟩
  · unfold ws_client_recv
    rw [hopen, if_neg (by simp; omega)]
    rw [ws_client_recv_loop]
    unfold ws_client_recv_step
    rw [ha]
    simp only
    rw [if_neg (by decide), if_neg (by decide), if_neg (by simp), hval, if_pos (by decide), hb]
  · simp [ws_client_is_open]
  · show wb.sent = _
    have hw : wa.sent = w.sent := by simp [World.sent, ra2]
    have hcode : [(WS_CLOSE_PROTOCOL_ERROR >>> 8) % 256, (WS_CLOSE_PROTOCOL_ERROR &&& 0xFF) % 256]
        = [0x03, 0xEA] := by decide
    rw [hsent, (ws_make_mask_key_congr w wa ra3).1, hw, hcode]
  · show wb.sockClosed + 1 = _
    rw [sb4, ra4]
  · show wb.sockDestroyed + 1 = _
    rw [sb5, ra5]
  · show pending_bytes ca ++ rx_avail wb.rx = rest
    rw [sb1]
    exact hava

/-- Counterexample for C12: the client receives the masked TEXT frame
`81 83 01 02 03 04 | 60 60 60` (payload `abc`). `ws_client_recv` does not return
the payload: it returns `WS_ERR`, the session is closed, the frame
`88 82 00 00 00 00 03 EA` has been written and the masked payload is still
unread. -/
theorem client_rejects_masked_frame_counterexample :
    ws_client_recv sample_codes sample_client_ctx
        (sample_world [RxEvent.data [0x81, 0x83, 1, 2, 3, 4, 0x60, 0x60, 0x60]])
        [0, 0, 0, 0] 4 (some 0)
      = some (WS_ERR, { sample_client_ctx with open_ := false }, [0, 0, 0, 0], some 0,
          { sample_world [RxEvent.data [0x60, 0x60, 0x60]] with
            tx := [[0x88, 0x82, 0, 0, 0, 0], [0x03, 0xEA]], sockClosed := 1,
            sockDestroyed := 1 }) := by
  decide!

/-- Witness for C12 as amended: the masked BINARY frame `82 81 0A 0B 0C 0D | 55`
read by a client whose `rand()` yields the key `11 22 33 44`. -/
theorem client_rejects_masked_frame_witness :
    ∃ ctx1 w1, ws_client_recv sample_codes sample_client_ctx
        { sample_world [RxEvent.data [0x82, 0x81, 0x0A, 0x0B, 0x0C, 0x0D, 0x55]] with
          rand := [0x11, 0x22, 0x33, 0x44] } [0, 0, 0, 0] 4 (some 0)
        = some (WS_ERR, ctx1, [0, 0, 0, 0], some 0, w1) ∧
      ws_client_is_open ctx1 = false ∧
      w1.sent = ({ sample_world [RxEvent.data [0x82, 0x81, 0x0A, 0x0B, 0x0C, 0x0D, 0x55]] with
          rand := [0x11, 0x22, 0x33, 0x44] } : World).sent ++ ([0x88, 0x82] ++
        (ws_make_mask_key { sample_world [RxEvent.data [0x82, 0x81, 0x0A, 0x0B, 0x0C, 0x0D, 0x55]]
          with rand := [0x11, 0x22, 0x33, 0x44] }).1 ++
        xor_from (ws_make_mask_key
          { sample_world [RxEvent.data [0x82, 0x81, 0x0A, 0x0B, 0x0C, 0x0D, 0x55]] with
            rand := [0x11, 0x22, 0x33, 0x44] }).1 0 [0x03, 0xEA]) ∧
      w1.sockClosed = ({ sample_world [RxEvent.data [0x82, 0x81, 0x0A, 0x0B, 0x0C, 0x0D, 0x55]]
          with rand := [0x11, 0x22, 0x33, 0x44] } : World).sockClosed + 1 ∧
      w1.sockDestroyed = ({ sample_world [RxEvent.data [0x82, 0x81, 0x0A, 0x0B, 0x0C, 0x0D, 0x55]]
          with rand := [0x11, 0x22, 0x33, 0x44] } : World).sockDestroyed + 1 ∧
      client_avail ctx1 w1 = [0x55] :=
  client_rejects_masked_frame sample_codes sample_client_ctx
    { sample_world [RxEvent.data [0x82, 0x81, 0x0A, 0x0B, 0x0C, 0x0D, 0x55]] with
      rand := [0x11, 0x22, 0x33, 0x44] } [0, 0, 0, 0] 4 (some 0) 0x82 0x81 []
    [0x0A, 0x0B, 0x0C, 0x0D] [0x55] (by decide!) ⟨by decide!, by decide!⟩ (by decide!) (by decide!)
    (by decide!) (by decide!) (by decide!) (by decide!) (by decide!) (by decide!) (by decide!)
    (by decide!) (by decide!) (by decide!) (by decide!)

/-- C14, evaluation at the failing inputs. (1) The transport reports no data
twice, each time after 6000 ms, and then delivers the TEXT frame `81 01 41`:
the header read of `ws_client_recv` times out twice, yet the call does not
return `WS_TIMEOUT`; it keeps waiting and returns the frame after 12000 ms.
(2) The header `81 03` and the first payload byte arrive, then the transport
reports no data after 6000 ms: the payload read times out and `ws_client_recv`
returns `WS_ERR`, not `WS_TIMEOUT`, with two payload bytes of the frame still
to come. -/
theorem client_recv_hides_timeout :
    (ws_client_read_frame_hdr sample_codes sample_client_ctx
        (sample_world [RxEvent.elapse 6000, RxEvent.code 3]) hdr0).map (fun r => r.1)
      = some WS_TIMEOUT ∧
    ws_client_recv sample_codes sample_client_ctx
        (sample_world [RxEvent.elapse 6000, RxEvent.code 3, RxEvent.elapse 6000, RxEvent.code 3,
          RxEvent.data [0x81, 0x01, 0x41]]) [0, 0, 0, 0] 4 (some 0)
      = some (1, sample_client_ctx, [0x41, 0, 0, 0], some 1,
          { sample_world [] with tick := 12000 }) ∧
    ws_client_recv sample_codes sample_client_ctx
        (sample_world [RxEvent.data [0x81, 0x03, 0x41], RxEvent.elapse 6000, RxEvent.code 3,
          RxEvent.data [0x42, 0x43]]) [0, 0, 0, 0] 4 (some 0)
      = some (WS_ERR, sample_client_ctx, [0x41, 0, 0, 0], some 0,
          { sample_world [RxEvent.data [0x42, 0x43]] with tick := 6000 }) ∧
    WS_ERR ≠ WS_TIMEOUT :=
  ⟨by decide!, by decide!, by decide!, by decide⟩

/-- C15, evaluation at the failing inputs: the first transport read of
`ws_server_recv` returns the no-data code (`-3` here), or the fatal error code
`-9`, or the no-data code arrives in the middle of a payload. In each case
`ws_server_recv` returns 0, the value of a clean close, and clears `open`,
although no read returned 0 and no CLOSE frame was received. -/
theorem server_recv_conflates_no_data :
    sample_codes.NET_NO_DATA = -3 ∧
    ws_server_recv sample_codes sample_server_client (sample_world [RxEvent.code 3])
        [0, 0, 0, 0] 4 (some 0)
      = some (0, { sample_server_client with open_ := false }, [0, 0, 0, 0], some 0,
          sample_world []) ∧
    ws_server_recv sample_codes sample_server_client (sample_world [RxEvent.code 9])
        [0, 0, 0, 0] 4 (some 0)
      = some (0, { sample_server_client with open_ := false }, [0, 0, 0, 0], some 0,
          sample_world []) ∧
    ws_server_recv sample_codes sample_server_client
        (sample_world [RxEvent.data [0x81, 0x83, 1, 2, 3, 4, 5], RxEvent.code 3,
          RxEvent.data [6, 7]]) [0, 0, 0, 0] 4 (some 0)
      = some (0, { sample_server_client with open_ := false }, [5, 0, 0, 0], some 0,
          sample_world [RxEvent.data [6, 7]]) :=
  ⟨by decide, by decide!, by decide!, by decide!⟩

theorem RecvOnly.sent_eq {w w1 : World} (h : RecvOnly w w1) : w1.sent = w.sent := by
  simp [World.sent, h.2.1]

/-- What the CLOSE branch of the server's dispatch does on a transport that
accepts everything. -/
theorem ws_server_dispatch_close (c : ws_server_client_t) (w : World) (h : ws_frame_hdr_t)
    (buffer : List Nat) (out_opcode : Option Nat) (hop : h.opcode = WS_OPCODE_CLOSE)
    (htx : w.txScript = []) :
    ∃ w1, ws_server_dispatch c w h buffer out_opcode
        = some (some 0, { c with open_ := false }, buffer, out_opcode, w1) ∧ SendOnly w w1 ∧
      w1.sent = w.sent ++ ([0x88, 0x02] ++
        (if h.payload_len ≥ 2 then [buffer.getD 0 0, buffer.getD 1 0] else [0x03, 0xE8])) := by
  obtain ⟨w1, h1, hs1, _, hb⟩ := ws_send_frame_unmasked_small w WS_OPCODE_CLOSE
    (if h.payload_len ≥ 2 then [buffer.getD 0 0, buffer.getD 1 0] else [0x03, 0xE8]) 2 true
    c.scratch c.scratch_cap htx (by omega)
  refine ⟨w1, ?_, hs1, ?_⟩
  · unfold ws_server_dispatch
    rw [if_neg (by rw [hop]; decide), if_neg (by rw [hop]; decide), if_pos hop]
    simp only
    rw [h1]
  · rw [hb]
    by_cases h2 : h.payload_len ≥ 2
    · simp [if_pos h2, WS_OPCODE_CLOSE]
    · simp [if_neg h2, WS_OPCODE_CLOSE]

/-- What the CLOSE branch of the client's dispatch does on a transport that
accepts everything. -/
theorem ws_client_dispatch_close (ctx : ws_client_ctx_t) (w : World) (h : ws_frame_hdr_t)
    (buffer : List Nat) (payload_len : Nat) (out_opcode : Option Nat)
    (hop : h.opcode = WS_OPCODE_CLOSE) (htx : w.txScript = []) (hsc : ctx.scratch = true)
    (hcap : 0 < ctx.scratch_cap) :
    ∃ w1, ws_client_dispatch ctx w h buffer payload_len out_opcode
        = some (some WS_CLOSED, { ctx with open_ := false }, buffer, out_opcode, w1) ∧
      SendOnly w w1 ∧
      w1.sent = w.sent ++ ([0x88, 0x82] ++ (ws_make_mask_key w).1 ++
        xor_from (ws_make_mask_key w).1 0 [0x03, 0xE8]) := by
  obtain ⟨w1, h1, hs1, _, hb⟩ := ws_send_frame_masked_small w WS_OPCODE_CLOSE [0x03, 0xE8] 2
    true ctx.scratch_cap htx (by omega) (by simp) hcap
  refine ⟨w1, ?_, hs1, ?_⟩
  · unfold ws_client_dispatch
    rw [if_pos hop, hsc, h1]
  · rw [hb]
    simp [WS_OPCODE_CLOSE]

/-- C16 as amended: CLOSE handling. For a valid CLOSE frame (FIN set, RSV
clear, masking direction right for the role, payload `P` of 0 or 2..125 bytes
that fits the caller's buffer) at the head of the incoming stream:
`ws_server_recv` replies with an unmasked CLOSE frame whose 2-byte payload is
the peer's status code (the first two bytes of `P`) when `P` has at least 2
bytes and `03 E8` (1000) otherwise, sets `open` to false and returns 0;
`ws_client_recv` replies with a masked CLOSE frame whose 2-byte payload is
always `03 E8`, whatever status code the peer sent, sets `open` to false and
returns `WS_CLOSED`. -/
theorem close_frame_handling (nc : NetCodes) (hnc : nc.NET_NO_DATA < 0)
    (buffer : List Nat) (buffer_size : Nat) (out_opcode : Option Nat) (b0 b1 : Nat)
    (ext key P rest : List Nat)
    (hext : ext.length = wire_ext_len b1) (hkey : key.length = wire_key_len b1)
    (hlen : (wire_hdr b0 b1 ext key).payload_len = P.length)
    (hfin : (wire_hdr b0 b1 ext key).fin = true)
    (hrsv1 : (wire_hdr b0 b1 ext key).rsv1 = false)
    (hrsv2 : (wire_hdr b0 b1 ext key).rsv2 = false)
    (hrsv3 : (wire_hdr b0 b1 ext key).rsv3 = false)
    (hop : (wire_hdr b0 b1 ext key).opcode = WS_OPCODE_CLOSE)
    (hP : P.length ≤ 125) (hP1 : P.length ≠ 1) (hbs : 1 ≤ buffer_size)
    (hfit : P.length ≤ buffer_size) :
    (∀ (c : ws_server_client_t) (w : World), c.open_ = true → w.txScript = [] →
      (wire_hdr b0 b1 ext key).masked = true →
      rx_avail w.rx = b0 :: b1 :: (ext ++ (key ++ (xor_from key 0 P ++ rest))) →
      ∃ c1 buffer1 w1, ws_server_recv nc c w buffer buffer_size out_opcode
          = some (0, c1, buffer1, out_opcode, w1) ∧
        c1.open_ = false ∧
        w1.sent = w.sent ++ ([0x88, 0x02] ++ (if 2 ≤ P.length then P.take 2 else [0x03, 0xE8])) ∧
        rx_avail w1.rx = rest) ∧
    (∀ (ctx : ws_client_ctx_t) (w : World), ws_client_is_open ctx = true → PendingOk ctx →
      w.txScript = [] → ctx.scratch = true → 0 < ctx.scratch_cap →
      (wire_hdr b0 b1 ext key).masked = false →
      client_avail ctx w = b0 :: b1 :: (ext ++ (key ++ (P ++ rest))) →
      ∃ ctx1 buffer1 w1, ws_client_recv nc ctx w buffer buffer_size out_opcode
          = some (WS_CLOSED, ctx1, buffer1, out_opcode, w1) ∧
        ws_client_is_open ctx1 = false ∧
        w1.sent = w.sent ++ ([0x88, 0x82] ++ (ws_make_mask_key w).1 ++
          xor_from (ws_make_mask_key w).1 0 [0x03, 0xE8]) ∧
        client_avail ctx1 w1 = rest) := by
  constructor
  · intro c w hopen htx hmasked hrx
    obtain ⟨wa, ha, hava, hroa⟩ := ws_server_recv_step_dispatch nc hnc c w buffer buffer_size
      out_opcode b0 b1 ext key P rest hrx hext hkey hlen hfin hrsv1 hrsv2 hrsv3 hmasked
      (by rw [hop]; decide) (Or.inl hP) hfit (by omega)
    obtain ⟨wb, hb, hsb, hsent⟩ := ws_server_dispatch_close c wa (wire_hdr b0 b1 ext key)
      (P ++ buffer.drop P.length) out_opcode hop (by rw [hroa.1, htx])
    refine ⟨{ c with open_ := false }, P ++ buffer.drop P.length, wb, ?_, rfl, ?_,
      by rw [hsb.1, hava]⟩
    · unfold ws_server_recv
      rw [if_neg (by simp [hopen]; omega)]
      rw [ws_server_recv_loop, ha, hb]
    · rw [hsent, hroa.sent_eq, hlen]
      by_cases h2 : 2 ≤ P.length
      · rw [if_pos h2, if_pos h2]
        match P, h2 with
        | p0 :: p1 :: t, _ => simp
      · rw [if_neg h2, if_neg h2]
  · intro ctx w hopen hp htx hsc hcap hmasked hrx
    have hrej : ws_client_hdr_rejected (wire_hdr b0 b1 ext key) = false := by
      unfold ws_client_hdr_rejected
      have : ¬ (wire_hdr b0 b1 ext key).payload_len > 125 := by omega
      simp [hrsv1, hrsv2, hrsv3, hfin, hop, WS_OPCODE_CONT, WS_OPCODE_CLOSE, this]
    have hval : ws_validate_frame_hdr (wire_hdr b0 b1 ext key) false true = WS_OK := by
      unfold ws_validate_frame_hdr
      have h125 : ¬ (wire_hdr b0 b1 ext key).payload_len > 125 := by omega
      have h1 : ¬ (wire_hdr b0 b1 ext key).payload_len = 1 := by omega
      simp [hrsv1, hrsv2, hrsv3, hfin, hmasked, hop, WS_OPCODE_CLOSE, WS_OK, h125, h1]
    obtain ⟨ca, wa, ha, hava, hpa, hsa, hroa⟩ := ws_client_recv_step_dispatch nc ctx w buffer
      buffer_size out_opcode b0 b1 ext key P rest hp hrx hext hkey hlen hrej hval hmasked hfit
      (by omega)
    obtain ⟨_, sa2, sa3, _, _, sa6, sa7, _, _⟩ := hsa
    obtain ⟨wb, hb, hsb, hsent⟩ := ws_client_dispatch_close ca wa (wire_hdr b0 b1 ext key)
      (P ++ buffer.drop P.length) P.length out_opcode hop (by rw [hroa.1, htx])
      (by rw [sa6, hsc]) (by rw [sa7]; exact hcap)
    refine ⟨{ ca with open_ := false }, P ++ buffer.drop P.length, wb, ?_, ?_, ?_, ?_⟩
    · unfold ws_client_recv
      rw [hopen, if_neg (by simp; omega)]
      rw [ws_client_recv_loop, ha, hb]
    · simp [ws_client_is_open]
    · rw [hsent, hroa.sent_eq, (ws_make_mask_key_congr w wa hroa.2.2.1).1]
    · show pending_bytes ca ++ rx_avail wb.rx = rest
      rw [hsb.1]
      exact hava

/-- Counterexample for C16: the client receives the CLOSE frame `88 02 03 E9`
(status 1001). The CLOSE frame that `ws_client_recv` writes carries `03 E8`
(1000), not the peer's status code. -/
theorem close_frame_handling_counterexample :
    ws_client_recv sample_codes sample_client_ctx
        (sample_world [RxEvent.data [0x88, 0x02, 0x03, 0xE9]]) [0, 0, 0, 0] 4 (some 0)
      = some (WS_CLOSED, { sample_client_ctx with open_ := false }, [0x03, 0xE9, 0, 0], some 0,
          { sample_world [] with tx := [[0x88, 0x82, 0, 0, 0, 0], [0x03, 0xE8]] }) ∧
    xor_from [0, 0, 0, 0] 0 [0x03, 0xE8] ≠ [0x03, 0xE9] :=
  ⟨by decide!, by decide⟩

/-- Witness for C16 as amended: the server reads the masked CLOSE frame
`88 82 01 02 03 04 | 02 EB` (status `03 E9`), and the client reads the unmasked
CLOSE frame `88 02 03 E9`. -/
theorem close_frame_handling_witness :
    (∃ c1 buffer1 w1, ws_server_recv sample_codes sample_server_client
        (sample_world [RxEvent.data [0x88, 0x82, 1, 2, 3, 4, 0x02, 0xEB]]) [0, 0, 0, 0] 4 (some 0)
        = some (0, c1, buffer1, some 0, w1) ∧
      c1.open_ = false ∧
      w1.sent = (sample_world [RxEvent.data [0x88, 0x82, 1, 2, 3, 4, 0x02, 0xEB]]).sent ++
        ([0x88, 0x02] ++ (if 2 ≤ ([0x03, 0xE9] : List Nat).length then
          ([0x03, 0xE9] : List Nat).take 2 else [0x03, 0xE8])) ∧
      rx_avail w1.rx = []) ∧
    (∃ ctx1 buffer1 w1, ws_client_recv sample_codes sample_client_ctx
        (sample_world [RxEvent.data [0x88, 0x02, 0x03, 0xE9]]) [0, 0, 0, 0] 4 (some 0)
        = some (WS_CLOSED, ctx1, buffer1, some 0, w1) ∧
      ws_client_is_open ctx1 = false ∧
      w1.sent = (sample_world [RxEvent.data [0x88, 0x02, 0x03, 0xE9]]).sent ++ ([0x88, 0x82] ++
        (ws_make_mask_key (sample_world [RxEvent.data [0x88, 0x02, 0x03, 0xE9]])).1 ++
        xor_from (ws_make_mask_key (sample_world [RxEvent.data [0x88, 0x02, 0x03, 0xE9]])).1 0
          [0x03, 0xE8]) ∧
      client_avail ctx1 w1 = []) :=
  ⟨(close_frame_handling sample_codes (by decide!) [0, 0, 0, 0] 4 (some 0) 0x88 0x82 []
      [1, 2, 3, 4] [0x03, 0xE9] [] (by decide!) (by decide!) (by decide!) (by decide!) (by decide!)
      (by decide!) (by decide!) (by decide!) (by decide!) (by decide!) (by decide!) (by decide!)).1
      sample_server_client (sample_world [RxEvent.data [0x88, 0x82, 1, 2, 3, 4, 0x02, 0xEB]])
      (by decide!) (by decide!) (by decide!) (by decide!),
    (close_frame_handling sample_codes (by decide!) [0, 0, 0, 0] 4 (some 0) 0x88 0x02 []
      [] [0x03, 0xE9] [] (by decide!) (by decide!) (by decide!) (by decide!) (by decide!)
      (by decide!) (by decide!) (by decide!) (by decide!) (by decide!) (by decide!) (by decide!)).2
      sample_client_ctx (sample_world [RxEvent.data [0x88, 0x02, 0x03, 0xE9]])
      (by decide!) ⟨by decide!, by decide!⟩ (by decide!) (by decide!) (by decide!) (by decide!)
      (by decide!)⟩

/-- C17: PING and PONG handling in both roles. For a valid PING frame (FIN set,
RSV clear, masking direction right for the role) with payload `P`,
`|P| ≤ 125` and `|P| ≤ buffer_size`, at the head of the incoming stream, one
pass of the receive loop consumes the frame, writes exactly one PONG frame that
carries `P` (`8A`, length, `P` on the server; `8A`, `0x80 | length`, a 4-byte
key and `P` masked with that key on the client) and the loop goes round again
from the next frame instead of returning. For a valid PONG frame the pass
consumes the frame, writes nothing and the loop goes round again. -/
theorem ping_pong_handling (nc : NetCodes) (hnc : nc.NET_NO_DATA < 0)
    (buffer : List Nat) (buffer_size : Nat) (out_opcode : Option Nat) (b0 b1 : Nat)
    (ext key P rest : List Nat)
    (hext : ext.length = wire_ext_len b1) (hkey : key.length = wire_key_len b1)
    (hlen : (wire_hdr b0 b1 ext key).payload_len = P.length)
    (hfin : (wire_hdr b0 b1 ext key).fin = true)
    (hrsv1 : (wire_hdr b0 b1 ext key).rsv1 = false)
    (hrsv2 : (wire_hdr b0 b1 ext key).rsv2 = false)
    (hrsv3 : (wire_hdr b0 b1 ext key).rsv3 = false)
    (hP : P.length ≤ 125) (hfit : P.length ≤ buffer_size) :
    (∀ (c : ws_server_client_t) (w : World), w.txScript = [] →
      (wire_hdr b0 b1 ext key).masked = true →
      rx_avail w.rx = b0 :: b1 :: (ext ++ (key ++ (xor_from key 0 P ++ rest))) →
      ((wire_hdr b0 b1 ext key).opcode = WS_OPCODE_PING →
        ∃ w1, (∀ fuel, ws_server_recv_loop nc buffer_size (fuel + 1) c w buffer out_opcode
            = ws_server_recv_loop nc buffer_size fuel c w1 (P ++ buffer.drop P.length)
                out_opcode) ∧
          w1.sent = w.sent ++ ([0x8A, P.length] ++ P) ∧ rx_avail w1.rx = rest) ∧
      ((wire_hdr b0 b1 ext key).opcode = WS_OPCODE_PONG →
        ∃ w1, (∀ fuel, ws_server_recv_loop nc buffer_size (fuel + 1) c w buffer out_opcode
            = ws_server_recv_loop nc buffer_size fuel c w1 (P ++ buffer.drop P.length)
                out_opcode) ∧
          w1.sent = w.sent ∧ rx_avail w1.rx = rest)) ∧
    (∀ (ctx : ws_client_ctx_t) (w : World), PendingOk ctx → w.txScript = [] →
      ctx.scratch = true → 0 < ctx.scratch_cap →
      (wire_hdr b0 b1 ext key).masked = false →
      client_avail ctx w = b0 :: b1 :: (ext ++ (key ++ (P ++ rest))) →
      ((wire_hdr b0 b1 ext key).opcode = WS_OPCODE_PING →
        ∃ ctx1 w1, (∀ fuel, ws_client_recv_loop nc buffer_size (fuel + 1) ctx w buffer out_opcode
            = ws_client_recv_loop nc buffer_size fuel ctx1 w1 (P ++ buffer.drop P.length)
                out_opcode) ∧
          SameSession ctx ctx1 ∧
          w1.sent = w.sent ++ ([0x8A, 0x80 + P.length] ++ (ws_make_mask_key w).1 ++
            xor_from (ws_make_mask_key w).1 0 P) ∧
          client_avail ctx1 w1 = rest) ∧
      ((wire_hdr b0 b1 ext key).opcode = WS_OPCODE_PONG →
        ∃ ctx1 w1, (∀ fuel, ws_client_recv_loop nc buffer_size (fuel + 1) ctx w buffer out_opcode
            = ws_client_recv_loop nc buffer_size fuel ctx1 w1 (P ++ buffer.drop P.length)
                out_opcode) ∧
          SameSession ctx ctx1 ∧ w1.sent = w.sent ∧ client_avail ctx1 w1 = rest)) := by
  constructor
  · intro c w htx hmasked hrx
    have hstep : ∀ hc : (wire_hdr b0 b1 ext key).opcode ≠ WS_OPCODE_CONT,
        ∃ w1, ws_server_recv_step nc c w buffer buffer_size out_opcode
            = ws_server_dispatch c w1 (wire_hdr b0 b1 ext key) (P ++ buffer.drop P.length)
                out_opcode ∧
          rx_avail w1.rx = rest ∧ RecvOnly w w1 := fun hc =>
      ws_server_recv_step_dispatch nc hnc c w buffer buffer_size out_opcode b0 b1 ext key P rest
        hrx hext hkey hlen hfin hrsv1 hrsv2 hrsv3 hmasked hc (Or.inl hP) hfit (by omega)
    constructor
    · intro hop
      obtain ⟨wa, ha, hava, hroa⟩ := hstep (by rw [hop]; decide)
      obtain ⟨wb, hb, hsb, _, hsent⟩ := ws_send_frame_unmasked_small wa WS_OPCODE_PONG
        (P ++ buffer.drop P.length) P.length true c.scratch c.scratch_cap
        (by rw [hroa.1, htx]) hP
      refine ⟨wb, ?_, ?_, by rw [hsb.1, hava]⟩
      · intro fuel
        rw [ws_server_recv_loop, ha]
        unfold ws_server_dispatch
        rw [if_pos hop, hlen, hb]
      · rw [hsent, hroa.sent_eq]
        simp [WS_OPCODE_PONG]
    · intro hop
      obtain ⟨wa, ha, hava, hroa⟩ := hstep (by rw [hop]; decide)
      refine ⟨wa, ?_, hroa.sent_eq, hava⟩
      intro fuel
      rw [ws_server_recv_loop, ha]
      unfold ws_server_dispatch
      rw [if_neg (by rw [hop]; decide), if_pos hop]
  · intro ctx w hp htx hsc hcap hmasked hrx
    have hstep : ∀ hc : (wire_hdr b0 b1 ext key).opcode = WS_OPCODE_PING ∨
        (wire_hdr b0 b1 ext key).opcode = WS_OPCODE_PONG,
        ∃ ctx1 w1, ws_client_recv_step nc ctx w buffer buffer_size out_opcode
            = ws_client_dispatch ctx1 w1 (wire_hdr b0 b1 ext key) (P ++ buffer.drop P.length)
                P.length out_opcode ∧
          client_avail ctx1 w1 = rest ∧ PendingOk ctx1 ∧ SameSession ctx ctx1 ∧
          RecvOnly w w1 := by
      intro hc
      have h125 : ¬ (wire_hdr b0 b1 ext key).payload_len > 125 := by omega
      have hrej : ws_client_hdr_rejected (wire_hdr b0 b1 ext key) = false := by
        unfold ws_client_hdr_rejected
        rcases hc with e | e <;>
          simp [hrsv1, hrsv2, hrsv3, hfin, e, WS_OPCODE_CONT, WS_OPCODE_CLOSE, WS_OPCODE_PING,
            WS_OPCODE_PONG, h125]
      have hval : ws_validate_frame_hdr (wire_hdr b0 b1 ext key) false true = WS_OK := by
        unfold ws_validate_frame_hdr
        rcases hc with e | e <;>
          simp [hrsv1, hrsv2, hrsv3, hfin, hmasked, e, WS_OPCODE_PING, WS_OPCODE_PONG, WS_OK,
            h125]
      exact ws_client_recv_step_dispatch nc ctx w buffer buffer_size out_opcode b0 b1 ext key P
        rest hp hrx hext hkey hlen hrej hval hmasked hfit (by omega)
    constructor
    · intro hop
      obtain ⟨ca, wa, ha, hava, hpa, hsa, hroa⟩ := hstep (Or.inl hop)
      obtain ⟨wb, hb, hsb, _, hsent⟩ := ws_send_frame_masked_small wa WS_OPCODE_PONG
        (P ++ buffer.drop P.length) P.length true ca.scratch_cap (by rw [hroa.1, htx]) hP
        (by simp) (by rw [hsa.2.2.2.2.2.2.1]; exact hcap)
      refine ⟨ca, wb, ?_, hsa, ?_, ?_⟩
      · intro fuel
        rw [ws_client_recv_loop, ha]
        unfold ws_client_dispatch
        rw [if_neg (by rw [hop]; decide), if_pos hop, hsa.2.2.2.2.2.1, hsc, hb]
      · rw [hsent, hroa.sent_eq, (ws_make_mask_key_congr w wa hroa.2.2.1).1]
        simp [WS_OPCODE_PONG]
      · show pending_bytes ca ++ rx_avail wb.rx = rest
        rw [hsb.1]
        exact hava
    · intro hop
      obtain ⟨ca, wa, ha, hava, hpa, hsa, hroa⟩ := hstep (Or.inr hop)
      refine ⟨ca, wa, ?_, hsa, hroa.sent_eq, hava⟩
      intro fuel
      rw [ws_client_recv_loop, ha]
      unfold ws_client_dispatch
      rw [if_neg (by rw [hop]; decide), if_neg (by rw [hop]; decide), if_pos hop]

/-- Witness for C17: the server reads the masked PING frame
`89 82 01 02 03 04 | 69 6B` (payload `68 69`) that is followed by the masked
TEXT frame `81 81 00 00 00 00 | 41`, and the client reads the unmasked PING
frame `89 02 68 69`. The whole server call writes the PONG `8A 02 68 69` and
returns the TEXT frame. -/
theorem ping_pong_handling_witness :
    (∃ w1, (∀ fuel, ws_server_recv_loop sample_codes 4 (fuel + 1) sample_server_client
          (sample_world [RxEvent.data [0x89, 0x82, 1, 2, 3, 4, 0x69, 0x6B, 0x81, 0x81, 0, 0, 0, 0,
            0x41]]) [0, 0, 0, 0] (some 0)
          = ws_server_recv_loop sample_codes 4 fuel sample_server_client w1
              ([0x68, 0x69] ++ ([0, 0, 0, 0] : List Nat).drop ([0x68, 0x69] : List Nat).length)
              (some 0)) ∧
      w1.sent = (sample_world [RxEvent.data [0x89, 0x82, 1, 2, 3, 4, 0x69, 0x6B, 0x81, 0x81, 0, 0,
          0, 0, 0x41]]).sent ++ ([0x8A, ([0x68, 0x69] : List Nat).length] ++ [0x68, 0x69]) ∧
      rx_avail w1.rx = [0x81, 0x81, 0, 0, 0, 0, 0x41]) ∧
    (∃ ctx1 w1, (∀ fuel, ws_client_recv_loop sample_codes 4 (fuel + 1) sample_client_ctx
          (sample_world [RxEvent.data [0x89, 0x02, 0x68, 0x69]]) [0, 0, 0, 0] (some 0)
          = ws_client_recv_loop sample_codes 4 fuel ctx1 w1
              ([0x68, 0x69] ++ ([0, 0, 0, 0] : List Nat).drop ([0x68, 0x69] : List Nat).length)
              (some 0)) ∧
      SameSession sample_client_ctx ctx1 ∧
      w1.sent = (sample_world [RxEvent.data [0x89, 0x02, 0x68, 0x69]]).sent ++
        ([0x8A, 0x80 + ([0x68, 0x69] : List Nat).length] ++
          (ws_make_mask_key (sample_world [RxEvent.data [0x89, 0x02, 0x68, 0x69]])).1 ++
          xor_from (ws_make_mask_key (sample_world [RxEvent.data [0x89, 0x02, 0x68, 0x69]])).1 0
            [0x68, 0x69]) ∧
      client_avail ctx1 w1 = []) ∧
    ws_server_recv sample_codes sample_server_client
        (sample_world [RxEvent.data [0x89, 0x82, 1, 2, 3, 4, 0x69, 0x6B, 0x81, 0x81, 0, 0, 0, 0,
          0x41]]) [0, 0, 0, 0] 4 (some 0)
      = some (1, sample_server_client, [0x41, 0x69, 0, 0], some 1,
          { sample_world [] with tx := [[0x8A, 0x02], [0x68, 0x69]] }) :=
  ⟨((ping_pong_handling sample_codes (by decide) [0, 0, 0, 0] 4 (some 0) 0x89 0x82 []
      [1, 2, 3, 4] [0x68, 0x69] [0x81, 0x81, 0, 0, 0, 0, 0x41] (by decide!) (by decide!)
      (by decide!) (by decide!) (by decide!) (by decide!) (by decide!) (by decide!)
      (by decide!)).1
      sample_server_client
      (sample_world [RxEvent.data [0x89, 0x82, 1, 2, 3, 4, 0x69, 0x6B, 0x81, 0x81, 0, 0, 0, 0,
        0x41]]) (by decide!) (by decide!) (by decide!)).1 (by decide!),
    ((ping_pong_handling sample_codes (by decide) [0, 0, 0, 0] 4 (some 0) 0x89 0x02 []
      [] [0x68, 0x69] [] (by decide!) (by decide!) (by decide!) (by decide!) (by decide!)
      (by decide!) (by decide!) (by decide!) (by decide!)).2
      sample_client_ctx (sample_world [RxEvent.data [0x89, 0x02, 0x68, 0x69]])
      ⟨by decide!, by decide!⟩ (by decide!) (by decide!) (by decide!) (by decide!)
      (by decide!)).1 (by decide!),
    by decide!⟩

/-- The drain loop of `ws_read_frame_payload` consumes exactly `n` bytes. -/
theorem ws_drain_loop_ok (nc : NetCodes) (hnc : nc.NET_NO_DATA < 0) (cap : Nat)
    (hcap : 0 < cap) (hint : cap < 2 ^ 31) :
    ∀ (fuel : Nat) (w : World) (n : Nat), n < fuel → n ≤ (rx_avail w.rx).length →
      ∃ w1, ws_drain_loop nc cap fuel w n = some (WS_ERR, w1) ∧
        rx_avail w1.rx = (rx_avail w.rx).drop n ∧ RecvOnly w w1 := by
  intro fuel
  induction fuel with
  | zero => intro w n h; omega
  | succ fuel ih =>
    intro w n hfuel havail
    rw [ws_drain_loop]
    by_cases hz : n ≠ 0
    · rw [if_pos hz]
      simp only
      obtain ⟨w1, h1, hav1, hro1⟩ := ws_recv_exact_ok nc hnc w (List.replicate cap 0) (min n cap)
        (by omega) (by omega)
      rw [h1]
      simp only [ne_eq, not_true_eq_false, if_false]
      obtain ⟨w2, h2, hav2, hro2⟩ := ih w1 (n - min n cap) (by omega)
        (by rw [hav1, List.length_drop]; omega)
      refine ⟨w2, h2, ?_, hro1.chain hro2⟩
      rw [hav2, hav1, List.drop_drop]
      congr 1
      omega
    · rw [if_neg hz]
      have e : n = 0 := by omega
      subst e
      exact ⟨w, rfl, by simp, RecvOnly.same w⟩

/-- The drain loop of `ws_server_recv` consumes exactly `n` bytes. -/
theorem ws_server_drain_loop_ok (nc : NetCodes) (hnc : nc.NET_NO_DATA < 0) :
    ∀ (fuel : Nat) (w : World) (n : Nat), n < fuel → n ≤ (rx_avail w.rx).length →
      ∃ w1, ws_server_drain_loop nc fuel w n = some (true, w1) ∧
        rx_avail w1.rx = (rx_avail w.rx).drop n ∧ RecvOnly w w1 := by
  intro fuel
  induction fuel with
  | zero => intro w n h; omega
  | succ fuel ih =>
    intro w n hfuel havail
    rw [ws_server_drain_loop]
    by_cases hz : n ≠ 0
    · rw [if_pos hz]
      simp only
      obtain ⟨w1, h1, hav1, hro1⟩ := ws_recv_exact_ok nc hnc w (List.replicate 64 0) (min n 64)
        (by omega) (by omega)
      rw [h1]
      simp only [ne_eq, not_true_eq_false, if_false]
      obtain ⟨w2, h2, hav2, hro2⟩ := ih w1 (n - min n 64) (by omega)
        (by rw [hav1, List.length_drop]; omega)
      refine ⟨w2, h2, ?_, hro1.chain hro2⟩
      rw [hav2, hav1, List.drop_drop]
      congr 1
      omega
    · rw [if_neg hz]
      have e : n = 0 := by omega
      subst e
      exact ⟨w, rfl, by simp, RecvOnly.same w⟩

/-- The drain loop of `ws_client_read_frame_payload` consumes exactly `n` bytes
of the pending bytes and the transport together. -/
theorem ws_client_drain_loop_ok (nc : NetCodes) (cap : Nat) (hcap : 0 < cap)
    (hint : cap < 2 ^ 31) :
    ∀ (fuel : Nat) (ctx : ws_client_ctx_t) (w : World) (n : Nat), PendingOk ctx → n < fuel →
      n ≤ (client_avail ctx w).length →
      ∃ ctx1 w1, ws_client_drain_loop nc cap fuel ctx w n = some (WS_ERR, ctx1, w1) ∧
        client_avail ctx1 w1 = (client_avail ctx w).drop n ∧ PendingOk ctx1 ∧
        SameSession ctx ctx1 ∧ RecvOnly w w1 := by
  intro fuel
  induction fuel with
  | zero => intro ctx w n _ h; omega
  | succ fuel ih =>
    intro ctx w n hp hfuel havail
    rw [ws_client_drain_loop]
    by_cases hz : n ≠ 0
    · rw [if_pos hz]
      simp only
      obtain ⟨c1, w1, h1, hav1, hp1, hs1, hro1⟩ := ws_client_recv_exact_ok nc ctx w
        (List.replicate cap 0) (min n cap) hp (by omega) (by omega) (by omega)
      rw [h1]
      simp only [ne_eq, not_true_eq_false, if_false]
      obtain ⟨c2, w2, h2, hav2, hp2, hs2, hro2⟩ := ih c1 w1 (n - min n cap) hp1 (by omega)
        (by rw [hav1, List.length_drop]; omega)
      refine ⟨c2, w2, h2, ?_, hp2, hs1.chain_ctx hs2, hro1.chain hro2⟩
      rw [hav2, hav1, List.drop_drop]
      congr 1
      omega
    · rw [if_neg hz]
      have e : n = 0 := by omega
      subst e
      exact ⟨ctx, w, rfl, by simp, hp, SameSession.same_ctx ctx, RecvOnly.same w⟩

/-- What a header that `ws_validate_frame_hdr` accepts with
`reject_fragmentation = true` looks like. -/
theorem ws_validate_frame_hdr_ok_facts (h : ws_frame_hdr_t) (expect_masked : Bool)
    (hok : ws_validate_frame_hdr h expect_masked true = WS_OK) :
    h.rsv1 = false ∧ h.rsv2 = false ∧ h.rsv3 = false ∧ h.masked = expect_masked ∧
      h.fin = true ∧ h.opcode ≠ WS_OPCODE_CONT ∧
      ((h.opcode = WS_OPCODE_CLOSE ∨ h.opcode = WS_OPCODE_PING ∨ h.opcode = WS_OPCODE_PONG) →
        h.payload_len ≤ 125) := by
  unfold ws_validate_frame_hdr at hok
  by_cases c1 : (h.rsv1 || h.rsv2 || h.rsv3) = true
  · rw [if_pos c1] at hok; exact absurd hok (by decide)
  rw [if_neg c1] at hok
  by_cases c2 : (if expect_masked then !h.masked else h.masked) = true
  · rw [if_pos c2] at hok; exact absurd hok (by decide)
  rw [if_neg c2] at hok
  by_cases c3 : (true && (!h.fin || h.opcode % 256 == 0x00)) = true
  · rw [if_pos c3] at hok; exact absurd hok (by decide)
  rw [if_neg c3] at hok
  simp only [Bool.or_eq_true, not_or, Bool.not_eq_true] at c1
  simp only [Bool.true_and, Bool.or_eq_true, Bool.not_eq_true', beq_iff_eq, not_or,
    Bool.not_eq_false] at c3
  refine ⟨c1.1.1, c1.1.2, c1.2, ?_, c3.1, ?_, ?_⟩
  · cases expect_masked <;> simpa using c2
  · intro h0
    rw [h0] at c3
    exact c3.2 (by decide)
  · intro hc
    by_cases c4 : h.payload_len > 125
    · exfalso
      rcases hc with e | e | e <;>
        · rw [e] at hok
          simp [WS_OPCODE_CLOSE, WS_OPCODE_PING, WS_OPCODE_PONG, c4, WS_ERR, WS_OK] at hok
    · omega

/-- C18: a frame whose payload exceeds the caller's buffer keeps the stream
aligned. Let the payload bytes `body` of a frame be ready on the stream,
`|body| = payload_len > buffer_size`. Then `ws_read_frame_payload` and
`ws_client_read_frame_payload`, given a scratch capacity of at least 1 (and
below `2^31`, the range of the `(int)` cast of the chunk size), consume exactly
`body`, return `WS_ERR` with `*out_len = 0` and leave the destination untouched.
For a frame whose header the validator accepts for the role, `ws_server_recv`
(through its own drain loop) and `ws_client_recv` consume the header and
exactly `body`, return `WS_ERR`, write nothing to the buffer, to `*out_opcode`
or to the transport and leave the session as it was, `open` included, so the
stream is left at the first byte after the frame. -/
theorem overflow_frame_drained (nc : NetCodes) (hnc : nc.NET_NO_DATA < 0)
    (buffer : List Nat) (buffer_size : Nat) (out_opcode : Option Nat) (body rest : List Nat)
    (hover : buffer_size < body.length) :
    (∀ (w : World) (h : ws_frame_hdr_t) (cap : Nat), h.payload_len = body.length → 1 ≤ cap →
      cap < 2 ^ 31 → rx_avail w.rx = body ++ rest →
      ∃ w1, ws_read_frame_payload nc w h buffer buffer_size cap = some (WS_ERR, buffer, 0, w1) ∧
        rx_avail w1.rx = rest ∧ RecvOnly w w1) ∧
    (∀ (ctx : ws_client_ctx_t) (w : World) (h : ws_frame_hdr_t) (cap : Nat),
      h.payload_len = body.length → 1 ≤ cap → cap < 2 ^ 31 → PendingOk ctx →
      client_avail ctx w = body ++ rest →
      ∃ ctx1 w1, ws_client_read_frame_payload nc ctx w h buffer buffer_size cap
          = some (WS_ERR, ctx1, buffer, 0, w1) ∧
        client_avail ctx1 w1 = rest ∧ SameSession ctx ctx1 ∧ RecvOnly w w1) ∧
    (∀ (c : ws_server_client_t) (w : World) (b0 b1 : Nat) (ext key : List Nat),
      c.open_ = true → 1 ≤ buffer_size →
      ext.length = wire_ext_len b1 → key.length = wire_key_len b1 →
      (wire_hdr b0 b1 ext key).payload_len = body.length →
      ws_validate_frame_hdr (wire_hdr b0 b1 ext key) true true = WS_OK →
      rx_avail w.rx = b0 :: b1 :: (ext ++ (key ++ (body ++ rest))) →
      ∃ w1, ws_server_recv nc c w buffer buffer_size out_opcode
          = some (WS_ERR, c, buffer, out_opcode, w1) ∧
        rx_avail w1.rx = rest ∧ RecvOnly w w1) ∧
    (∀ (ctx : ws_client_ctx_t) (w : World) (b0 b1 : Nat) (ext key : List Nat),
      ws_client_is_open ctx = true → 1 ≤ buffer_size → PendingOk ctx →
      1 ≤ ctx.scratch_cap → ctx.scratch_cap < 2 ^ 31 →
      ext.length = wire_ext_len b1 → key.length = wire_key_len b1 →
      (wire_hdr b0 b1 ext key).payload_len = body.length →
      ws_validate_frame_hdr (wire_hdr b0 b1 ext key) false true = WS_OK →
      client_avail ctx w = b0 :: b1 :: (ext ++ (key ++ (body ++ rest))) →
      ∃ ctx1 w1, ws_client_recv nc ctx w buffer buffer_size out_opcode
          = some (WS_ERR, ctx1, buffer, out_opcode, w1) ∧
        client_avail ctx1 w1 = rest ∧ SameSession ctx ctx1 ∧ RecvOnly w w1) := by
  have hpay : ∀ (w : World) (h : ws_frame_hdr_t) (cap : Nat), h.payload_len = body.length →
      1 ≤ cap → cap < 2 ^ 31 → rx_avail w.rx = body ++ rest →
      ∃ w1, ws_read_frame_payload nc w h buffer buffer_size cap = some (WS_ERR, buffer, 0, w1) ∧
        rx_avail w1.rx = rest ∧ RecvOnly w w1 := by
    intro w h cap hlen hcap hint hrx
    obtain ⟨w1, h1, hav1, hro1⟩ := ws_drain_loop_ok nc hnc cap (by omega) hint
      (h.payload_len + 1) w h.payload_len (by omega) (by rw [hrx, hlen]; simp)
    refine ⟨w1, ?_, ?_, hro1⟩
    · unfold ws_read_frame_payload
      rw [if_pos (by omega), h1]
    · rw [hav1, hrx, hlen]
      simp
  have hcpay : ∀ (ctx : ws_client_ctx_t) (w : World) (h : ws_frame_hdr_t) (cap : Nat),
      h.payload_len = body.length → 1 ≤ cap → cap < 2 ^ 31 → PendingOk ctx →
      client_avail ctx w = body ++ rest →
      ∃ ctx1 w1, ws_client_read_frame_payload nc ctx w h buffer buffer_size cap
          = some (WS_ERR, ctx1, buffer, 0, w1) ∧
        client_avail ctx1 w1 = rest ∧ SameSession ctx ctx1 ∧ RecvOnly w w1 := by
    intro ctx w h cap hlen hcap hint hp hrx
    obtain ⟨c1, w1, h1, hav1, _, hs1, hro1⟩ := ws_client_drain_loop_ok nc cap (by omega) hint
      (h.payload_len + 1) ctx w h.payload_len hp (by omega) (by rw [hrx, hlen]; simp)
    refine ⟨c1, w1, ?_, ?_, hs1, hro1⟩
    · unfold ws_client_read_frame_payload
      rw [if_pos (by omega), h1]
    · rw [hav1, hrx, hlen]
      simp
  refine ⟨hpay, hcpay, ?_, ?_⟩
  · intro c w b0 b1 ext key hopen hbs hext hkey hlen hval hrx
    obtain ⟨v1, v2, v3, v4, v5, v6, v7⟩ := ws_validate_frame_hdr_ok_facts _ _ hval
    obtain ⟨wa, ha, hava, hroa⟩ := ws_read_frame_hdr_ok nc hnc w hdr0 b0 b1 ext key _
      (by decide) hrx hext hkey
    generalize wire_hdr b0 b1 ext key = h at *
    obtain ⟨wb, hb, havb, hrob⟩ := ws_server_drain_loop_ok nc hnc (h.payload_len + 1) wa
      h.payload_len (by omega) (by rw [hava, hlen]; simp)
    refine ⟨wb, ?_, ?_, hroa.chain hrob⟩
    · unfold ws_server_recv
      rw [if_neg (by simp [hopen]; omega)]
      rw [ws_server_recv_loop]
      unfold ws_server_recv_step
      rw [ha]
      simp only [ne_eq, not_true_eq_false, if_false, v1, v2, v3, v4, v5,
        Bool.or_self, Bool.false_eq_true, Bool.not_true, Bool.false_or]
      have hnc0 : (h.opcode == WS_OPCODE_CONT) = false := by simpa using v6
      have hnctl : ((h.opcode == WS_OPCODE_CLOSE || h.opcode == WS_OPCODE_PING
          || h.opcode == WS_OPCODE_PONG) && decide (h.payload_len > 125)) = false := by
        by_cases hc : h.opcode = WS_OPCODE_CLOSE ∨ h.opcode = WS_OPCODE_PING ∨
            h.opcode = WS_OPCODE_PONG
        · have : ¬ h.payload_len > 125 := by have := v7 hc; omega
          simp [this]
        · simp only [not_or] at hc
          simp [hc.1, hc.2.1, hc.2.2]
      rw [hnc0, hnctl]
      simp only [Bool.false_eq_true, if_false]
      rw [if_pos (by omega), hb]
      simp
    · rw [havb, hava, hlen]
      simp
  · intro ctx w b0 b1 ext key hopen hbs hp hcap hint hext hkey hlen hval hrx
    obtain ⟨v1, v2, v3, v4, v5, v6, v7⟩ := ws_validate_frame_hdr_ok_facts _ _ hval
    have hrej : ws_client_hdr_rejected (wire_hdr b0 b1 ext key) = false := by
      unfold ws_client_hdr_rejected
      have hnc0 : ((wire_hdr b0 b1 ext key).opcode == WS_OPCODE_CONT) = false := by
        simpa using v6
      by_cases hc : (wire_hdr b0 b1 ext key).opcode = WS_OPCODE_CLOSE ∨
          (wire_hdr b0 b1 ext key).opcode = WS_OPCODE_PING ∨
          (wire_hdr b0 b1 ext key).opcode = WS_OPCODE_PONG
      · have : ¬ (wire_hdr b0 b1 ext key).payload_len > 125 := by have := v7 hc; omega
        simp [v1, v2, v3, v5, hnc0, this]
      · simp only [not_or] at hc
        simp [v1, v2, v3, v5, hnc0, hc.1, hc.2.1, hc.2.2]
    obtain ⟨ca, wa, ha, hava, hpa, hsa, hroa⟩ := ws_client_read_frame_hdr_ok nc ctx w hdr0 b0 b1
      ext key _ hp (by decide) hrx hext hkey hrej
    generalize wire_hdr b0 b1 ext key = h at *
    obtain ⟨cb, wb, hb, havb, hsb, hrob⟩ := hcpay ca wa h ca.scratch_cap hlen
      (by rw [hsa.2.2.2.2.2.2.1]; exact hcap) (by rw [hsa.2.2.2.2.2.2.1]; exact hint) hpa hava
    refine ⟨cb, wb, ?_, havb, hsa.chain_ctx hsb, hroa.chain hrob⟩
    unfold ws_client_recv
    rw [hopen, if_neg (by simp; omega)]
    rw [ws_client_recv_loop]
    unfold ws_client_recv_step
    rw [ha]
    simp only
    rw [if_neg (by decide), if_neg (by decide), if_neg (by simp), hval, if_neg (by simp), hb]
    simp only
    rw [if_pos (by decide)]

/-- Witness for C18: a 2-byte buffer and a TEXT frame with the 3-byte payload
`09 09 09`, followed by the byte `88`. The server reads the masked frame
`81 83 01 02 03 04 | 09 09 09` delivered in two pieces, the client the unmasked
frame `81 03 | 09 09 09`, and the two payload readers the payload alone with a
scratch capacity of 2. -/
theorem overflow_frame_drained_witness :
    (∃ w1, ws_read_frame_payload sample_codes (sample_world [RxEvent.data [9, 9, 9, 0x88]])
        (wire_hdr 0x81 0x83 [] [1, 2, 3, 4]) [0, 0] 2 2 = some (WS_ERR, [0, 0], 0, w1) ∧
      rx_avail w1.rx = [0x88] ∧ RecvOnly (sample_world [RxEvent.data [9, 9, 9, 0x88]]) w1) ∧
    (∃ ctx1 w1, ws_client_read_frame_payload sample_codes
        { sample_client_ctx with pending := [9], pending_len := 1 }
        (sample_world [RxEvent.data [9, 9, 0x88]]) (wire_hdr 0x81 0x03 [] []) [0, 0] 2 2
        = some (WS_ERR, ctx1, [0, 0], 0, w1) ∧
      client_avail ctx1 w1 = [0x88] ∧
      SameSession { sample_client_ctx with pending := [9], pending_len := 1 } ctx1 ∧
      RecvOnly (sample_world [RxEvent.data [9, 9, 0x88]]) w1) ∧
    (∃ w1, ws_server_recv sample_codes sample_server_client
        (sample_world [RxEvent.data [0x81, 0x83, 1, 2, 3, 4, 9], RxEvent.data [9, 9, 0x88]])
        [0, 0] 2 (some 0) = some (WS_ERR, sample_server_client, [0, 0], some 0, w1) ∧
      rx_avail w1.rx = [0x88] ∧
      RecvOnly (sample_world [RxEvent.data [0x81, 0x83, 1, 2, 3, 4, 9],
        RxEvent.data [9, 9, 0x88]]) w1) ∧
    (∃ ctx1 w1, ws_client_recv sample_codes sample_client_ctx
        (sample_world [RxEvent.data [0x81, 0x03, 9, 9, 9, 0x88]]) [0, 0] 2 (some 0)
        = some (WS_ERR, ctx1, [0, 0], some 0, w1) ∧
      client_avail ctx1 w1 = [0x88] ∧ SameSession sample_client_ctx ctx1 ∧
      RecvOnly (sample_world [RxEvent.data [0x81, 0x03, 9, 9, 9, 0x88]]) w1) :=
  ⟨(overflow_frame_drained sample_codes (by decide) [0, 0] 2 (some 0) [9, 9, 9] [0x88]
      (by decide)).1 (sample_world [RxEvent.data [9, 9, 9, 0x88]])
      (wire_hdr 0x81 0x83 [] [1, 2, 3, 4]) 2 (by decide!) (by decide!) (by decide!) (by decide!),
    (overflow_frame_drained sample_codes (by decide) [0, 0] 2 (some 0) [9, 9, 9] [0x88]
      (by decide)).2.1 { sample_client_ctx with pending := [9], pending_len := 1 }
      (sample_world [RxEvent.data [9, 9, 0x88]]) (wire_hdr 0x81 0x03 [] []) 2 (by decide!)
      (by decide!) (by decide!) ⟨by decide!, by decide!⟩ (by decide!),
    (overflow_frame_drained sample_codes (by decide) [0, 0] 2 (some 0) [9, 9, 9] [0x88]
      (by decide)).2.2.1 sample_server_client
      (sample_world [RxEvent.data [0x81, 0x83, 1, 2, 3, 4, 9], RxEvent.data [9, 9, 0x88]])
      0x81 0x83 [] [1, 2, 3, 4] (by decide!) (by decide!) (by decide!) (by decide!) (by decide!)
      (by decide!) (by decide!),
    (overflow_frame_drained sample_codes (by decide) [0, 0] 2 (some 0) [9, 9, 9] [0x88]
      (by decide)).2.2.2 sample_client_ctx
      (sample_world [RxEvent.data [0x81, 0x03, 9, 9, 9, 0x88]]) 0x81 0x03 [] [] (by decide!)
      (by decide!) ⟨by decide!, by decide!⟩ (by decide!) (by decide!) (by decide!) (by decide!)
      (by decide!) (by decide!) (by decide!)⟩

/-! ### The byte-exact reader of the client against its specification -/

theorem recv_exact_outcome_zero (nc : NetCodes) (start : Nat) (rx : List RxEvent) (now : Nat) :
    recv_exact_outcome nc start rx now 0 = (WS_OK, []) := by
  cases rx with
  | nil => simp [recv_exact_outcome]
  | cons e rest => cases e <;> simp [recv_exact_outcome]

/-- When the specification's outcome is `WS_OK`, the bytes collected are the
next `need` bytes of the stream. -/
theorem recv_exact_outcome_ok (nc : NetCodes) (start : Nat) :
    ∀ (rx : List RxEvent) (now need : Nat),
      (recv_exact_outcome nc start rx now need).1 = WS_OK →
      (recv_exact_outcome nc start rx now need).2 = (rx_stream rx).take need ∧
        need ≤ (rx_stream rx).length := by
  intro rx
  induction rx with
  | nil =>
    intro now need h
    by_cases hz : need = 0
    · subst hz; simp [recv_exact_outcome]
    · simp [recv_exact_outcome, hz] at h
      exact absurd h (by decide)
  | cons e rest ih =>
    intro now need h
    by_cases hz : need = 0
    · subst hz; simp [recv_exact_outcome_zero]
    cases e with
    | elapse ms =>
      simp only [recv_exact_outcome, if_neg hz] at h ⊢
      exact ih _ _ h
    | data bs =>
      simp only [recv_exact_outcome, if_neg hz, rx_stream] at h ⊢
      by_cases hlt : bs.length < need
      · rw [if_pos hlt] at h ⊢
        obtain ⟨i1, i2⟩ := ih _ _ h
        simp only
        constructor
        · rw [i1, List.take_append_eq_append_take, List.take_of_length_le (Nat.le_of_lt hlt)]
        · rw [List.length_append]; omega
      · rw [if_neg hlt]
        simp only
        constructor
        · rw [List.take_append_of_le_length (by omega)]
        · rw [List.length_append]; omega
    | code c =>
      simp only [recv_exact_outcome, if_neg hz, rx_stream] at h ⊢
      by_cases hc : c = 0
      · rw [if_pos hc] at h; exact absurd h (by decide)
      rw [if_neg hc] at h ⊢
      by_cases hn : -(c : Int) = nc.NET_NO_DATA ∨ -(c : Int) = nc.NET_TIMEOUT
      · rw [if_pos hn] at h ⊢
        by_cases ht : now - start > 5000
        · rw [if_pos ht] at h; exact absurd h (by decide)
        · rw [if_neg ht] at h ⊢
          exact ih _ _ h
      · rw [if_neg hn] at h; exact absurd h (by decide)

theorem tick_wrap (start now : Nat) (h1 : start ≤ now) (h2 : now - start < 2 ^ 32) :
    (now % 2 ^ 32 + 2 ^ 32 - start % 2 ^ 32) % 2 ^ 32 = now - start := by
  omega

theorem ws_client_recv_exact_loop_done (nc : NetCodes) (len start fuel : Nat) (w : World)
    (buf : List Nat) (got : Nat) (h : len ≤ got) :
    ws_client_recv_exact_loop nc len start (fuel + 1) w buf got = some (WS_OK, buf, w) := by
  rw [ws_client_recv_exact_loop, if_neg (by omega)]

/-- The socket loop of `ws_client_recv_exact` computes the outcome that the
specification describes, for every receive script. -/
theorem ws_client_recv_exact_loop_refines (nc : NetCodes) (len start : Nat) (W : World) :
    ∀ (rx : List RxEvent) (now : Nat) (buf : List Nat) (got fuel : Nat),
      got ≤ len → len - got < 2 ^ 31 → rx_weight rx < fuel → start ≤ now →
      (now - start) + rx_duration rx < 2 ^ 32 →
      ∃ w1, ws_client_recv_exact_loop nc len (start % 2 ^ 32) fuel
            { W with rx := rx, tick := now } buf got
          = some ((recv_exact_outcome nc start rx now (len - got)).1,
              writeAt buf got (recv_exact_outcome nc start rx now (len - got)).2, w1) ∧
        RecvOnly W w1 := by
  intro rx
  induction rx with
  | nil =>
    intro now buf got fuel hle hint hfuel hst hdur
    obtain ⟨f, rfl⟩ : ∃ f, fuel = f + 1 := ⟨fuel - 1, by omega⟩
    by_cases hlt : got < len
    · refine ⟨{ W with rx := [], tick := now }, ?_, ⟨rfl, rfl, rfl, rfl, rfl⟩⟩
      have hz0 : ¬ len - got = 0 := by omega
      rw [ws_client_recv_exact_loop, if_pos hlt]
      simp only [net_sock_recv, recvScript, recv_exact_outcome]
      rw [if_neg (by omega), if_pos trivial, if_neg hz0]
      simp only
      rw [writeAt_nil]
    · refine ⟨{ W with rx := [], tick := now }, ?_, ⟨rfl, rfl, rfl, rfl, rfl⟩⟩
      have e : len - got = 0 := by omega
      rw [ws_client_recv_exact_loop_done _ _ _ _ _ _ _ (by omega), e, recv_exact_outcome_zero,
        writeAt_nil]
  | cons ev rest ih =>
    intro now buf got fuel hle hint hfuel hst hdur
    obtain ⟨f, rfl⟩ : ∃ f, fuel = f + 1 := ⟨fuel - 1, by omega⟩
    by_cases hlt : got < len
    swap
    · refine ⟨{ W with rx := ev :: rest, tick := now }, ?_, ⟨rfl, rfl, rfl, rfl, rfl⟩⟩
      have e : len - got = 0 := by omega
      rw [ws_client_recv_exact_loop_done _ _ _ _ _ _ _ (by omega), e, recv_exact_outcome_zero,
        writeAt_nil]
    have hz : ¬ len - got = 0 := by omega
    have hn : toInt32 (len - got) = ((len - got : Nat) : Int) := toInt32_of_lt _ hint
    cases ev with
    | elapse ms =>
      simp only [rx_weight, rx_duration] at hfuel hdur
      obtain ⟨w1, h1, hro⟩ := ih (now + ms) buf got (f + 1) hle hint (by omega) (by omega)
        (by omega)
      refine ⟨w1, ?_, hro⟩
      rw [ws_client_recv_exact_loop, if_pos hlt] at h1 ⊢
      simp only [net_sock_recv, recvScript, recv_exact_outcome, if_neg hz] at h1 ⊢
      exact h1
    | data bs =>
      simp only [rx_weight, rx_duration] at hfuel hdur
      by_cases hb0 : bs.length = 0
      · obtain ⟨w1, h1, hro⟩ := ih now buf got (f + 1) hle hint (by omega) (by omega) (by omega)
        refine ⟨w1, ?_, hro⟩
        have hbs : bs = [] := List.length_eq_zero.mp hb0
        subst hbs
        rw [ws_client_recv_exact_loop, if_pos hlt] at h1 ⊢
        simp only [net_sock_recv, recvScript, recv_exact_outcome, if_neg hz, List.length_nil,
          if_true, if_pos (Nat.pos_of_ne_zero hz), Nat.sub_zero, List.nil_append] at h1 ⊢
        exact h1
      · by_cases hfits : bs.length ≤ len - got
        · obtain ⟨w1, h1, hro⟩ := ih now (writeAt buf got bs) (got + bs.length) f (by omega)
            (by omega) (by omega) (by omega) (by omega)
          refine ⟨w1, ?_, hro⟩
          rw [ws_client_recv_exact_loop, if_pos hlt, hn]
          simp only [net_sock_recv, recvScript, Int.toNat_ofNat, if_neg hb0, if_pos hfits]
          rw [if_pos (by omega), h1]
          have e : len - (got + bs.length) = len - got - bs.length := by omega
          rw [e]
          simp only [recv_exact_outcome, if_neg hz]
          by_cases hlt2 : bs.length < len - got
          · rw [if_pos hlt2]
            simp only
            rw [writeAt_writeAt]
          · rw [if_neg hlt2]
            have e2 : len - got - bs.length = 0 := by omega
            rw [e2, recv_exact_outcome_zero]
            simp only
            rw [writeAt_nil, List.take_of_length_le (by omega)]
        · refine ⟨{ W with rx := RxEvent.data (bs.drop (len - got)) :: rest, tick := now }, ?_,
            ⟨rfl, rfl, rfl, rfl, rfl⟩⟩
          obtain ⟨f2, rfl⟩ : ∃ f2, f = f2 + 1 := ⟨f - 1, by omega⟩
          rw [ws_client_recv_exact_loop, if_pos hlt, hn]
          simp only [net_sock_recv, recvScript, Int.toNat_ofNat, if_neg hb0, if_neg hfits]
          rw [if_pos (by omega), ws_client_recv_exact_loop_done _ _ _ _ _ _ _ (by omega)]
          simp only [recv_exact_outcome, if_neg hz]
          rw [if_neg (by omega)]
    | code c =>
      simp only [rx_weight, rx_duration] at hfuel hdur
      rw [ws_client_recv_exact_loop, if_pos hlt]
      simp only [net_sock_recv, recvScript, recv_exact_outcome, if_neg hz]
      rw [if_neg (by omega)]
      by_cases hc : c = 0
      · rw [if_pos (by omega), if_pos hc, writeAt_nil]
        exact ⟨_, rfl, ⟨rfl, rfl, rfl, rfl, rfl⟩⟩
      rw [if_neg (by omega), if_neg hc]
      by_cases hnd : -(c : Int) = nc.NET_NO_DATA ∨ -(c : Int) = nc.NET_TIMEOUT
      · rw [if_pos hnd, if_pos hnd]
        have hw := tick_wrap start now hst (by omega)
        simp only [HAL_GetTick, hw]
        by_cases ht : now - start > 5000
        · rw [if_pos ht, if_pos ht, writeAt_nil]
          exact ⟨_, rfl, ⟨rfl, rfl, rfl, rfl, rfl⟩⟩
        · rw [if_neg ht, if_neg ht]
          obtain ⟨w1, h1, hro⟩ := ih (now + 1) buf got f hle hint (by omega) (by omega)
            (by omega)
          exact ⟨w1, h1, hro⟩
      · rw [if_neg hnd, if_neg hnd, writeAt_nil]
        exact ⟨_, rfl, ⟨rfl, rfl, rfl, rfl, rfl⟩⟩

/-- C13: the byte-exact reader of the client agrees with its specification.
For `len > 0` (below `2^31`, the range of the `(int)` cast) and a call that
lasts less than `2^32` ms, `ws_client_recv_exact` hands out pending bytes first
and then reads the transport; its result code is the one that
`recv_exact_outcome` reads off the script (`WS_CLOSED` at a return of 0,
`WS_TIMEOUT` at a no-data or timeout return once more than 5000 ms have passed
since the call began, a retry before that, `WS_ERR` at any other negative
return, `WS_OK` otherwise), the bytes collected are stored at the start of
`buf`, and when the result is `WS_OK` they are exactly the next `len` bytes of
the stream, pending bytes first. The call always returns. -/
theorem client_recv_exact_refines (nc : NetCodes) (ctx : ws_client_ctx_t) (w : World)
    (buf : List Nat) (len : Nat) (h0 : 0 < len) (hint : len < 2 ^ 31) (hp : PendingOk ctx)
    (hdur : rx_duration w.rx < 2 ^ 32) :
    ∃ ctx1 w1, ws_client_recv_exact nc ctx w buf len
        = some ((recv_exact_outcome nc w.tick w.rx w.tick (len - (pending_bytes ctx).length)).1,
            ctx1,
            writeAt buf 0 ((pending_bytes ctx).take len ++
              (recv_exact_outcome nc w.tick w.rx w.tick (len - (pending_bytes ctx).length)).2),
            w1) ∧
      pending_bytes ctx1 = (pending_bytes ctx).drop len ∧ SameSession ctx ctx1 ∧
      RecvOnly w w1 ∧
      ((recv_exact_outcome nc w.tick w.rx w.tick (len - (pending_bytes ctx).length)).1 = WS_OK →
        (pending_bytes ctx).take len ++
            (recv_exact_outcome nc w.tick w.rx w.tick (len - (pending_bytes ctx).length)).2
          = (pending_bytes ctx ++ rx_stream w.rx).take len) := by
  have hpl := pending_bytes_length ctx hp
  obtain ⟨n, hn⟩ : ∃ n, n = min len (ctx.pending_len - ctx.pending_off) := ⟨_, rfl⟩
  have hnle : n ≤ len := by omega
  have hneed : len - (pending_bytes ctx).length = len - n := by omega
  have htl : ((pending_bytes ctx).take len).length = n := by
    rw [List.length_take]; omega
  obtain ⟨w1, hloop, hro1⟩ := ws_client_recv_exact_loop_refines nc len w.tick w w.rx w.tick
    (writeAt buf 0 ((pending_bytes ctx).take len)) n (rx_weight w.rx + 1) hnle (by omega)
    (by omega) (Nat.le_refl _) (by omega)
  have hpd : ∀ ctx2 : ws_client_ctx_t,
      ctx2 = (if ctx.pending_off + n ≥ ctx.pending_len then
          { ctx with pending_off := 0, pending_len := 0 }
        else { ctx with pending_off := ctx.pending_off + n }) →
      pending_bytes ctx2 = (pending_bytes ctx).drop len ∧ SameSession ctx ctx2 := by
    intro ctx2 h2
    by_cases hc : ctx.pending_off + n ≥ ctx.pending_len
    · rw [if_pos hc] at h2
      subst h2
      refine ⟨?_, SameSession.same_ctx _⟩
      rw [List.drop_eq_nil_of_le (by omega)]
      simp [pending_bytes]
    · rw [if_neg hc] at h2
      subst h2
      refine ⟨?_, SameSession.same_ctx _⟩
      have : n = len := by omega
      simp only [pending_bytes, List.drop_drop, this]
  obtain ⟨q1, q2⟩ := hpd _ rfl
  refine ⟨_, w1, ?_, q1, q2, hro1, ?_⟩
  · unfold ws_client_recv_exact
    rw [if_neg (by omega), ws_client_take_pending_spec len ctx buf len 0 hp (Nat.zero_le _)
      (by omega)]
    simp only [Nat.sub_zero, Nat.zero_add, ← hn]
    have hw : ({ w with rx := w.rx, tick := w.tick } : World) = w := rfl
    rw [hw] at hloop
    have hs : HAL_GetTick w = w.tick % 2 ^ 32 := rfl
    rw [hs, hloop, hneed]
    simp only
    have hww := writeAt_writeAt buf ((pending_bytes ctx).take len)
      (recv_exact_outcome nc w.tick w.rx w.tick (len - n)).2 0
    rw [Nat.zero_add, htl] at hww
    rw [hww]
  · intro hok
    obtain ⟨o1, o2⟩ := recv_exact_outcome_ok nc w.tick w.rx w.tick _ hok
    rw [o1, List.take_append_eq_append_take]

/-- Witness for C13: three bytes are asked for while the byte `81` is pending;
the transport delivers `01`, reports no data once and delivers `02 03` later.
The outcome is `WS_OK` with the bytes `81 01 02`. -/
theorem client_recv_exact_refines_witness :
    (∃ ctx1 w1, ws_client_recv_exact sample_codes sample_pending_ctx
        (sample_world sample_retry_script) [0, 0, 0] 3
        = some ((recv_exact_outcome sample_codes (sample_world sample_retry_script).tick
              (sample_world sample_retry_script).rx (sample_world sample_retry_script).tick
              (3 - (pending_bytes sample_pending_ctx).length)).1,
            ctx1,
            writeAt [0, 0, 0] 0 ((pending_bytes sample_pending_ctx).take 3 ++
              (recv_exact_outcome sample_codes (sample_world sample_retry_script).tick
                (sample_world sample_retry_script).rx (sample_world sample_retry_script).tick
                (3 - (pending_bytes sample_pending_ctx).length)).2),
            w1) ∧
      pending_bytes ctx1 = (pending_bytes sample_pending_ctx).drop 3 ∧
      SameSession sample_pending_ctx ctx1 ∧
      RecvOnly (sample_world sample_retry_script) w1 ∧
      ((recv_exact_outcome sample_codes (sample_world sample_retry_script).tick
            (sample_world sample_retry_script).rx (sample_world sample_retry_script).tick
            (3 - (pending_bytes sample_pending_ctx).length)).1 = WS_OK →
        (pending_bytes sample_pending_ctx).take 3 ++
            (recv_exact_outcome sample_codes (sample_world sample_retry_script).tick
              (sample_world sample_retry_script).rx (sample_world sample_retry_script).tick
              (3 - (pending_bytes sample_pending_ctx).length)).2
          = (pending_bytes sample_pending_ctx ++
              rx_stream (sample_world sample_retry_script).rx).take 3)) ∧
    recv_exact_outcome sample_codes 0 sample_retry_script 0 2 = (WS_OK, [1, 2]) ∧
    (ws_client_recv_exact sample_codes sample_pending_ctx (sample_world sample_retry_script)
        [0, 0, 0] 3).map (fun r => (r.1, r.2.2.1)) = some (WS_OK, [0x81, 1, 2]) :=
  ⟨client_recv_exact_refines sample_codes sample_pending_ctx (sample_world sample_retry_script)
      [0, 0, 0] 3 (by decide) (by decide) ⟨by decide!, by decide!⟩ (by decide!),
    by decide!, by decide!⟩

/-! ### Every call returns: the receive path on an arbitrary script -/

/-- What a receive call does to the script: the remaining script never weighs
more, it weighs less whenever the return value is not 0, a positive return
value is the number of bytes delivered, which is at most the number asked for,
and no bytes are delivered otherwise. -/
theorem recvScript_facts : ∀ (rx : List RxEvent) (tick n : Nat),
    rx_weight (recvScript rx tick n).2.2.1 ≤ rx_weight rx ∧
    ((recvScript rx tick n).1 ≠ 0 → rx_weight (recvScript rx tick n).2.2.1 < rx_weight rx) ∧
    (0 < (recvScript rx tick n).1 →
      (recvScript rx tick n).2.1.length = (recvScript rx tick n).1.toNat ∧
        (recvScript rx tick n).1.toNat ≤ n) ∧
    ((recvScript rx tick n).1 ≤ 0 → (recvScript rx tick n).2.1 = []) := by
  intro rx
  induction rx with
  | nil => intro tick n; simp [recvScript, rx_weight]
  | cons e rest ih =>
    intro tick n
    cases e with
    | elapse ms =>
      simp only [recvScript, rx_weight]
      obtain ⟨a, b, c, d⟩ := ih (tick + ms) n
      exact ⟨by omega, fun h => by have := b h; omega, c, d⟩
    | code c =>
      simp only [recvScript, rx_weight]
      refine ⟨by omega, fun _ => by omega, fun h => by omega, fun _ => trivial⟩
    | data bs =>
      simp only [recvScript, rx_weight]
      by_cases h0 : bs.length = 0
      · rw [if_pos h0]
        obtain ⟨a, b, c, d⟩ := ih tick n
        exact ⟨by omega, fun h => by have := b h; omega, c, d⟩
      · rw [if_neg h0]
        by_cases h1 : bs.length ≤ n
        · rw [if_pos h1]
          simp only [Int.toNat_ofNat]
          refine ⟨by omega, fun _ => by omega, fun _ => ⟨trivial, h1⟩, fun h => by omega⟩
        · rw [if_neg h1]
          simp only [Int.toNat_ofNat, rx_weight, List.length_drop, List.length_take]
          refine ⟨by omega, fun h => by omega, fun _ => ⟨by omega, Nat.le_refl _⟩, fun h => ?_⟩
          have : n = 0 := by omega
          subst this
          simp

theorem net_sock_recv_facts (w : World) (len : Int) :
    RecvOnly w (net_sock_recv w len).2.2 ∧
    rx_weight (net_sock_recv w len).2.2.rx ≤ rx_weight w.rx ∧
    ((net_sock_recv w len).1 ≠ 0 → rx_weight (net_sock_recv w len).2.2.rx < rx_weight w.rx) ∧
    (0 < (net_sock_recv w len).1 →
      (net_sock_recv w len).2.1.length = (net_sock_recv w len).1.toNat ∧
        (net_sock_recv w len).1.toNat ≤ len.toNat) ∧
    ((net_sock_recv w len).1 ≤ 0 → (net_sock_recv w len).2.1 = []) := by
  obtain ⟨a, b, c, d⟩ := recvScript_facts w.rx w.tick len.toNat
  exact ⟨⟨rfl, rfl, rfl, rfl, rfl⟩, a, b, c, d⟩

theorem writeAt_length_ge (buf : List Nat) (off : Nat) (bs : List Nat) (h : off ≤ buf.length) :
    off + bs.length ≤ (writeAt buf off bs).length := by
  simp only [writeAt, List.length_append, List.length_take, List.length_drop]
  omega

/-- `ws_recv_exact` returns on every script. It only receives, never makes the
script heavier, makes it lighter when it returns `WS_OK` for a non-empty
range, and on `WS_OK` the buffer holds at least `len` bytes. -/
theorem ws_recv_exact_loop_total (nc : NetCodes) (len : Nat) :
    ∀ (fuel : Nat) (w : World) (buf : List Nat) (got : Nat), len - got < fuel →
      got ≤ buf.length →
      ∃ rc buf1 w1, ws_recv_exact_loop nc fuel w buf len got = some (rc, buf1, w1) ∧
        RecvOnly w w1 ∧ rx_weight w1.rx ≤ rx_weight w.rx ∧
        (rc = WS_OK → got < len → rx_weight w1.rx < rx_weight w.rx) ∧
        (rc = WS_OK → len ≤ buf1.length) := by
  intro fuel
  induction fuel with
  | zero => intro w buf got h; omega
  | succ fuel ih =>
    intro w buf got hfuel hbuf
    rw [ws_recv_exact_loop]
    by_cases hlt : got < len
    · rw [if_pos hlt]
      obtain ⟨f1, f2, f3, f4, f5⟩ := net_sock_recv_facts w (toInt32 (len - got))
      generalize net_sock_recv w (toInt32 (len - got)) = r at f1 f2 f3 f4 f5
      obtain ⟨rc, bs, w1⟩ := r
      simp only at f1 f2 f3 f4 f5 ⊢
      by_cases c0 : rc = 0
      · rw [if_pos c0]
        exact ⟨_, _, _, rfl, f1, f2, fun h => absurd h (by decide), fun h => absurd h (by decide)⟩
      rw [if_neg c0]
      by_cases c1 : rc = nc.NET_NO_DATA
      · rw [if_pos c1]
        exact ⟨_, _, _, rfl, f1, f2, fun h => absurd h (by decide), fun h => absurd h (by decide)⟩
      rw [if_neg c1]
      by_cases c2 : rc < 0
      · rw [if_pos c2]
        exact ⟨_, _, _, rfl, f1, f2, fun h => absurd h (by decide), fun h => absurd h (by decide)⟩
      rw [if_neg c2]
      obtain ⟨g1, g2⟩ := f4 (by omega)
      have hreq := toInt32_toNat_le (len - got)
      have hpos : 0 < rc.toNat := by omega
      obtain ⟨rc2, buf2, w2, h2, hro2, hw2, hd2, hb2⟩ := ih w1 (writeAt buf got bs)
        (got + rc.toNat) (by omega) (by rw [← g1]; exact writeAt_length_ge buf got bs hbuf)
      refine ⟨rc2, buf2, w2, h2, f1.chain hro2, by omega, fun _ _ => ?_, hb2⟩
      have := f3 c0
      omega
    · rw [if_neg hlt]
      exact ⟨_, _, _, rfl, RecvOnly.same w, Nat.le_refl _, fun _ h => absurd h hlt,
        fun _ => by omega⟩

theorem ws_recv_exact_total (nc : NetCodes) (w : World) (buf : List Nat) (len : Nat) :
    ∃ rc buf1 w1, ws_recv_exact nc w buf len = some (rc, buf1, w1) ∧
      RecvOnly w w1 ∧ rx_weight w1.rx ≤ rx_weight w.rx ∧
      (rc = WS_OK → 0 < len → rx_weight w1.rx < rx_weight w.rx) ∧
      (rc = WS_OK → len ≤ buf1.length) :=
  ws_recv_exact_loop_total nc len (len + 1) w buf 0 (by omega) (Nat.zero_le _)

theorem ws_read_frame_hdr_ext_total (nc : NetCodes) (w : World) (plen : Nat) :
    ∃ rc plen1 w1, ws_read_frame_hdr_ext nc w plen = some (rc, plen1, w1) ∧
      RecvOnly w w1 ∧ rx_weight w1.rx ≤ rx_weight w.rx := by
  unfold ws_read_frame_hdr_ext
  by_cases h1 : plen = 126
  · rw [if_pos h1]
    obtain ⟨rc, b, w1, h, hro, hw, _⟩ := ws_recv_exact_total nc w [0, 0] 2
    rw [h]
    exact ⟨_, _, _, rfl, hro, hw⟩
  rw [if_neg h1]
  by_cases h2 : plen = 127
  · rw [if_pos h2]
    obtain ⟨rc, b, w1, h, hro, hw, _⟩ := ws_recv_exact_total nc w [0, 0, 0, 0, 0, 0, 0, 0] 8
    rw [h]
    exact ⟨_, _, _, rfl, hro, hw⟩
  rw [if_neg h2]
  exact ⟨_, _, _, rfl, RecvOnly.same w, Nat.le_refl _⟩

theorem ws_read_frame_hdr_key_total (nc : NetCodes) (w : World) (h : ws_frame_hdr_t) :
    ∃ rc h1 w1, ws_read_frame_hdr_key nc w h = some (rc, h1, w1) ∧
      RecvOnly w w1 ∧ rx_weight w1.rx ≤ rx_weight w.rx ∧
      h1.opcode = h.opcode ∧ h1.payload_len = h.payload_len := by
  unfold ws_read_frame_hdr_key
  by_cases hm : h.masked = true
  · rw [if_pos hm]
    obtain ⟨rc, b, w1, hr, hro, hw, _⟩ := ws_recv_exact_total nc w h.mask_key 4
    rw [hr]
    exact ⟨_, _, _, rfl, hro, hw, rfl, rfl⟩
  · rw [if_neg hm]
    exact ⟨_, _, _, rfl, RecvOnly.same w, Nat.le_refl _, rfl, rfl⟩

/-- `ws_read_frame_hdr` returns on every script; it only receives, and when it
returns `WS_OK` it has consumed part of the script. -/
theorem ws_read_frame_hdr_total (nc : NetCodes) (w : World) (h0 : ws_frame_hdr_t) :
    ∃ rc h w1, ws_read_frame_hdr nc w h0 = some (rc, h, w1) ∧
      RecvOnly w w1 ∧ rx_weight w1.rx ≤ rx_weight w.rx ∧
      (rc = WS_OK → rx_weight w1.rx < rx_weight w.rx) := by
  unfold ws_read_frame_hdr
  obtain ⟨rc, b, w1, hr, hro, hw, hd, _⟩ := ws_recv_exact_total nc w [0, 0] 2
  rw [hr]
  simp only
  by_cases c1 : rc ≠ WS_OK
  · rw [if_pos c1]
    exact ⟨_, _, _, rfl, hro, hw, fun h => absurd h c1⟩
  rw [if_neg c1]
  have hlt := hd (by simpa using c1) (by norm_num)
  obtain ⟨rc2, plen, w2, hr2, hro2, hw2⟩ :=
    ws_read_frame_hdr_ext_total nc w1 (b.getD 1 0 &&& 0x7F)
  rw [hr2]
  simp only
  by_cases c2 : rc2 ≠ WS_OK
  · rw [if_pos c2]
    exact ⟨_, _, _, rfl, hro.chain hro2, by omega, fun h => absurd h c2⟩
  rw [if_neg c2]
  obtain ⟨rc3, h3, w3, hr3, hro3, hw3, _⟩ := ws_read_frame_hdr_key_total nc w2
    { h0 with fin := (b.getD 0 0 &&& 0x80) != 0, rsv1 := (b.getD 0 0 &&& 0x40) != 0,
              rsv2 := (b.getD 0 0 &&& 0x20) != 0, rsv3 := (b.getD 0 0 &&& 0x10) != 0,
              opcode := b.getD 0 0 &&& 0x0F, masked := (b.getD 1 0 &&& 0x80) != 0,
              payload_len := plen }
  rw [hr3]
  exact ⟨_, _, _, rfl, (hro.chain hro2).chain hro3, by omega, fun _ => by omega⟩

/-- The drain loop of `ws_server_recv` returns on every script. -/
theorem ws_server_drain_loop_total (nc : NetCodes) :
    ∀ (fuel : Nat) (w : World) (n : Nat), n < fuel →
      ∃ ok w1, ws_server_drain_loop nc fuel w n = some (ok, w1) ∧ RecvOnly w w1 ∧
        rx_weight w1.rx ≤ rx_weight w.rx := by
  intro fuel
  induction fuel with
  | zero => intro w n h; omega
  | succ fuel ih =>
    intro w n hfuel
    rw [ws_server_drain_loop]
    by_cases hz : n ≠ 0
    · rw [if_pos hz]
      simp only
      obtain ⟨rc, b, w1, hr, hro, hw, _⟩ := ws_recv_exact_total nc w (List.replicate 64 0)
        (min n 64)
      rw [hr]
      simp only
      by_cases c1 : rc ≠ WS_OK
      · rw [if_pos c1]
        exact ⟨_, _, rfl, hro, hw⟩
      · rw [if_neg c1]
        obtain ⟨ok, w2, h2, hro2, hw2⟩ := ih w1 (n - min n 64) (by omega)
        exact ⟨ok, w2, h2, hro.chain hro2, by omega⟩
    · rw [if_neg hz]
      exact ⟨_, _, rfl, RecvOnly.same w, Nat.le_refl _⟩

/-! ### Frames written by each role -/

theorem RoleWrites.of_tx_eq (m : Bool) {w w1 : World} (h1 : w1.txScript = w.txScript)
    (h2 : w1.tx = w.tx) : RoleWrites m w w1 :=
  ⟨h1, [], by simp [World.sent, h2], by simp⟩

theorem RoleWrites.of_recv (m : Bool) {w w1 : World} (h : RecvOnly w w1) : RoleWrites m w w1 :=
  RoleWrites.of_tx_eq m h.1 h.2.1

theorem RoleWrites.same_tx (m : Bool) (w : World) : RoleWrites m w w :=
  RoleWrites.of_tx_eq m rfl rfl

theorem RoleWrites.chain_tx {m : Bool} {w w1 w2 : World} (h1 : RoleWrites m w w1)
    (h2 : RoleWrites m w1 w2) : RoleWrites m w w2 := by
  obtain ⟨a1, fs1, a2, a3⟩ := h1
  obtain ⟨b1, fs2, b2, b3⟩ := h2
  refine ⟨b1.trans a1, fs1 ++ fs2, by rw [b2, a2]; simp, ?_⟩
  intro f hf
  rcases List.mem_append.mp hf with h | h
  · exact a3 f h
  · exact b3 f h

/-- The frame that the header bytes of `ws_send_frame`, the key of a masked frame
and a body of the announced length make up passes `frame_mask_ok`. -/
theorem frame_mask_ok_built (opcode L : Nat) (fin mask : Bool) (key body : List Nat)
    (hL : L < 2 ^ 64) (hk : key.length = 4) (hb : body.length = L) :
    frame_mask_ok mask
      ((if mask then
          writeAt (ws_frame_hdr_bytes opcode L fin) 1
            [(ws_frame_hdr_bytes opcode L fin).getD 1 0 ||| 0x80] ++ key
        else ws_frame_hdr_bytes opcode L fin) ++ body) = true := by
  obtain ⟨l7, ext, hH, hl7, hextlen, hdec⟩ := ws_frame_hdr_bytes_shape opcode L fin hL
  rw [hH]
  obtain ⟨b1, hb1⟩ : ∃ b1, b1 = (if mask then 128 else 0) + l7 := ⟨_, rfl⟩
  have hb1lt : b1 < 256 := by rw [hb1]; cases mask <;> simp <;> omega
  obtain ⟨g0, g1, _⟩ := byte_bits b1 hb1lt
  have hmask : (b1 &&& 0x80 != 0) = mask := by
    rw [g0, hb1]
    cases mask
    · simp; omega
    · simp
  have h7 : b1 &&& 0x7F = l7 := by
    rw [g1, hb1]; cases mask <;> simp <;> omega
  have hwire : (if mask then
        writeAt (((if fin then 128 else 0) + opcode % 16) :: l7 :: ext) 1
          [(((if fin then 128 else 0) + opcode % 16) :: l7 :: ext).getD 1 0 ||| 0x80] ++ key
      else ((if fin then 128 else 0) + opcode % 16) :: l7 :: ext) ++ body
      = ((if fin then 128 else 0) + opcode % 16) :: b1 ::
          (ext ++ ((if mask then key else []) ++ body)) := by
    rw [hb1]
    cases mask
    · simp
    · simp [writeAt, or_80_of_lt l7 hl7]
  rw [hwire]
  have hel : wire_ext_len b1 = ext.length := by
    unfold wire_ext_len; rw [h7]; exact hextlen.symm
  have hkl : wire_key_len b1 = (if mask then key else []).length := by
    unfold wire_key_len; rw [hmask]; cases mask <;> simp [hk]
  have hpl : wire_payload_len b1 ext = L := by
    unfold wire_payload_len; rw [h7]; exact hdec
  simp only [frame_mask_ok, hmask, beq_self_eq_true, Bool.true_and, hel,
    List.take_left, hpl, hkl, List.length_append, hb, beq_iff_eq]
  omega

/-- On a transport that accepts everything, a `ws_send_frame` with a non-NULL
payload writes exactly one complete frame whose mask bit is `mask_outgoing`;
an unmasked frame carries the payload bytes as they are. -/
theorem ws_send_frame_role (w : World) (opcode : Nat) (p : List Nat) (L : Nat)
    (fin mask scratch : Bool) (cap : Nat) (htx : w.txScript = []) (hint : L < 2 ^ 31)
    (hm : mask = true → scratch = true ∧ 0 < cap) (hp : mask = false → L ≤ p.length) :
    ∃ w1 f, ws_send_frame w opcode (some p) L fin mask scratch cap = some (WS_OK, w1) ∧
      SendOnly w w1 ∧ w1.sent = w.sent ++ f ∧ frame_mask_ok mask f = true ∧
      (mask = false → f = ws_frame_hdr_bytes opcode L fin ++ p.take L) := by
  obtain ⟨w1, h1, hs1, _⟩ := ws_send_frame_accepting w opcode p L fin mask scratch cap htx
    hint hm
  have hb := ws_send_frame_sent w w1 opcode (some p) L fin mask scratch cap h1
  rw [List.append_assoc] at hb
  refine ⟨w1, _, h1, hs1, hb, ?_, ?_⟩
  · refine frame_mask_ok_built opcode L fin mask _ _ (by
      have : (2 : Nat) ^ 31 < 2 ^ 64 := by norm_num
      omega) rfl ?_
    unfold ws_wire_payload
    cases mask with
    | false =>
      simp only [Bool.false_eq_true, if_false, List.length_take]
      have := hp rfl
      omega
    | true => simp [ws_mask_chunk_length]
  · intro hmf
    subst hmf
    simp [ws_wire_payload]

theorem RoleWrites.of_frame {m : Bool} {w w1 : World} {f : List Nat}
    (h1 : w1.txScript = w.txScript) (h2 : w1.sent = w.sent ++ f)
    (h3 : frame_mask_ok m f = true) : RoleWrites m w w1 :=
  ⟨h1, [f], by simp [h2], by simpa using h3⟩

/-- The `ws_send_frame` calls of both roles, as the loops use them: the result
of the send is discarded. -/
theorem ws_send_frame_writes (w : World) (opcode : Nat) (p : List Nat) (L : Nat)
    (fin mask scratch : Bool) (cap : Nat) (htx : w.txScript = []) (hint : L < 2 ^ 31)
    (hm : mask = true → scratch = true ∧ 0 < cap) (hp : mask = false → L ≤ p.length) :
    ∃ rc w1, ws_send_frame w opcode (some p) L fin mask scratch cap = some (rc, w1) ∧
      SendOnly w w1 ∧ RoleWrites mask w w1 := by
  obtain ⟨w1, f, h1, hs, hb, hf, _⟩ := ws_send_frame_role w opcode p L fin mask scratch cap htx
    hint hm hp
  exact ⟨_, w1, h1, hs, RoleWrites.of_frame hs.2.1 hb hf⟩

theorem ws_unmask_length (buf : List Nat) (len : Nat) (key : List Nat) :
    (ws_unmask buf len key).length = buf.length := by
  simp only [ws_unmask, List.length_append, xor_from_length, List.length_take, List.length_drop]
  omega

theorem ws_server_protocol_error_total (c : ws_server_client_t) (w : World) (buffer : List Nat)
    (out_opcode : Option Nat) (htx : w.txScript = []) :
    ∃ w1, ws_server_protocol_error c w buffer out_opcode
        = some (WS_ERR, { c with open_ := false }, buffer, out_opcode, w1) ∧
      SendOnly w w1 ∧ RoleWrites false w w1 := by
  obtain ⟨rc, w1, h1, hs, hr⟩ := ws_send_frame_writes w WS_OPCODE_CLOSE [0x03, 0xEA] 2 true
    false c.scratch c.scratch_cap htx (by norm_num) (fun h => by cases h) (fun _ => by simp)
  refine ⟨w1, ?_, hs, hr⟩
  unfold ws_server_protocol_error
  rw [h1]

/-- The dispatch of the server returns on a transport that accepts everything,
and what it writes are unmasked frames. -/
theorem ws_server_dispatch_total (c : ws_server_client_t) (w : World) (h : ws_frame_hdr_t)
    (buffer : List Nat) (out_opcode : Option Nat) (htx : w.txScript = [])
    (hping : h.opcode = WS_OPCODE_PING → h.payload_len ≤ 125 ∧ h.payload_len ≤ buffer.length) :
    ∃ r c1 buffer1 oo1 w1, ws_server_dispatch c w h buffer out_opcode
        = some (r, c1, buffer1, oo1, w1) ∧
      SendOnly w w1 ∧ RoleWrites false w w1 := by
  unfold ws_server_dispatch
  by_cases h1 : h.opcode = WS_OPCODE_PING
  · rw [if_pos h1]
    obtain ⟨hl, hb⟩ := hping h1
    obtain ⟨rc, w1, hs1, hso, hr⟩ := ws_send_frame_writes w WS_OPCODE_PONG buffer h.payload_len
      true false c.scratch c.scratch_cap htx (by omega) (fun h => by cases h) (fun _ => hb)
    rw [hs1]
    exact ⟨_, _, _, _, _, rfl, hso, hr⟩
  rw [if_neg h1]
  by_cases h2 : h.opcode = WS_OPCODE_PONG
  · rw [if_pos h2]
    exact ⟨_, _, _, _, _, rfl, SendOnly.same_world w, RoleWrites.same_tx false w⟩
  rw [if_neg h2]
  by_cases h3 : h.opcode = WS_OPCODE_CLOSE
  · rw [if_pos h3]
    simp only
    obtain ⟨rc, w1, hs1, hso, hr⟩ := ws_send_frame_writes w WS_OPCODE_CLOSE
      (if h.payload_len ≥ 2 then [buffer.getD 0 0, buffer.getD 1 0] else [0x03, 0xE8]) 2
      true false c.scratch c.scratch_cap htx (by norm_num) (fun h => by cases h)
      (fun _ => by split_ifs <;> simp)
    rw [hs1]
    exact ⟨_, _, _, _, _, rfl, hso, hr⟩
  rw [if_neg h3]
  by_cases h4 : h.opcode = WS_OPCODE_TEXT ∨ h.opcode = WS_OPCODE_BINARY
  · rw [if_pos h4]
    exact ⟨_, _, _, _, _, rfl, SendOnly.same_world w, RoleWrites.same_tx false w⟩
  rw [if_neg h4]
  obtain ⟨w1, hp, hso, hr⟩ := ws_server_protocol_error_total c w buffer out_opcode htx
  rw [hp]
  exact ⟨_, _, _, _, _, rfl, hso, hr⟩

/-- One pass of the server loop returns on every script when the transport
accepts everything; what it writes are unmasked frames, and a pass that goes
round again has consumed part of the script. -/
theorem ws_server_recv_step_total (nc : NetCodes) (c : ws_server_client_t) (w : World)
    (buffer : List Nat) (buffer_size : Nat) (out_opcode : Option Nat) (htx : w.txScript = []) :
    ∃ r c1 buffer1 oo1 w1, ws_server_recv_step nc c w buffer buffer_size out_opcode
        = some (r, c1, buffer1, oo1, w1) ∧
      RoleWrites false w w1 ∧ rx_weight w1.rx ≤ rx_weight w.rx ∧
      (r = none → rx_weight w1.rx < rx_weight w.rx) := by
  unfold ws_server_recv_step
  obtain ⟨rc, h, wa, ha, hroa, hwa, hda⟩ := ws_read_frame_hdr_total nc w hdr0
  rw [ha]
  simp only
  have htxa : wa.txScript = [] := by rw [hroa.1, htx]
  have hperr : ∃ r c1 buffer1 oo1 w1,
      (ws_server_protocol_error c wa buffer out_opcode).map (fun r => (some r.1, r.2))
        = some (r, c1, buffer1, oo1, w1) ∧
      RoleWrites false w w1 ∧ rx_weight w1.rx ≤ rx_weight w.rx ∧
      (r = none → rx_weight w1.rx < rx_weight w.rx) := by
    obtain ⟨w1, hp, hso, hr⟩ := ws_server_protocol_error_total c wa buffer out_opcode htxa
    rw [hp]
    exact ⟨_, _, _, _, _, rfl, (RoleWrites.of_recv false hroa).chain_tx hr,
      by rw [hso.1]; exact hwa, fun h => by cases h⟩
  by_cases c0 : rc ≠ WS_OK
  · rw [if_pos c0]
    exact ⟨_, _, _, _, _, rfl, RoleWrites.of_recv false hroa, hwa, fun h => by cases h⟩
  rw [if_neg c0]
  have hlt := hda (by simpa using c0)
  by_cases c1 : (h.rsv1 || h.rsv2 || h.rsv3) = true
  · rw [if_pos c1]; exact hperr
  rw [if_neg c1]
  by_cases c2 : (!h.fin || h.opcode == WS_OPCODE_CONT) = true
  · rw [if_pos c2]; exact hperr
  rw [if_neg c2]
  by_cases c3 : (!h.masked) = true
  · rw [if_pos c3]; exact hperr
  rw [if_neg c3]
  by_cases c4 : ((h.opcode == WS_OPCODE_CLOSE || h.opcode == WS_OPCODE_PING
      || h.opcode == WS_OPCODE_PONG) && decide (h.payload_len > 125)) = true
  · rw [if_pos c4]; exact hperr
  rw [if_neg c4]
  have hp125 : h.opcode = WS_OPCODE_PING → h.payload_len ≤ 125 := by
    intro hop
    simp only [hop, Bool.and_eq_true, decide_eq_true_eq, not_and] at c4
    have := c4 (by decide)
    omega
  by_cases c5 : h.payload_len > buffer_size
  · rw [if_pos c5]
    obtain ⟨ok, wb, hb, hrob, hwb⟩ := ws_server_drain_loop_total nc (h.payload_len + 1) wa
      h.payload_len (by omega)
    rw [hb]
    simp only
    cases ok with
    | true =>
      simp only [if_true]
      exact ⟨_, _, _, _, _, rfl, RoleWrites.of_recv false (hroa.chain hrob), by omega,
        fun h => by cases h⟩
    | false =>
      simp only [Bool.false_eq_true, if_false]
      exact ⟨_, _, _, _, _, rfl, RoleWrites.of_recv false (hroa.chain hrob), by omega,
        fun h => by cases h⟩
  rw [if_neg c5]
  by_cases c6 : h.payload_len > 0
  · rw [if_pos c6]
    obtain ⟨rr, buffer1, wb, hb, hrob, hwb, _, hbl⟩ := ws_recv_exact_total nc wa buffer
      h.payload_len
    rw [hb]
    simp only
    by_cases c7 : rr ≠ WS_OK
    · rw [if_pos c7]
      exact ⟨_, _, _, _, _, rfl, RoleWrites.of_recv false (hroa.chain hrob), by omega,
        fun h => by cases h⟩
    rw [if_neg c7]
    obtain ⟨r, c1', b1', oo1, w1, hd, hso, hr⟩ := ws_server_dispatch_total c wb h
      (ws_unmask buffer1 h.payload_len h.mask_key) out_opcode (by rw [hrob.1, htxa])
      (fun hop => ⟨hp125 hop, by rw [ws_unmask_length]; exact hbl (by simpa using c7)⟩)
    rw [hd]
    exact ⟨_, _, _, _, _, rfl, (RoleWrites.of_recv false (hroa.chain hrob)).chain_tx hr,
      by rw [hso.1]; omega, fun _ => by rw [hso.1]; omega⟩
  · rw [if_neg c6]
    obtain ⟨r, c1', b1', oo1, w1, hd, hso, hr⟩ := ws_server_dispatch_total c wa h buffer
      out_opcode htxa (fun hop => ⟨hp125 hop, by omega⟩)
    rw [hd]
    exact ⟨_, _, _, _, _, rfl, (RoleWrites.of_recv false hroa).chain_tx hr,
      by rw [hso.1]; omega, fun _ => by rw [hso.1]; omega⟩

/-- The loop of `ws_server_recv` returns on every script when the transport
accepts everything, and what it writes are unmasked frames. -/
theorem ws_server_recv_loop_total (nc : NetCodes) (buffer_size : Nat) :
    ∀ (fuel : Nat) (c : ws_server_client_t) (w : World) (buffer : List Nat)
      (out_opcode : Option Nat), rx_weight w.rx < fuel → w.txScript = [] →
      ∃ rc c1 buffer1 oo1 w1, ws_server_recv_loop nc buffer_size fuel c w buffer out_opcode
          = some (rc, c1, buffer1, oo1, w1) ∧
        RoleWrites false w w1 := by
  intro fuel
  induction fuel with
  | zero => intro c w buffer oo h; omega
  | succ fuel ih =>
    intro c w buffer oo hfuel htx
    obtain ⟨r, c1, b1, oo1, w1, hs, hr, hw, hd⟩ := ws_server_recv_step_total nc c w buffer
      buffer_size oo htx
    rw [ws_server_recv_loop, hs]
    cases r with
    | some rc => exact ⟨_, _, _, _, _, rfl, hr⟩
    | none =>
      have := hd rfl
      obtain ⟨rc, c2, b2, oo2, w2, h2, hr2⟩ := ih c1 w1 b1 oo1 (by omega) (by rw [hr.1, htx])
      exact ⟨_, _, _, _, _, h2, hr.chain_tx hr2⟩

/-- `ws_server_recv` returns on every script when the transport accepts
everything, and everything it writes is a sequence of unmasked frames. -/
theorem ws_server_recv_total (nc : NetCodes) (c : ws_server_client_t) (w : World)
    (buffer : List Nat) (buffer_size : Nat) (out_opcode : Option Nat) (htx : w.txScript = []) :
    ∃ rc c1 buffer1 oo1 w1, ws_server_recv nc c w buffer buffer_size out_opcode
        = some (rc, c1, buffer1, oo1, w1) ∧
      RoleWrites false w w1 := by
  unfold ws_server_recv
  by_cases hg : (!c.open_ || buffer_size == 0) = true
  · rw [if_pos hg]
    exact ⟨_, _, _, _, _, rfl, RoleWrites.same_tx false w⟩
  · rw [if_neg hg]
    exact ws_server_recv_loop_total nc buffer_size _ c w buffer out_opcode (by omega) htx

/-! ### Every call returns: the client's receive path -/

/-- The socket loop of `ws_client_recv_exact` returns on every script. -/
theorem ws_client_recv_exact_loop_total (nc : NetCodes) (len start : Nat) :
    ∀ (fuel : Nat) (w : World) (buf : List Nat) (got : Nat), rx_weight w.rx < fuel →
      ∃ rc buf1 w1, ws_client_recv_exact_loop nc len start fuel w buf got
          = some (rc, buf1, w1) ∧
        RecvOnly w w1 ∧ rx_weight w1.rx ≤ rx_weight w.rx ∧
        (rc = WS_TIMEOUT → rx_weight w1.rx < rx_weight w.rx) ∧
        (rc = WS_OK → got < len → rx_weight w1.rx < rx_weight w.rx) := by
  intro fuel
  induction fuel with
  | zero => intro w buf got h; omega
  | succ fuel ih =>
    intro w buf got hfuel
    rw [ws_client_recv_exact_loop]
    by_cases hlt : got < len
    · rw [if_pos hlt]
      obtain ⟨f1, f2, f3, f4, f5⟩ := net_sock_recv_facts w (toInt32 (len - got))
      generalize net_sock_recv w (toInt32 (len - got)) = r at f1 f2 f3 f4 f5
      obtain ⟨rc, bs, w1⟩ := r
      simp only at f1 f2 f3 f4 f5 ⊢
      by_cases c0 : rc > 0
      · rw [if_pos c0]
        have hd := f3 (by omega)
        obtain ⟨rc2, buf2, w2, h2, hro2, hw2, ht2, hd2⟩ := ih w1 (writeAt buf got bs)
          (got + rc.toNat) (by omega)
        exact ⟨rc2, buf2, w2, h2, f1.chain hro2, by omega, fun _ => by omega,
          fun _ _ => by omega⟩
      rw [if_neg c0]
      by_cases c1 : rc = 0
      · rw [if_pos c1]
        exact ⟨_, _, _, rfl, f1, f2, fun h => absurd h (by decide), fun h => absurd h (by decide)⟩
      rw [if_neg c1]
      have hd := f3 c1
      by_cases c2 : rc = nc.NET_NO_DATA ∨ rc = nc.NET_TIMEOUT
      · rw [if_pos c2]
        by_cases c3 : (HAL_GetTick w1 + 2 ^ 32 - start) % 2 ^ 32 > 5000
        · rw [if_pos c3]
          exact ⟨_, _, _, rfl, f1, f2, fun _ => hd, fun h => absurd h (by decide)⟩
        · rw [if_neg c3]
          obtain ⟨rc2, buf2, w2, h2, hro2, hw2, ht2, hd2⟩ := ih (HAL_Delay w1 1) buf got
            (by show rx_weight w1.rx < fuel; omega)
          have hrod : RecvOnly w1 (HAL_Delay w1 1) := ⟨rfl, rfl, rfl, rfl, rfl⟩
          have hwd : rx_weight (HAL_Delay w1 1).rx = rx_weight w1.rx := rfl
          exact ⟨rc2, buf2, w2, h2, (f1.chain hrod).chain hro2, by omega, fun _ => by omega,
            fun _ _ => by omega⟩
      · rw [if_neg c2]
        exact ⟨_, _, _, rfl, f1, f2, fun h => absurd h (by decide), fun h => absurd h (by decide)⟩
    · rw [if_neg hlt]
      exact ⟨_, _, _, rfl, RecvOnly.same w, Nat.le_refl _, fun h => absurd h (by decide),
        fun _ h => absurd h hlt⟩

/-- The pending loop of `ws_client_recv_exact` only advances `pending_off`, by
at most the number of pending bytes. -/
theorem ws_client_take_pending_markers :
    ∀ (fuel : Nat) (ctx : ws_client_ctx_t) (buf : List Nat) (len got : Nat),
      ∃ k buf1, ws_client_take_pending fuel ctx buf len got
          = ({ ctx with pending_off := ctx.pending_off + k }, buf1, got + k) ∧
        k ≤ ctx.pending_len - ctx.pending_off := by
  intro fuel
  induction fuel with
  | zero => intro ctx buf len got; exact ⟨0, buf, rfl, Nat.zero_le _⟩
  | succ fuel ih =>
    intro ctx buf len got
    rw [ws_client_take_pending]
    by_cases hc : got < len ∧ ctx.pending_off < ctx.pending_len
    · rw [if_pos hc]
      obtain ⟨k, buf1, h1, hk⟩ := ih { ctx with pending_off := ctx.pending_off + 1 }
        (writeAt buf got [ctx.pending.getD ctx.pending_off 0]) len (got + 1)
      refine ⟨k + 1, buf1, ?_, ?_⟩
      · rw [h1]
        simp only [Prod.mk.injEq]
        refine ⟨?_, trivial, by omega⟩
        show ({ ctx with pending_off := ctx.pending_off + 1 + k } : ws_client_ctx_t)
          = { ctx with pending_off := ctx.pending_off + (k + 1) }
        rw [Nat.add_assoc, Nat.add_comm 1 k]
      · simp only at hk
        omega
    · rw [if_neg hc]
      exact ⟨0, buf, rfl, Nat.zero_le _⟩

/-- `ws_client_recv_exact` returns on every script. It only receives, keeps the
session, never adds to what is left to read, and has consumed something when
it returns `WS_OK` or `WS_TIMEOUT` for a non-empty range. -/
theorem ws_client_recv_exact_total (nc : NetCodes) (ctx : ws_client_ctx_t) (w : World)
    (buf : List Nat) (len : Nat) :
    ∃ rc ctx1 buf1 w1, ws_client_recv_exact nc ctx w buf len = some (rc, ctx1, buf1, w1) ∧
      SameSession ctx ctx1 ∧ RecvOnly w w1 ∧ client_weight ctx1 w1 ≤ client_weight ctx w ∧
      ((rc = WS_OK ∨ rc = WS_TIMEOUT) → 0 < len →
        client_weight ctx1 w1 < client_weight ctx w) := by
  unfold ws_client_recv_exact
  by_cases h0 : len = 0
  · rw [if_pos h0]
    exact ⟨_, _, _, _, rfl, SameSession.same_ctx ctx, RecvOnly.same w, Nat.le_refl _,
      fun _ h => by omega⟩
  rw [if_neg h0]
  obtain ⟨k, buf1, hk, hkle⟩ := ws_client_take_pending_markers len ctx buf len 0
  rw [hk]
  simp only [Nat.zero_add]
  obtain ⟨rc, buf2, w1, hl, hro, hw, ht, hd⟩ := ws_client_recv_exact_loop_total nc len
    (HAL_GetTick w) (rx_weight w.rx + 1) w buf1 k (by omega)
  rw [hl]
  simp only
  refine ⟨_, _, _, _, rfl, ?_, hro, ?_, ?_⟩
  · split_ifs
    · exact ⟨rfl, rfl, rfl, rfl, rfl, rfl, rfl, rfl, rfl⟩
    · exact ⟨rfl, rfl, rfl, rfl, rfl, rfl, rfl, rfl, rfl⟩
  · unfold client_weight
    split_ifs <;> simp only <;> omega
  · intro hrc hlen
    unfold client_weight
    rcases hrc with e | e
    · by_cases hk0 : k = 0
      · subst hk0
        have := hd e (by omega)
        split_ifs <;> simp only <;> omega
      · split_ifs <;> simp only <;> omega
    · have := ht e
      split_ifs <;> simp only <;> omega

theorem ws_client_read_frame_hdr_ext_total (nc : NetCodes) (ctx : ws_client_ctx_t) (w : World)
    (plen : Nat) :
    ∃ rc plen1 ctx1 w1, ws_client_read_frame_hdr_ext nc ctx w plen
        = some (rc, plen1, ctx1, w1) ∧
      SameSession ctx ctx1 ∧ RecvOnly w w1 ∧ client_weight ctx1 w1 ≤ client_weight ctx w := by
  unfold ws_client_read_frame_hdr_ext
  by_cases h1 : plen = 126
  · rw [if_pos h1]
    obtain ⟨rc, c1, b, w1, h, hs, hro, hw, _⟩ := ws_client_recv_exact_total nc ctx w [0, 0] 2
    rw [h]
    exact ⟨_, _, _, _, rfl, hs, hro, hw⟩
  rw [if_neg h1]
  by_cases h2 : plen = 127
  · rw [if_pos h2]
    obtain ⟨rc, c1, b, w1, h, hs, hro, hw, _⟩ := ws_client_recv_exact_total nc ctx w
      [0, 0, 0, 0, 0, 0, 0, 0] 8
    rw [h]
    exact ⟨_, _, _, _, rfl, hs, hro, hw⟩
  rw [if_neg h2]
  exact ⟨_, _, _, _, rfl, SameSession.same_ctx ctx, RecvOnly.same w, Nat.le_refl _⟩

theorem ws_client_read_frame_hdr_key_total (nc : NetCodes) (ctx : ws_client_ctx_t) (w : World)
    (h : ws_frame_hdr_t) :
    ∃ rc h1 ctx1 w1, ws_client_read_frame_hdr_key nc ctx w h = some (rc, h1, ctx1, w1) ∧
      SameSession ctx ctx1 ∧ RecvOnly w w1 ∧ client_weight ctx1 w1 ≤ client_weight ctx w ∧
      ws_client_hdr_rejected h1 = ws_client_hdr_rejected h := by
  unfold ws_client_read_frame_hdr_key
  by_cases hm : h.masked = true
  · rw [if_pos hm]
    obtain ⟨rc, c1, b, w1, hr, hs, hro, hw, _⟩ := ws_client_recv_exact_total nc ctx w
      h.mask_key 4
    rw [hr]
    exact ⟨_, _, _, _, rfl, hs, hro, hw, ws_client_hdr_rejected_key h b⟩
  · rw [if_neg hm]
    exact ⟨_, _, _, _, rfl, SameSession.same_ctx ctx, RecvOnly.same w, Nat.le_refl _,
      ws_client_hdr_rejected_key h _⟩

/-- `ws_client_read_frame_hdr` returns on every script; it only receives, keeps
the session, has consumed something when it returns `WS_OK` or `WS_TIMEOUT`,
and a header it returns with `WS_OK` has passed its checks. -/
theorem ws_client_read_frame_hdr_total (nc : NetCodes) (ctx : ws_client_ctx_t) (w : World)
    (h0 : ws_frame_hdr_t) :
    ∃ rc h ctx1 w1, ws_client_read_frame_hdr nc ctx w h0 = some (rc, h, ctx1, w1) ∧
      SameSession ctx ctx1 ∧ RecvOnly w w1 ∧ client_weight ctx1 w1 ≤ client_weight ctx w ∧
      ((rc = WS_OK ∨ rc = WS_TIMEOUT) → client_weight ctx1 w1 < client_weight ctx w) ∧
      (rc = WS_OK → ws_client_hdr_rejected h = false) := by
  unfold ws_client_read_frame_hdr
  obtain ⟨rc, c1, b, w1, hr, hs, hro, hw, hd⟩ := ws_client_recv_exact_total nc ctx w [0, 0] 2
  rw [hr]
  simp only
  by_cases c1' : rc ≠ WS_OK
  · rw [if_pos c1']
    exact ⟨_, _, _, _, rfl, hs, hro, hw, fun h => hd h (by norm_num), fun h => absurd h c1'⟩
  rw [if_neg c1']
  have hlt := hd (Or.inl (by simpa using c1')) (by norm_num)
  obtain ⟨rc2, plen, c2, w2, hr2, hs2, hro2, hw2⟩ :=
    ws_client_read_frame_hdr_ext_total nc c1 w1 (b.getD 1 0 &&& 0x7F)
  rw [hr2]
  simp only
  by_cases c2' : rc2 ≠ WS_OK
  · rw [if_pos c2']
    exact ⟨_, _, _, _, rfl, hs.chain_ctx hs2, hro.chain hro2, by omega, fun _ => by omega,
      fun h => absurd h c2'⟩
  rw [if_neg c2']
  by_cases c3 : ws_client_hdr_rejected
      { h0 with fin := (b.getD 0 0 &&& 0x80) != 0, rsv1 := (b.getD 0 0 &&& 0x40) != 0,
                rsv2 := (b.getD 0 0 &&& 0x20) != 0, rsv3 := (b.getD 0 0 &&& 0x10) != 0,
                opcode := b.getD 0 0 &&& 0x0F, masked := (b.getD 1 0 &&& 0x80) != 0,
                payload_len := plen } = true
  · rw [if_pos c3]
    exact ⟨_, _, _, _, rfl, hs.chain_ctx hs2, hro.chain hro2, by omega, fun _ => by omega,
      fun h => absurd h (by decide)⟩
  rw [if_neg c3]
  obtain ⟨rc3, h3, c3', w3, hr3, hs3, hro3, hw3, hrej⟩ := ws_client_read_frame_hdr_key_total nc
    c2 w2
    { h0 with fin := (b.getD 0 0 &&& 0x80) != 0, rsv1 := (b.getD 0 0 &&& 0x40) != 0,
              rsv2 := (b.getD 0 0 &&& 0x20) != 0, rsv3 := (b.getD 0 0 &&& 0x10) != 0,
              opcode := b.getD 0 0 &&& 0x0F, masked := (b.getD 1 0 &&& 0x80) != 0,
              payload_len := plen }
  rw [hr3]
  refine ⟨_, _, _, _, rfl, (hs.chain_ctx hs2).chain_ctx hs3, (hro.chain hro2).chain hro3,
    by omega, fun _ => by omega, fun _ => ?_⟩
  rw [hrej]
  simpa using c3

/-- The drain loop of `ws_client_read_frame_payload` returns on every script
when the scratch capacity is not 0, never with `WS_OK`. -/
theorem ws_client_drain_loop_total (nc : NetCodes) (cap : Nat) (hcap : 0 < cap) :
    ∀ (fuel : Nat) (ctx : ws_client_ctx_t) (w : World) (n : Nat), n < fuel →
      ∃ rc ctx1 w1, ws_client_drain_loop nc cap fuel ctx w n = some (rc, ctx1, w1) ∧
        SameSession ctx ctx1 ∧ RecvOnly w w1 ∧ client_weight ctx1 w1 ≤ client_weight ctx w ∧
        rc ≠ WS_OK := by
  intro fuel
  induction fuel with
  | zero => intro ctx w n h; omega
  | succ fuel ih =>
    intro ctx w n hfuel
    rw [ws_client_drain_loop]
    by_cases hz : n ≠ 0
    · rw [if_pos hz]
      simp only
      obtain ⟨rc, c1, b, w1, hr, hs, hro, hw, hd⟩ := ws_client_recv_exact_total nc ctx w
        (List.replicate cap 0) (min n cap)
      rw [hr]
      simp only
      by_cases c1' : rc ≠ WS_OK
      · rw [if_pos c1']
        exact ⟨_, _, _, rfl, hs, hro, hw, c1'⟩
      · rw [if_neg c1']
        obtain ⟨rc2, c2, w2, h2, hs2, hro2, hw2, hne⟩ := ih c1 w1 (n - min n cap) (by omega)
        exact ⟨rc2, c2, w2, h2, hs.chain_ctx hs2, hro.chain hro2, by omega, hne⟩
    · rw [if_neg hz]
      exact ⟨_, _, _, rfl, SameSession.same_ctx ctx, RecvOnly.same w, Nat.le_refl _, by decide⟩

/-- `ws_client_read_frame_payload` returns on every script when the scratch
capacity is not 0; on `WS_OK` the length it reports is the frame's. -/
theorem ws_client_read_frame_payload_total (nc : NetCodes) (ctx : ws_client_ctx_t) (w : World)
    (h : ws_frame_hdr_t) (dst : List Nat) (dst_cap cap : Nat) (hcap : 0 < cap) :
    ∃ rc ctx1 dst1 out_len w1, ws_client_read_frame_payload nc ctx w h dst dst_cap cap
        = some (rc, ctx1, dst1, out_len, w1) ∧
      SameSession ctx ctx1 ∧ RecvOnly w w1 ∧ client_weight ctx1 w1 ≤ client_weight ctx w ∧
      (rc = WS_OK → out_len = h.payload_len) := by
  unfold ws_client_read_frame_payload
  by_cases c1 : h.payload_len > dst_cap
  · rw [if_pos c1]
    obtain ⟨rc, c1', w1, hr, hs, hro, hw, hne⟩ := ws_client_drain_loop_total nc cap hcap
      (h.payload_len + 1) ctx w h.payload_len (by omega)
    rw [hr]
    exact ⟨_, _, _, _, _, rfl, hs, hro, hw, fun e => absurd e hne⟩
  rw [if_neg c1]
  by_cases c2 : h.payload_len = 0
  · rw [if_pos c2]
    exact ⟨_, _, _, _, _, rfl, SameSession.same_ctx ctx, RecvOnly.same w, Nat.le_refl _,
      fun _ => c2.symm⟩
  rw [if_neg c2]
  obtain ⟨rc, ca, dst1, wa, hr, hs, hro, hw, _⟩ := ws_client_recv_exact_total nc ctx w dst 1
  rw [hr]
  simp only
  by_cases c3 : rc ≠ WS_OK
  · rw [if_pos c3]
    exact ⟨_, _, _, _, _, rfl, hs, hro, hw, fun e => absurd e c3⟩
  rw [if_neg c3]
  by_cases c4 : h.payload_len > 1
  · rw [if_pos c4]
    obtain ⟨rc2, cb, tail, wb, hr2, hs2, hro2, hw2, _⟩ := ws_client_recv_exact_total nc ca wa
      (dst1.drop 1) (h.payload_len - 1)
    rw [hr2]
    simp only
    by_cases c5 : rc2 ≠ WS_OK
    · rw [if_pos c5]
      exact ⟨_, _, _, _, _, rfl, hs.chain_ctx hs2, hro.chain hro2, by omega,
        fun e => absurd e c5⟩
    · rw [if_neg c5]
      exact ⟨_, _, _, _, _, rfl, hs.chain_ctx hs2, hro.chain hro2, by omega, fun _ => rfl⟩
  · rw [if_neg c4]
    simp only
    rw [if_neg c3]
    exact ⟨_, _, _, _, _, rfl, hs, hro, hw, fun _ => rfl⟩

theorem ws_client_hdr_accepted_ping (h : ws_frame_hdr_t)
    (hr : ws_client_hdr_rejected h = false) (hop : h.opcode = WS_OPCODE_PING) :
    h.payload_len ≤ 125 := by
  unfold ws_client_hdr_rejected at hr
  by_cases c1 : (h.rsv1 || h.rsv2 || h.rsv3) = true
  · rw [if_pos c1] at hr; cases hr
  rw [if_neg c1] at hr
  by_cases c2 : (!h.fin || h.opcode == WS_OPCODE_CONT) = true
  · rw [if_pos c2] at hr; cases hr
  rw [if_neg c2, hop] at hr
  simp only [WS_OPCODE_PING, WS_OPCODE_CLOSE, WS_OPCODE_PONG] at hr
  by_cases c3 : h.payload_len > 125
  · simp [c3] at hr
  · omega

/-- The dispatch of the client returns on a transport that accepts everything,
and what it writes are masked frames. -/
theorem ws_client_dispatch_total (ctx : ws_client_ctx_t) (w : World) (h : ws_frame_hdr_t)
    (buffer : List Nat) (payload_len : Nat) (out_opcode : Option Nat) (htx : w.txScript = [])
    (hsc : ctx.scratch = true) (hcap : 0 < ctx.scratch_cap)
    (hping : h.opcode = WS_OPCODE_PING → payload_len ≤ 125) :
    ∃ r ctx1 buffer1 oo1 w1, ws_client_dispatch ctx w h buffer payload_len out_opcode
        = some (r, ctx1, buffer1, oo1, w1) ∧
      SendOnly w w1 ∧ RoleWrites true w w1 ∧ ctx1.scratch = ctx.scratch ∧
      ctx1.scratch_cap = ctx.scratch_cap ∧ ctx1.pending_len = ctx.pending_len ∧
      ctx1.pending_off = ctx.pending_off := by
  unfold ws_client_dispatch
  by_cases h1 : h.opcode = WS_OPCODE_CLOSE
  · rw [if_pos h1]
    obtain ⟨rc, w1, hs1, hso, hr⟩ := ws_send_frame_writes w WS_OPCODE_CLOSE [0x03, 0xE8] 2
      true true ctx.scratch ctx.scratch_cap htx (by norm_num) (fun _ => ⟨hsc, hcap⟩)
      (fun h => by cases h)
    rw [hs1]
    exact ⟨_, _, _, _, _, rfl, hso, hr, rfl, rfl, rfl, rfl⟩
  rw [if_neg h1]
  by_cases h2 : h.opcode = WS_OPCODE_PING
  · rw [if_pos h2]
    obtain ⟨rc, w1, hs1, hso, hr⟩ := ws_send_frame_writes w WS_OPCODE_PONG buffer payload_len
      true true ctx.scratch ctx.scratch_cap htx (by have := hping h2; omega)
      (fun _ => ⟨hsc, hcap⟩) (fun h => by cases h)
    rw [hs1]
    exact ⟨_, _, _, _, _, rfl, hso, hr, rfl, rfl, rfl, rfl⟩
  rw [if_neg h2]
  by_cases h3 : h.opcode = WS_OPCODE_PONG
  · rw [if_pos h3]
    exact ⟨_, _, _, _, _, rfl, SendOnly.same_world w, RoleWrites.same_tx true w, rfl, rfl, rfl,
      rfl⟩
  rw [if_neg h3]
  by_cases h4 : h.opcode = WS_OPCODE_TEXT ∨ h.opcode = WS_OPCODE_BINARY
  · rw [if_pos h4]
    exact ⟨_, _, _, _, _, rfl, SendOnly.same_world w, RoleWrites.same_tx true w, rfl, rfl, rfl,
      rfl⟩
  rw [if_neg h4]
  exact ⟨_, _, _, _, _, rfl, SendOnly.same_world w, RoleWrites.same_tx true w, rfl, rfl, rfl,
    rfl⟩

/-- One pass of the client loop returns on every script when the transport
accepts everything and a scratch buffer is there; what it writes are masked
frames, and a pass that goes round again has consumed something. -/
theorem ws_client_recv_step_total (nc : NetCodes) (ctx : ws_client_ctx_t) (w : World)
    (buffer : List Nat) (buffer_size : Nat) (out_opcode : Option Nat) (htx : w.txScript = [])
    (hsc : ctx.scratch = true) (hcap : 0 < ctx.scratch_cap) :
    ∃ r ctx1 buffer1 oo1 w1, ws_client_recv_step nc ctx w buffer buffer_size out_opcode
        = some (r, ctx1, buffer1, oo1, w1) ∧
      RoleWrites true w w1 ∧ ctx1.scratch = ctx.scratch ∧ ctx1.scratch_cap = ctx.scratch_cap ∧
      client_weight ctx1 w1 ≤ client_weight ctx w ∧
      (r = none → client_weight ctx1 w1 < client_weight ctx w) := by
  unfold ws_client_recv_step
  obtain ⟨rc, h, ca, wa, ha, hsa, hroa, hwa, hda, hrej⟩ :=
    ws_client_read_frame_hdr_total nc ctx w hdr0
  rw [ha]
  simp only
  have htxa : wa.txScript = [] := by rw [hroa.1, htx]
  have hsca : ca.scratch = ctx.scratch := hsa.2.2.2.2.2.1
  have hcapa : ca.scratch_cap = ctx.scratch_cap := hsa.2.2.2.2.2.2.1
  by_cases c0 : rc = WS_CLOSED
  · rw [if_pos c0]
    exact ⟨_, _, _, _, _, rfl, RoleWrites.of_recv true hroa, hsca, hcapa, hwa,
      fun h => by cases h⟩
  rw [if_neg c0]
  by_cases c1 : rc = WS_TIMEOUT
  · rw [if_pos c1]
    exact ⟨_, _, _, _, _, rfl, RoleWrites.of_recv true hroa, hsca, hcapa, hwa,
      fun _ => hda (Or.inr c1)⟩
  rw [if_neg c1]
  by_cases c2 : rc ≠ WS_OK
  · rw [if_pos c2]
    exact ⟨_, _, _, _, _, rfl, RoleWrites.of_recv true hroa, hsca, hcapa, hwa,
      fun h => by cases h⟩
  rw [if_neg c2]
  have hok : rc = WS_OK := by simpa using c2
  have hlt := hda (Or.inl hok)
  by_cases c3 : ws_validate_frame_hdr h false true ≠ WS_OK
  · rw [if_pos c3]
    obtain ⟨rcs, wb, hb, hsb, hrb⟩ := ws_send_frame_writes wa WS_OPCODE_CLOSE
      [(WS_CLOSE_PROTOCOL_ERROR >>> 8) % 256, (WS_CLOSE_PROTOCOL_ERROR &&& 0xFF) % 256] 2
      true true ca.scratch ca.scratch_cap htxa (by norm_num)
      (fun _ => ⟨by rw [hsca, hsc], by rw [hcapa]; exact hcap⟩) (fun h => by cases h)
    unfold ws_client_send_close_code
    rw [hb]
    refine ⟨_, _, _, _, _, rfl, ?_, hsca, hcapa, ?_, fun h => by cases h⟩
    · exact ((RoleWrites.of_recv true hroa).chain_tx hrb).chain_tx
        (RoleWrites.of_tx_eq true rfl rfl)
    · show rx_weight wb.rx + _ ≤ _
      rw [hsb.1]
      exact hwa
  rw [if_neg c3]
  obtain ⟨pr, cb, buffer1, plen, wb, hb, hsb, hrob, hwb, hpl⟩ :=
    ws_client_read_frame_payload_total nc ca wa h buffer buffer_size ca.scratch_cap
      (by rw [hcapa]; exact hcap)
  rw [hb]
  simp only
  have hscb : cb.scratch = ctx.scratch := hsb.2.2.2.2.2.1.trans hsca
  have hcapb : cb.scratch_cap = ctx.scratch_cap := hsb.2.2.2.2.2.2.1.trans hcapa
  by_cases c4 : pr ≠ WS_OK
  · rw [if_pos c4]
    exact ⟨_, _, _, _, _, rfl, RoleWrites.of_recv true (hroa.chain hrob), hscb, hcapb,
      by omega, fun h => by cases h⟩
  rw [if_neg c4]
  obtain ⟨r, cd, bd, ood, wd, hd, hsod, hrd, d1, d2, d3, d4⟩ := ws_client_dispatch_total cb wb h
    buffer1 plen out_opcode (by rw [hrob.1, htxa]) (by rw [hscb, hsc])
    (by rw [hcapb]; exact hcap)
    (fun hop => by
      rw [hpl (by simpa using c4)]
      exact ws_client_hdr_accepted_ping h (hrej hok) hop)
  rw [hd]
  have hwd : client_weight cd wd = client_weight cb wb := by
    unfold client_weight
    rw [hsod.1, d3, d4]
  exact ⟨_, _, _, _, _, rfl, (RoleWrites.of_recv true (hroa.chain hrob)).chain_tx hrd,
    d1.trans hscb, d2.trans hcapb, by omega, fun _ => by omega⟩

/-- The loop of `ws_client_recv` returns on every script when the transport
accepts everything and a scratch buffer is there, and what it writes are masked
frames. -/
theorem ws_client_recv_loop_total (nc : NetCodes) (buffer_size : Nat) :
    ∀ (fuel : Nat) (ctx : ws_client_ctx_t) (w : World) (buffer : List Nat)
      (out_opcode : Option Nat), client_weight ctx w < fuel → w.txScript = [] →
      ctx.scratch = true → 0 < ctx.scratch_cap →
      ∃ rc ctx1 buffer1 oo1 w1, ws_client_recv_loop nc buffer_size fuel ctx w buffer out_opcode
          = some (rc, ctx1, buffer1, oo1, w1) ∧
        RoleWrites true w w1 := by
  intro fuel
  induction fuel with
  | zero => intro ctx w buffer oo h; omega
  | succ fuel ih =>
    intro ctx w buffer oo hfuel htx hsc hcap
    obtain ⟨r, c1, b1, oo1, w1, hs, hr, e1, e2, hw, hd⟩ := ws_client_recv_step_total nc ctx w
      buffer buffer_size oo htx hsc hcap
    rw [ws_client_recv_loop, hs]
    cases r with
    | some rc => exact ⟨_, _, _, _, _, rfl, hr⟩
    | none =>
      have := hd rfl
      obtain ⟨rc, c2, b2, oo2, w2, h2, hr2⟩ := ih c1 w1 b1 oo1 (by omega) (by rw [hr.1, htx])
        (by rw [e1, hsc]) (by rw [e2]; exact hcap)
      exact ⟨_, _, _, _, _, h2, hr.chain_tx hr2⟩

/-- `ws_client_recv` returns on every script when the transport accepts
everything and a scratch buffer is there, and everything it writes is a
sequence of masked frames. -/
theorem ws_client_recv_total (nc : NetCodes) (ctx : ws_client_ctx_t) (w : World)
    (buffer : List Nat) (buffer_size : Nat) (out_opcode : Option Nat) (htx : w.txScript = [])
    (hsc : ctx.scratch = true) (hcap : 0 < ctx.scratch_cap) :
    ∃ rc ctx1 buffer1 oo1 w1, ws_client_recv nc ctx w buffer buffer_size out_opcode
        = some (rc, ctx1, buffer1, oo1, w1) ∧
      RoleWrites true w w1 := by
  unfold ws_client_recv
  by_cases hg : (!ws_client_is_open ctx || buffer_size == 0) = true
  · rw [if_pos hg]
    exact ⟨_, _, _, _, _, rfl, RoleWrites.same_tx true w⟩
  · rw [if_neg hg]
    exact ws_client_recv_loop_total nc buffer_size _ ctx w buffer out_opcode
      (by unfold client_weight; omega) htx hsc hcap

/-- The wait loop of `ws_client_close` returns on every script when the
transport accepts everything and a scratch buffer is there, and what it writes
are masked frames. -/
theorem ws_client_close_loop_total (nc : NetCodes) (start : Nat) :
    ∀ (fuel : Nat) (ctx : ws_client_ctx_t) (w : World), client_weight ctx w < fuel →
      w.txScript = [] → ctx.scratch = true → 0 < ctx.scratch_cap →
      ∃ ctx1 w1, ws_client_close_loop nc start fuel ctx w = some (ctx1, w1) ∧
        RoleWrites true w w1 := by
  intro fuel
  induction fuel with
  | zero => intro ctx w h; omega
  | succ fuel ih =>
    intro ctx w hfuel htx hsc hcap
    rw [ws_client_close_loop]
    by_cases ht : (HAL_GetTick w + 2 ^ 32 - start) % 2 ^ 32 < 2000
    swap
    · rw [if_neg ht]
      exact ⟨_, _, rfl, RoleWrites.same_tx true w⟩
    rw [if_pos ht]
    obtain ⟨hr, h, ca, wa, ha, hsa, hroa, hwa, hda, hrej⟩ :=
      ws_client_read_frame_hdr_total nc ctx w hdr0
    rw [ha]
    simp only
    have htxa : wa.txScript = [] := by rw [hroa.1, htx]
    have hsca : ca.scratch = true := by rw [hsa.2.2.2.2.2.1, hsc]
    have hcapa : 0 < ca.scratch_cap := by rw [hsa.2.2.2.2.2.2.1]; exact hcap
    by_cases c0 : hr = WS_TIMEOUT
    · rw [if_pos c0]
      have hlt := hda (Or.inr c0)
      obtain ⟨c2, w2, h2, hr2⟩ := ih ca (HAL_Delay wa 10)
        (by show rx_weight wa.rx + _ < fuel; unfold client_weight at hlt hfuel; omega)
        htxa hsca hcapa
      exact ⟨c2, w2, h2, ((RoleWrites.of_recv true hroa).chain_tx
        (RoleWrites.of_tx_eq true rfl rfl)).chain_tx hr2⟩
    rw [if_neg c0]
    by_cases c1 : hr = WS_CLOSED
    · rw [if_pos c1]
      exact ⟨_, _, rfl, RoleWrites.of_recv true hroa⟩
    rw [if_neg c1]
    by_cases c2 : hr ≠ WS_OK
    · rw [if_pos c2]
      exact ⟨_, _, rfl, RoleWrites.of_recv true hroa⟩
    rw [if_neg c2]
    have hok : hr = WS_OK := by simpa using c2
    have hlt := hda (Or.inl hok)
    obtain ⟨pr, cb, tmp, out_len, wb, hb, hsb, hrob, hwb, hpl⟩ :=
      ws_client_read_frame_payload_total nc ca wa h (List.replicate 128 0) 128 ca.scratch_cap
        hcapa
    rw [hb]
    simp only
    have htxb : wb.txScript = [] := by rw [hrob.1, htxa]
    have hscb : cb.scratch = true := by rw [hsb.2.2.2.2.2.1, hsca]
    have hcapb : 0 < cb.scratch_cap := by rw [hsb.2.2.2.2.2.2.1]; exact hcapa
    have hrw : RoleWrites true w wb := RoleWrites.of_recv true (hroa.chain hrob)
    by_cases c3 : pr ≠ WS_OK
    · rw [if_pos c3]
      exact ⟨_, _, rfl, hrw⟩
    rw [if_neg c3]
    by_cases c4 : h.opcode = WS_OPCODE_CLOSE
    · rw [if_pos c4]
      exact ⟨_, _, rfl, hrw⟩
    rw [if_neg c4]
    by_cases c5 : h.opcode = WS_OPCODE_PING
    · rw [if_pos c5]
      obtain ⟨rcs, wc, hc, hsc', hrc⟩ := ws_send_frame_writes wb WS_OPCODE_PONG tmp out_len
        true true cb.scratch cb.scratch_cap htxb
        (by
          rw [hpl (by simpa using c3)]
          have := ws_client_hdr_accepted_ping h (hrej hok) c5
          omega)
        (fun _ => ⟨hscb, hcapb⟩) (fun h => by cases h)
      rw [hc]
      simp only
      obtain ⟨c2', w2, h2, hr2⟩ := ih cb wc
        (by unfold client_weight at hlt hfuel hwb ⊢; rw [hsc'.1]; omega)
        (by rw [hsc'.2.1, htxb]) hscb hcapb
      exact ⟨c2', w2, h2, (hrw.chain_tx hrc).chain_tx hr2⟩
    · rw [if_neg c5]
      obtain ⟨c2', w2, h2, hr2⟩ := ih cb wb (by omega) htxb hscb hcapb
      exact ⟨c2', w2, h2, hrw.chain_tx hr2⟩

/-- `ws_client_close` returns `WS_OK` on every script when the transport accepts
everything and a scratch buffer is there, and everything it writes is a
sequence of masked frames. -/
theorem ws_client_close_total (nc : NetCodes) (ctx : ws_client_ctx_t) (w : World)
    (htx : w.txScript = []) (hsc : ctx.scratch = true) (hcap : 0 < ctx.scratch_cap) :
    ∃ ctx1 freed w1, ws_client_close nc ctx w = some (WS_OK, ctx1, freed, w1) ∧
      RoleWrites true w w1 := by
  unfold ws_client_close
  by_cases ho : (!ctx.open_) = true
  · rw [if_pos ho]
    exact ⟨_, _, _, rfl, RoleWrites.same_tx true w⟩
  rw [if_neg ho]
  obtain ⟨rc, wa, ha, hsa, hra⟩ := ws_send_frame_writes w WS_OPCODE_CLOSE [0x03, 0xE8] 2
    true true ctx.scratch ctx.scratch_cap htx (by norm_num) (fun _ => ⟨hsc, hcap⟩)
    (fun h => by cases h)
  rw [ha]
  simp only
  obtain ⟨cb, wb, hb, hrb⟩ := ws_client_close_loop_total nc (HAL_GetTick wa)
    (rx_weight wa.rx + (ctx.pending_len - ctx.pending_off) + 1) ctx wa
    (by unfold client_weight; omega) (by rw [hsa.2.1, htx]) hsc hcap
  rw [hb]
  exact ⟨_, _, _, rfl, (hra.chain_tx hrb).chain_tx (RoleWrites.of_tx_eq true rfl rfl)⟩

theorem ws_send_frame_null_empty (w : World) (opcode : Nat) (fin mask scratch : Bool)
    (cap : Nat) :
    ws_send_frame w opcode none 0 fin mask scratch cap
      = ws_send_frame w opcode (some []) 0 fin mask scratch cap := by
  simp only [ws_send_frame, if_true]

/-- `ws_client_send` on a transport that accepts everything: what it writes is a
masked frame (nothing when the session is not open). -/
theorem ws_client_send_total (ctx : ws_client_ctx_t) (w : World) (op : Nat)
    (data : Option (List Nat)) (len : Nat) (htx : w.txScript = []) (hsc : ctx.scratch = true)
    (hcap : 0 < ctx.scratch_cap) (hint : len < 2 ^ 31) (hnull : data = none → len = 0) :
    ∃ rc w1, ws_client_send ctx w op data len = some (rc, w1) ∧ RoleWrites true w w1 := by
  unfold ws_client_send
  by_cases ho : (!ws_client_is_open ctx) = true
  · rw [if_pos ho]
    exact ⟨_, _, rfl, RoleWrites.same_tx true w⟩
  rw [if_neg ho]
  cases data with
  | none =>
    rw [hnull rfl, ws_send_frame_null_empty]
    obtain ⟨rc, w1, h1, _, hr⟩ := ws_send_frame_writes w op [] 0 true true ctx.scratch
      ctx.scratch_cap htx (by norm_num) (fun _ => ⟨hsc, hcap⟩) (fun h => by cases h)
    exact ⟨rc, w1, h1, hr⟩
  | some p =>
    obtain ⟨rc, w1, h1, _, hr⟩ := ws_send_frame_writes w op p len true true ctx.scratch
      ctx.scratch_cap htx hint (fun _ => ⟨hsc, hcap⟩) (fun h => by cases h)
    exact ⟨rc, w1, h1, hr⟩

/-- `ws_server_send` on a transport that accepts everything: what it writes is
an unmasked frame whose payload is the caller's bytes (nothing when the session
is not open). -/
theorem ws_server_send_total (c : ws_server_client_t) (w : World) (op : Nat)
    (data : List Nat) (len : Nat) (htx : w.txScript = []) (hint : len < 2 ^ 31)
    (hlen : len ≤ data.length) :
    ∃ rc w1, ws_server_send c w op (some data) len = some (rc, w1) ∧ RoleWrites false w w1 ∧
      (c.open_ = true → rc = WS_OK ∧
        w1.sent = w.sent ++ (ws_frame_hdr_bytes op len true ++ data.take len)) := by
  unfold ws_server_send
  by_cases ho : (!c.open_) = true
  · rw [if_pos ho]
    exact ⟨_, _, rfl, RoleWrites.same_tx false w, fun h => by simp [h] at ho⟩
  rw [if_neg ho]
  obtain ⟨w1, f, h1, hs, hb, hf, hpay⟩ := ws_send_frame_role w op data len true false c.scratch
    c.scratch_cap htx hint (fun h => by cases h) (fun _ => hlen)
  exact ⟨_, w1, h1, RoleWrites.of_frame hs.2.1 hb hf, fun _ => ⟨rfl, by rw [hb, hpay rfl]⟩⟩

/-- `ws_server_client_close` on a transport that accepts everything: an open
session gets the unmasked CLOSE frame `88 02 03 E8`, a closed one nothing. -/
theorem ws_server_client_close_total (listening : Bool) (c : ws_server_client_t) (w : World)
    (htx : w.txScript = []) :
    ∃ c1 nx freed w1, ws_server_client_close listening c w = some (WS_OK, c1, nx, freed, w1) ∧
      RoleWrites false w w1 ∧
      w1.sent = w.sent ++ (if c.open_ then [0x88, 0x02, 0x03, 0xE8] else []) := by
  unfold ws_server_client_close
  cases ho : c.open_ with
  | false =>
    simp only [Bool.false_eq_true, if_false]
    exact ⟨_, _, _, _, rfl, RoleWrites.same_tx false w, by simp⟩
  | true =>
    simp only [if_true]
    obtain ⟨w1, f, h1, hs, hb, hf, hpay⟩ := ws_send_frame_role w WS_OPCODE_CLOSE [0x03, 0xE8] 2
      true false c.scratch c.scratch_cap htx (by norm_num) (fun h => by cases h)
      (fun _ => by simp)
    rw [h1]
    refine ⟨_, _, _, _, rfl, RoleWrites.of_frame hs.2.1 hb hf, ?_⟩
    rw [hb, hpay rfl, ws_frame_hdr_bytes_small _ _ _ (by norm_num)]
    simp [WS_OPCODE_CLOSE]

/-- C19: masking by role. On a transport that accepts every write, with the
scratch buffer that `ws_client_create` provides and payload lengths below
`2^31`, each of the calls returns, and what it has written is a sequence of
complete frames: for the client (`ws_client_send_text/binary/ping/pong`, all
that `ws_client_recv` writes on any incoming stream, all that `ws_client_close`
writes) every frame has the mask bit set and carries a 4-byte key; for the
server (`ws_server_send_*`, all that `ws_server_recv` writes on any incoming
stream, `ws_server_client_close`) every frame has the mask bit clear and no
key, and the frames of `ws_server_send_*` and `ws_server_client_close` carry
the payload bytes as they were given. -/
theorem masking_by_role (nc : NetCodes) :
    (∀ (ctx : ws_client_ctx_t) (w : World) (data : Option (List Nat)) (len : Nat),
      w.txScript = [] → ctx.scratch = true → 0 < ctx.scratch_cap → len < 2 ^ 31 →
      (data = none → len = 0) →
      (∃ rc w1, ws_client_send_text ctx w data len = some (rc, w1) ∧ RoleWrites true w w1) ∧
      (∃ rc w1, ws_client_send_binary ctx w data len = some (rc, w1) ∧ RoleWrites true w w1) ∧
      (∃ rc w1, ws_client_send_ping ctx w data len = some (rc, w1) ∧ RoleWrites true w w1) ∧
      (∃ rc w1, ws_client_send_pong ctx w data len = some (rc, w1) ∧ RoleWrites true w w1)) ∧
    (∀ (ctx : ws_client_ctx_t) (w : World) (buffer : List Nat) (buffer_size : Nat)
      (out_opcode : Option Nat),
      w.txScript = [] → ctx.scratch = true → 0 < ctx.scratch_cap →
      ∃ rc ctx1 buffer1 oo1 w1, ws_client_recv nc ctx w buffer buffer_size out_opcode
          = some (rc, ctx1, buffer1, oo1, w1) ∧
        RoleWrites true w w1) ∧
    (∀ (ctx : ws_client_ctx_t) (w : World),
      w.txScript = [] → ctx.scratch = true → 0 < ctx.scratch_cap →
      ∃ ctx1 freed w1, ws_client_close nc ctx w = some (WS_OK, ctx1, freed, w1) ∧
        RoleWrites true w w1) ∧
    (∀ (c : ws_server_client_t) (w : World) (data : List Nat) (len : Nat),
      w.txScript = [] → len < 2 ^ 31 → len ≤ data.length →
      (∃ rc w1, ws_server_send_text c w (some data) len = some (rc, w1) ∧
        RoleWrites false w w1 ∧
        (c.open_ = true → rc = WS_OK ∧
          w1.sent = w.sent ++ (ws_frame_hdr_bytes WS_OPCODE_TEXT len true ++ data.take len))) ∧
      (∃ rc w1, ws_server_send_binary c w (some data) len = some (rc, w1) ∧
        RoleWrites false w w1 ∧
        (c.open_ = true → rc = WS_OK ∧
          w1.sent = w.sent ++ (ws_frame_hdr_bytes WS_OPCODE_BINARY len true ++ data.take len))) ∧
      (∃ rc w1, ws_server_send_ping c w (some data) len = some (rc, w1) ∧
        RoleWrites false w w1 ∧
        (c.open_ = true → rc = WS_OK ∧
          w1.sent = w.sent ++ (ws_frame_hdr_bytes WS_OPCODE_PING len true ++ data.take len))) ∧
      (∃ rc w1, ws_server_send_pong c w (some data) len = some (rc, w1) ∧
        RoleWrites false w w1 ∧
        (c.open_ = true → rc = WS_OK ∧
          w1.sent = w.sent ++ (ws_frame_hdr_bytes WS_OPCODE_PONG len true ++ data.take len)))) ∧
    (∀ (c : ws_server_client_t) (w : World) (buffer : List Nat) (buffer_size : Nat)
      (out_opcode : Option Nat), w.txScript = [] →
      ∃ rc c1 buffer1 oo1 w1, ws_server_recv nc c w buffer buffer_size out_opcode
          = some (rc, c1, buffer1, oo1, w1) ∧
        RoleWrites false w w1) ∧
    (∀ (listening : Bool) (c : ws_server_client_t) (w : World), w.txScript = [] →
      ∃ c1 nx freed w1, ws_server_client_close listening c w
          = some (WS_OK, c1, nx, freed, w1) ∧
        RoleWrites false w w1 ∧
        w1.sent = w.sent ++ (if c.open_ then [0x88, 0x02, 0x03, 0xE8] else [])) := by
  refine ⟨?_, ?_, ?_, ?_, ?_, ?_⟩
  · intro ctx w data len htx hsc hcap hint hnull
    exact ⟨ws_client_send_total ctx w WS_OPCODE_TEXT data len htx hsc hcap hint hnull,
      ws_client_send_total ctx w WS_OPCODE_BINARY data len htx hsc hcap hint hnull,
      ws_client_send_total ctx w WS_OPCODE_PING data len htx hsc hcap hint hnull,
      ws_client_send_total ctx w WS_OPCODE_PONG data len htx hsc hcap hint hnull⟩
  · intro ctx w buffer buffer_size oo htx hsc hcap
    exact ws_client_recv_total nc ctx w buffer buffer_size oo htx hsc hcap
  · intro ctx w htx hsc hcap
    exact ws_client_close_total nc ctx w htx hsc hcap
  · intro c w data len htx hint hlen
    exact ⟨ws_server_send_total c w WS_OPCODE_TEXT data len htx hint hlen,
      ws_server_send_total c w WS_OPCODE_BINARY data len htx hint hlen,
      ws_server_send_total c w WS_OPCODE_PING data len htx hint hlen,
      ws_server_send_total c w WS_OPCODE_PONG data len htx hint hlen⟩
  · intro c w buffer buffer_size oo htx
    exact ws_server_recv_total nc c w buffer buffer_size oo htx
  · intro listening c w htx
    exact ws_server_client_close_total listening c w htx

/-- Witness for C19: the client closes a session while a PING `89 01 07` and the
peer's CLOSE `88 00` arrive, and sends the text `hi`; the server sends the text
`hi`. With the key `00 00 00 00` that an exhausted `rand()` script yields, the
client's close writes `88 82 .. 03 E8` and `8A 81 .. 07`, all masked. -/
theorem masking_by_role_witness :
    (∃ ctx1 freed w1, ws_client_close sample_codes sample_client_ctx
        (sample_world [RxEvent.data [0x89, 0x01, 0x07, 0x88, 0x00]])
        = some (WS_OK, ctx1, freed, w1) ∧
      RoleWrites true (sample_world [RxEvent.data [0x89, 0x01, 0x07, 0x88, 0x00]]) w1) ∧
    (∃ rc w1, ws_client_send_text sample_client_ctx (sample_world []) (some [0x68, 0x69]) 2
        = some (rc, w1) ∧ RoleWrites true (sample_world []) w1) ∧
    (∃ rc w1, ws_server_send_text sample_server_client (sample_world []) (some [0x68, 0x69]) 2
        = some (rc, w1) ∧ RoleWrites false (sample_world []) w1 ∧
      (sample_server_client.open_ = true → rc = WS_OK ∧
        w1.sent = (sample_world []).sent ++
          (ws_frame_hdr_bytes WS_OPCODE_TEXT 2 true ++ ([0x68, 0x69] : List Nat).take 2))) ∧
    (ws_client_close sample_codes sample_client_ctx
        (sample_world [RxEvent.data [0x89, 0x01, 0x07, 0x88, 0x00]])).map (fun r => r.2.2.2.tx)
      = some [[0x88, 0x82, 0, 0, 0, 0], [0x03, 0xE8], [0x8A, 0x81, 0, 0, 0, 0], [0x07]] ∧
    frame_mask_ok true [0x88, 0x82, 0, 0, 0, 0, 0x03, 0xE8] = true ∧
    frame_mask_ok true [0x8A, 0x81, 0, 0, 0, 0, 0x07] = true ∧
    frame_mask_ok true [0x8A, 0x01, 0x07] = false :=
  ⟨(masking_by_role sample_codes).2.2.1 sample_client_ctx
      (sample_world [RxEvent.data [0x89, 0x01, 0x07, 0x88, 0x00]]) (by decide!) (by decide!)
      (by decide!),
    ((masking_by_role sample_codes).1 sample_client_ctx (sample_world []) (some [0x68, 0x69]) 2
      (by decide!) (by decide!) (by decide!) (by decide!) (by decide!)).1,
    ((masking_by_role sample_codes).2.2.2.1 sample_server_client (sample_world []) [0x68, 0x69] 2
      (by decide!) (by decide!) (by decide!)).1,
    by decide!, by decide!, by decide!, by decide!⟩

/-! ### Handshakes, header helpers and the life cycle of a session -/

/-- A single read that brings `ws_recv_until` the `buf_cap - 1` bytes it asked
for ends the loop at once: the result is `WS_ERR` and the delimiter search does
not run on these bytes. -/
theorem ws_recv_until_fills (nc : NetCodes) (w : World) (buf : List Nat)
    (buf_cap : Nat) (delim : List Nat) (delim_len out_len : Nat) (bs : List Nat)
    (rest : List RxEvent)
    (hcap : 2 ≤ buf_cap) (hcap31 : buf_cap ≤ 2 ^ 31) (hd : delim_len ≠ 0)
    (hnd : nc.NET_NO_DATA ≤ 0) (hto : nc.NET_TIMEOUT ≤ 0) (heof : nc.NET_EOF ≤ 0)
    (hrx : w.rx = RxEvent.data bs :: rest) (hlen : bs.length = buf_cap - 1) :
    ∃ buf1, ws_recv_until nc w buf buf_cap delim delim_len out_len =
        some (WS_ERR, buf1, buf_cap - 1, { w with rx := rest }) ∧
      buf1.take (buf_cap - 1) = bs := by
  have hfuel : rx_weight w.rx + 1 = (bs.length + rx_weight rest) + 1 + 1 := by
    rw [hrx]; simp only [rx_weight]; omega
  have hrecv : net_sock_recv w (toInt32 (buf_cap - 1 - 0)) =
      ((bs.length : Int), bs, { w with rx := rest }) := by
    have h1 : toInt32 (buf_cap - 1 - 0) = ((buf_cap - 1 : Nat) : Int) := by
      rw [Nat.sub_zero]; exact toInt32_of_lt _ (by omega)
    simp only [net_sock_recv, h1, hrx, recvScript, Int.toNat_ofNat]
    rw [if_neg (by omega), if_pos (by omega)]
  refine ⟨writeAt (writeAt (writeAt buf 0 (List.replicate buf_cap 0)) 0 bs) (0 + bs.length) [0],
    ?_, ?_⟩
  · rw [ws_recv_until, if_neg (by omega), hfuel, ws_recv_until_loop, if_pos (by omega),
      if_neg (by omega), hrecv]
    simp only []
    rw [if_neg (by omega), if_neg (by omega), if_neg (by omega), Int.toNat_ofNat,
      ws_recv_until_loop, if_neg (by omega)]
    simp only [hlen, Nat.zero_add]
  · simp only [writeAt, List.take_zero, List.nil_append, Nat.zero_add, List.length_append,
      List.length_replicate, List.length_drop, List.length_take, ← hlen]
    rw [List.take_append_of_le_length (by simp)]
    simp

/-- C25 (refuted): a single read that brings `ws_recv_until` the `buf_cap - 1`
bytes `bs` it asked for makes it return `WS_ERR` with `*out_len = buf_cap - 1`
and `bs` in the buffer, whatever `bs` holds, so also when the delimiter occurs
in `bs`: the loop condition `len < buf_cap - 1` ends the loop before the
delimiter search runs again. -/
theorem recv_until_full_buffer_is_error (nc : NetCodes) (w : World) (buf : List Nat)
    (buf_cap : Nat) (delim : List Nat) (delim_len out_len : Nat) (bs : List Nat)
    (rest : List RxEvent)
    (hcap : 2 ≤ buf_cap) (hcap31 : buf_cap ≤ 2 ^ 31) (hd : delim_len ≠ 0)
    (hnd : nc.NET_NO_DATA ≤ 0) (hto : nc.NET_TIMEOUT ≤ 0) (heof : nc.NET_EOF ≤ 0)
    (hrx : w.rx = RxEvent.data bs :: rest) (hlen : bs.length = buf_cap - 1) :
    ∃ buf1, ws_recv_until nc w buf buf_cap delim delim_len out_len =
        some (WS_ERR, buf1, buf_cap - 1, { w with rx := rest }) ∧
      buf1.take (buf_cap - 1) = bs :=
  ws_recv_until_fills nc w buf buf_cap delim delim_len out_len bs rest hcap hcap31 hd hnd hto
    heof hrx hlen

/-- Witness for C25: a 9-byte buffer and the 8 bytes `abcd CR LF CR LF` arriving
in one read; the delimiter is among them and the result is `WS_ERR`. -/
theorem recv_until_full_buffer_is_error_witness :
    has_delim (cstr "abcd\r\n\r\n") 8 (cstr "\r\n\r\n") 4 = true ∧
    ∃ buf1, ws_recv_until sample_codes (sample_world [RxEvent.data (cstr "abcd\r\n\r\n")])
        (List.replicate 9 7) 9 (cstr "\r\n\r\n") 4 0 =
        some (WS_ERR, buf1, 9 - 1,
          { sample_world [RxEvent.data (cstr "abcd\r\n\r\n")] with rx := [] }) ∧
      buf1.take (9 - 1) = cstr "abcd\r\n\r\n" :=
  ⟨by decide!, recv_until_full_buffer_is_error sample_codes
    (sample_world [RxEvent.data (cstr "abcd\r\n\r\n")]) (List.replicate 9 7) 9
    (cstr "\r\n\r\n") 4 0 (cstr "abcd\r\n\r\n") [] (by decide) (by decide) (by decide)
    (by decide) (by decide) (by decide) rfl (by decide!)⟩

/-- C29 (refuted): on a peer CLOSE frame (`88 00`) and on a transport that
reports that the peer closed, `ws_client_recv` marks the session closed and
returns `WS_CLOSED` (-3), not 0; the value 0 is what it returns for an empty
TEXT frame (`81 00`), with the session still open. -/
theorem client_recv_clean_close_is_negative :
    (ws_client_recv sample_codes sample_client_ctx (sample_world [RxEvent.data [0x88, 0x00]])
        (List.replicate 8 0) 8 (some 0)).map (fun r => (r.1, r.2.1.open_)) =
      some (-3, false) ∧
    (ws_client_recv sample_codes sample_client_ctx (sample_world [RxEvent.code 0])
        (List.replicate 8 0) 8 (some 0)).map (fun r => (r.1, r.2.1.open_)) =
      some (-3, false) ∧
    (ws_client_recv sample_codes sample_client_ctx (sample_world [RxEvent.data [0x81, 0x00]])
        (List.replicate 8 0) 8 (some 0)).map (fun r => (r.1, r.2.1.open_, r.2.2.2.1)) =
      some (0, true, some WS_OPCODE_TEXT) :=
  ⟨by decide!, by decide!, by decide!⟩

/-- C30 (refuted): for the empty masked TEXT frame `81 80 01 02 03 04`
`ws_server_recv` returns 0 and reports the opcode TEXT while the session's open
flag is still true. -/
theorem server_recv_empty_text_returns_zero :
    (ws_server_recv sample_codes sample_server_client
        (sample_world [RxEvent.data [0x81, 0x80, 1, 2, 3, 4]]) (List.replicate 8 0) 8
        (some 0)).map (fun r => (r.1, r.2.1.open_, r.2.2.2.1)) =
      some (0, true, some WS_OPCODE_TEXT) := by
  decide!

/-- C26: no I/O on a closed session. When `ws_client_is_open` is false (the
open flag is false or the handshake has not completed), `ws_client_send_text`,
`_binary`, `_ping`, `_pong` and `ws_client_recv` return `WS_ERR` and leave the
world (receive script, send log, everything else) and the context as they
were; when the open flag of a server-side client is false the same holds for
`ws_server_send_text`, `_binary`, `_ping`, `_pong` and `ws_server_recv`. So a
closed session stays closed: its open flag is false afterwards. -/
theorem closed_session_no_io (nc : NetCodes) (ctx : ws_client_ctx_t) (c : ws_server_client_t)
    (w : World) (data : Option (List Nat)) (len : Nat) (buffer : List Nat) (buffer_size : Nat)
    (out_opcode : Option Nat) :
    (ws_client_is_open ctx = false →
      ws_client_send_text ctx w data len = some (WS_ERR, w) ∧
      ws_client_send_binary ctx w data len = some (WS_ERR, w) ∧
      ws_client_send_ping ctx w data len = some (WS_ERR, w) ∧
      ws_client_send_pong ctx w data len = some (WS_ERR, w) ∧
      ws_client_recv nc ctx w buffer buffer_size out_opcode =
        some (WS_ERR, ctx, buffer, out_opcode, w)) ∧
    (c.open_ = false →
      ws_server_send_text c w data len = some (WS_ERR, w) ∧
      ws_server_send_binary c w data len = some (WS_ERR, w) ∧
      ws_server_send_ping c w data len = some (WS_ERR, w) ∧
      ws_server_send_pong c w data len = some (WS_ERR, w) ∧
      ws_server_recv nc c w buffer buffer_size out_opcode =
        some (WS_ERR, c, buffer, out_opcode, w)) := by
  constructor
  · intro h
    simp [ws_client_send_text, ws_client_send_binary, ws_client_send_ping, ws_client_send_pong,
      ws_client_send, ws_client_recv, h]
  · intro h
    simp [ws_server_send_text, ws_server_send_binary, ws_server_send_ping, ws_server_send_pong,
      ws_server_send, ws_server_recv, h]

/-- Witness for C26: a client context whose open flag is false and a server-side
client whose open flag is false, with a frame waiting on the transport. -/
theorem closed_session_no_io_witness :
    (ws_client_send_text { sample_client_ctx with open_ := false }
        (sample_world [RxEvent.data [0x81, 0x00]]) (some [1, 2]) 2 =
        some (WS_ERR, sample_world [RxEvent.data [0x81, 0x00]]) ∧
      ws_client_send_binary { sample_client_ctx with open_ := false }
        (sample_world [RxEvent.data [0x81, 0x00]]) (some [1, 2]) 2 =
        some (WS_ERR, sample_world [RxEvent.data [0x81, 0x00]]) ∧
      ws_client_send_ping { sample_client_ctx with open_ := false }
        (sample_world [RxEvent.data [0x81, 0x00]]) (some [1, 2]) 2 =
        some (WS_ERR, sample_world [RxEvent.data [0x81, 0x00]]) ∧
      ws_client_send_pong { sample_client_ctx with open_ := false }
        (sample_world [RxEvent.data [0x81, 0x00]]) (some [1, 2]) 2 =
        some (WS_ERR, sample_world [RxEvent.data [0x81, 0x00]]) ∧
      ws_client_recv sample_codes { sample_client_ctx with open_ := false }
        (sample_world [RxEvent.data [0x81, 0x00]]) [0, 0] 2 (some 0) =
        some (WS_ERR, { sample_client_ctx with open_ := false }, [0, 0], some 0,
          sample_world [RxEvent.data [0x81, 0x00]])) ∧
    (ws_server_send_text { sample_server_client with open_ := false }
        (sample_world [RxEvent.data [0x81, 0x00]]) (some [1, 2]) 2 =
        some (WS_ERR, sample_world [RxEvent.data [0x81, 0x00]]) ∧
      ws_server_send_binary { sample_server_client with open_ := false }
        (sample_world [RxEvent.data [0x81, 0x00]]) (some [1, 2]) 2 =
        some (WS_ERR, sample_world [RxEvent.data [0x81, 0x00]]) ∧
      ws_server_send_ping { sample_server_client with open_ := false }
        (sample_world [RxEvent.data [0x81, 0x00]]) (some [1, 2]) 2 =
        some (WS_ERR, sample_world [RxEvent.data [0x81, 0x00]]) ∧
      ws_server_send_pong { sample_server_client with open_ := false }
        (sample_world [RxEvent.data [0x81, 0x00]]) (some [1, 2]) 2 =
        some (WS_ERR, sample_world [RxEvent.data [0x81, 0x00]]) ∧
      ws_server_recv sample_codes { sample_server_client with open_ := false }
        (sample_world [RxEvent.data [0x81, 0x00]]) [0, 0] 2 (some 0) =
        some (WS_ERR, { sample_server_client with open_ := false }, [0, 0], some 0,
          sample_world [RxEvent.data [0x81, 0x00]])) :=
  ⟨(closed_session_no_io sample_codes { sample_client_ctx with open_ := false }
      { sample_server_client with open_ := false } (sample_world [RxEvent.data [0x81, 0x00]])
      (some [1, 2]) 2 [0, 0] 2 (some 0)).1 (by decide!),
    (closed_session_no_io sample_codes { sample_client_ctx with open_ := false }
      { sample_server_client with open_ := false } (sample_world [RxEvent.data [0x81, 0x00]])
      (some [1, 2]) 2 [0, 0] 2 (some 0)).2 (by decide!)⟩

/-- C27: close sends a frame only when the session is open. Called on a session
whose open flag is false, `ws_client_close` and `ws_server_client_close` return
`WS_OK` and leave the world as it was (nothing is written, read or closed).
Called on an open session, on a transport that accepts what is offered (and,
for the client, with its scratch buffer in place), they return `WS_OK` and what
they have written begins with a final CLOSE frame whose payload is `03 E8`:
`88 82`, the 4-byte key and the payload XOR that key for the client,
`88 02 03 E8` and nothing more for the server. -/
theorem close_sends_frame_only_when_open (nc : NetCodes) (ctx : ws_client_ctx_t)
    (c : ws_server_client_t) (listening : Bool) (w : World) :
    (ctx.open_ = false → ∃ freed, ws_client_close nc ctx w = some (WS_OK, ctx, freed, w)) ∧
    (c.open_ = false → ∃ c1 freed,
      ws_server_client_close listening c w = some (WS_OK, c1, listening, freed, w)) ∧
    (ctx.open_ = true → w.txScript = [] → ctx.scratch = true → 0 < ctx.scratch_cap →
      ∃ ctx1 freed w1 more, ws_client_close nc ctx w = some (WS_OK, ctx1, freed, w1) ∧
        ctx1.open_ = false ∧
        w1.sent = w.sent ++ ([0x88, 0x82] ++ (ws_make_mask_key w).1 ++
          xor_from (ws_make_mask_key w).1 0 [0x03, 0xE8]) ++ more) ∧
    (c.open_ = true → w.txScript = [] →
      ∃ c1 freed w1, ws_server_client_close listening c w =
          some (WS_OK, c1, listening, freed, w1) ∧
        c1.open_ = false ∧ w1.sent = w.sent ++ [0x88, 0x02, 0x03, 0xE8]) := by
  refine ⟨?_, ?_, ?_, ?_⟩
  · intro h
    exact ⟨ws_client_frees ctx, by simp [ws_client_close, h]⟩
  · intro h
    exact ⟨{ open_ := false, rxbuf := [], rxcap := 0, scratch := false, scratch_cap := 0 },
      [Freed.rxbuf] ++ (if c.scratch then [Freed.scratch] else []),
      by simp [ws_server_client_close, h]⟩
  · intro ho htx hsc hcap
    obtain ⟨wa, ha, hsa, _, hsent⟩ := ws_send_frame_masked_small w WS_OPCODE_CLOSE [0x03, 0xE8] 2
      true ctx.scratch_cap htx (by norm_num) (by simp) hcap
    obtain ⟨cb, wb, hb, _, frames, hfr, _⟩ := ws_client_close_loop_total nc (HAL_GetTick wa)
      (rx_weight wa.rx + (ctx.pending_len - ctx.pending_off) + 1) ctx wa
      (by unfold client_weight; omega) (by rw [hsa.2.1, htx]) hsc hcap
    refine ⟨{ cb with open_ := false }, ws_client_frees cb,
      net_sock_destroy (net_sock_close wb), frames.flatten, ?_, rfl, ?_⟩
    · unfold ws_client_close
      rw [if_neg (by simp [ho]), hsc, ha]
      simp only
      rw [hb]
    · show wb.sent = _
      rw [hfr, hsent]
      simp [WS_OPCODE_CLOSE]
  · intro ho htx
    obtain ⟨wa, ha, _, _, hsent⟩ := ws_send_frame_unmasked_small w WS_OPCODE_CLOSE [0x03, 0xE8] 2
      true c.scratch c.scratch_cap htx (by norm_num)
    refine ⟨{ open_ := false, rxbuf := [], rxcap := 0, scratch := false, scratch_cap := 0 },
      [Freed.rxbuf] ++ (if c.scratch then [Freed.scratch] else []), wa, ?_, rfl, ?_⟩
    · unfold ws_server_client_close
      simp only [ho, if_true, ha]
    · rw [hsent]
      simp [WS_OPCODE_CLOSE]

/-- Witness for C27: a closed and an open client context, a closed and an open
server-side client, on a transport that accepts everything, with the peer's
CLOSE frame `88 00` waiting. -/
theorem close_sends_frame_only_when_open_witness :
    (∃ freed, ws_client_close sample_codes { sample_client_ctx with open_ := false }
        (sample_world []) =
        some (WS_OK, { sample_client_ctx with open_ := false }, freed, sample_world [])) ∧
    (∃ c1 freed, ws_server_client_close true { sample_server_client with open_ := false }
        (sample_world []) = some (WS_OK, c1, true, freed, sample_world [])) ∧
    (∃ ctx1 freed w1 more, ws_client_close sample_codes sample_client_ctx
          (sample_world [RxEvent.data [0x88, 0x00]]) = some (WS_OK, ctx1, freed, w1) ∧
        ctx1.open_ = false ∧
        w1.sent = (sample_world [RxEvent.data [0x88, 0x00]]).sent ++ ([0x88, 0x82] ++
          (ws_make_mask_key (sample_world [RxEvent.data [0x88, 0x00]])).1 ++
          xor_from (ws_make_mask_key (sample_world [RxEvent.data [0x88, 0x00]])).1 0
            [0x03, 0xE8]) ++ more) ∧
    (∃ c1 freed w1, ws_server_client_close true sample_server_client (sample_world []) =
          some (WS_OK, c1, true, freed, w1) ∧
        c1.open_ = false ∧ w1.sent = (sample_world []).sent ++ [0x88, 0x02, 0x03, 0xE8]) :=
  ⟨(close_sends_frame_only_when_open sample_codes { sample_client_ctx with open_ := false }
      { sample_server_client with open_ := false } true (sample_world [])).1 (by decide!),
    (close_sends_frame_only_when_open sample_codes { sample_client_ctx with open_ := false }
      { sample_server_client with open_ := false } true (sample_world [])).2.1 (by decide!),
    (close_sends_frame_only_when_open sample_codes sample_client_ctx sample_server_client true
      (sample_world [RxEvent.data [0x88, 0x00]])).2.2.1 (by decide!) (by decide!) (by decide!)
      (by decide!),
    (close_sends_frame_only_when_open sample_codes sample_client_ctx sample_server_client true
      (sample_world [])).2.2.2 (by decide!) (by decide!)⟩

/-- C28 (refuted): two runs of `ws_echo_smoketest` on a transport that accepts
everything. When the server answers `404`, `ws_client_connect` fails after it
has called `ws_client_close` itself, and the caller's `ws_client_close` then
frees the two buffers and the context a second time. When the server answers
`101` and then sends the CLOSE frame `88 00`, `ws_client_recv` marks the
session closed, and the caller's `ws_client_close` frees the three objects but
`net_sock_close` and `net_sock_destroy` are never called. -/
theorem smoketest_release_counts :
    (ws_echo_smoketest sample_codes false [] true true
        (sample_world [RxEvent.data (cstr "HTTP/1.1 404 Not Found\r\n\r\n")])).map
      (fun r => (r.1, r.2.1, r.2.2.sockClosed, r.2.2.sockDestroyed)) =
      some (WS_ERR, [Freed.rxbuf, Freed.scratch, Freed.session, Freed.rxbuf, Freed.scratch,
        Freed.session], 1, 1) ∧
    (ws_echo_smoketest sample_codes false [] true true
        (sample_world [RxEvent.data sample_response, RxEvent.data [0x88, 0x00]])).map
      (fun r => (r.1, r.2.1, r.2.2.sockClosed, r.2.2.sockDestroyed)) =
      some (WS_CLOSED, [Freed.rxbuf, Freed.scratch, Freed.session], 0, 0) :=
  ⟨by decide!, by decide!⟩

/-- C21 (refuted): the client draws the key `AAAAAAAAAAAAAAAAAAAAAA==` and the
server's answer is the matching 101 response (129 bytes) followed at once by
further bytes. When 2047 bytes arrive in the first read (the 101 response and
1918 more), `ws_client_connect` returns `WS_ERR`, closes the session and leaves
`handshake_ok` false; with one byte less it returns `WS_OK` with `handshake_ok`
set. -/
theorem connect_rejects_valid_response_filling_buffer :
    (ws_client_connect sample_codes { sample_fresh_ctx with open_ := false } true
        (sample_world [RxEvent.data (sample_response ++ List.replicate 1918 0x20)])).map
      (fun r => (r.1, r.2.1.open_, r.2.1.handshake_ok)) = some (WS_ERR, false, false) ∧
    (ws_client_connect sample_codes { sample_fresh_ctx with open_ := false } true
        (sample_world [RxEvent.data (sample_response ++ List.replicate 1917 0x20)])).map
      (fun r => (r.1, r.2.1.open_, r.2.1.handshake_ok)) = some (WS_OK, true, true) :=
  ⟨by decide!, by decide!⟩

theorem dropWhile_head_pos (p : Nat → Bool) (a : Nat) (l : List Nat) (h : p a = true) :
    (a :: l).dropWhile p = l.dropWhile p := by
  simp [List.dropWhile_cons, h]

theorem dropWhile_head_neg (p : Nat → Bool) (a : Nat) (l : List Nat) (h : p a = false) :
    (a :: l).dropWhile p = a :: l := by
  simp [List.dropWhile_cons, h]

theorem takeWhile_head_pos (p : Nat → Bool) (a : Nat) (l : List Nat) (h : p a = true) :
    (a :: l).takeWhile p = a :: l.takeWhile p := by
  simp [List.takeWhile_cons, h]

theorem takeWhile_head_neg (p : Nat → Bool) (a : Nat) (l : List Nat) (h : p a = false) :
    (a :: l).takeWhile p = [] := by
  simp [List.takeWhile_cons, h]

theorem split_commas_ne_nil : ∀ s : List Nat, split_commas s ≠ []
  | [] => by simp [split_commas]
  | b :: bs => by
    rw [split_commas]
    by_cases h : b = 44
    · rw [if_pos h]; simp
    · rw [if_neg h]
      cases hs : split_commas bs with
      | nil => simp
      | cons e es => simp

theorem ascii_ci_eq_nil_left (tok : List Nat) (h : tok ≠ []) : ascii_ci_eq [] tok = false := by
  cases tok with
  | nil => exact absurd rfl h
  | cons a t => rfl

theorem header_has_token_spec_cons_sep (b : Nat) (s tok : List Nat) (htok : tok ≠ [])
    (hb : (b == 32 || b == 9 || b == 44) = true) :
    header_has_token_spec (b :: s) tok = header_has_token_spec s tok := by
  unfold header_has_token_spec
  rw [split_commas]
  by_cases h : b = 44
  · rw [if_pos h]
    simp only [List.any_cons]
    have : trim_blanks [] = [] := rfl
    rw [this, ascii_ci_eq_nil_left tok htok, Bool.false_or]
  · rw [if_neg h]
    have hbl : (b == 32 || b == 9) = true := by
      simp only [Bool.or_eq_true, beq_iff_eq] at hb ⊢
      rcases hb with hb | hb
      · exact hb
      · exact absurd hb h
    cases hs : split_commas s with
    | nil => exact absurd hs (split_commas_ne_nil s)
    | cons e es =>
      simp only [List.any_cons]
      have : trim_blanks (b :: e) = trim_blanks e := by
        unfold trim_blanks
        rw [dropWhile_head_pos _ b e hbl]
      rw [this]

theorem header_has_token_spec_dropWhile (tok : List Nat) (htok : tok ≠ []) :
    ∀ s : List Nat,
      header_has_token_spec (s.dropWhile (fun b => b == 32 || b == 9 || b == 44)) tok =
        header_has_token_spec s tok
  | [] => rfl
  | b :: s => by
    by_cases hb : (b == 32 || b == 9 || b == 44) = true
    · rw [dropWhile_head_pos _ b s hb, header_has_token_spec_dropWhile tok htok s,
        header_has_token_spec_cons_sep b s tok htok hb]
    · rw [dropWhile_head_neg _ b s (by simpa using hb)]

theorem split_commas_takeWhile : ∀ s : List Nat,
    split_commas s = s.takeWhile (fun b => b != 44) ::
      (match s.dropWhile (fun b => b != 44) with
       | [] => []
       | _ :: r => split_commas r)
  | [] => rfl
  | b :: bs => by
    rw [split_commas]
    by_cases h : b = 44
    · rw [if_pos h]
      have h1 : ((fun b => b != 44) b) = false := by simp [h]
      rw [takeWhile_head_neg _ b bs h1, dropWhile_head_neg _ b bs h1]
    · rw [if_neg h]
      have h1 : ((fun b => b != 44) b) = true := by simp [h]
      rw [takeWhile_head_pos _ b bs h1, dropWhile_head_pos _ b bs h1,
        split_commas_takeWhile bs]

theorem map_eq_map_iff_getD (f : Nat → Nat) : ∀ a b : List Nat,
    a.map f = b.map f ↔
      a.length = b.length ∧ ∀ i, i < b.length → f (a.getD i 0) = f (b.getD i 0)
  | [], [] => by simp
  | [], y :: ys => by simp
  | x :: xs, [] => by simp
  | x :: xs, y :: ys => by
    simp only [List.map_cons, List.cons.injEq, List.length_cons, Nat.add_right_cancel_iff,
      map_eq_map_iff_getD f xs ys]
    constructor
    · rintro ⟨h0, hl, hi⟩
      refine ⟨hl, ?_⟩
      intro i hlt
      cases i with
      | zero => simpa using h0
      | succ i => simpa using hi i (by omega)
    · rintro ⟨hl, hi⟩
      refine ⟨by simpa using hi 0 (by omega), hl, ?_⟩
      intro i hlt
      simpa using hi (i + 1) (by omega)

theorem c_strncasecmp_eq_iff (buf : List Nat) (p : Nat) (name : List Nat) (n : Nat) :
    c_strncasecmp_eq buf p name n = true ↔
      ∀ i, i < n → c_tolower (buf.getD (p + i) 0) = c_tolower (name.getD i 0) := by
  simp [c_strncasecmp_eq, List.all_eq_true, List.mem_range]

/-- Comparing the first `|b|` characters of a string that begins with `a`, for
`a` as long as `b`, is the comparison of `a` with `b`. -/
theorem ascii_ci_eq_iff_strncasecmp (a ext b : List Nat) :
    ascii_ci_eq a b = true ↔
      a.length = b.length ∧ c_strncasecmp_eq (a ++ ext) 0 b b.length = true := by
  unfold ascii_ci_eq
  rw [beq_iff_eq, map_eq_map_iff_getD, c_strncasecmp_eq_iff]
  constructor
  · rintro ⟨hl, hi⟩
    refine ⟨hl, ?_⟩
    intro i hlt
    rw [Nat.zero_add, List.getD_append _ _ _ _ (by omega)]
    exact hi i hlt
  · rintro ⟨hl, hi⟩
    refine ⟨hl, ?_⟩
    intro i hlt
    have := hi i hlt
    rw [Nat.zero_add, List.getD_append _ _ _ _ (by omega)] at this
    exact this

/-- The loop of `ws_http_header_has_token` computes the token test of the
specification, for a non-empty token and enough fuel. -/
theorem ws_http_header_has_token_loop_refines (tok : List Nat) (htok : tok ≠ []) :
    ∀ (fuel : Nat) (s : List Nat), s.length < fuel →
      ws_http_header_has_token_loop tok fuel s = some (header_has_token_spec s tok) := by
  intro fuel
  induction fuel with
  | zero => intro s h; omega
  | succ fuel ih =>
    intro s hfuel
    rw [ws_http_header_has_token_loop]
    by_cases hs : s = []
    · rw [if_pos hs, hs]
      simp only [header_has_token_spec, split_commas, List.any_cons, List.any_nil, Bool.or_false]
      have : trim_blanks [] = [] := rfl
      rw [this, ascii_ci_eq_nil_left tok htok]
    rw [if_neg hs]
    simp only []
    rw [← header_has_token_spec_dropWhile tok htok s]
    have hlen1 : (s.dropWhile (fun b => b == 32 || b == 9 || b == 44)).length ≤ s.length :=
      (List.dropWhile_sublist _).length_le
    have hhead : ∀ c t, s.dropWhile (fun b => b == 32 || b == 9 || b == 44) = c :: t →
        (c == 32 || c == 9 || c == 44) = false := by
      intro c t hct
      have := List.head_dropWhile_not (fun b => b == 32 || b == 9 || b == 44) s
        (by rw [hct]; simp)
      simpa [hct] using this
    generalize s.dropWhile (fun b => b == 32 || b == 9 || b == 44) = s1 at hlen1 hhead ⊢
    cases s1 with
    | nil =>
      rw [if_pos rfl]
      simp only [header_has_token_spec, split_commas, List.any_cons, List.any_nil, Bool.or_false]
      have : trim_blanks [] = [] := rfl
      rw [this, ascii_ci_eq_nil_left tok htok]
    | cons c t =>
      rw [if_neg (by simp)]
      have hc := hhead c t rfl
      have hc44 : ((fun b => b != 44) c) = true := by
        simp only [Bool.or_eq_false_iff, beq_eq_false_iff_ne] at hc
        simp [hc.2]
      have hcbl : ((fun b => b == 32 || b == 9) c) = false := by
        simp only [Bool.or_eq_false_iff] at hc
        simp only [Bool.or_eq_false_iff]
        exact hc.1
      have helem : (c :: t).takeWhile (fun b => b != 44) = c :: t.takeWhile (fun b => b != 44) :=
        takeWhile_head_pos _ c t hc44
      have htrim : trim_blanks ((c :: t).takeWhile (fun b => b != 44)) =
          (((c :: t).takeWhile (fun b => b != 44)).reverse.dropWhile
            (fun b => b == 32 || b == 9)).reverse := by
        unfold trim_blanks
        rw [helem, dropWhile_head_neg _ c _ hcbl]
      have hpre : ∃ ext, c :: t =
          (((c :: t).takeWhile (fun b => b != 44)).reverse.dropWhile
            (fun b => b == 32 || b == 9)).reverse ++ ext := by
        obtain ⟨e1, he1⟩ := List.rdropWhile_prefix (fun b => b == 32 || b == 9)
          ((c :: t).takeWhile (fun b => b != 44))
        obtain ⟨e2, he2⟩ := List.takeWhile_prefix (fun b => b != 44) (l := c :: t)
        refine ⟨e1 ++ e2, ?_⟩
        rw [← List.append_assoc]
        unfold List.rdropWhile at he1
        rw [he1, he2]
      have hsplit := split_commas_takeWhile (c :: t)
      have hdl : ((c :: t).dropWhile (fun b => b != 44)).length ≤ t.length := by
        rw [dropWhile_head_pos _ c t hc44]
        exact (List.dropWhile_sublist _).length_le
      have hdh : ∀ x r, (c :: t).dropWhile (fun b => b != 44) = x :: r → x = 44 := by
        intro x r hxr
        have := List.head_dropWhile_not (fun b => b != 44) (c :: t) (by rw [hxr]; simp)
        simpa [hxr] using this
      have hspec : header_has_token_spec (c :: t) tok =
          (ascii_ci_eq (trim_blanks ((c :: t).takeWhile (fun b => b != 44))) tok ||
            header_has_token_spec
              (if ((c :: t).dropWhile (fun b => b != 44)).head? = some 44 then
                ((c :: t).dropWhile (fun b => b != 44)).tail
               else (c :: t).dropWhile (fun b => b != 44)) tok) := by
        unfold header_has_token_spec
        rw [hsplit, List.any_cons]
        congr 1
        cases hr : (c :: t).dropWhile (fun b => b != 44) with
        | nil =>
          simp only [List.head?_nil, List.tail_nil, if_false, List.any_nil, split_commas,
            List.any_cons, Bool.or_false, reduceCtorEq]
          have : trim_blanks [] = [] := rfl
          rw [this, ascii_ci_eq_nil_left tok htok]
        | cons x r =>
          have hx := hdh x r hr
          simp [hx]
      rw [hspec]
      obtain ⟨ext, hext⟩ := hpre
      by_cases hcmp : ascii_ci_eq (trim_blanks ((c :: t).takeWhile (fun b => b != 44))) tok = true
      · rw [hcmp, Bool.true_or]
        rw [htrim] at hcmp
        have h2 := (ascii_ci_eq_iff_strncasecmp _ ext tok).1 hcmp
        rw [← hext] at h2
        rw [if_pos h2]
      · have hcmp2 := hcmp
        rw [htrim] at hcmp2
        have h2 : ¬ ((((c :: t).takeWhile (fun b => b != 44)).reverse.dropWhile
            (fun b => b == 32 || b == 9)).reverse.length = tok.length ∧
            c_strncasecmp_eq (c :: t) 0 tok tok.length = true) := by
          intro h
          apply hcmp2
          apply (ascii_ci_eq_iff_strncasecmp _ ext tok).2
          rw [← hext]
          exact h
        rw [if_neg h2]
        simp only [Bool.not_eq_true] at hcmp
        rw [hcmp, Bool.false_or]
        apply ih
        simp only [List.length_cons] at hlen1
        split_ifs
        · rw [List.length_tail]; omega
        · omega

/-- C23: `ws_http_header_has_token(value, token)` returns, and for a non-empty
token its result is the token test of the specification on the two C strings
(the bytes before the first NUL): true exactly when `value`, split at commas,
has an element that equals `token` once its leading and trailing spaces and
tabs are removed, compared without regard to ASCII case. For an empty token and
for a NULL `value` or `token` the result is false. -/
theorem header_has_token_refines (value token : List Nat) :
    ws_http_header_has_token (some value) (some token) =
      some (if c_string_at token 0 = [] then false
        else header_has_token_spec (c_string_at value 0) (c_string_at token 0)) ∧
    ws_http_header_has_token (some value) none = some false ∧
    ws_http_header_has_token none (some token) = some false ∧
    ws_http_header_has_token none none = some false := by
  refine ⟨?_, rfl, rfl, rfl⟩
  unfold ws_http_header_has_token
  by_cases h : c_string_at token 0 = []
  · simp only [h, if_true]
  · simp only [h, if_false]
    exact ws_http_header_has_token_loop_refines _ h _ _ (by omega)

/-- Examples for C23: `keep-alive, upgrade` contains the token `Upgrade`, while
`Upgrades` and `x-Upgrade` do not, and no value contains the empty token. -/
theorem header_has_token_refines_witness :
    ws_http_header_has_token (some (cstr "keep-alive, upgrade")) (some (cstr "Upgrade")) =
      some true ∧
    ws_http_header_has_token (some (cstr "Upgrades")) (some (cstr "Upgrade")) = some false ∧
    ws_http_header_has_token (some (cstr "x-Upgrade")) (some (cstr "Upgrade")) = some false ∧
    ws_http_header_has_token (some (cstr "Upgrade")) (some []) = some false :=
  ⟨(header_has_token_refines (cstr "keep-alive, upgrade") (cstr "Upgrade")).1.trans
      (by decide!),
    (header_has_token_refines (cstr "Upgrades") (cstr "Upgrade")).1.trans (by decide!),
    (header_has_token_refines (cstr "x-Upgrade") (cstr "Upgrade")).1.trans (by decide!),
    (header_has_token_refines (cstr "Upgrade") []).1.trans (by decide!)⟩

theorem c_strstr_ge (buf : List Nat) (p : Nat) (needle : List Nat) (e : Nat)
    (h : c_strstr buf p needle = some e) : p ≤ e := by
  unfold c_strstr at h
  simp only [Option.map_eq_some'] at h
  obtain ⟨i, _, hi⟩ := h
  omega

theorem http_eol_ge (hdr : List Nat) (p : Nat) (fallback : Option Nat) (e adv : Nat)
    (h : http_eol hdr p fallback = some (e, adv)) (hfb : ∀ x, fallback = some x → p ≤ x) :
    p ≤ e ∧ 1 ≤ adv := by
  unfold http_eol at h
  cases h1 : c_strstr hdr p [13, 10] with
  | some e1 =>
    rw [h1] at h
    simp only [Option.some.injEq, Prod.mk.injEq] at h
    have := c_strstr_ge _ _ _ _ h1
    omega
  | none =>
    rw [h1] at h
    cases h2 : c_strstr hdr p [10] with
    | some e2 =>
      rw [h2] at h
      simp only [Option.some.injEq, Prod.mk.injEq] at h
      have := c_strstr_ge _ _ _ _ h2
      omega
    | none =>
      rw [h2] at h
      cases fallback with
      | none => simp at h
      | some x =>
        simp only [Option.map_some', Option.some.injEq, Prod.mk.injEq] at h
        have := hfb x rfl
        omega

/-- The loop of `ws_http_find_header_value` returns: each round moves `p`
forward. -/
theorem ws_http_find_header_loop_total (hdr : List Nat) (len : Nat) (name : List Nat)
    (out_cap : Nat) :
    ∀ (fuel p : Nat), len - p < fuel →
      ∃ r, ws_http_find_header_loop hdr len name out_cap fuel p = some r := by
  intro fuel
  induction fuel with
  | zero => intro p h; omega
  | succ fuel ih =>
    intro p hfuel
    rw [ws_http_find_header_loop]
    by_cases hp : p < len
    swap
    · rw [if_neg hp]; exact ⟨_, rfl⟩
    rw [if_pos hp]
    cases he : http_eol hdr p (some len) with
    | none => exact ⟨_, rfl⟩
    | some r =>
      obtain ⟨eol, adv⟩ := r
      have hge := http_eol_ge hdr p (some len) eol adv he
        (fun x hx => by cases hx; omega)
      simp only
      by_cases h1 : eol = p
      · rw [if_pos h1]; exact ⟨_, rfl⟩
      rw [if_neg h1]
      by_cases h2 : eol - p > name.length + 1 ∧ c_strncasecmp_eq hdr p name name.length = true ∧
          hdr.getD (p + name.length) 0 = 58
      · rw [if_pos h2]; exact ⟨_, rfl⟩
      rw [if_neg h2]
      exact ih _ (by omega)

/-- `ws_http_find_header_value` returns for every input. -/
theorem ws_http_find_header_value_total (hdr : List Nat) (len : Nat) (name : List Nat)
    (out_cap : Nat) : ∃ r, ws_http_find_header_value hdr len name out_cap = some r := by
  unfold ws_http_find_header_value
  by_cases h0 : out_cap = 0
  · rw [if_pos h0]; exact ⟨_, rfl⟩
  rw [if_neg h0]
  cases he : http_eol hdr 0 none with
  | none => exact ⟨_, rfl⟩
  | some r =>
    obtain ⟨line, adv⟩ := r
    exact ws_http_find_header_loop_total hdr len name out_cap _ _ (by omega)

theorem be_bytes_length : ∀ (n v : Nat), (be_bytes n v).length = n
  | 0, _ => rfl
  | n + 1, v => by simp [be_bytes, be_bytes_length n v]

theorem base64_text_length : ∀ l : List Nat, (base64_text l).length = (l.length + 2) / 3 * 4
  | [] => rfl
  | [_] => by simp [base64_text]
  | [_, _] => by simp [base64_text]
  | x :: y :: z :: rest => by
    simp only [base64_text, List.length_cons, base64_text_length rest]
    omega

/-- For a key of at most 92 characters `ws_compute_accept` succeeds and its
result is a string of 28 characters. -/
theorem ws_compute_accept_ok (key : List Nat) (h : key.length ≤ 92) :
    (ws_compute_accept key [] 64).1 = WS_OK ∧ (ws_compute_accept key [] 64).2.length = 28 := by
  have hg : WS_GUID.length = 36 := by decide
  have hsha : (ws_sha1 (key ++ WS_GUID) (key.length + WS_GUID.length)).length = 20 := by
    simp [ws_sha1, mbedtls_sha1, be_bytes_length]
  have ht : (base64_text ((ws_sha1 (key ++ WS_GUID) (key.length + WS_GUID.length)).take 20)).length
      = 28 := by
    rw [base64_text_length, List.length_take, hsha]
    rfl
  have hb : ws_base64 (ws_sha1 (key ++ WS_GUID) (key.length + WS_GUID.length)) 20 64 =
      (28, some (base64_text ((ws_sha1 (key ++ WS_GUID) (key.length + WS_GUID.length)).take 20)))
      := by
    simp [ws_base64, mbedtls_base64_encode]
  unfold ws_compute_accept
  rw [if_neg (by omega), if_neg (by omega)]
  simp only [hb]
  rw [if_neg (by omega)]
  simp only [Option.getD_some, ht]
  rw [if_neg (by omega)]
  exact ⟨rfl, ht⟩

/-- What `ws_recv_until` leaves of the world: it only receives. -/
theorem ws_recv_until_loop_recv_only (nc : NetCodes) (buf_cap : Nat) (delim : List Nat)
    (delim_len : Nat) :
    ∀ (fuel : Nat) (w : World) (buf : List Nat) (len : Nat) (r : Int × List Nat × Nat × World),
      ws_recv_until_loop nc buf_cap delim delim_len fuel w buf len = some r →
      RecvOnly w r.2.2.2 := by
  intro fuel
  induction fuel with
  | zero => intro w buf len r h; simp [ws_recv_until_loop] at h
  | succ fuel ih =>
    intro w buf len r h
    rw [ws_recv_until_loop] at h
    by_cases h1 : len < buf_cap - 1
    swap
    · rw [if_neg h1] at h
      cases h
      exact ⟨rfl, rfl, rfl, rfl, rfl⟩
    rw [if_pos h1] at h
    by_cases h2 : len ≥ delim_len ∧ has_delim buf len delim delim_len = true
    · rw [if_pos h2] at h
      cases h
      exact ⟨rfl, rfl, rfl, rfl, rfl⟩
    rw [if_neg h2] at h
    have hf := (net_sock_recv_facts w (toInt32 (buf_cap - 1 - len))).1
    generalize net_sock_recv w (toInt32 (buf_cap - 1 - len)) = q at h hf
    obtain ⟨rc, bs, w1⟩ := q
    simp only at h hf
    have chain : ∀ r1 : Int × List Nat × Nat × World, RecvOnly w1 r1.2.2.2 →
        RecvOnly w r1.2.2.2 := by
      intro r1 hr
      obtain ⟨a1, a2, a3, a4, a5⟩ := hf
      obtain ⟨b1, b2, b3, b4, b5⟩ := hr
      exact ⟨b1.trans a1, b2.trans a2, b3.trans a3, b4.trans a4, b5.trans a5⟩
    by_cases c1 : rc = nc.NET_NO_DATA ∨ rc = nc.NET_TIMEOUT
    · rw [if_pos c1] at h
      exact chain r (ih _ _ _ _ h)
    rw [if_neg c1] at h
    by_cases c2 : rc = 0 ∨ rc = nc.NET_EOF
    · rw [if_pos c2] at h
      cases h
      exact hf
    rw [if_neg c2] at h
    by_cases c3 : rc < 0
    · rw [if_pos c3] at h
      by_cases c4 : len = 0
      · rw [if_pos c4] at h; cases h; exact hf
      · rw [if_neg c4] at h; cases h; exact hf
    rw [if_neg c3] at h
    exact chain r (ih _ _ _ _ h)

theorem ws_recv_until_recv_only (nc : NetCodes) (w : World) (buf : List Nat) (buf_cap : Nat)
    (delim : List Nat) (delim_len out_len : Nat) (r : Int × List Nat × Nat × World)
    (h : ws_recv_until nc w buf buf_cap delim delim_len out_len = some r) :
    RecvOnly w r.2.2.2 := by
  unfold ws_recv_until at h
  by_cases h0 : buf_cap = 0 ∨ delim_len = 0
  · rw [if_pos h0] at h
    cases h
    exact ⟨rfl, rfl, rfl, rfl, rfl⟩
  · rw [if_neg h0] at h
    exact ws_recv_until_loop_recv_only nc buf_cap delim delim_len _ _ _ _ r h

theorem ws_http_find_header_loop_value (hdr : List Nat) (len : Nat) (name : List Nat)
    (out_cap : Nat) (v : List Nat) :
    ∀ (fuel p : Nat), ws_http_find_header_loop hdr len name out_cap fuel p = some (some v) →
      ∃ q eol, v = http_header_value hdr q eol name.length out_cap := by
  intro fuel
  induction fuel with
  | zero => intro p h; simp [ws_http_find_header_loop] at h
  | succ fuel ih =>
    intro p h
    rw [ws_http_find_header_loop] at h
    by_cases hp : p < len
    swap
    · rw [if_neg hp] at h; simp at h
    rw [if_pos hp] at h
    cases he : http_eol hdr p (some len) with
    | none => rw [he] at h; simp at h
    | some r =>
      obtain ⟨eol, adv⟩ := r
      rw [he] at h
      simp only at h
      by_cases h1 : eol = p
      · rw [if_pos h1] at h; simp at h
      rw [if_neg h1] at h
      by_cases h2 : eol - p > name.length + 1 ∧ c_strncasecmp_eq hdr p name name.length = true ∧
          hdr.getD (p + name.length) 0 = 58
      · rw [if_pos h2] at h
        simp only [Option.some.injEq] at h
        exact ⟨p, eol, h.symm⟩
      rw [if_neg h2] at h
      exact ih _ h

theorem takeWhile_idem (p : Nat → Bool) : ∀ l : List Nat,
    (l.takeWhile p).takeWhile p = l.takeWhile p
  | [] => rfl
  | a :: l => by
    cases h : p a
    · rw [takeWhile_head_neg p a l h]; rfl
    · rw [takeWhile_head_pos p a l h, takeWhile_head_pos p a _ h, takeWhile_idem p l]

/-- `ws_http_header_has_token` on two C strings, for a non-empty token. -/
theorem ws_http_header_has_token_c_string (value token : List Nat)
    (hv : c_string_at value 0 = value) (ht : c_string_at token 0 = token) (hne : token ≠ []) :
    ws_http_header_has_token (some value) (some token) =
      some (header_has_token_spec value token) := by
  unfold ws_http_header_has_token
  simp only [hv, ht, hne, if_false]
  exact ws_http_header_has_token_loop_refines _ hne _ _ (by omega)

/-- A value that `ws_http_find_header_value` returns holds no NUL: read as a C
string it is itself. -/
theorem ws_http_find_header_value_c_string (hdr : List Nat) (len : Nat) (name : List Nat)
    (out_cap : Nat) (v : List Nat)
    (h : ws_http_find_header_value hdr len name out_cap = some (some v)) :
    c_string_at v 0 = v := by
  unfold ws_http_find_header_value at h
  by_cases h0 : out_cap = 0
  · rw [if_pos h0] at h; simp at h
  rw [if_neg h0] at h
  cases he : http_eol hdr 0 none with
  | none => rw [he] at h; simp at h
  | some r =>
    obtain ⟨line, adv⟩ := r
    rw [he] at h
    obtain ⟨q, eol, hv⟩ := ws_http_find_header_loop_value hdr len name out_cap v _ _ h
    rw [hv]
    unfold c_string_at http_header_value
    simp only [List.drop_zero]
    exact takeWhile_idem _ _

theorem find_range_first (P : Nat → Bool) : ∀ (n k : Nat), k < n → P k = true →
    (∀ i, i < k → P i = false) → (List.range n).find? P = some k := by
  intro n
  induction n with
  | zero => intro k h; omega
  | succ n ih =>
    intro k hk hP hlt
    rw [List.range_succ, List.find?_append]
    by_cases hkn : k < n
    · rw [ih k hkn hP hlt]; rfl
    · have e : k = n := by omega
      subst e
      have hnone : (List.range k).find? P = none := by
        rw [List.find?_eq_none]
        intro x hx
        rw [List.mem_range] at hx
        simp [hlt x hx]
      rw [hnone]
      simp [hP]

theorem takeWhile_all (p : Nat → Bool) : ∀ l : List Nat, (∀ b ∈ l, p b = true) →
    l.takeWhile p = l
  | [], _ => rfl
  | a :: l, h => by
    rw [takeWhile_head_pos p a l (h a (by simp)),
      takeWhile_all p l (fun b hb => h b (by simp [hb]))]

theorem takeWhile_append_all (p : Nat → Bool) : ∀ (l r : List Nat), (∀ b ∈ l, p b = true) →
    (l ++ r).takeWhile p = l ++ r.takeWhile p
  | [], _, _ => rfl
  | a :: l, r, h => by
    rw [List.cons_append, takeWhile_head_pos p a _ (h a (by simp)),
      takeWhile_append_all p l r (fun b hb => h b (by simp [hb]))]
    rfl

/-- `strstr(buf + p, "\r\n")` finds the end of the line that starts at `p`, when
the line holds neither LF nor NUL. -/
theorem c_strstr_crlf (buf : List Nat) (p : Nat) (L rest : List Nat)
    (hbuf : buf.drop p = L ++ [13, 10] ++ rest) (hL : ∀ b ∈ L, b ≠ 10 ∧ b ≠ 0) :
    c_strstr buf p [13, 10] = some (p + L.length) := by
  have hS : c_string_at buf p = L ++ (13 :: 10 :: rest.takeWhile (fun b => b != 0)) := by
    unfold c_string_at
    rw [hbuf, List.append_assoc, takeWhile_append_all _ L _ (fun b hb => by simp [(hL b hb).2])]
    rfl
  unfold c_strstr
  rw [hS, find_range_first _ _ L.length]
  · rfl
  · simp only [List.length_append, List.length_cons, List.length_nil]
    omega
  · simp [mem_eq]
  · intro i hi
    simp only [mem_eq, List.length_cons, List.length_nil, beq_eq_false_iff_ne, ne_eq]
    rw [List.drop_append_of_le_length (by omega)]
    cases hd : L.drop i with
    | nil =>
      have := congrArg List.length hd
      simp at this
      omega
    | cons a L1 =>
      have hmem : ∀ b ∈ L1, b ∈ L := by
        intro b hb
        exact List.mem_of_mem_drop (n := i) (by rw [hd]; simp [hb])
      cases L1 with
      | nil => simp
      | cons a1 L2 =>
        have := (hL a1 (hmem a1 (by simp))).1
        simp [this]

theorem http_eol_crlf (buf : List Nat) (p : Nat) (fallback : Option Nat) (L rest : List Nat)
    (hbuf : buf.drop p = L ++ [13, 10] ++ rest) (hL : ∀ b ∈ L, b ≠ 10 ∧ b ≠ 0) :
    http_eol buf p fallback = some (p + L.length, 2) := by
  unfold http_eol
  rw [c_strstr_crlf buf p L rest hbuf hL]

theorem getD_of_drop (buf : List Nat) (p i : Nat) (L rest : List Nat)
    (hbuf : buf.drop p = L ++ rest) (hi : i < L.length) : buf.getD (p + i) 0 = L.getD i 0 := by
  have h1 : buf.getD (p + i) 0 = (buf.drop p).getD i 0 := by
    simp [List.getD_eq_getElem?_getD, List.getElem?_drop]
  rw [h1, hbuf, List.getD_append _ _ _ _ hi]

/-- The test that `ws_http_find_header_value` applies to the line `L` at `p`. -/
theorem header_line_test (hdr : List Nat) (p : Nat) (name L rest : List Nat)
    (hbuf : hdr.drop p = L ++ rest) :
    (L.length > name.length + 1 ∧ c_strncasecmp_eq hdr p name name.length = true ∧
      hdr.getD (p + name.length) 0 = 58) ↔
    (header_line_named name L && decide (name.length + 1 < L.length)) = true := by
  simp only [header_line_named, Bool.and_eq_true, decide_eq_true_eq, beq_iff_eq]
  constructor
  · rintro ⟨hlen, hcmp, hcolon⟩
    refine ⟨⟨?_, ?_⟩, hlen⟩
    · unfold ascii_ci_eq
      rw [beq_iff_eq, map_eq_map_iff_getD]
      refine ⟨by simp; omega, ?_⟩
      intro i hi
      have := (c_strncasecmp_eq_iff hdr p name name.length).1 hcmp i hi
      rw [getD_of_drop hdr p i L rest hbuf (by omega)] at this
      rw [← this]
      congr 1
      simp [List.getD_eq_getElem?_getD, List.getElem?_take, hi]
    · rw [← getD_of_drop hdr p name.length L rest hbuf (by omega)]
      exact hcolon
  · rintro ⟨⟨hci, hcolon⟩, hlen⟩
    refine ⟨hlen, ?_, ?_⟩
    · rw [c_strncasecmp_eq_iff]
      intro i hi
      unfold ascii_ci_eq at hci
      rw [beq_iff_eq, map_eq_map_iff_getD] at hci
      have := hci.2 i hi
      rw [getD_of_drop hdr p i L rest hbuf (by omega), ← this]
      congr 1
      simp [List.getD_eq_getElem?_getD, List.getElem?_take, hi]
    · rw [getD_of_drop hdr p name.length L rest hbuf (by omega)]
      exact hcolon

/-- The value that `ws_http_find_header_value` copies out of the line `L` at `p`. -/
theorem header_line_copy (hdr : List Nat) (p : Nat) (name L rest : List Nat) (out_cap : Nat)
    (hbuf : hdr.drop p = L ++ rest) (hlen : name.length + 1 ≤ L.length)
    (hL : ∀ b ∈ L, b ≠ 10 ∧ b ≠ 0) (hcap : 0 < out_cap) :
    http_header_value hdr p (p + L.length) name.length out_cap =
      header_line_value name L out_cap := by
  have hline : (hdr.drop (p + name.length + 1)).take (p + L.length - (p + name.length + 1)) =
      L.drop (name.length + 1) := by
    have : hdr.drop (p + name.length + 1) = (hdr.drop p).drop (name.length + 1) := by
      rw [List.drop_drop, Nat.add_assoc]
    rw [this, hbuf, List.drop_append_of_le_length hlen, List.take_append_of_le_length (by simp; omega),
      List.take_of_length_le (by simp; omega)]
  unfold http_header_value header_line_value
  simp only [hline]
  have hcut : (if ((L.drop (name.length + 1)).dropWhile (fun b => b == 32 || b == 9)).length ≥ out_cap
      then ((L.drop (name.length + 1)).dropWhile (fun b => b == 32 || b == 9)).take (out_cap - 1)
      else (L.drop (name.length + 1)).dropWhile (fun b => b == 32 || b == 9)) =
      ((L.drop (name.length + 1)).dropWhile (fun b => b == 32 || b == 9)).take (out_cap - 1) := by
    split_ifs with h
    · rfl
    · rw [List.take_of_length_le (by omega)]
  rw [hcut]
  apply takeWhile_all
  intro b hb
  have hbL : b ∈ L := by
    have h1 : b ∈ (((L.drop (name.length + 1)).dropWhile (fun b => b == 32 || b == 9)).take
        (out_cap - 1)).reverse.dropWhile (fun b => b == 32 || b == 9) := by
      simpa using hb
    have h2 := (List.dropWhile_sublist _).subset h1
    rw [List.mem_reverse] at h2
    have h3 := (List.take_sublist _ _).subset h2
    have h4 := (List.dropWhile_sublist _).subset h3
    exact List.mem_of_mem_drop h4
  simp [(hL b hbL).2]

/-- The loop of `ws_http_find_header_value`, started at the first of the header
lines `lines`, computes the lookup as amended. -/
theorem ws_http_find_header_loop_refines (hdr : List Nat) (len : Nat) (name : List Nat)
    (out_cap : Nat) (tail : List Nat) (hcap : 0 < out_cap) :
    ∀ (lines : List (List Nat)) (fuel p : Nat),
      (∀ l ∈ lines, l ≠ [] ∧ ∀ b ∈ l, b ≠ 10 ∧ b ≠ 0) →
      hdr.drop p = (lines.map (fun l => l ++ [13, 10])).flatten ++ [13, 10] ++ tail →
      p + ((lines.map (fun l => l ++ [13, 10])).flatten).length ≤ len →
      len - p < fuel →
      ws_http_find_header_loop hdr len name out_cap fuel p =
        some (header_lookup_amended name out_cap lines) := by
  intro lines
  induction lines with
  | nil =>
    intro fuel p _ hbuf _ hfuel
    cases fuel with
    | zero => omega
    | succ fuel =>
      rw [ws_http_find_header_loop]
      by_cases hp : p < len
      · rw [if_pos hp, http_eol_crlf hdr p (some len) [] tail (by simpa using hbuf) (by simp)]
        simp only [List.length_nil, Nat.add_zero, if_true]
        rfl
      · rw [if_neg hp]
        rfl
  | cons L ls ih =>
    intro fuel p hlines hbuf hbound hfuel
    have hL := hlines L (by simp)
    have hLlen : 0 < L.length := List.length_pos.2 hL.1
    have hbuf1 : hdr.drop p =
        L ++ [13, 10] ++ ((ls.map (fun l => l ++ [13, 10])).flatten ++ [13, 10] ++ tail) := by
      rw [hbuf]
      simp [List.append_assoc]
    have hbuf2 : hdr.drop p =
        L ++ ([13, 10] ++ ((ls.map (fun l => l ++ [13, 10])).flatten ++ [13, 10] ++ tail)) := by
      rw [hbuf1, List.append_assoc]
    simp only [List.map_cons, List.flatten_cons, List.length_append, List.length_cons,
      List.length_nil] at hbound
    cases fuel with
    | zero => omega
    | succ fuel =>
      rw [ws_http_find_header_loop, if_pos (by omega),
        http_eol_crlf hdr p (some len) L _ hbuf1 hL.2]
      simp only
      rw [if_neg (by omega)]
      have htest := header_line_test hdr p name L _ hbuf2
      rw [show p + L.length - p = L.length by omega]
      by_cases hc : (header_line_named name L && decide (name.length + 1 < L.length)) = true
      · rw [if_pos (htest.2 hc)]
        have hlen : name.length + 1 ≤ L.length := by
          simp only [Bool.and_eq_true, decide_eq_true_eq] at hc
          omega
        rw [header_line_copy hdr p name L _ out_cap hbuf2 hlen hL.2 hcap]
        simp only [header_lookup_amended, List.find?_cons, hc, Option.map_some']
      · rw [if_neg (fun h => hc (htest.1 h))]
        have hnext : hdr.drop (p + L.length + 2) =
            (ls.map (fun l => l ++ [13, 10])).flatten ++ [13, 10] ++ tail := by
          have : hdr.drop (p + L.length + 2) = (hdr.drop p).drop (L.length + 2) := by
            rw [List.drop_drop, Nat.add_assoc]
          rw [this, hbuf1, List.drop_append_of_le_length (by simp),
            List.drop_of_length_le (by simp), List.nil_append]
        rw [ih fuel (p + L.length + 2) (fun l hl => hlines l (by simp [hl])) hnext (by omega)
          (by omega)]
        simp only [Bool.not_eq_true] at hc
        simp only [header_lookup_amended, List.find?_cons, hc]

/-- C24 as amended: the header lookup. For a header block with CRLF line
endings (a first line, header lines that are not empty, the blank line; no line
holds LF or NUL) followed by anything, and `len` at least the length of the
block, `ws_http_find_header_value` returns the value of the first header line
whose name equals `name` without regard to ASCII case, is directly followed by
a colon and has at least one more character after the colon: what follows the
colon, with leading spaces and tabs removed, cut to `out_cap - 1` bytes and
then stripped of trailing spaces and tabs; it returns NULL exactly when there
is no such line. -/
theorem find_header_value_refines (first : List Nat) (lines : List (List Nat))
    (tail name : List Nat) (out_cap len : Nat)
    (hfirst : ∀ b ∈ first, b ≠ 10 ∧ b ≠ 0)
    (hlines : ∀ l ∈ lines, l ≠ [] ∧ ∀ b ∈ l, b ≠ 10 ∧ b ≠ 0)
    (hcap : 0 < out_cap) (hlen : (header_block first lines).length ≤ len) :
    ws_http_find_header_value (header_block first lines ++ tail) len name out_cap =
      some (header_lookup_amended name out_cap lines) := by
  have hbuf0 : (header_block first lines ++ tail).drop 0 = first ++ [13, 10] ++
      ((lines.map (fun l => l ++ [13, 10])).flatten ++ [13, 10] ++ tail) := by
    simp [header_block, List.append_assoc]
  have hlen1 : first.length + 2 + ((lines.map (fun l => l ++ [13, 10])).flatten).length + 2
      ≤ len := by
    simp only [header_block, List.length_append, List.length_cons, List.length_nil] at hlen
    omega
  unfold ws_http_find_header_value
  rw [if_neg (by omega), http_eol_crlf _ 0 none first _ hbuf0 hfirst]
  simp only
  apply ws_http_find_header_loop_refines _ len name out_cap tail hcap lines _ _ hlines
  · have : (header_block first lines ++ tail).drop (0 + first.length + 2) =
        ((header_block first lines ++ tail).drop 0).drop (first.length + 2) := by
      rw [List.drop_drop, Nat.add_assoc]
    rw [this, hbuf0, List.drop_append_of_le_length (by simp),
      List.drop_of_length_le (by simp), List.nil_append]
  · omega
  · omega

/-- Counterexample for C24: the block `GET / HTTP/1.1`, `Upgrade:`,
`Host: a`, blank line, NUL. It has a header line named `Upgrade` (its value is
empty, so the lookup as the specification words it gives the empty string), and
`ws_http_find_header_value` returns NULL: the guard `eol - p > name_len + 1`
passes over a line that ends with the colon. -/
theorem find_header_value_refines_counterexample :
    header_lookup_spec (cstr "Upgrade") 64 [cstr "Upgrade:", cstr "Host: a"] = some [] ∧
    ws_http_find_header_value
        (header_block (cstr "GET / HTTP/1.1") [cstr "Upgrade:", cstr "Host: a"] ++ [0])
        37 (cstr "Upgrade") 64 = some none ∧
    (header_block (cstr "GET / HTTP/1.1") [cstr "Upgrade:", cstr "Host: a"]).length = 37 :=
  ⟨by decide!, by decide!, by decide!⟩

/-- Witness for C24 as amended: the lookup of `Upgrade` in the block
`GET / HTTP/1.1`, `Host: a`, `upgrade: <tab> websocket <two spaces>`, blank
line, NUL gives `websocket`. -/
theorem find_header_value_refines_witness :
    ws_http_find_header_value
        (header_block (cstr "GET / HTTP/1.1") [cstr "Host: a", cstr "upgrade: \t websocket  "]
          ++ [0])
        56 (cstr "Upgrade") 64 =
      some (header_lookup_amended (cstr "Upgrade") 64
        [cstr "Host: a", cstr "upgrade: \t websocket  "]) ∧
    header_lookup_amended (cstr "Upgrade") 64 [cstr "Host: a", cstr "upgrade: \t websocket  "] =
      some (cstr "websocket") :=
  ⟨find_header_value_refines (cstr "GET / HTTP/1.1")
      [cstr "Host: a", cstr "upgrade: \t websocket  "] [0] (cstr "Upgrade") 64 56
      (by decide!) (by decide!) (by decide!) (by decide!),
    by decide!⟩

/-- The loop of `ws_recv_until` returns on every receive script, provided that
the no-data and timeout codes of the transport are not 0: every round that goes
round again has consumed part of the script. -/
theorem ws_recv_until_loop_total (nc : NetCodes) (hnd : nc.NET_NO_DATA ≠ 0)
    (hto : nc.NET_TIMEOUT ≠ 0) (buf_cap : Nat) (delim : List Nat) (delim_len : Nat) :
    ∀ (fuel : Nat) (w : World) (buf : List Nat) (len : Nat), rx_weight w.rx < fuel →
      ∃ r, ws_recv_until_loop nc buf_cap delim delim_len fuel w buf len = some r := by
  intro fuel
  induction fuel with
  | zero => intro w buf len h; omega
  | succ fuel ih =>
    intro w buf len hfuel
    rw [ws_recv_until_loop]
    by_cases h1 : len < buf_cap - 1
    swap
    · rw [if_neg h1]; exact ⟨_, rfl⟩
    rw [if_pos h1]
    by_cases h2 : len ≥ delim_len ∧ has_delim buf len delim delim_len = true
    · rw [if_pos h2]; exact ⟨_, rfl⟩
    rw [if_neg h2]
    have hf := (net_sock_recv_facts w (toInt32 (buf_cap - 1 - len))).2.2.1
    generalize net_sock_recv w (toInt32 (buf_cap - 1 - len)) = q at hf
    obtain ⟨rc, bs, w1⟩ := q
    simp only at hf ⊢
    by_cases c1 : rc = nc.NET_NO_DATA ∨ rc = nc.NET_TIMEOUT
    · rw [if_pos c1]
      have hne : rc ≠ 0 := by
        rcases c1 with c | c
        · rw [c]; exact hnd
        · rw [c]; exact hto
      exact ih _ _ _ (by have := hf hne; omega)
    rw [if_neg c1]
    by_cases c2 : rc = 0 ∨ rc = nc.NET_EOF
    · rw [if_pos c2]; exact ⟨_, rfl⟩
    rw [if_neg c2]
    by_cases c3 : rc < 0
    · rw [if_pos c3]
      by_cases c4 : len = 0
      · rw [if_pos c4]; exact ⟨_, rfl⟩
      · rw [if_neg c4]; exact ⟨_, rfl⟩
    rw [if_neg c3]
    exact ih _ _ _ (by have := hf (fun h => c2 (Or.inl h)); omega)

/-- `ws_recv_until` returns on every receive script (for no-data and timeout
codes other than 0), and it only receives. -/
theorem ws_recv_until_total (nc : NetCodes) (hnd : nc.NET_NO_DATA ≠ 0)
    (hto : nc.NET_TIMEOUT ≠ 0) (w : World) (buf : List Nat) (buf_cap : Nat) (delim : List Nat)
    (delim_len out_len : Nat) :
    ∃ rc buf1 got w1, ws_recv_until nc w buf buf_cap delim delim_len out_len =
        some (rc, buf1, got, w1) ∧ RecvOnly w w1 := by
  have htot : ∃ r, ws_recv_until nc w buf buf_cap delim delim_len out_len = some r := by
    unfold ws_recv_until
    by_cases h0 : buf_cap = 0 ∨ delim_len = 0
    · rw [if_pos h0]; exact ⟨_, rfl⟩
    · rw [if_neg h0]
      exact ws_recv_until_loop_total nc hnd hto buf_cap delim delim_len _ _ _ _ (by omega)
  obtain ⟨⟨rc, buf1, got, w1⟩, hr⟩ := htot
  exact ⟨rc, buf1, got, w1, hr, ws_recv_until_recv_only nc w buf buf_cap delim delim_len out_len _ hr⟩

theorem rand_bytes_world : ∀ (n : Nat) (w : World),
    (rand_bytes n w).2.txScript = w.txScript ∧ (rand_bytes n w).2.tx = w.tx
  | 0, _ => ⟨rfl, rfl⟩
  | n + 1, w => by
    have := rand_bytes_world n (rand w).2
    simp only [rand_bytes]
    exact ⟨this.1, this.2⟩

theorem ws_client_handshake_validate_snd (ctx : ws_client_ctx_t) (got : Nat) :
    (ws_client_handshake_validate ctx got).2 =
      (if ws_find_hdr_end ctx.rxbuf got ≠ 0 ∧ got > ws_find_hdr_end ctx.rxbuf got then
        { ctx with
            pending := writeAt ctx.pending 0
              ((ctx.rxbuf.drop (ws_find_hdr_end ctx.rxbuf got)).take
                (if got - ws_find_hdr_end ctx.rxbuf got > 256 then 256
                  else got - ws_find_hdr_end ctx.rxbuf got)),
            pending_len := if got - ws_find_hdr_end ctx.rxbuf got > 256 then 256
              else got - ws_find_hdr_end ctx.rxbuf got,
            pending_off := 0 }
      else { ctx with pending_len := 0, pending_off := 0 }) := by
  have key : ∀ (c1 : ws_client_ctx_t) (n : Nat),
      (if (!ws_http_status_is_101 c1.rxbuf n) = true then (WS_ERR, c1)
        else
          match ws_http_find_header_value c1.rxbuf n (cstr "Sec-WebSocket-Accept") 128 with
          | none => (WS_ERR, c1)
          | some none => (WS_ERR, c1)
          | some (some accept_hdr) =>
            match ws_compute_accept c1.key_b64 [] 64 with
            | (rc, expected) =>
              if rc ≠ WS_OK then (WS_ERR, c1)
              else if accept_hdr ≠ expected then (WS_ERR, c1)
              else (WS_OK, c1)).2 = c1 := by
    intro c1 n
    generalize ws_http_status_is_101 c1.rxbuf n = st
    generalize ws_http_find_header_value c1.rxbuf n (cstr "Sec-WebSocket-Accept") 128 = f
    generalize ws_compute_accept c1.key_b64 [] 64 = a
    obtain ⟨rc, expected⟩ := a
    cases st
    · rfl
    · cases f with
      | none => rfl
      | some o =>
        cases o with
        | none => rfl
        | some x =>
          show (if rc ≠ WS_OK then (WS_ERR, c1)
            else if x ≠ expected then (WS_ERR, c1) else (WS_OK, c1)).2 = c1
          split_ifs <;> rfl
  exact key _ _

theorem ws_client_handshake_validate_session (ctx : ws_client_ctx_t) (got : Nat) :
    (ws_client_handshake_validate ctx got).2.open_ = ctx.open_ ∧
    (ws_client_handshake_validate ctx got).2.handshake_ok = ctx.handshake_ok ∧
    (ws_client_handshake_validate ctx got).2.scratch = ctx.scratch ∧
    (ws_client_handshake_validate ctx got).2.scratch_cap = ctx.scratch_cap := by
  rw [ws_client_handshake_validate_snd]
  split_ifs <;> exact ⟨rfl, rfl, rfl, rfl⟩

/-- `ws_client_handshake` returns on every receive script when the transport
accepts what is offered; it leaves the open flag, `handshake_ok` and the scratch
buffer as they were and the transport accepting. -/
theorem ws_client_handshake_total (nc : NetCodes) (hnd : nc.NET_NO_DATA ≠ 0)
    (hto : nc.NET_TIMEOUT ≠ 0) (ctx : ws_client_ctx_t) (w : World) (htx : w.txScript = []) :
    ∃ rc ctx1 w1, ws_client_handshake nc ctx w = some (rc, ctx1, w1) ∧
      ctx1.open_ = ctx.open_ ∧ ctx1.handshake_ok = ctx.handshake_ok ∧
      ctx1.scratch = ctx.scratch ∧ ctx1.scratch_cap = ctx.scratch_cap ∧ w1.txScript = [] := by
  unfold ws_client_handshake
  split
  rename_i key_raw wa hrb
  have hwa : wa.txScript = [] := by
    have := (rand_bytes_world 16 w).1
    rw [hrb] at this
    rw [this, htx]
  split
  rename_i brc b64 hb
  split
  · exact ⟨_, _, _, rfl, rfl, rfl, rfl, rfl, hwa⟩
  show ∃ rc ctx1 w1, ite _ _ _ = some (rc, ctx1, w1) ∧ _
  split
  · exact ⟨_, _, _, rfl, rfl, rfl, rfl, rfl, hwa⟩
  rename_i hlen
  obtain ⟨wb, hsend, hsb, _⟩ := ws_send_all_accepting_any wa
    (ws_client_request ctx.cfg (b64.getD [])) (ws_client_request ctx.cfg (b64.getD [])).length
    hwa (by
      have : ¬ (ws_client_request ctx.cfg (b64.getD [])).length ≥ 512 := fun h => hlen (Or.inr h)
      omega)
  split
  · rename_i hnone
    rw [hsend] at hnone
    cases hnone
  rename_i src w2 hsome
  rw [hsend] at hsome
  simp only [Option.some.injEq, Prod.mk.injEq] at hsome
  obtain ⟨hsrc, hw2⟩ := hsome
  subst hsrc
  subst hw2
  rw [if_neg (by simp)]
  obtain ⟨rrc, rxbuf, got, wc, hc, hrc⟩ := ws_recv_until_total nc hnd hto wb ctx.rxbuf ctx.rxcap
    (cstr "\r\n\r\n") 4 0
  have htxc : wc.txScript = [] := by rw [hrc.1, hsb.2.1, hwa]
  split
  · rename_i hnone
    rw [hc] at hnone
    cases hnone
  rename_i rrc1 rxbuf1 got1 w3 hsome
  rw [hc] at hsome
  simp only [Option.some.injEq, Prod.mk.injEq] at hsome
  obtain ⟨e1, e2, e3, e4⟩ := hsome
  subst e1 e2 e3 e4
  split
  · exact ⟨_, _, _, rfl, rfl, rfl, rfl, rfl, htxc⟩
  split
  rename_i vrc vctx hv
  have hvs := ws_client_handshake_validate_session
    { ctx with key_b64 := b64.getD [], rxbuf := rxbuf } got
  rw [hv] at hvs
  exact ⟨_, _, _, rfl, hvs.1, hvs.2.1, hvs.2.2.1, hvs.2.2.2, htxc⟩

/-- `ws_client_connect` after a successful `net_sock_open`, on a transport that
accepts what is offered: it returns on every receive script; when
`ws_client_handshake` returns `WS_OK` it returns `WS_OK` with `handshake_ok`
and the open flag set, and in every other case it returns `WS_ERR` after
`ws_client_close` has run, with the open flag false. -/
theorem ws_client_connect_outcome (nc : NetCodes) (hnd : nc.NET_NO_DATA ≠ 0)
    (hto : nc.NET_TIMEOUT ≠ 0) (ctx : ws_client_ctx_t) (w : World) (htx : w.txScript = [])
    (hsc : ctx.scratch = true) (hcap : 0 < ctx.scratch_cap) :
    ∃ hrc ctx1 w1, ws_client_handshake nc { ctx with open_ := true } w = some (hrc, ctx1, w1) ∧
      ∃ rc ctx2 freed w2, ws_client_connect nc ctx true w = some (rc, ctx2, freed, w2) ∧
        (hrc = WS_OK → rc = WS_OK ∧ ctx2 = { ctx1 with handshake_ok := true } ∧
          ws_client_is_open ctx2 = true ∧ freed = [] ∧ w2 = w1) ∧
        (hrc ≠ WS_OK → rc = WS_ERR ∧ ctx2.open_ = false ∧ ws_client_is_open ctx2 = false) := by
  obtain ⟨hrc, ctx1, w1, h1, ho, _, hs, hc, htx1⟩ :=
    ws_client_handshake_total nc hnd hto { ctx with open_ := true } w htx
  refine ⟨hrc, ctx1, w1, h1, ?_⟩
  unfold ws_client_connect
  simp only [Bool.not_true, Bool.false_eq_true, if_false, h1]
  by_cases hok : hrc = WS_OK
  · rw [if_neg (by simp [hok])]
    refine ⟨_, _, _, _, rfl, fun _ => ⟨rfl, rfl, ?_, rfl, rfl⟩, fun h => absurd hok h⟩
    simp only [ws_client_is_open, ho, Bool.and_self]
  · rw [if_pos hok]
    have hopen : ctx1.open_ = true := ho
    unfold ws_client_close
    rw [if_neg (by simp [hopen])]
    obtain ⟨rcs, wa, ha, hsa, _⟩ := ws_send_frame_writes w1 WS_OPCODE_CLOSE [0x03, 0xE8] 2
      true true ctx1.scratch ctx1.scratch_cap htx1 (by norm_num)
      (fun _ => ⟨by rw [hs]; exact hsc, by rw [hc]; exact hcap⟩) (fun h => by cases h)
    rw [ha]
    simp only
    obtain ⟨cb, wb, hb, _⟩ := ws_client_close_loop_total nc (HAL_GetTick wa)
      (rx_weight wa.rx + (ctx1.pending_len - ctx1.pending_off) + 1) ctx1 wa
      (by unfold client_weight; omega) (by rw [hsa.2.1, htx1]) (by rw [hs]; exact hsc)
      (by rw [hc]; exact hcap)
    rw [hb]
    exact ⟨_, _, _, _, rfl, fun h => absurd h hok, fun _ => ⟨rfl, rfl, rfl⟩⟩

/-! ### The status line, the log of a CLOSE frame, the calendar -/

/-- C36 (refuted): `ws_http_status_is_101` accepts a status line with the
status code 1010 (it looks at three digits after the first space and not at
what follows them), and it refuses the buffer that consists of exactly the 12
bytes `HTTP/1.1 101` (the test `(end - sp) < 5` asks for a thirteenth byte);
with one more byte the same status line is accepted. -/
theorem status_is_101_edge_cases :
    ws_http_status_is_101 (cstr "HTTP/1.1 1010 Unknown\r\n\r\n") 25 = true ∧
    ws_http_status_is_101 (cstr "HTTP/1.1 101") 12 = false ∧
    ws_http_status_is_101 (cstr "HTTP/1.1 101 ") 13 = true :=
  ⟨by decide!, by decide!, by decide!⟩

/-- C39 (refuted): with a caller's buffer of one byte (`buffer_size = 1`) and
the CLOSE frame `88 02 03 E8` on the transport, the frame passes the validator,
its 2-byte payload is drained instead of stored, and the logging block that
follows reads `buffer[0]` and `buffer[1]` before `ws_client_recv` returns
`WS_ERR`: index 1 is not below `buffer_size`. -/
theorem client_recv_log_reads_past_buffer :
    ws_client_recv_step_log_reads sample_codes sample_client_ctx
        (sample_world [RxEvent.data [0x88, 0x02, 0x03, 0xE8]]) [7] 1 = some [0, 1] ∧
    (ws_client_recv sample_codes sample_client_ctx
        (sample_world [RxEvent.data [0x88, 0x02, 0x03, 0xE8]]) [7] 1 (some 0)).map
      (fun r => (r.1, r.2.2.1, r.2.2.2.2.rx)) = some (WS_ERR, [7], []) ∧
    ¬ (1 < 1) :=
  ⟨by decide!, by decide!, by decide⟩

/-- C40 (refuted): for 29 February 2000, 00:00:00, `unixtime` computes
951865200, and `dateutils_setDateTime_word` decomposes that value into 1 March
2000; for 1 March 2000 `unixtime` computes 951778800, which is smaller than the
value of the day before. -/
theorem unixtime_leap_year_round_trip_fails :
    unixtime { year := 2000, month := 2, mday := 29, hour := 0, min := 0, sec := 0 }
      = 951865200 ∧
    dateutils_setDateTime_word 951865200 =
      some { year := 2000, month := 3, mday := 1, hour := 0, min := 0, sec := 0 } ∧
    unixtime { year := 2000, month := 3, mday := 1, hour := 0, min := 0, sec := 0 }
      = 951778800 ∧
    unixtime { year := 2000, month := 3, mday := 1, hour := 0, min := 0, sec := 0 } <
      unixtime { year := 2000, month := 2, mday := 29, hour := 0, min := 0, sec := 0 } :=
  ⟨by decide!, by decide!, by decide!, by decide!⟩

/-! ### The two header parsers -/

theorem and_pow_ne_zero (x k : Nat) : (x &&& 2 ^ k != 0) = x.testBit k := by
  rw [Nat.and_two_pow]
  cases h : x.testBit k <;> simp

theorem shift8_or (a b : Nat) (h : b < 256) : (a <<< 8) ||| b = a * 256 + b := by
  rw [Nat.shiftLeft_eq, Nat.mul_comm, show (2 : Nat) ^ 8 = 256 by norm_num]
  have := @Nat.mul_add_lt_is_or 8 b (by simpa using h) a
  simpa using this.symm

theorem be_accumulate_fold : ∀ (l : List Nat) (acc k : Nat), acc < 256 ^ k →
    k + l.length ≤ 8 → (∀ b ∈ l, b < 256) →
    l.foldl (fun plen b => ((plen <<< 8) % 2 ^ 64) ||| b) acc =
      l.foldl (fun acc b => acc * 256 + b) acc
  | [], _, _, _, _, _ => rfl
  | b :: l, acc, k, hacc, hk, hb => by
    have hb0 : b < 256 := hb b (by simp)
    have hk7 : k ≤ 7 := by simp only [List.length_cons] at hk; omega
    have h56 : acc < 72057594037927936 := by
      have : (256 : Nat) ^ k ≤ 256 ^ 7 := Nat.pow_le_pow_right (by norm_num) hk7
      have h7 : (256 : Nat) ^ 7 = 72057594037927936 := by norm_num
      omega
    simp only [List.foldl_cons]
    have hs := be_step acc b h56 hb0
    rw [show (2 : Nat) ^ 64 = 18446744073709551616 by norm_num, hs]
    have := be_accumulate_fold l (acc * 256 + b) (k + 1)
      (by rw [Nat.pow_succ]; nlinarith)
      (by simp only [List.length_cons] at hk; omega) (fun x hx => hb x (by simp [hx]))
    rw [show (2 : Nat) ^ 64 = 18446744073709551616 by norm_num] at this
    exact this

/-- The `uint64_t` accumulation of up to eight bytes is their big-endian value. -/
theorem be_accumulate_eq_be_value (ext : List Nat) (hlen : ext.length ≤ 8)
    (hb : ∀ b ∈ ext, b < 256) : be_accumulate ext = be_value ext := by
  unfold be_accumulate be_value
  exact be_accumulate_fold ext 0 0 (by norm_num) (by omega) hb

/-- The payload length that a header announces is the low seven bits of the
second byte when they are below 126, and the big-endian value of the extended
length bytes otherwise. -/
theorem wire_payload_len_eq (b1 : Nat) (ext : List Nat) (hext : ext.length = wire_ext_len b1)
    (hb : ∀ b ∈ ext, b < 256) :
    wire_payload_len b1 ext = if b1 % 128 < 126 then b1 % 128 else be_value ext := by
  unfold wire_payload_len
  unfold wire_ext_len at hext
  rw [and_7F] at hext ⊢
  have hlt : b1 % 128 < 128 := Nat.mod_lt _ (by norm_num)
  by_cases h126 : b1 % 128 = 126
  · rw [if_pos h126, if_neg (by omega)]
    rw [if_pos h126] at hext
    match ext, hext, hb with
    | [e0, e1], _, hb =>
      simp only [List.getD_cons_zero, List.getD_cons_succ, be_value, List.foldl_cons,
        List.foldl_nil]
      rw [shift8_or e0 e1 (hb e1 (by simp))]
      omega
  · rw [if_neg h126]
    by_cases h127 : b1 % 128 = 127
    · rw [if_pos h127, if_neg (by omega)]
      rw [if_neg h126, if_pos h127] at hext
      exact be_accumulate_eq_be_value ext (by omega) hb
    · rw [if_neg h127, if_pos (by omega)]

/-- C31: header parsing. For a stream that begins with the two header bytes
`b0 b1`, the extended length bytes `ext` that `b1` announces (none, 2 or 8) and
the mask key `key` when bit 7 of `b1` is set, `ws_read_frame_hdr` returns
`WS_OK` with `fin` = bit 7 of `b0`, `rsv1`, `rsv2`, `rsv3` = bits 6, 5, 4,
`opcode` = the low four bits, `masked` = bit 7 of `b1`, `payload_len` = the low
seven bits of `b1` when they are below 126 and the big-endian value of `ext`
otherwise, `mask_key` = `key` when masked and four zero bytes otherwise; and it
has consumed these bytes and no more. -/
theorem read_frame_hdr_parses (nc : NetCodes) (hnc : nc.NET_NO_DATA < 0) (w : World)
    (h0 : ws_frame_hdr_t) (b0 b1 : Nat) (ext key rest : List Nat)
    (hk0 : h0.mask_key.length ≤ 4)
    (hrx : rx_avail w.rx = b0 :: b1 :: (ext ++ (key ++ rest)))
    (hext : ext.length = if b1 % 128 = 126 then 2 else if b1 % 128 = 127 then 8 else 0)
    (hkey : key.length = if b1.testBit 7 then 4 else 0)
    (hb : ∀ b ∈ ext, b < 256) :
    ∃ h w1, ws_read_frame_hdr nc w h0 = some (WS_OK, h, w1) ∧
      h.fin = b0.testBit 7 ∧ h.rsv1 = b0.testBit 6 ∧ h.rsv2 = b0.testBit 5 ∧
      h.rsv3 = b0.testBit 4 ∧ h.opcode = b0 % 16 ∧ h.masked = b1.testBit 7 ∧
      h.payload_len = (if b1 % 128 < 126 then b1 % 128 else be_value ext) ∧
      h.mask_key = (if b1.testBit 7 then key else [0, 0, 0, 0]) ∧
      rx_avail w1.rx = rest ∧
      (rx_avail w.rx).length = (rx_avail w1.rx).length + (2 + ext.length + key.length) := by
  have hm : ((b1 &&& 0x80) != 0) = b1.testBit 7 := and_pow_ne_zero b1 7
  have hext1 : ext.length = wire_ext_len b1 := by
    unfold wire_ext_len; rw [and_7F]; exact hext
  have hkey1 : key.length = wire_key_len b1 := by
    unfold wire_key_len; rw [hm]; exact hkey
  obtain ⟨w1, h1, hrest, _⟩ := ws_read_frame_hdr_ok nc hnc w h0 b0 b1 ext key rest hk0 hrx
    hext1 hkey1
  refine ⟨_, w1, h1, and_pow_ne_zero b0 7, and_pow_ne_zero b0 6, and_pow_ne_zero b0 5,
    and_pow_ne_zero b0 4, and_0F b0, hm, wire_payload_len_eq b1 ext hext1 hb, ?_, hrest, ?_⟩
  · show (if ((b1 &&& 0x80) != 0) = true then key else [0, 0, 0, 0]) = _
    rw [hm]
  · rw [hrest, hrx]
    simp only [List.length_cons, List.length_append]
    omega

/-- Witness for C31: the stream `82 FE 01 00 | 01 02 03 04 | 09`: a final BINARY
header, masked, with the 16-bit length 256 and the key `01 02 03 04`. -/
theorem read_frame_hdr_parses_witness :
    ∃ h w1, ws_read_frame_hdr sample_codes
        (sample_world [RxEvent.data [0x82, 0xFE, 1, 0, 1, 2, 3, 4, 9]]) hdr0 =
        some (WS_OK, h, w1) ∧
      h.fin = (0x82 : Nat).testBit 7 ∧ h.rsv1 = (0x82 : Nat).testBit 6 ∧
      h.rsv2 = (0x82 : Nat).testBit 5 ∧ h.rsv3 = (0x82 : Nat).testBit 4 ∧
      h.opcode = 0x82 % 16 ∧ h.masked = (0xFE : Nat).testBit 7 ∧
      h.payload_len = (if 0xFE % 128 < 126 then 0xFE % 128 else be_value [1, 0]) ∧
      h.mask_key = (if (0xFE : Nat).testBit 7 then [1, 2, 3, 4] else [0, 0, 0, 0]) ∧
      rx_avail w1.rx = [9] ∧
      (rx_avail (sample_world [RxEvent.data [0x82, 0xFE, 1, 0, 1, 2, 3, 4, 9]]).rx).length =
        (rx_avail w1.rx).length + (2 + ([1, 0] : List Nat).length +
          ([1, 2, 3, 4] : List Nat).length) :=
  read_frame_hdr_parses sample_codes (by decide)
    (sample_world [RxEvent.data [0x82, 0xFE, 1, 0, 1, 2, 3, 4, 9]]) hdr0 0x82 0xFE [1, 0]
    [1, 2, 3, 4] [9] (by decide) (by decide!) (by decide!) (by decide!) (by decide!)

/-- C37: the client's header parser against the shared one. On a stream that
begins with a complete frame header (two bytes, the extended length and the
mask key that they announce), read by a client with an empty pending buffer:
`ws_read_frame_hdr` returns `WS_OK` with the header `wire_hdr b0 b1 ext key`;
`ws_client_read_frame_hdr` returns `WS_OK` with the same header and the same
bytes consumed when the header has no RSV bit, has FIN, is not a CONT frame and
is not a control frame longer than 125 bytes, and returns `WS_ERR` exactly
otherwise. -/
theorem client_hdr_parser_agrees (nc : NetCodes) (hnc : nc.NET_NO_DATA < 0)
    (ctx : ws_client_ctx_t) (w : World) (h0 : ws_frame_hdr_t) (b0 b1 : Nat)
    (ext key rest : List Nat)
    (hpl : ctx.pending_len = 0) (hpo : ctx.pending_off = 0)
    (hk0 : h0.mask_key.length ≤ 4)
    (hrx : rx_avail w.rx = b0 :: b1 :: (ext ++ (key ++ rest)))
    (hext : ext.length = wire_ext_len b1) (hkey : key.length = wire_key_len b1) :
    ∃ w1, ws_read_frame_hdr nc w h0 = some (WS_OK, wire_hdr b0 b1 ext key, w1) ∧
      rx_avail w1.rx = rest ∧
      ∃ rc h ctx2 w2, ws_client_read_frame_hdr nc ctx w h0 = some (rc, h, ctx2, w2) ∧
        (rc = WS_OK ∨ rc = WS_ERR) ∧
        (rc = WS_OK → h = wire_hdr b0 b1 ext key ∧ client_avail ctx2 w2 = rest) ∧
        (rc = WS_ERR ↔
          ((wire_hdr b0 b1 ext key).rsv1 = true ∨ (wire_hdr b0 b1 ext key).rsv2 = true ∨
            (wire_hdr b0 b1 ext key).rsv3 = true ∨ (wire_hdr b0 b1 ext key).fin = false ∨
            (wire_hdr b0 b1 ext key).opcode = WS_OPCODE_CONT ∨
            (((wire_hdr b0 b1 ext key).opcode = WS_OPCODE_CLOSE ∨
                (wire_hdr b0 b1 ext key).opcode = WS_OPCODE_PING ∨
                (wire_hdr b0 b1 ext key).opcode = WS_OPCODE_PONG) ∧
              (wire_hdr b0 b1 ext key).payload_len > 125))) := by
  obtain ⟨w1, h1, hrest, _⟩ := ws_read_frame_hdr_ok nc hnc w h0 b0 b1 ext key rest hk0 hrx
    hext hkey
  refine ⟨w1, h1, hrest, ?_⟩
  have hp : PendingOk ctx := by
    unfold PendingOk; rw [hpl, hpo]; exact ⟨Nat.le_refl _, Nat.zero_le _⟩
  have hav : client_avail ctx w = b0 :: b1 :: (ext ++ (key ++ rest)) := by
    unfold client_avail pending_bytes
    rw [hpl, hpo, hrx]
    simp
  have hiff : ws_client_hdr_rejected (wire_hdr b0 b1 ext key) = true ↔
      ((wire_hdr b0 b1 ext key).rsv1 = true ∨ (wire_hdr b0 b1 ext key).rsv2 = true ∨
        (wire_hdr b0 b1 ext key).rsv3 = true ∨ (wire_hdr b0 b1 ext key).fin = false ∨
        (wire_hdr b0 b1 ext key).opcode = WS_OPCODE_CONT ∨
        (((wire_hdr b0 b1 ext key).opcode = WS_OPCODE_CLOSE ∨
            (wire_hdr b0 b1 ext key).opcode = WS_OPCODE_PING ∨
            (wire_hdr b0 b1 ext key).opcode = WS_OPCODE_PONG) ∧
          (wire_hdr b0 b1 ext key).payload_len > 125)) := by
    generalize wire_hdr b0 b1 ext key = h
    unfold ws_client_hdr_rejected
    cases h.rsv1 <;> cases h.rsv2 <;> cases h.rsv3 <;> cases h.fin <;> simp
    tauto
  cases hrej : ws_client_hdr_rejected (wire_hdr b0 b1 ext key) with
  | false =>
    obtain ⟨ctx2, w2, h2, hav2, _⟩ := ws_client_read_frame_hdr_ok nc ctx w h0 b0 b1 ext key rest
      hp hk0 hav hext hkey hrej
    refine ⟨WS_OK, _, ctx2, w2, h2, Or.inl rfl, fun _ => ⟨rfl, hav2⟩, ?_⟩
    constructor
    · intro h; exact absurd h (by decide)
    · intro h
      have := hiff.2 h
      rw [hrej] at this
      cases this
  | true =>
    have hrej1 : ws_client_hdr_rejected (wire_hdr b0 b1 ext []) = true := by
      have e : wire_hdr b0 b1 ext [] = { wire_hdr b0 b1 ext key with
          mask_key := (wire_hdr b0 b1 ext []).mask_key } := by
        simp [wire_hdr]
      rw [e, ws_client_hdr_rejected_key]
      exact hrej
    obtain ⟨h, ctx2, w2, h2, _⟩ := ws_client_read_frame_hdr_rejected nc ctx w h0 b0 b1 ext
      (key ++ rest) hp hav hext hrej1
    refine ⟨WS_ERR, h, ctx2, w2, h2, Or.inr rfl, fun h => absurd h (by decide), ?_⟩
    constructor
    · intro _
      exact hiff.1 hrej
    · intro _; rfl

/-- Witness for C37: the TEXT header `81 02` (accepted by both parsers) and the
PING header `89 7E 00 80` with a length of 128 (the shared parser returns
`WS_OK`, the client's parser `WS_ERR`). -/
theorem client_hdr_parser_agrees_witness :
    (∃ w1, ws_read_frame_hdr sample_codes (sample_world [RxEvent.data [0x81, 0x02, 0x68, 0x69]]) hdr0 =
        some (WS_OK, wire_hdr 0x81 0x02 [] [], w1) ∧
      rx_avail w1.rx = [0x68, 0x69] ∧
      ∃ rc h ctx2 w2, ws_client_read_frame_hdr sample_codes sample_client_ctx
          (sample_world [RxEvent.data [0x81, 0x02, 0x68, 0x69]]) hdr0 = some (rc, h, ctx2, w2) ∧
        (rc = WS_OK ∨ rc = WS_ERR) ∧
        (rc = WS_OK → h = wire_hdr 0x81 0x02 [] [] ∧ client_avail ctx2 w2 = [0x68, 0x69]) ∧
        (rc = WS_ERR ↔
          ((wire_hdr 0x81 0x02 [] []).rsv1 = true ∨ (wire_hdr 0x81 0x02 [] []).rsv2 = true ∨
            (wire_hdr 0x81 0x02 [] []).rsv3 = true ∨ (wire_hdr 0x81 0x02 [] []).fin = false ∨
            (wire_hdr 0x81 0x02 [] []).opcode = WS_OPCODE_CONT ∨
            (((wire_hdr 0x81 0x02 [] []).opcode = WS_OPCODE_CLOSE ∨
                (wire_hdr 0x81 0x02 [] []).opcode = WS_OPCODE_PING ∨
                (wire_hdr 0x81 0x02 [] []).opcode = WS_OPCODE_PONG) ∧
              (wire_hdr 0x81 0x02 [] []).payload_len > 125)))) ∧
    (∃ w1, ws_read_frame_hdr sample_codes (sample_world [RxEvent.data [0x89, 0x7E, 0, 0x80, 7]]) hdr0 =
        some (WS_OK, wire_hdr 0x89 0x7E [0, 0x80] [], w1) ∧
      rx_avail w1.rx = [7] ∧
      ∃ rc h ctx2 w2, ws_client_read_frame_hdr sample_codes sample_client_ctx
          (sample_world [RxEvent.data [0x89, 0x7E, 0, 0x80, 7]]) hdr0 = some (rc, h, ctx2, w2) ∧
        (rc = WS_OK ∨ rc = WS_ERR) ∧
        (rc = WS_OK → h = wire_hdr 0x89 0x7E [0, 0x80] [] ∧ client_avail ctx2 w2 = [7]) ∧
        (rc = WS_ERR ↔
          ((wire_hdr 0x89 0x7E [0, 0x80] []).rsv1 = true ∨ (wire_hdr 0x89 0x7E [0, 0x80] []).rsv2 = true ∨
            (wire_hdr 0x89 0x7E [0, 0x80] []).rsv3 = true ∨ (wire_hdr 0x89 0x7E [0, 0x80] []).fin = false ∨
            (wire_hdr 0x89 0x7E [0, 0x80] []).opcode = WS_OPCODE_CONT ∨
            (((wire_hdr 0x89 0x7E [0, 0x80] []).opcode = WS_OPCODE_CLOSE ∨
                (wire_hdr 0x89 0x7E [0, 0x80] []).opcode = WS_OPCODE_PING ∨
                (wire_hdr 0x89 0x7E [0, 0x80] []).opcode = WS_OPCODE_PONG) ∧
              (wire_hdr 0x89 0x7E [0, 0x80] []).payload_len > 125)))) :=
  ⟨client_hdr_parser_agrees sample_codes (by decide) sample_client_ctx
      (sample_world [RxEvent.data [0x81, 0x02, 0x68, 0x69]]) hdr0 0x81 0x02 [] [] [0x68, 0x69]
      (by decide!) (by decide!) (by decide!) (by decide!) (by decide!) (by decide!),
    client_hdr_parser_agrees sample_codes (by decide) sample_client_ctx
      (sample_world [RxEvent.data [0x89, 0x7E, 0, 0x80, 7]]) hdr0 0x89 0x7E [0, 0x80] [] [7]
      (by decide!) (by decide!) (by decide!) (by decide!) (by decide!) (by decide!)⟩

/-! ### The send calls of `ws_send_all` and of the masked send -/

/-- Every `net_sock_send` call adds one entry to the log of send calls: the
bytes it accepted, which are none when it returned a value `≤ 0`. -/
theorem net_sock_send_log (w : World) (buf : List Nat) (n : Int) :
    (net_sock_send w buf n).2.tx = w.tx ++
        [if 0 < (net_sock_send w buf n).1 then buf.take (net_sock_send w buf n).1.toNat else []] ∧
      (net_sock_send w buf n).1.toNat ≤ n.toNat := by
  unfold net_sock_send
  cases htx : w.txScript with
  | nil =>
    simp only [Int.toNat_ofNat]
    by_cases h : 0 < ((n.toNat : Nat) : Int)
    · rw [if_pos h]; exact ⟨rfl, le_refl _⟩
    · rw [if_neg h]
      have : n.toNat = 0 := by omega
      rw [this]
      exact ⟨rfl, le_refl _⟩
  | cons e rest =>
    cases e with
    | accept k =>
      simp only [Int.toNat_ofNat]
      by_cases h : 0 < ((min k n.toNat : Nat) : Int)
      · rw [if_pos h]; exact ⟨rfl, Nat.min_le_right _ _⟩
      · rw [if_neg h]
        have : min k n.toNat = 0 := by omega
        rw [this]
        exact ⟨rfl, Nat.zero_le _⟩
    | fail c =>
      simp only
      rw [if_neg (by omega)]
      exact ⟨rfl, by omega⟩

/-- The trace of `ws_send_all`: it returns for every transport script; when it
returns `WS_OK` every send call accepted at least one byte and the accepted
pieces add up to the bytes that were still to send; when it returns `WS_ERR`
the last send call accepted nothing, the calls before it accepted a proper
prefix, and no call follows. -/
theorem ws_send_all_loop_trace (buf : List Nat) (len : Nat) (hlen : len ≤ buf.length) :
    ∀ (fuel : Nat) (w : World) (sent : Nat), sent ≤ len → len - sent < fuel →
      ∃ rc w1 chunks, ws_send_all_loop fuel w buf len sent = some (rc, w1) ∧
        (∀ c ∈ chunks, c ≠ [] ∧ c.length ≤ len - sent) ∧
        ((rc = WS_OK ∧ w1.tx = w.tx ++ chunks ∧
            chunks.flatten = (buf.take len).drop sent) ∨
          (rc = WS_ERR ∧ w1.tx = w.tx ++ chunks ++ [[]] ∧
            chunks.flatten.length < len - sent ∧
            chunks.flatten = ((buf.take len).drop sent).take chunks.flatten.length)) := by
  intro fuel
  induction fuel with
  | zero => intro w sent _ h; omega
  | succ fuel ih =>
    intro w sent hsent hfuel
    rw [ws_send_all_loop]
    by_cases hlt : sent < len
    swap
    · rw [if_neg hlt]
      refine ⟨WS_OK, w, [], rfl, by simp, Or.inl ⟨rfl, by simp, ?_⟩⟩
      simp only [List.flatten_nil]
      rw [List.drop_of_length_le (by simp; omega)]
    rw [if_pos hlt]
    have hlog := net_sock_send_log w (buf.drop sent) (toInt32 (len - sent))
    generalize net_sock_send w (buf.drop sent) (toInt32 (len - sent)) = q at hlog
    obtain ⟨rc, wa⟩ := q
    simp only at hlog ⊢
    obtain ⟨htxa, hle⟩ := hlog
    by_cases hrc : rc ≤ 0
    · rw [if_pos hrc]
      rw [if_neg (by omega)] at htxa
      refine ⟨WS_ERR, wa, [], rfl, by simp, Or.inr ⟨rfl, by simpa using htxa, ?_, by simp⟩⟩
      simp only [List.flatten_nil, List.length_nil]
      omega
    rw [if_neg hrc]
    rw [if_pos (by omega)] at htxa
    have hr1 : 0 < rc.toNat := by omega
    have hr2 : rc.toNat ≤ len - sent := le_trans hle (toInt32_toNat_le _)
    have hentry : ((buf.drop sent).take rc.toNat).length = rc.toNat := by
      rw [List.length_take, List.length_drop]; omega
    have hentry2 : (buf.drop sent).take rc.toNat = ((buf.take len).drop sent).take rc.toNat := by
      rw [List.drop_take, List.take_take]
      congr 1
      omega
    obtain ⟨rc1, w1, chunks, h1, hch, hres⟩ := ih wa (sent + rc.toNat) (by omega) (by omega)
    refine ⟨rc1, w1, (buf.drop sent).take rc.toNat :: chunks, h1, ?_, ?_⟩
    · intro c hc
      rcases List.mem_cons.1 hc with hc | hc
      · subst hc
        refine ⟨?_, by rw [hentry]; exact hr2⟩
        intro hnil
        rw [hnil] at hentry
        simp at hentry
        omega
      · have := hch c hc
        exact ⟨this.1, by omega⟩
    · rcases hres with ⟨hok, htx1, hfl⟩ | ⟨herr, htx1, hlen1, hfl⟩
      · refine Or.inl ⟨hok, by rw [htx1, htxa]; simp, ?_⟩
        rw [List.flatten_cons, hfl]
        exact take_drop_split buf len sent rc.toNat (by omega)
      · refine Or.inr ⟨herr, by rw [htx1, htxa]; simp, ?_, ?_⟩
        · rw [List.flatten_cons, List.length_append, hentry]; omega
        · rw [List.flatten_cons, List.length_append, hentry, List.take_add, ← hentry2]
          congr 1
          rw [List.drop_drop]
          exact hfl

/-- A `ws_send_all` that returned `WS_OK` wrote `buf[0 .. len)` in non-empty
pieces, none longer than `len`. -/
theorem ws_send_all_ok_trace (w w1 : World) (buf : List Nat) (len : Nat)
    (hlen : len ≤ buf.length) (h : ws_send_all w buf len = some (WS_OK, w1)) :
    ∃ chunks, w1.tx = w.tx ++ chunks ∧ chunks.flatten = buf.take len ∧
      ∀ c ∈ chunks, c ≠ [] ∧ c.length ≤ len := by
  obtain ⟨rc, w2, chunks, h1, hch, hres⟩ :=
    ws_send_all_loop_trace buf len hlen (len + 1) w 0 (Nat.zero_le _) (by omega)
  unfold ws_send_all at h
  rw [h] at h1
  simp only [Option.some.injEq, Prod.mk.injEq] at h1
  obtain ⟨hrc, hw⟩ := h1
  subst hrc hw
  rcases hres with ⟨_, htx, hfl⟩ | ⟨herr, _⟩
  · exact ⟨chunks, htx, by simpa using hfl, by simpa using hch⟩
  · simp [WS_ERR, WS_OK] at herr

/-- The writes of the masked send loop: pieces of at most `cap` bytes that add
up to the masked payload from `off` on. -/
theorem ws_send_masked_loop_trace (payload : List Nat) (len : Nat) (key : List Nat) (cap : Nat) :
    ∀ (fuel : Nat) (w w1 : World) (off : Nat), off ≤ len →
      ws_send_masked_loop payload len key cap fuel w off = some (WS_OK, w1) →
      ∃ chunks, w1.tx = w.tx ++ chunks ∧
        chunks.flatten = ws_mask_chunk payload key off (len - off) ∧
        ∀ c ∈ chunks, c ≠ [] ∧ c.length ≤ cap := by
  intro fuel
  induction fuel with
  | zero => intro w w1 off _ h; simp [ws_send_masked_loop] at h
  | succ fuel ih =>
    intro w w1 off hle h
    rw [ws_send_masked_loop] at h
    by_cases hlt : off < len
    · rw [if_pos hlt] at h
      simp only at h
      have hchunk : min (len - off) cap ≤ len - off := Nat.min_le_left _ _
      have hchunk2 : min (len - off) cap ≤ cap := Nat.min_le_right _ _
      generalize min (len - off) cap = chunk at h hchunk hchunk2
      cases hs : ws_send_all w (ws_mask_chunk payload key off chunk) chunk with
      | none => rw [hs] at h; simp at h
      | some r =>
        obtain ⟨rc, wa⟩ := r
        rw [hs] at h
        simp only at h
        by_cases hrc : rc = WS_OK
        · subst hrc
          rw [if_neg (by simp)] at h
          obtain ⟨ca, htxa, hfa, hca⟩ := ws_send_all_ok_trace _ _ _ _
            (by rw [ws_mask_chunk_length]) hs
          rw [List.take_of_length_le (by rw [ws_mask_chunk_length])] at hfa
          obtain ⟨cb, htxb, hfb, hcb⟩ := ih wa w1 (off + chunk) (by omega) h
          refine ⟨ca ++ cb, by rw [htxb, htxa, List.append_assoc], ?_, ?_⟩
          · rw [List.flatten_append, hfa, hfb, ws_mask_chunk_append]
            congr 1
            omega
          · intro c hc
            rcases List.mem_append.1 hc with hc | hc
            · exact ⟨(hca c hc).1, le_trans (hca c hc).2 hchunk2⟩
            · exact hcb c hc
        · rw [if_pos hrc] at h
          simp [WS_ERR, WS_OK] at h
    · rw [if_neg hlt] at h
      simp only [Option.some.injEq, Prod.mk.injEq, true_and] at h
      subst h
      have : len - off = 0 := by omega
      exact ⟨[], by simp, by simp [this, ws_mask_chunk], by simp⟩

theorem ws_make_mask_key_tx (w : World) : (ws_make_mask_key w).2.tx = w.tx := rfl

/-- Byte `i` of the masked payload is `payload[i] ^ mask_key[i % 4]`. -/
theorem ws_mask_chunk_getD (payload key : List Nat) (L i : Nat) (hi : i < L) :
    (ws_mask_chunk payload key 0 L).getD i 0 = payload.getD i 0 ^^^ key.getD (i % 4) 0 := by
  unfold ws_mask_chunk
  rw [List.getD_eq_getElem _ _ (by simpa using hi)]
  simp only [List.getElem_map, List.getElem_range, Nat.zero_add]
  rw [show (3 : Nat) = 2 ^ 2 - 1 from rfl, Nat.and_pow_two_sub_one_eq_mod]

/-- The writes of a masked `ws_send_frame` that returned `WS_OK`: those of the
header with the mask key, then those of the masked payload, each of at most
`cap` bytes. -/
theorem ws_send_frame_masked_trace (w w1 : World) (opcode : Nat) (p : List Nat) (L : Nat)
    (fin : Bool) (cap : Nat)
    (h : ws_send_frame w opcode (some p) L fin true true cap = some (WS_OK, w1)) :
    ∃ hw pw : List (List Nat), w1.tx = w.tx ++ hw ++ pw ∧
      hw.flatten = writeAt (ws_frame_hdr_bytes opcode L fin) 1
          [(ws_frame_hdr_bytes opcode L fin).getD 1 0 ||| 0x80] ++ (ws_make_mask_key w).1 ∧
      pw.flatten = ws_mask_chunk p (ws_make_mask_key w).1 0 L ∧
      ∀ c ∈ pw, c ≠ [] ∧ c.length ≤ cap := by
  simp only [ws_send_frame, if_true] at h
  have hks := ws_make_mask_key_tx w
  generalize ws_make_mask_key w = kw at h hks ⊢
  obtain ⟨key, wk⟩ := kw
  simp only at h hks ⊢
  generalize writeAt (ws_frame_hdr_bytes opcode L fin) 1
    [(ws_frame_hdr_bytes opcode L fin).getD 1 0 ||| 0x80] ++ key = hdr1 at h ⊢
  cases hs : ws_send_all wk hdr1 hdr1.length with
  | none => rw [hs] at h; simp at h
  | some r =>
    obtain ⟨rc, w2⟩ := r
    rw [hs] at h
    simp only at h
    by_cases hrc : rc = WS_OK
    · subst hrc
      rw [if_neg (by simp)] at h
      obtain ⟨hw, htx2, hfl2, _⟩ := ws_send_all_ok_trace _ _ _ _ (le_refl _) hs
      rw [List.take_length, hks] at *
      simp only [Bool.not_true, Bool.false_eq_true, if_false] at h
      by_cases hz : L = 0
      · rw [if_pos hz] at h
        simp only [Option.some.injEq, Prod.mk.injEq, true_and] at h
        subst h
        exact ⟨hw, [], by simpa using htx2, hfl2, by simp [hz, ws_mask_chunk], by simp⟩
      · rw [if_neg hz] at h
        by_cases hc : cap = 0
        · simp [hc, WS_ERR, WS_OK] at h
        · simp only [Bool.false_or, decide_eq_true_eq, if_neg hc] at h
          obtain ⟨pw, htx1, hfl1, hcs⟩ :=
            ws_send_masked_loop_trace p L key cap _ _ _ 0 (Nat.zero_le _) h
          exact ⟨hw, pw, by rw [htx1, htx2], hfl2, by simpa using hfl1, hcs⟩
    · rw [if_pos hrc] at h
      simp [WS_ERR, WS_OK] at h

/-- `ws_send_all` returns for every transport. When it returns `WS_OK` every
send call accepted at least one byte and the accepted pieces, in order, are
exactly `buf[0 .. len)`. When it returns `WS_ERR` the last send call is one
that returned a value `≤ 0` (it accepted nothing), the calls before it accepted
a proper prefix of `buf[0 .. len)`, and no send follows. A `ws_send_frame` with
a non-NULL payload that returns `WS_OK` has put the whole header and the whole
payload on the wire. -/
theorem send_all_writes_everything_or_fails (w : World) (buf : List Nat) (len : Nat)
    (hlen : len ≤ buf.length) :
    (∃ rc w1 chunks, ws_send_all w buf len = some (rc, w1) ∧
      (∀ c ∈ chunks, c ≠ []) ∧
      ((rc = WS_OK ∧ w1.tx = w.tx ++ chunks ∧ chunks.flatten = buf.take len) ∨
        (rc = WS_ERR ∧ w1.tx = w.tx ++ chunks ++ [[]] ∧ chunks.flatten.length < len ∧
          chunks.flatten = (buf.take len).take chunks.flatten.length))) ∧
    (∀ (opcode : Nat) (fin mask scratch : Bool) (cap : Nat) (w1 : World),
      ws_send_frame w opcode (some buf) len fin mask scratch cap = some (WS_OK, w1) →
      w1.sent = w.sent ++
        (if mask then
          writeAt (ws_frame_hdr_bytes opcode len fin) 1
            [(ws_frame_hdr_bytes opcode len fin).getD 1 0 ||| 0x80] ++ (ws_make_mask_key w).1
         else ws_frame_hdr_bytes opcode len fin) ++
        ws_wire_payload (some buf) len mask (ws_make_mask_key w).1 ∧
      (ws_wire_payload (some buf) len mask (ws_make_mask_key w).1).length = len) := by
  constructor
  · obtain ⟨rc, w1, chunks, h1, hch, hres⟩ :=
      ws_send_all_loop_trace buf len hlen (len + 1) w 0 (Nat.zero_le _) (by omega)
    refine ⟨rc, w1, chunks, h1, fun c hc => (hch c hc).1, ?_⟩
    simpa using hres
  · intro opcode fin mask scratch cap w1 h
    refine ⟨ws_send_frame_sent _ _ _ _ _ _ _ _ _ h, ?_⟩
    unfold ws_wire_payload
    cases mask
    · simp [hlen]
    · simp [ws_mask_chunk_length]

/-- An instance: three bytes on a transport that accepts two and then fails. -/
theorem send_all_writes_everything_or_fails_witness :
    (3 ≤ [1, 2, 3].length) ∧
      (∃ rc w1 chunks,
        ws_send_all { sample_world [] with txScript := [TxEvent.accept 2, TxEvent.fail 1] }
          [1, 2, 3] 3 = some (rc, w1) ∧
        (∀ c ∈ chunks, c ≠ []) ∧
        ((rc = WS_OK ∧ w1.tx = [] ++ chunks ∧ chunks.flatten = [1, 2, 3]) ∨
          (rc = WS_ERR ∧ w1.tx = [] ++ chunks ++ [[]] ∧ chunks.flatten.length < 3 ∧
            chunks.flatten = ([1, 2, 3] : List Nat).take chunks.flatten.length))) :=
  ⟨by decide,
    (send_all_writes_everything_or_fails
      { sample_world [] with txScript := [TxEvent.accept 2, TxEvent.fail 1] }
      [1, 2, 3] 3 (by decide)).1⟩

/-- C33, evaluation at the failing input: `ws_send_frame` with a NULL payload
and `payload_len = 5`, on a transport that accepts what is offered. It returns
`WS_OK` after the header alone, unmasked (`81 05`) as well as masked
(`81 85` and the key), and that header announces five payload bytes to the
peer. The public `ws_server_send_text` hands its arguments on unchecked and
reports `WS_OK` for the same call. -/
theorem send_frame_null_payload_header_only :
    ws_send_frame (sample_world []) WS_OPCODE_TEXT none 5 true false true 1500 =
      some (WS_OK, { sample_world [] with tx := [[0x81, 0x05]] }) ∧
    (ws_send_frame { sample_world [] with rand := [1, 2, 3, 4] } WS_OPCODE_TEXT none 5 true true
        true 1500).map (fun r => (r.1, r.2.tx)) =
      some (WS_OK, [[0x81, 0x85, 1, 2, 3, 4]]) ∧
    (wire_hdr 0x81 0x05 [] []).payload_len = 5 ∧
    (wire_hdr 0x81 0x85 [] [1, 2, 3, 4]).payload_len = 5 ∧
    (ws_server_send_text sample_server_client (sample_world []) none 5).map
      (fun r => (r.1, r.2.tx)) = some (WS_OK, [[0x81, 0x05]]) :=
  ⟨by decide!, by decide!, by decide!, by decide!, by decide!⟩

/-- C32: a masked `ws_send_frame` that returns `WS_OK` has made the writes of
the header and then writes of the payload, none of them longer than the scratch
capacity, whose concatenation has byte `i` equal to
`payload[i] XOR mask_key[i % 4]` for every `i < payload_len`, whatever the
scratch capacity; and with a scratch capacity of at least one it does return
`WS_OK` on a transport that accepts what it is offered. -/
theorem masked_send_chunking_is_transparent (w : World) (opcode : Nat) (p : List Nat) (L : Nat)
    (fin : Bool) (cap : Nat) (hcap : 1 ≤ cap) :
    (∀ w1, ws_send_frame w opcode (some p) L fin true true cap = some (WS_OK, w1) →
      ∃ hw pw : List (List Nat), w1.tx = w.tx ++ hw ++ pw ∧
        hw.flatten = writeAt (ws_frame_hdr_bytes opcode L fin) 1
            [(ws_frame_hdr_bytes opcode L fin).getD 1 0 ||| 0x80] ++ (ws_make_mask_key w).1 ∧
        pw.flatten.length = L ∧
        (∀ i, i < L →
          pw.flatten.getD i 0 = p.getD i 0 ^^^ (ws_make_mask_key w).1.getD (i % 4) 0) ∧
        (∀ c ∈ pw, c ≠ [] ∧ c.length ≤ cap)) ∧
    (w.txScript = [] → L < 2 ^ 31 →
      ∃ w1, ws_send_frame w opcode (some p) L fin true true cap = some (WS_OK, w1)) := by
  constructor
  · intro w1 h
    obtain ⟨hw, pw, htx, hhw, hpw, hcs⟩ := ws_send_frame_masked_trace _ _ _ _ _ _ _ h
    refine ⟨hw, pw, htx, hhw, by rw [hpw, ws_mask_chunk_length], ?_, hcs⟩
    intro i hi
    rw [hpw]
    exact ws_mask_chunk_getD p _ L i hi
  · intro htx hint
    obtain ⟨w1, h1, _⟩ := ws_send_frame_accepting w opcode p L fin true true cap htx hint
      (fun _ => ⟨rfl, by omega⟩)
    exact ⟨w1, h1⟩

theorem masked_send_chunking_is_transparent_witness :
    (1 ≤ 2) ∧
      (∃ w1, ws_send_frame { sample_world [] with rand := [0x11, 0x22, 0x33, 0x44] }
          WS_OPCODE_BINARY (some [1, 2, 3, 4, 5]) 5 true true true 2 = some (WS_OK, w1)) :=
  ⟨by decide,
    (masked_send_chunking_is_transparent { sample_world [] with rand := [0x11, 0x22, 0x33, 0x44] }
      WS_OPCODE_BINARY [1, 2, 3, 4, 5] 5 true 2 (by decide)).2 rfl (by decide)⟩

/-! ### Length accounting of `ws_recv_until` -/

/-- The bytes a `recvScript` step returns are the next bytes of the stream. -/
theorem recvScript_stream : ∀ (rx : List RxEvent) (tick n : Nat),
    rx_stream rx = (recvScript rx tick n).2.1 ++ rx_stream (recvScript rx tick n).2.2.1 := by
  intro rx
  induction rx with
  | nil => intro tick n; simp [recvScript, rx_stream]
  | cons e rest ih =>
    intro tick n
    cases e with
    | data bs =>
      simp only [recvScript]
      by_cases h0 : bs.length = 0
      · rw [if_pos h0]
        have : bs = [] := List.length_eq_zero.1 h0
        subst this
        simpa [rx_stream] using ih tick n
      · rw [if_neg h0]
        by_cases h1 : bs.length ≤ n
        · rw [if_pos h1]; simp [rx_stream]
        · rw [if_neg h1]
          simp only [rx_stream]
          rw [← List.append_assoc, List.take_append_drop]
    | code c => simp [recvScript, rx_stream]
    | elapse ms =>
      simp only [recvScript, rx_stream]
      exact ih (tick + ms) n

theorem net_sock_recv_stream (w : World) (len : Int) :
    rx_stream w.rx = (net_sock_recv w len).2.1 ++ rx_stream (net_sock_recv w len).2.2.rx :=
  recvScript_stream w.rx w.tick len.toNat

theorem writeAt_snoc_take (buf bs : List Nat) (len : Nat) (h : len ≤ buf.length) :
    (writeAt buf len (bs ++ [0])).take (len + bs.length) = buf.take len ++ bs := by
  unfold writeAt
  have h1 : (buf.take len).length = len := by simp [h]
  rw [List.append_assoc, List.take_append_eq_append_take, h1]
  rw [List.take_of_length_le (by omega)]
  congr 1
  rw [show len + bs.length - len = bs.length by omega, List.append_assoc,
    List.take_append_eq_append_take, List.take_of_length_le (le_refl _)]
  simp

theorem writeAt_snoc_get (buf bs : List Nat) (len : Nat) (h : len ≤ buf.length) :
    (writeAt buf len (bs ++ [0]))[len + bs.length]? = some 0 := by
  unfold writeAt
  have h1 : (buf.take len).length = len := by simp [h]
  rw [List.append_assoc, List.getElem?_append_right (by omega), h1,
    show len + bs.length - len = bs.length by omega, List.append_assoc,
    List.getElem?_append_right (le_refl _)]
  simp

/-- The loop of `ws_recv_until` keeps the length accounting: what it adds to
`len` is the number of bytes it took from the stream, these bytes follow the
`len` bytes that were in the buffer, and a zero byte ends them. -/
theorem ws_recv_until_loop_accounting (nc : NetCodes) (hnd : nc.NET_NO_DATA < 0)
    (hto : nc.NET_TIMEOUT < 0) (heof : nc.NET_EOF ≤ 0) (buf_cap : Nat) (delim : List Nat)
    (delim_len : Nat) :
    ∀ (fuel : Nat) (w : World) (buf : List Nat) (len : Nat), rx_weight w.rx < fuel →
      len ≤ buf_cap - 1 → buf[len]? = some 0 →
      ∃ rc buf1 got w1 received,
        ws_recv_until_loop nc buf_cap delim delim_len fuel w buf len = some (rc, buf1, got, w1) ∧
        rx_stream w.rx = received ++ rx_stream w1.rx ∧
        got = len + received.length ∧ got ≤ buf_cap - 1 ∧
        buf1.take got = buf.take len ++ received ∧ buf1[got]? = some 0 := by
  intro fuel
  induction fuel with
  | zero => intro w buf len h; omega
  | succ fuel ih =>
    intro w buf len hfuel hlen hz
    have hlb : len < buf.length := by
      rcases Nat.lt_or_ge len buf.length with h | h
      · exact h
      · rw [List.getElem?_eq_none h] at hz; cases hz
    rw [ws_recv_until_loop]
    by_cases h1 : len < buf_cap - 1
    swap
    · rw [if_neg h1]
      exact ⟨_, _, _, _, [], rfl, by simp, by simp, hlen, by simp, hz⟩
    rw [if_pos h1]
    by_cases h2 : len ≥ delim_len ∧ has_delim buf len delim delim_len = true
    · rw [if_pos h2]
      exact ⟨_, _, _, _, [], rfl, by simp, by simp, hlen, by simp, hz⟩
    rw [if_neg h2]
    obtain ⟨f1, f2, f3, f4, f5⟩ := net_sock_recv_facts w (toInt32 (buf_cap - 1 - len))
    have fs := net_sock_recv_stream w (toInt32 (buf_cap - 1 - len))
    generalize net_sock_recv w (toInt32 (buf_cap - 1 - len)) = r at f1 f2 f3 f4 f5 fs
    obtain ⟨rc, bs, w1⟩ := r
    simp only at f1 f2 f3 f4 f5 fs ⊢
    by_cases c1 : rc = nc.NET_NO_DATA ∨ rc = nc.NET_TIMEOUT
    · rw [if_pos c1]
      have hneg : rc < 0 := by rcases c1 with h | h <;> omega
      have hbs : bs = [] := f5 (by omega)
      subst hbs
      rw [writeAt_nil]
      obtain ⟨rc2, buf2, got2, w2, rcv, h, hs, hg, hle, htk, hzz⟩ :=
        ih w1 buf len (by have := f3 (by omega); omega) hlen hz
      refine ⟨rc2, buf2, got2, w2, rcv, h, ?_, hg, hle, htk, hzz⟩
      rw [fs, ← hs]
      simp
    rw [if_neg c1]
    by_cases c2 : rc = 0 ∨ rc = nc.NET_EOF
    · rw [if_pos c2]
      have hbs : bs = [] := f5 (by rcases c2 with h | h <;> omega)
      subst hbs
      rw [writeAt_nil]
      exact ⟨_, _, _, _, [], rfl, by simpa using fs, by simp, hlen, by simp, hz⟩
    rw [if_neg c2]
    by_cases c3 : rc < 0
    · rw [if_pos c3]
      have hbs : bs = [] := f5 (by omega)
      subst hbs
      rw [writeAt_nil]
      by_cases c4 : len = 0
      · rw [if_pos c4]
        exact ⟨_, _, _, _, [], rfl, by simpa using fs, by simp, hlen, by simp, hz⟩
      · rw [if_neg c4]
        exact ⟨_, _, _, _, [], rfl, by simpa using fs, by simp, hlen, by simp, hz⟩
    rw [if_neg c3]
    have hpos : 0 < rc := by
      have : rc ≠ 0 := fun h => c2 (Or.inl h)
      omega
    obtain ⟨hbl, hbn⟩ := f4 hpos
    have hreq : rc.toNat ≤ buf_cap - 1 - len := le_trans hbn (toInt32_toNat_le _)
    rw [← hbl, writeAt_writeAt]
    obtain ⟨rc2, buf2, got2, w2, rcv, h, hs, hg, hle, htk, hzz⟩ :=
      ih w1 (writeAt buf len (bs ++ [0])) (len + bs.length)
        (by have := f3 (by omega); omega) (by omega)
        (writeAt_snoc_get buf bs len (by omega))
    refine ⟨rc2, buf2, got2, w2, bs ++ rcv, h, ?_, ?_, hle, ?_, hzz⟩
    · rw [fs, hs, List.append_assoc]
    · rw [hg, List.length_append]; omega
    · rw [htk, writeAt_snoc_take buf bs len (by omega), List.append_assoc]

/-- C34: length accounting of `ws_recv_until`. With a non-empty buffer and
delimiter it returns for every receive script; the bytes it took from the
transport are a prefix `received` of the stream; `*out_len` is their number
(the sum of the positive returns: a return that is not positive delivers no
byte); `*out_len ≤ buf_cap - 1`; the first `*out_len` bytes of the buffer are
`received`, and `buf[*out_len] = 0`. -/
theorem recv_until_length_accounting (nc : NetCodes) (w : World) (buf : List Nat)
    (buf_cap : Nat) (delim : List Nat) (delim_len out_len : Nat)
    (hnd : nc.NET_NO_DATA < 0) (hto : nc.NET_TIMEOUT < 0) (heof : nc.NET_EOF ≤ 0)
    (hcap : 0 < buf_cap) (hd : 0 < delim_len) :
    ∃ rc buf1 got w1 received,
      ws_recv_until nc w buf buf_cap delim delim_len out_len = some (rc, buf1, got, w1) ∧
      rx_stream w.rx = received ++ rx_stream w1.rx ∧
      got = received.length ∧ got ≤ buf_cap - 1 ∧
      buf1.take got = received ∧ buf1[got]? = some 0 := by
  unfold ws_recv_until
  rw [if_neg (by omega)]
  obtain ⟨rc, buf1, got, w1, rcv, h, hs, hg, hle, htk, hz⟩ :=
    ws_recv_until_loop_accounting nc hnd hto heof buf_cap delim delim_len (rx_weight w.rx + 1) w
      (writeAt buf 0 (List.replicate buf_cap 0)) 0 (by omega) (Nat.zero_le _)
      (by
        obtain ⟨c, rfl⟩ : ∃ c, buf_cap = c + 1 := ⟨buf_cap - 1, by omega⟩
        simp [writeAt, List.replicate_succ])
  exact ⟨rc, buf1, got, w1, rcv, h, hs, by simpa using hg, hle, by simpa using htk, hz⟩

theorem recv_until_length_accounting_witness :
    ((-3 : Int) < 0 ∧ (-4 : Int) < 0 ∧ (-5 : Int) ≤ 0 ∧ 0 < 16 ∧ 0 < 4) ∧
      ∃ rc buf1 got w1 received,
        ws_recv_until sample_codes
          (sample_world [RxEvent.data [72, 105], RxEvent.code 3, RxEvent.data [13, 10, 13, 10]])
          (List.replicate 16 7) 16 [13, 10, 13, 10] 4 0 = some (rc, buf1, got, w1) ∧
        rx_stream [RxEvent.data [72, 105], RxEvent.code 3, RxEvent.data [13, 10, 13, 10]] =
          received ++ rx_stream w1.rx ∧
        got = received.length ∧ got ≤ 16 - 1 ∧
        buf1.take got = received ∧ buf1[got]? = some 0 :=
  ⟨by decide,
    recv_until_length_accounting sample_codes
      (sample_world [RxEvent.data [72, 105], RxEvent.code 3, RxEvent.data [13, 10, 13, 10]])
      (List.replicate 16 7) 16 [13, 10, 13, 10] 4 0
      (by decide) (by decide) (by decide) (by decide) (by decide)⟩

/-! ### The invariant of the pending buffer -/

theorem PendingInv.pending_ok {ctx : ws_client_ctx_t} (h : PendingInv ctx) : PendingOk ctx :=
  ⟨h.1, by rw [h.2.2]; exact h.2.1⟩

/-- `ws_send_all` returns for every transport script. -/
theorem ws_send_all_returns (w : World) (buf : List Nat) (len : Nat) (hlen : len ≤ buf.length) :
    ∃ rc w1, ws_send_all w buf len = some (rc, w1) := by
  obtain ⟨rc, w1, _, h, _⟩ :=
    ws_send_all_loop_trace buf len hlen (len + 1) w 0 (Nat.zero_le _) (by omega)
  exact ⟨rc, w1, h⟩

/-- The context that the validation step of the handshake leaves satisfies the
invariant of the pending buffer. -/
theorem ws_client_handshake_validate_pending (ctx : ws_client_ctx_t) (got : Nat)
    (h : ctx.pending.length = 256) : PendingInv (ws_client_handshake_validate ctx got).2 := by
  rw [ws_client_handshake_validate_snd]
  unfold PendingInv
  split_ifs with h1 h2
  · refine ⟨Nat.zero_le _, le_refl _, ?_⟩
    simp only [writeAt, List.take_zero, List.nil_append, List.length_append, List.length_take,
      List.length_drop, Nat.zero_add, h]
    omega
  · refine ⟨Nat.zero_le _, by show got - ws_find_hdr_end ctx.rxbuf got ≤ 256; omega, ?_⟩
    simp only [writeAt, List.take_zero, List.nil_append, List.length_append, List.length_take,
      List.length_drop, Nat.zero_add, h]
    omega
  · exact ⟨le_refl _, Nat.zero_le _, h⟩

/-- `ws_client_handshake` returns for every transport and keeps the invariant of
the pending buffer. -/
theorem ws_client_handshake_pending (nc : NetCodes) (hnd : nc.NET_NO_DATA ≠ 0)
    (hto : nc.NET_TIMEOUT ≠ 0) (ctx : ws_client_ctx_t) (w : World) (hp : PendingInv ctx) :
    ∃ rc ctx1 w1, ws_client_handshake nc ctx w = some (rc, ctx1, w1) ∧ PendingInv ctx1 := by
  unfold ws_client_handshake
  split
  rename_i key_raw wa hrb
  split
  rename_i brc b64 hb
  split
  · exact ⟨_, _, _, rfl, hp⟩
  show ∃ rc ctx1 w1, ite _ _ _ = some (rc, ctx1, w1) ∧ _
  split
  · exact ⟨_, _, _, rfl, hp⟩
  obtain ⟨src0, wb, hsend⟩ := ws_send_all_returns wa
    (ws_client_request ctx.cfg (b64.getD [])) (ws_client_request ctx.cfg (b64.getD [])).length
    (le_refl _)
  split
  · rename_i hnone
    rw [hsend] at hnone
    cases hnone
  rename_i src w2 hsome
  rw [hsend] at hsome
  simp only [Option.some.injEq, Prod.mk.injEq] at hsome
  obtain ⟨hsrc, hw2⟩ := hsome
  subst hsrc
  subst hw2
  split
  · exact ⟨_, _, _, rfl, hp⟩
  obtain ⟨rrc, rxbuf, got, wc, hc, hrc⟩ := ws_recv_until_total nc hnd hto wb ctx.rxbuf ctx.rxcap
    (cstr "\r\n\r\n") 4 0
  split
  · rename_i hnone
    rw [hc] at hnone
    cases hnone
  rename_i rrc1 rxbuf1 got1 w3 hsome
  rw [hc] at hsome
  simp only [Option.some.injEq, Prod.mk.injEq] at hsome
  obtain ⟨e1, e2, e3, e4⟩ := hsome
  subst e1 e2 e3 e4
  split
  · exact ⟨_, _, _, rfl, hp⟩
  split
  rename_i vrc vctx hv
  have hvs := ws_client_handshake_validate_pending
    { ctx with key_b64 := b64.getD [], rxbuf := rxbuf } got hp.2.2
  rw [hv] at hvs
  exact ⟨_, _, _, rfl, hvs⟩

/-- `ws_client_recv_exact` and the pending buffer: the call returns, keeps the
invariant, hands out the first `len` pending bytes once, has both markers at
zero when the pending bytes did not suffice (so that the transport is read),
and does not touch the transport when they did. -/
theorem ws_client_recv_exact_pending (nc : NetCodes) (ctx : ws_client_ctx_t) (w : World)
    (buf : List Nat) (len : Nat) (hp : PendingInv ctx) :
    ∃ rc ctx1 buf1 w1, ws_client_recv_exact nc ctx w buf len = some (rc, ctx1, buf1, w1) ∧
      PendingInv ctx1 ∧
      pending_bytes ctx1 = (pending_bytes ctx).drop len ∧
      (ctx.pending_len - ctx.pending_off < len → ctx1.pending_off = 0 ∧ ctx1.pending_len = 0) ∧
      (len ≤ ctx.pending_len - ctx.pending_off → rc = WS_OK ∧ w1 = w) := by
  obtain ⟨ho, hl, hc⟩ := hp
  unfold ws_client_recv_exact
  by_cases h0 : len = 0
  · rw [if_pos h0]
    subst h0
    exact ⟨_, _, _, _, rfl, ⟨ho, hl, hc⟩, by simp, fun h => by omega, fun _ => ⟨rfl, rfl⟩⟩
  rw [if_neg h0, ws_client_take_pending_spec len ctx buf len 0 ⟨ho, by omega⟩ (Nat.zero_le _)
    (by omega)]
  simp only [Nat.sub_zero, Nat.zero_add]
  obtain ⟨n, hn⟩ : ∃ n, n = min len (ctx.pending_len - ctx.pending_off) := ⟨_, rfl⟩
  rw [← hn]
  obtain ⟨rc, buf2, w1, hloop, _⟩ := ws_client_recv_exact_loop_total nc len (HAL_GetTick w)
    (rx_weight w.rx + 1) w (writeAt buf 0 ((pending_bytes ctx).take len)) n (by omega)
  rw [hloop]
  simp only
  refine ⟨_, _, _, _, rfl, ?_, ?_, ?_, ?_⟩
  · unfold PendingInv
    split_ifs with hr
    · exact ⟨le_refl _, Nat.zero_le _, hc⟩
    · simp only at hr
      refine ⟨by show ctx.pending_off + n ≤ ctx.pending_len; omega, hl, hc⟩
  · unfold pending_bytes
    split_ifs with hr
    · simp only at hr
      show (ctx.pending.take 0).drop 0 = _
      rw [List.drop_drop]
      symm
      rw [List.take_zero, List.drop_nil]
      apply List.drop_of_length_le
      simp only [List.length_take]
      omega
    · simp only at hr
      show (ctx.pending.take ctx.pending_len).drop (ctx.pending_off + n) = _
      rw [List.drop_drop]
      congr 1
      omega
  · intro hlt
    rw [if_pos (by show ctx.pending_off + n ≥ ctx.pending_len; omega)]
    exact ⟨rfl, rfl⟩
  · intro hle
    have hnl : n = len := by omega
    rw [hnl, ws_client_recv_exact_loop_done nc len _ _ w _ len (le_refl _)] at hloop
    simp only [Option.some.injEq, Prod.mk.injEq] at hloop
    exact ⟨hloop.1.symm, hloop.2.2.symm⟩

/-- C35: the invariant of the pending buffer, `pending_off ≤ pending_len ≤ 256`.
It holds for the context that `ws_client_create` hands out; `ws_client_handshake`
returns and keeps it; every `ws_client_recv_exact` returns and keeps it, hands
the pending bytes out once and in order, has `pending_off = pending_len = 0`
whenever the pending bytes did not cover the request (the case in which the
transport is read), and leaves the transport alone when they did. -/
theorem pending_markers_invariant (nc : NetCodes) (hnd : nc.NET_NO_DATA ≠ 0)
    (hto : nc.NET_TIMEOUT ≠ 0) :
    (∀ (cfg : ws_client_cfg_t) (created : Bool) (w w1 : World) (rc : Int)
        (ctx : ws_client_ctx_t) (freed : List Freed),
      ws_client_create nc cfg created w = some (rc, some ctx, freed, w1) → PendingInv ctx) ∧
    (∀ (ctx : ws_client_ctx_t) (w : World), PendingInv ctx →
      ∃ rc ctx1 w1, ws_client_handshake nc ctx w = some (rc, ctx1, w1) ∧ PendingInv ctx1) ∧
    (∀ (ctx : ws_client_ctx_t) (w : World) (buf : List Nat) (len : Nat), PendingInv ctx →
      ∃ rc ctx1 buf1 w1, ws_client_recv_exact nc ctx w buf len = some (rc, ctx1, buf1, w1) ∧
        PendingInv ctx1 ∧
        pending_bytes ctx1 = (pending_bytes ctx).drop len ∧
        (ctx.pending_len - ctx.pending_off < len →
          ctx1.pending_off = 0 ∧ ctx1.pending_len = 0) ∧
        (len ≤ ctx.pending_len - ctx.pending_off → rc = WS_OK ∧ w1 = w)) := by
  refine ⟨?_, fun ctx w hp => ws_client_handshake_pending nc hnd hto ctx w hp,
    fun ctx w buf len hp => ws_client_recv_exact_pending nc ctx w buf len hp⟩
  intro cfg created w w1 rc ctx freed h
  unfold ws_client_create at h
  cases created with
  | false =>
    simp only [Bool.not_false, if_true] at h
    split at h
    · cases h
    · simp at h
  | true =>
    simp only [Bool.not_true, Bool.false_eq_true, if_false, Option.some.injEq,
      Prod.mk.injEq] at h
    obtain ⟨_, hctx, _⟩ := h
    subst hctx
    exact ⟨Nat.le_refl 0, Nat.zero_le 256, List.length_replicate 256 0⟩

theorem pending_markers_invariant_witness :
    (sample_codes.NET_NO_DATA ≠ 0 ∧ sample_codes.NET_TIMEOUT ≠ 0 ∧
        PendingInv { sample_client_ctx with pending_len := 1 }) ∧
      ∃ rc ctx1 buf1 w1,
        ws_client_recv_exact sample_codes { sample_client_ctx with pending_len := 1 }
          (sample_world [RxEvent.data [5, 6]]) [0, 0] 2 = some (rc, ctx1, buf1, w1) ∧
        PendingInv ctx1 ∧
        pending_bytes ctx1 =
          (pending_bytes { sample_client_ctx with pending_len := 1 }).drop 2 ∧
        (({ sample_client_ctx with pending_len := 1 } : ws_client_ctx_t).pending_len -
            ({ sample_client_ctx with pending_len := 1 } : ws_client_ctx_t).pending_off < 2 →
          ctx1.pending_off = 0 ∧ ctx1.pending_len = 0) ∧
        (2 ≤ ({ sample_client_ctx with pending_len := 1 } : ws_client_ctx_t).pending_len -
            ({ sample_client_ctx with pending_len := 1 } : ws_client_ctx_t).pending_off →
          rc = WS_OK ∧ w1 = sample_world [RxEvent.data [5, 6]]) :=
  ⟨⟨by decide, by decide, by decide, by decide, by decide!⟩,
    (pending_markers_invariant sample_codes (by decide) (by decide)).2.2
      { sample_client_ctx with pending_len := 1 } (sample_world [RxEvent.data [5, 6]]) [0, 0] 2
      ⟨by decide, by decide, by decide!⟩⟩

/-! ### Base64 text, keys and header blocks -/

theorem base64_char_plain (v : Nat) :
    base64_char v ≠ 0 ∧ base64_char v ≠ 10 ∧ base64_char v ≠ 9 ∧ base64_char v ≠ 32 := by
  unfold base64_char
  split_ifs <;> omega

/-- Base64 text holds no NUL, LF, tab or space. -/
theorem base64_text_plain : ∀ (l : List Nat) (b : Nat), b ∈ base64_text l →
    b ≠ 0 ∧ b ≠ 10 ∧ b ≠ 9 ∧ b ≠ 32
  | [], b, h => by simp [base64_text] at h
  | [x], b, h => by
    simp only [base64_text, List.mem_cons, List.mem_singleton, List.mem_nil_iff, or_false] at h
    rcases h with h | h | h | h
    · rw [h]; exact base64_char_plain _
    · rw [h]; exact base64_char_plain _
    · omega
    · omega
  | [x, y], b, h => by
    simp only [base64_text, List.mem_cons, List.mem_singleton, List.mem_nil_iff, or_false] at h
    rcases h with h | h | h | h
    · rw [h]; exact base64_char_plain _
    · rw [h]; exact base64_char_plain _
    · rw [h]; exact base64_char_plain _
    · omega
  | x :: y :: z :: rest, b, h => by
    simp only [base64_text, List.mem_cons] at h
    rcases h with h | h | h | h | h
    · rw [h]; exact base64_char_plain _
    · rw [h]; exact base64_char_plain _
    · rw [h]; exact base64_char_plain _
    · rw [h]; exact base64_char_plain _
    · exact base64_text_plain rest b h

theorem rand_bytes_length : ∀ (n : Nat) (w : World), (rand_bytes n w).1.length = n
  | 0, _ => rfl
  | n + 1, w => by simp [rand_bytes, rand_bytes_length n (rand w).2]

/-- The key that `ws_client_handshake` makes from 16 random bytes: 24
characters of base64 text. -/
theorem ws_base64_key (raw : List Nat) (h : raw.length = 16) :
    ws_base64 raw 16 64 = (24, some (base64_text raw)) := by
  simp [ws_base64, mbedtls_base64_encode, List.take_of_length_le (le_of_eq h)]

/-- The accept value is base64 text. -/
theorem ws_compute_accept_plain (key : List Nat) (h : key.length ≤ 92) :
    ∀ b ∈ (ws_compute_accept key [] 64).2, b ≠ 0 ∧ b ≠ 10 ∧ b ≠ 9 ∧ b ≠ 32 := by
  have hg : WS_GUID.length = 36 := by decide
  have hsha : (ws_sha1 (key ++ WS_GUID) (key.length + WS_GUID.length)).length = 20 := by
    simp [ws_sha1, mbedtls_sha1, be_bytes_length]
  have hb : ws_base64 (ws_sha1 (key ++ WS_GUID) (key.length + WS_GUID.length)) 20 64 =
      (28, some (base64_text ((ws_sha1 (key ++ WS_GUID) (key.length + WS_GUID.length)).take 20)))
      := by
    simp [ws_base64, mbedtls_base64_encode]
  unfold ws_compute_accept
  rw [if_neg (by omega), if_neg (by omega)]
  simp only [hb]
  split_ifs
  · simp
  · simp
  · intro b hb2
    exact base64_text_plain _ b (by simpa using hb2)

/-- A line whose first character differs from that of `name`, case folded, is
not a header line named `name`. -/
theorem header_line_named_head (n0 l0 : Nat) (ns ls : List Nat)
    (h : c_tolower l0 ≠ c_tolower n0) : header_line_named (n0 :: ns) (l0 :: ls) = false := by
  simp [header_line_named, ascii_ci_eq, h]

theorem header_line_named_first (name line : List Nat) (hn : name ≠ [])
    (h : c_tolower (line.headD 0) ≠ c_tolower (name.headD 0)) :
    header_line_named name line = false := by
  cases name with
  | nil => exact absurd rfl hn
  | cons n0 ns =>
    cases line with
    | nil => simp [header_line_named, ascii_ci_eq]
    | cons l0 ls => exact header_line_named_head n0 l0 ns ls h

/-- The value of the header line `name: v` for a value `v` without blanks that
fits the output array is `v`. -/
theorem header_line_value_plain (name v : List Nat) (out_cap : Nat)
    (hv : ∀ b ∈ v, b ≠ 9 ∧ b ≠ 32) (hlen : v.length < out_cap) :
    header_line_value name (name ++ [58, 32] ++ v) out_cap = v := by
  unfold header_line_value
  have h1 : (name ++ [58, 32] ++ v).drop (name.length + 1) = 32 :: v := by
    rw [List.append_assoc, List.drop_append_eq_append_drop]
    simp
  rw [h1, dropWhile_head_pos _ 32 v (by simp)]
  have h2 : v.dropWhile (fun b => b == 32 || b == 9) = v := by
    cases v with
    | nil => rfl
    | cons a t =>
      have := hv a (by simp)
      rw [dropWhile_head_neg _ a t (by simp [this.1, this.2])]
  rw [h2, List.take_of_length_le (by omega)]
  have h3 : v.reverse.dropWhile (fun b => b == 32 || b == 9) = v.reverse := by
    cases hr : v.reverse with
    | nil => rfl
    | cons a t =>
      have ha : a ∈ v := by
        rw [← List.mem_reverse, hr]; simp
      have := hv a ha
      rw [dropWhile_head_neg _ a t (by simp [this.1, this.2])]
  rw [h3, List.reverse_reverse]

/-- The lookup of `ws_http_find_header_value` in a header block with CRLF line
endings is the lookup as amended in the list of its header lines. -/
theorem ws_http_find_header_value_block (first : List Nat) (lines : List (List Nat))
    (tail name : List Nat) (out_cap len : Nat)
    (hfirst : ∀ b ∈ first, b ≠ 10 ∧ b ≠ 0)
    (hlines : ∀ l ∈ lines, l ≠ [] ∧ ∀ b ∈ l, b ≠ 10 ∧ b ≠ 0)
    (hcap : 0 < out_cap) (hlen : (header_block first lines).length ≤ len) :
    ws_http_find_header_value (header_block first lines ++ tail) len name out_cap =
      some (header_lookup_amended name out_cap lines) := by
  have hbuf0 : (header_block first lines ++ tail).drop 0 = first ++ [13, 10] ++
      ((lines.map (fun l => l ++ [13, 10])).flatten ++ [13, 10] ++ tail) := by
    simp [header_block, List.append_assoc]
  have hlen1 : first.length + 2 + ((lines.map (fun l => l ++ [13, 10])).flatten).length + 2
      ≤ len := by
    simp only [header_block, List.length_append, List.length_cons, List.length_nil] at hlen
    omega
  unfold ws_http_find_header_value
  rw [if_neg (by omega), http_eol_crlf _ 0 none first _ hbuf0 hfirst]
  simp only
  apply ws_http_find_header_loop_refines _ len name out_cap tail hcap lines _ _ hlines
  · have : (header_block first lines ++ tail).drop (0 + first.length + 2) =
        ((header_block first lines ++ tail).drop 0).drop (first.length + 2) := by
      rw [List.drop_drop, Nat.add_assoc]
    rw [this, hbuf0, List.drop_append_of_le_length (by simp),
      List.drop_of_length_le (by simp), List.nil_append]
  · omega
  · omega

/-- A header block with at least one header line ends with CR LF CR LF. -/
theorem header_block_ends (first : List Nat) (lines : List (List Nat)) (h : lines ≠ []) :
    ∃ pre, header_block first lines = pre ++ [13, 10, 13, 10] := by
  refine ⟨first ++ [13, 10] ++ (lines.dropLast.map (fun l => l ++ [13, 10])).flatten ++
    lines.getLast h, ?_⟩
  unfold header_block
  conv_lhs => rw [← List.dropLast_append_getLast h]
  simp [List.append_assoc]

/-- The header lines of the request of `ws_client_handshake`; the raw extra
headers are the lines `extra`, each ended by CR LF. -/
theorem ws_client_request_block (cfg : ws_client_cfg_t) (key : List Nat)
    (extra : List (List Nat)) (hextra : extra_header_lines cfg.extra_headers extra) :
    ws_client_request cfg key =
      header_block (cstr "GET " ++ cfg.resource ++ cstr " HTTP/1.1")
        ([cstr "Host: " ++ cfg.host, cstr "Upgrade: websocket", cstr "Connection: Upgrade",
          cstr "Sec-WebSocket-Key" ++ [58, 32] ++ key, cstr "Sec-WebSocket-Version: 13"] ++
          ((cfg.origin.map (fun o => cstr "Origin: " ++ o)).toList ++
            (cfg.subprotocol.map (fun sp => cstr "Sec-WebSocket-Protocol: " ++ sp)).toList ++
            extra)) := by
  have e1 : cstr " HTTP/1.1\r\n" = cstr " HTTP/1.1" ++ [13, 10] := by decide
  have e2 : cstr "\r\n" = [13, 10] := by decide
  have e3 : cstr "Upgrade: websocket\r\n" = cstr "Upgrade: websocket" ++ [13, 10] := by decide
  have e4 : cstr "Connection: Upgrade\r\n" = cstr "Connection: Upgrade" ++ [13, 10] := by decide
  have e5 : cstr "Sec-WebSocket-Key: " = cstr "Sec-WebSocket-Key" ++ [58, 32] := by decide
  have e6 : cstr "Sec-WebSocket-Version: 13\r\n" = cstr "Sec-WebSocket-Version: 13" ++ [13, 10] := by
    decide
  unfold extra_header_lines at hextra
  unfold ws_client_request header_block
  rw [e1, e2, e3, e4, e5, e6]
  cases hx : cfg.extra_headers with
  | none =>
    rw [hx] at hextra
    simp only at hextra
    subst hextra
    cases cfg.origin <;> cases cfg.subprotocol <;>
      simp only [List.map_cons, List.map_nil, List.flatten_cons, List.flatten_nil,
        List.append_assoc, List.nil_append, List.append_nil, List.cons_append, List.map_append,
        List.flatten_append, Option.map, Option.toList]
  | some t =>
    rw [hx] at hextra
    simp only at hextra
    subst hextra
    cases cfg.origin <;> cases cfg.subprotocol <;>
      simp only [List.map_cons, List.map_nil, List.flatten_cons, List.flatten_nil,
        List.append_assoc, List.nil_append, List.append_nil, List.cons_append, List.map_append,
        List.flatten_append, Option.map, Option.toList]

theorem cstr_plain_of_decide (l : List Nat) (h : l.all (fun b => b != 10 && b != 0) = true) :
    ∀ b ∈ l, b ≠ 10 ∧ b ≠ 0 := by
  intro b hb
  have := List.all_eq_true.1 h b hb
  simpa using this

theorem append_plain (a b : List Nat) (ha : ∀ x ∈ a, x ≠ 10 ∧ x ≠ 0)
    (hb : ∀ x ∈ b, x ≠ 10 ∧ x ≠ 0) : ∀ x ∈ a ++ b, x ≠ 10 ∧ x ≠ 0 := by
  intro x hx
  rcases List.mem_append.1 hx with h | h
  · exact ha x h
  · exact hb x h

/-! ### Where a header block ends, and `ws_recv_until` on any delivery of it -/

/-- A match of CR LF CR LF at `i` gives the four bytes at `i .. i + 3`. -/
theorem mem_eq_crlf_quad (buf : List Nat) (i : Nat)
    (h : mem_eq buf i [13, 10, 13, 10] 4 = true) :
    buf.getD i 0 = 13 ∧ buf.getD (i + 1) 0 = 10 ∧ buf.getD (i + 2) 0 = 13 ∧
      buf.getD (i + 3) 0 = 10 := by
  unfold mem_eq at h
  rw [beq_iff_eq] at h
  have h0 : ((buf.drop i).take 4).getD 0 0 = 13 := by rw [h]; rfl
  have h1 : ((buf.drop i).take 4).getD 1 0 = 10 := by rw [h]; rfl
  have h2 : ((buf.drop i).take 4).getD 2 0 = 13 := by rw [h]; rfl
  have h3 : ((buf.drop i).take 4).getD 3 0 = 10 := by rw [h]; rfl
  simp only [List.getD_eq_getElem?_getD, List.getElem?_take, List.getElem?_drop] at h0 h1 h2 h3 ⊢
  simpa using ⟨h0, h1, h2, h3⟩

/-- The test `memcmp(buf + i, pat, n) == 0` past a first part of the buffer. -/
theorem mem_eq_append_right (a x : List Nat) (i : Nat) (pat : List Nat) (n : Nat)
    (h : a.length ≤ i) : mem_eq (a ++ x) i pat n = mem_eq x (i - a.length) pat n := by
  unfold mem_eq
  rw [List.drop_append_eq_append_drop, List.drop_of_length_le h, List.nil_append]

/-- The test `memcmp(buf + i, pat, n) == 0` looks at `buf[i .. i + n)` only. -/
theorem mem_eq_take (buf : List Nat) (len i : Nat) (pat : List Nat) (n : Nat)
    (h : i + n ≤ len) : mem_eq (buf.take len) i pat n = mem_eq buf i pat n := by
  unfold mem_eq
  rw [List.drop_take, List.take_take, Nat.min_eq_left (by omega)]

/-- A match of CR LF CR LF that begins within a line without LF or within its
CR LF begins at the CR of the line end, and CR LF follows. -/
theorem line_delim_at_end (L X : List Nat) (hL : ∀ b ∈ L, b ≠ 10) (i : Nat)
    (hi : i < L.length + 2)
    (h : mem_eq (L ++ [13, 10] ++ X) i [13, 10, 13, 10] 4 = true) :
    i = L.length ∧ X.getD 0 0 = 13 ∧ X.getD 1 0 = 10 := by
  obtain ⟨q0, q1, q2, q3⟩ := mem_eq_crlf_quad _ _ h
  rw [List.append_assoc] at q0 q1 q2 q3
  by_cases c1 : i + 1 < L.length
  · rw [List.getD_append _ _ _ _ c1, List.getD_eq_getElem _ _ c1] at q1
    exact absurd q1 (hL _ (List.getElem_mem _))
  by_cases c2 : i + 1 = L.length
  · rw [List.getD_append_right _ _ _ _ (by omega), c2, Nat.sub_self] at q1
    simp at q1
  by_cases c3 : i = L.length
  · subst c3
    rw [List.getD_append_right _ _ _ _ (by omega)] at q2 q3
    rw [show L.length + 2 - L.length = 2 by omega] at q2
    rw [show L.length + 3 - L.length = 3 by omega] at q3
    exact ⟨rfl, by simpa using q2, by simpa using q3⟩
  · have e : i = L.length + 1 := by omega
    subst e
    rw [List.getD_append_right _ _ _ _ (by omega),
      show L.length + 1 - L.length = 1 by omega] at q0
    simp at q0

/-- In a header block whose first line holds no LF and whose header lines are
non-empty and hold no LF, followed by anything, no CR LF CR LF begins before
the one that ends the block. -/
theorem header_lines_no_early_delim (tail : List Nat) :
    ∀ (lines : List (List Nat)) (L : List Nat) (i : Nat), (∀ b ∈ L, b ≠ 10) →
      (∀ l ∈ lines, l ≠ [] ∧ ∀ b ∈ l, b ≠ 10) →
      mem_eq (L ++ [13, 10] ++ ((lines.map (fun l => l ++ [13, 10])).flatten ++ [13, 10] ++ tail))
        i [13, 10, 13, 10] 4 = true →
      L.length + 2 + ((lines.map (fun l => l ++ [13, 10])).flatten).length + 2 ≤ i + 4 := by
  intro lines
  induction lines with
  | nil =>
    intro L i hL _ h
    simp only [List.map_nil, List.flatten_nil, List.length_nil, Nat.add_zero]
    by_cases hi : i < L.length + 2
    · have := (line_delim_at_end L _ hL i hi h).1
      omega
    · omega
  | cons L1 ls ih =>
    intro L i hL hlines h
    have hL1 := hlines L1 (by simp)
    have hflat : ((L1 :: ls).map (fun l => l ++ [13, 10])).flatten ++ [13, 10] ++ tail =
        L1 ++ [13, 10] ++ ((ls.map (fun l => l ++ [13, 10])).flatten ++ [13, 10] ++ tail) := by
      simp [List.append_assoc]
    rw [hflat] at h
    by_cases hi : i < L.length + 2
    · exfalso
      obtain ⟨_, _, hx1⟩ := line_delim_at_end L _ hL i hi h
      have hlen : 0 < L1.length := List.length_pos.2 hL1.1
      rw [List.append_assoc] at hx1
      by_cases c : 1 < L1.length
      · rw [List.getD_append _ _ _ _ c, List.getD_eq_getElem _ _ c] at hx1
        exact hL1.2 _ (List.getElem_mem _) hx1
      · rw [List.getD_append_right _ _ _ _ (by omega),
          show 1 - L1.length = 0 by omega] at hx1
        simp at hx1
    · rw [mem_eq_append_right (L ++ [13, 10]) _ i _ _ (by simp; omega)] at h
      have := ih L1 (i - (L ++ [13, 10]).length) hL1.2
        (fun l hl => hlines l (by simp [hl])) h
      simp only [List.map_cons, List.flatten_cons, List.length_append, List.length_cons,
        List.length_nil] at this ⊢
      omega

/-- The same for `header_block`. -/
theorem header_block_no_early_delim (first : List Nat) (lines : List (List Nat))
    (tail : List Nat) (i : Nat) (hfirst : ∀ b ∈ first, b ≠ 10)
    (hlines : ∀ l ∈ lines, l ≠ [] ∧ ∀ b ∈ l, b ≠ 10)
    (h : mem_eq (header_block first lines ++ tail) i [13, 10, 13, 10] 4 = true) :
    (header_block first lines).length ≤ i + 4 := by
  have hb : header_block first lines ++ tail = first ++ [13, 10] ++
      ((lines.map (fun l => l ++ [13, 10])).flatten ++ [13, 10] ++ tail) := by
    simp [header_block, List.append_assoc]
  rw [hb] at h
  have := header_lines_no_early_delim tail lines first i hfirst hlines h
  simp only [header_block, List.length_append, List.length_cons, List.length_nil]
  omega

/-- A header block ends with CR LF CR LF. -/
theorem header_block_delim (first : List Nat) (lines : List (List Nat)) :
    ∃ pre, header_block first lines = pre ++ [13, 10, 13, 10] := by
  by_cases h : lines = []
  · subst h
    exact ⟨first, by simp [header_block]⟩
  · exact header_block_ends first lines h

/-- The delimiter search succeeds once the bytes received hold a delimiter. -/
theorem has_delim_of_match (buf : List Nat) (len i : Nat) (hi : i + 4 ≤ len)
    (h : mem_eq buf i [13, 10, 13, 10] 4 = true) :
    has_delim buf len [13, 10, 13, 10] 4 = true := by
  unfold has_delim
  rw [List.any_eq_true]
  exact ⟨i, by simp; omega, h⟩

/-- A successful delimiter search found a match within the bytes received. -/
theorem match_of_has_delim (buf : List Nat) (len : Nat)
    (h : has_delim buf len [13, 10, 13, 10] 4 = true) :
    ∃ i, i + 4 ≤ len ∧ mem_eq buf i [13, 10, 13, 10] 4 = true := by
  unfold has_delim at h
  rw [List.any_eq_true] at h
  obtain ⟨i, hi, hm⟩ := h
  rw [List.mem_range] at hi
  exact ⟨i, by omega, hm⟩

/-- The loop of `ws_recv_until` on a transport that has the bytes `A` ready, of
which the first `n` end with the first CR LF CR LF of `A`, in a buffer that is
larger than `A`: however the bytes are cut into reads, the loop returns `WS_OK`
once at least `n` of them are in the buffer. -/
theorem ws_recv_until_loop_block (nc : NetCodes) (hnd : nc.NET_NO_DATA ≤ 0)
    (hto : nc.NET_TIMEOUT ≤ 0) (heof : nc.NET_EOF ≤ 0) (buf_cap : Nat)
    (hcap31 : buf_cap ≤ 2 ^ 31) (A : List Nat) (n : Nat) (hn4 : 4 ≤ n) (hn : n ≤ A.length)
    (hend : mem_eq A (n - 4) [13, 10, 13, 10] 4 = true)
    (hno : ∀ i, mem_eq A i [13, 10, 13, 10] 4 = true → n ≤ i + 4)
    (hfit : A.length + 2 ≤ buf_cap) :
    ∀ (fuel : Nat) (w : World) (buf : List Nat) (len : Nat), rx_weight w.rx < fuel →
      len ≤ A.length → buf.take len = A.take len → rx_avail w.rx = A.drop len →
      ∃ got buf1 w1,
        ws_recv_until_loop nc buf_cap [13, 10, 13, 10] 4 fuel w buf len =
          some (WS_OK, buf1, got, w1) ∧
        n ≤ got ∧ got ≤ A.length ∧ buf1.take got = A.take got ∧
        rx_avail w1.rx = A.drop got ∧ RecvOnly w w1 := by
  intro fuel
  induction fuel with
  | zero => intro w buf len h; omega
  | succ fuel ih =>
    intro w buf len hfuel hlen hbuf hrx
    have hlb : len ≤ buf.length := by
      have := congrArg List.length hbuf
      simp only [List.length_take] at this
      omega
    have hmem : ∀ i, i + 4 ≤ len →
        mem_eq buf i [13, 10, 13, 10] 4 = mem_eq A i [13, 10, 13, 10] 4 := by
      intro i hi
      rw [← mem_eq_take buf len i _ 4 hi, hbuf, mem_eq_take A len i _ 4 hi]
    rw [ws_recv_until_loop, if_pos (by omega)]
    by_cases h2 : len ≥ 4 ∧ has_delim buf len [13, 10, 13, 10] 4 = true
    · rw [if_pos h2]
      obtain ⟨i, hi, hm⟩ := match_of_has_delim buf len h2.2
      rw [hmem i hi] at hm
      exact ⟨len, buf, w, rfl, by have := hno i hm; omega, hlen, hbuf, hrx, RecvOnly.same w⟩
    rw [if_neg h2]
    have hlt : len < n := by
      by_contra hge
      apply h2
      refine ⟨by omega, has_delim_of_match buf len (n - 4) (by omega) ?_⟩
      rw [hmem (n - 4) (by omega)]
      exact hend
    have hne : rx_avail w.rx ≠ [] := by
      rw [hrx]
      intro h0
      have := congrArg List.length h0
      simp only [List.length_drop, List.length_nil] at this
      omega
    have hreq : toInt32 (buf_cap - 1 - len) = ((buf_cap - 1 - len : Nat) : Int) :=
      toInt32_of_lt _ (by omega)
    obtain ⟨k, w1, hr, hk0, hkn, hav, hro⟩ :=
      net_sock_recv_data w (toInt32 (buf_cap - 1 - len)) (by rw [hreq]; omega) hne
    obtain ⟨_, _, f3, f4, _⟩ := net_sock_recv_facts w (toInt32 (buf_cap - 1 - len))
    rw [hr] at f3 f4
    simp only at f3 f4
    have hbl : ((rx_avail w.rx).take k).length = k := by
      have := (f4 (by omega)).1
      rw [Int.toNat_ofNat] at this
      exact this
    have hkA : len + k ≤ A.length := by
      rw [hrx, List.length_take, List.length_drop] at hbl
      omega
    rw [hr]
    simp only []
    rw [if_neg (by omega), if_neg (by omega), if_neg (by omega), Int.toNat_ofNat]
    have hw : writeAt (writeAt buf len ((rx_avail w.rx).take k)) (len + k) [0] =
        writeAt buf len ((rx_avail w.rx).take k ++ [0]) := by
      have := writeAt_writeAt buf ((rx_avail w.rx).take k) [0] len
      rw [hbl] at this
      exact this
    rw [hw]
    obtain ⟨got, buf1, w2, h, hg1, hg2, hg3, hg4, hro2⟩ :=
      ih w1 (writeAt buf len ((rx_avail w.rx).take k ++ [0])) (len + k)
        (by have := f3 (by omega); omega) hkA
        (by
          have := writeAt_snoc_take buf ((rx_avail w.rx).take k) len hlb
          rw [hbl] at this
          rw [this, hbuf, hrx, List.take_add])
        (by rw [hav, hrx, List.drop_drop, Nat.add_comm])
    exact ⟨got, buf1, w2, h, hg1, hg2, hg3, hg4, hro.chain hro2⟩

/-- `ws_recv_until` with the delimiter CR LF CR LF on a transport that has
`block ++ more` ready, where `block` ends with the first CR LF CR LF, in a
buffer with room for all of it: for every way the transport cuts the bytes into
reads it returns `WS_OK` with `block` at the start of the buffer. -/
theorem ws_recv_until_block (nc : NetCodes) (w : World) (buf : List Nat) (buf_cap out_len : Nat)
    (block more : List Nat)
    (hnd : nc.NET_NO_DATA ≤ 0) (hto : nc.NET_TIMEOUT ≤ 0) (heof : nc.NET_EOF ≤ 0)
    (hcap31 : buf_cap ≤ 2 ^ 31)
    (hend : ∃ pre, block = pre ++ [13, 10, 13, 10])
    (hno : ∀ i, mem_eq (block ++ more) i [13, 10, 13, 10] 4 = true → block.length ≤ i + 4)
    (hrx : rx_avail w.rx = block ++ more)
    (hfit : (block ++ more).length + 2 ≤ buf_cap) :
    ∃ tail got w1,
      ws_recv_until nc w buf buf_cap [13, 10, 13, 10] 4 out_len =
        some (WS_OK, block ++ tail, got, w1) ∧
      block.length ≤ got ∧ got ≤ (block ++ more).length ∧
      (block ++ tail).take got = (block ++ more).take got ∧
      rx_avail w1.rx = (block ++ more).drop got ∧ RecvOnly w w1 := by
  obtain ⟨pre, hpre⟩ := hend
  have hbl : block.length = pre.length + 4 := by rw [hpre]; simp
  have hend2 : mem_eq (block ++ more) (block.length - 4) [13, 10, 13, 10] 4 = true := by
    rw [hbl, hpre]
    simp [mem_eq]
  obtain ⟨got, buf1, w1, h, hg1, hg2, hg3, hg4, hro⟩ :=
    ws_recv_until_loop_block nc hnd hto heof buf_cap hcap31 (block ++ more) block.length
      (by omega) (by simp) hend2 hno hfit (rx_weight w.rx + 1) w
      (writeAt buf 0 (List.replicate buf_cap 0)) 0 (by omega) (Nat.zero_le _) (by simp)
      (by simpa using hrx)
  have hb1 : buf1 = block ++ buf1.drop block.length := by
    have e1 : buf1.take block.length = block := by
      have := congrArg (List.take block.length) hg3
      rw [List.take_take, List.take_take, Nat.min_eq_left hg1] at this
      rw [this, List.take_append_of_le_length (le_refl _), List.take_length]
    conv_lhs => rw [← List.take_append_drop block.length buf1, e1]
  refine ⟨buf1.drop block.length, got, w1, ?_, hg1, hg2, ?_, hg4, hro⟩
  · unfold ws_recv_until
    rw [if_neg (by omega), ← hb1]
    exact h
  · rw [← hb1]; exact hg3

/-! ### The server handshake against the specification's condition -/

/-- The test `memcmp(rxbuf, "GET ", 4) == 0` on a buffer that begins with a
header block looks at the request line. -/
theorem header_block_begins_get (first : List Nat) (lines : List (List Nat)) (tail : List Nat) :
    mem_eq (header_block first lines ++ tail) 0 (cstr "GET ") 4 =
      (first.take 4 == cstr "GET ") := by
  have e : cstr "GET " = [71, 69, 84, 32] := by decide
  rw [e]
  unfold mem_eq header_block
  rcases first with _ | ⟨a, _ | ⟨b, _ | ⟨c, _ | ⟨d, t⟩⟩⟩⟩ <;> simp

/-- C22 as amended: server handshake validation. Let the receive buffer hold,
after `ws_recv_until` has returned `WS_OK`, a header block with CRLF line
endings (request line `first`, header lines `lines`, blank line) within the
bytes received; let the transport accept what is offered and the key have at
most 92 characters. Then `ws_server_handshake` returns `WS_OK` and writes the
101 response for the key, in a single send call and nothing else, exactly when the
request begins with `GET `, has a `Sec-WebSocket-Key` header, has an `Upgrade`
header whose value, in its first 63 bytes, equals `websocket` without regard to
case, and has a `Connection` header whose value, in its first 63 bytes,
contains the token `Upgrade`; otherwise it returns `WS_ERR` and makes no send
call. The value of a header is that of the first header line with that name
that has at least one character after the colon. -/
theorem server_handshake_validation (nc : NetCodes) (c : ws_server_client_t) (w : World)
    (first : List Nat) (lines : List (List Nat)) (tail : List Nat) (got : Nat) (w1 : World)
    (hfirst : ∀ b ∈ first, b ≠ 10 ∧ b ≠ 0)
    (hlines : ∀ l ∈ lines, l ≠ [] ∧ ∀ b ∈ l, b ≠ 10 ∧ b ≠ 0)
    (hrecv : ws_recv_until nc w c.rxbuf c.rxcap (cstr "\r\n\r\n") 4 0 =
      some (WS_OK, header_block first lines ++ tail, got, w1))
    (hgot : (header_block first lines).length ≤ got)
    (htx : w.txScript = [])
    (hkey : (request_key lines).length ≤ 92) :
    ∃ w2, ws_server_handshake nc c w =
        some (if handshake_request_ok header_lookup_amended 128 64 64 first lines = true
            then WS_OK else WS_ERR,
          { c with rxbuf := header_block first lines ++ tail }, w2) ∧
      w2.tx = w.tx ++
        (if handshake_request_ok header_lookup_amended 128 64 64 first lines = true then
          [ws_server_response (ws_compute_accept (request_key lines) [] 64).2]
        else []) := by
  have hro := ws_recv_until_recv_only nc w c.rxbuf c.rxcap (cstr "\r\n\r\n") 4 0 _ hrecv
  simp only at hro
  have htx1 : w1.tx = w.tx := hro.2.1
  obtain ⟨buf, hbuf⟩ : ∃ buf, buf = header_block first lines ++ tail := ⟨_, rfl⟩
  have hk := ws_http_find_header_value_block first lines tail (cstr "Sec-WebSocket-Key") 128
    got hfirst hlines (by decide) hgot
  have hu := ws_http_find_header_value_block first lines tail (cstr "Upgrade") 64
    got hfirst hlines (by decide) hgot
  have hcn := ws_http_find_header_value_block first lines tail (cstr "Connection") 64
    got hfirst hlines (by decide) hgot
  have hgetb := header_block_begins_get first lines tail
  have hg1 : 4 ≤ got := by
    simp only [header_block, List.length_append, List.length_cons, List.length_nil] at hgot
    omega
  rw [← hbuf] at hrecv hk hu hcn hgetb ⊢
  unfold request_key at hkey ⊢
  unfold handshake_request_ok
  generalize header_lookup_amended (cstr "Sec-WebSocket-Key") 128 lines = rk at hk hkey ⊢
  generalize header_lookup_amended (cstr "Upgrade") 64 lines = ru at hu ⊢
  generalize header_lookup_amended (cstr "Connection") 64 lines = rcn at hcn ⊢
  generalize (first.take 4 == cstr "GET ") = g at hgetb ⊢
  unfold ws_server_handshake
  rw [hrecv]
  simp only [ne_eq, not_true_eq_false, if_false]
  cases g with
  | false =>
    rw [if_pos (Or.inr hgetb)]
    exact ⟨w1, by simp, by simp [htx1]⟩
  | true =>
    rw [if_neg (by rw [hgetb]; simp; omega), hk]
    cases rk with
    | none => exact ⟨w1, by simp, by simp [htx1]⟩
    | some key =>
      simp only
      rw [hu]
      cases ru with
      | none => exact ⟨w1, by simp, by simp [htx1]⟩
      | some upgrade =>
        simp only
        by_cases hup : c_strcasecmp_eq upgrade (cstr "websocket") = false
        · rw [if_pos hup]
          have hup0 : ascii_ci_eq upgrade (cstr "websocket") = false := hup
          exact ⟨w1, by simp [hup0], by simp [hup0, htx1]⟩
        rw [if_neg hup, hcn]
        have hup1 : ascii_ci_eq upgrade (cstr "websocket") = true := by
          cases hh : ascii_ci_eq upgrade (cstr "websocket") with
          | true => rfl
          | false => exact absurd hh hup
        cases rcn with
        | none => exact ⟨w1, by simp, by simp [htx1]⟩
        | some conn =>
          simp only
          have hcs := ws_http_find_header_value_c_string _ _ _ _ _ hcn
          have htok : c_string_at (cstr "Upgrade") 0 = cstr "Upgrade" := by decide
          have hne : cstr "Upgrade" ≠ [] := by decide
          rw [ws_http_header_has_token_c_string conn (cstr "Upgrade") hcs htok hne]
          by_cases hspec : header_has_token_spec conn (cstr "Upgrade") = true
          swap
          · have hspec0 : header_has_token_spec conn (cstr "Upgrade") = false := by
              simpa using hspec
            simp only [hspec0]
            exact ⟨w1, by simp, by simp [htx1]⟩
          · simp only [hspec]
            have hkey1 : key.length ≤ 92 := by simpa using hkey
            obtain ⟨ha1, ha2⟩ := ws_compute_accept_ok key hkey1
            have hrl : (ws_server_response (ws_compute_accept key [] 64).2).length = 129 := by
              simp only [ws_server_response, List.length_append, ha2]
              decide
            simp only [Option.getD_some, Option.isSome_some, Bool.and_self, hup1, if_true]
            generalize hacc : ws_compute_accept key [] 64 = acc at ha1 ha2 hrl ⊢
            obtain ⟨rc2, accept⟩ := acc
            simp only at ha1 ha2 hrl ⊢
            rw [if_neg (by rw [ha1]; simp), if_neg (by omega),
              ws_send_all_accepting w1 _ _ (by rw [hro.1, htx]) (by omega) (by omega)]
            simp only [ne_eq, not_true_eq_false, if_false]
            refine ⟨_, rfl, ?_⟩
            simp only [htx1]
            rw [List.take_of_length_le (by omega)]

/-- Counterexamples for C22. (a) A request that begins with `GET `, has a key,
has `Upgrade: websocket` and whose `Connection` header (78 characters) ends
with the token `Upgrade` after two other tokens: the condition of the
specification holds for the whole values, and `ws_server_handshake` returns
`WS_ERR` and writes nothing, because only the first 63 characters of the value
reach `conn`. (b) A request whose `Sec-WebSocket-Key` header line ends with the
colon: it has the header, with a key of no characters, and
`ws_server_handshake` returns `WS_ERR`, because the lookup passes over a line
with nothing after the colon. -/
theorem server_handshake_validation_counterexample :
    (handshake_request_ok header_lookup_spec 256 256 256 (cstr "GET /chat HTTP/1.1")
        (sample_upgrade_lines "keep-alive, x-0123456789012345678901234567890123456789012345678901234, Upgrade") = true ∧
      (ws_server_handshake sample_codes
          { sample_server_client with rxbuf := List.replicate 2048 0 }
          (sample_world [RxEvent.data (header_block (cstr "GET /chat HTTP/1.1")
            (sample_upgrade_lines "keep-alive, x-0123456789012345678901234567890123456789012345678901234, Upgrade"))])).map
        (fun r => (r.1, r.2.2.tx)) = some (WS_ERR, [])) ∧
    (handshake_request_ok header_lookup_spec 256 256 256 (cstr "GET /chat HTTP/1.1")
        [cstr "Sec-WebSocket-Key:", cstr "Upgrade: websocket", cstr "Connection: Upgrade"]
        = true ∧
      (ws_server_handshake sample_codes
          { sample_server_client with rxbuf := List.replicate 2048 0 }
          (sample_world [RxEvent.data (header_block (cstr "GET /chat HTTP/1.1")
            [cstr "Sec-WebSocket-Key:", cstr "Upgrade: websocket",
              cstr "Connection: Upgrade"])])).map
        (fun r => (r.1, r.2.2.tx)) = some (WS_ERR, [])) :=
  ⟨⟨by decide!, by decide!⟩, ⟨by decide!, by decide!⟩⟩

/-- Witness for C22 as amended: the request with `Connection: keep-alive,
Upgrade` and the key `dGhlIHNhbXBsZSBub25jZQ==`, delivered in two reads with a
no-data return between them, passes the checks and is answered with the 101
response. -/
theorem server_handshake_validation_witness :
    handshake_request_ok header_lookup_amended 128 64 64 (cstr "GET /chat HTTP/1.1")
        (sample_upgrade_lines "keep-alive, Upgrade") = true ∧
    ∃ w2, ws_server_handshake sample_codes
          { sample_server_client with rxbuf := List.replicate 2048 0 }
          (sample_world
            [RxEvent.data ((header_block (cstr "GET /chat HTTP/1.1")
              (sample_upgrade_lines "keep-alive, Upgrade")).take 50),
             RxEvent.code 3,
             RxEvent.data ((header_block (cstr "GET /chat HTTP/1.1")
              (sample_upgrade_lines "keep-alive, Upgrade")).drop 50)]) =
        some (if handshake_request_ok header_lookup_amended 128 64 64 (cstr "GET /chat HTTP/1.1")
              (sample_upgrade_lines "keep-alive, Upgrade") = true then WS_OK else WS_ERR,
          { sample_server_client with
              rxbuf := (header_block (cstr "GET /chat HTTP/1.1")
                (sample_upgrade_lines "keep-alive, Upgrade") ++ List.replicate 1909 0) }, w2) ∧
      w2.tx = (sample_world
            [RxEvent.data ((header_block (cstr "GET /chat HTTP/1.1")
              (sample_upgrade_lines "keep-alive, Upgrade")).take 50),
             RxEvent.code 3,
             RxEvent.data ((header_block (cstr "GET /chat HTTP/1.1")
              (sample_upgrade_lines "keep-alive, Upgrade")).drop 50)]).tx ++
        (if handshake_request_ok header_lookup_amended 128 64 64 (cstr "GET /chat HTTP/1.1")
            (sample_upgrade_lines "keep-alive, Upgrade") = true then
          [ws_server_response (ws_compute_accept
            (request_key (sample_upgrade_lines "keep-alive, Upgrade")) [] 64).2]
          else []) :=
  ⟨by decide!, server_handshake_validation sample_codes
    { sample_server_client with rxbuf := List.replicate 2048 0 }
    (sample_world
      [RxEvent.data ((header_block (cstr "GET /chat HTTP/1.1")
        (sample_upgrade_lines "keep-alive, Upgrade")).take 50),
       RxEvent.code 3,
       RxEvent.data ((header_block (cstr "GET /chat HTTP/1.1")
        (sample_upgrade_lines "keep-alive, Upgrade")).drop 50)])
    (cstr "GET /chat HTTP/1.1") (sample_upgrade_lines "keep-alive, Upgrade")
    (List.replicate 1909 0) 139 (sample_world [])
    (by decide) (by decide!) (by decide!) (by decide!) rfl (by decide!)⟩

/-! ### The two handshake engines against each other -/

/-- `ws_server_handshake` accepts the request that `ws_client_handshake` builds
for the key `key` when the transport has it ready, however it cuts it into
reads, and the receive buffer has room for what is ready; it answers with the
101 response for the accept value of `key`. -/
theorem ws_server_handshake_accepts_request (nc : NetCodes) (c : ws_server_client_t)
    (w : World) (cfg : ws_client_cfg_t) (key : List Nat) (after : List Nat)
    (hnd : nc.NET_NO_DATA ≤ 0) (hto : nc.NET_TIMEOUT ≤ 0) (heof : nc.NET_EOF ≤ 0)
    (extra : List (List Nat)) (hextra : extra_header_lines cfg.extra_headers extra)
    (hextrap : ∀ l ∈ extra, l ≠ [] ∧ ∀ b ∈ l, b ≠ 10 ∧ b ≠ 0)
    (hhost : ∀ b ∈ cfg.host, b ≠ 10 ∧ b ≠ 0)
    (hres : ∀ b ∈ cfg.resource, b ≠ 10 ∧ b ≠ 0)
    (horigin : ∀ b ∈ cfg.origin.getD [], b ≠ 10 ∧ b ≠ 0)
    (hsub : ∀ b ∈ cfg.subprotocol.getD [], b ≠ 10 ∧ b ≠ 0)
    (hkey : ∀ b ∈ key, b ≠ 0 ∧ b ≠ 10 ∧ b ≠ 9 ∧ b ≠ 32) (hklen : key.length ≤ 92)
    (hrx : rx_avail w.rx = ws_client_request cfg key ++ after)
    (htx : w.txScript = [])
    (hfit : (ws_client_request cfg key).length + after.length + 2 ≤ c.rxcap)
    (hcap31 : c.rxcap ≤ 2 ^ 31) :
    ∃ c1 w2, ws_server_handshake nc c w = some (WS_OK, c1, w2) ∧
      w2.tx = w.tx ++ [ws_server_response (ws_compute_accept key [] 64).2] := by
  have hblock := ws_client_request_block cfg key extra hextra
  obtain ⟨more, hmore, hmorep⟩ : ∃ more : List (List Nat),
      more = (cfg.origin.map (fun o => cstr "Origin: " ++ o)).toList ++
          (cfg.subprotocol.map (fun sp => cstr "Sec-WebSocket-Protocol: " ++ sp)).toList ++
          extra ∧ ∀ l ∈ more, l ≠ [] ∧ ∀ b ∈ l, b ≠ 10 ∧ b ≠ 0 := by
    refine ⟨_, rfl, ?_⟩
    intro l hl
    rcases List.mem_append.1 hl with h | h
    · rcases List.mem_append.1 h with h | h
      · cases ho : cfg.origin with
        | none => rw [ho] at h; simp at h
        | some o =>
          rw [ho] at h horigin
          simp only [Option.map, Option.toList, List.mem_singleton] at h
          subst h
          exact ⟨by simp [cstr], append_plain _ _ (cstr_plain_of_decide _ (by decide))
            horigin⟩
      · cases hs : cfg.subprotocol with
        | none => rw [hs] at h; simp at h
        | some sp =>
          rw [hs] at h hsub
          simp only [Option.map, Option.toList, List.mem_singleton] at h
          subst h
          exact ⟨by simp [cstr], append_plain _ _ (cstr_plain_of_decide _ (by decide))
            hsub⟩
    · exact hextrap l h
  rw [← hmore] at hblock
  obtain ⟨first, hfirst⟩ : ∃ first, first = cstr "GET " ++ cfg.resource ++ cstr " HTTP/1.1" :=
    ⟨_, rfl⟩
  obtain ⟨lines, hlines⟩ : ∃ lines, lines =
      [cstr "Host: " ++ cfg.host, cstr "Upgrade: websocket", cstr "Connection: Upgrade",
        cstr "Sec-WebSocket-Key" ++ [58, 32] ++ key, cstr "Sec-WebSocket-Version: 13"] ++ more :=
    ⟨_, rfl⟩
  rw [← hfirst, ← hlines] at hblock
  have hfirstp : ∀ b ∈ first, b ≠ 10 ∧ b ≠ 0 := by
    rw [hfirst]
    exact append_plain _ _ (append_plain _ _ (cstr_plain_of_decide _ (by decide)) hres)
      (cstr_plain_of_decide _ (by decide))
  have hkeyp : ∀ b ∈ key, b ≠ 10 ∧ b ≠ 0 := fun b hb => ⟨(hkey b hb).2.1, (hkey b hb).1⟩
  have hlinesp : ∀ l ∈ lines, l ≠ [] ∧ ∀ b ∈ l, b ≠ 10 ∧ b ≠ 0 := by
    intro l hl
    rw [hlines] at hl
    rcases List.mem_append.1 hl with h | h
    · simp only [List.mem_cons, List.mem_singleton, List.mem_nil_iff, or_false] at h
      rcases h with h | h | h | h | h
      · subst h
        exact ⟨by simp [cstr], append_plain _ _ (cstr_plain_of_decide _ (by decide)) hhost⟩
      · subst h
        exact ⟨by decide, cstr_plain_of_decide _ (by decide)⟩
      · subst h
        exact ⟨by decide, cstr_plain_of_decide _ (by decide)⟩
      · subst h
        exact ⟨by simp [cstr], append_plain _ _ (append_plain _ _
          (cstr_plain_of_decide _ (by decide)) (cstr_plain_of_decide _ (by decide))) hkeyp⟩
      · subst h
        exact ⟨by decide, cstr_plain_of_decide _ (by decide)⟩
    · exact hmorep l h
  have hd : cstr "\r\n\r\n" = [13, 10, 13, 10] := by decide
  obtain ⟨tail, got, w1, hrecv, hgot, _, _, _, hro⟩ := ws_recv_until_block nc w c.rxbuf c.rxcap 0
    (header_block first lines) after hnd hto heof hcap31 (header_block_delim first lines)
    (fun i h => header_block_no_early_delim first lines after i
      (fun b hb => (hfirstp b hb).1)
      (fun l hl => ⟨(hlinesp l hl).1, fun b hb => ((hlinesp l hl).2 b hb).1⟩) h)
    (by rw [hrx, hblock]) (by rw [← hblock]; simp only [List.length_append]; omega)
  have h4 : 4 ≤ (header_block first lines).length := by
    simp only [header_block, List.length_append, List.length_cons, List.length_nil]
    omega
  -- the lookups
  have hlk : header_lookup_amended (cstr "Sec-WebSocket-Key") 128 lines = some key := by
    have h1 : header_line_named (cstr "Sec-WebSocket-Key") (cstr "Host: " ++ cfg.host) = false :=
      header_line_named_first _ _ (by decide) (by show c_tolower 72 ≠ c_tolower 83; decide)
    have h2 : header_line_named (cstr "Sec-WebSocket-Key") (cstr "Upgrade: websocket") = false := by
      decide
    have h3 : header_line_named (cstr "Sec-WebSocket-Key") (cstr "Connection: Upgrade") = false := by
      decide
    have h4 : header_line_named (cstr "Sec-WebSocket-Key")
        (cstr "Sec-WebSocket-Key" ++ [58, 32] ++ key) = true := by
      unfold header_line_named
      rw [List.append_assoc, List.take_append_of_le_length (le_refl _), List.take_length,
        List.getD_append_right _ _ _ _ (le_refl _)]
      simp [ascii_ci_eq]
    have h5 : (cstr "Sec-WebSocket-Key").length + 1 <
        (cstr "Sec-WebSocket-Key" ++ [58, 32] ++ key).length := by
      simp
    rw [hlines]
    simp only [header_lookup_amended, List.cons_append, List.nil_append, List.find?_cons, h1, h2,
      h3, h4, h5, Bool.false_and, Bool.true_and, decide_True, Option.map_some']
    rw [header_line_value_plain _ key 128 (fun b hb => ⟨(hkey b hb).2.2.1, (hkey b hb).2.2.2⟩)
      (by omega)]
  have hlu : header_lookup_amended (cstr "Upgrade") 64 lines = some (cstr "websocket") := by
    have h1 : header_line_named (cstr "Upgrade") (cstr "Host: " ++ cfg.host) = false :=
      header_line_named_first _ _ (by decide) (by show c_tolower 72 ≠ c_tolower 85; decide)
    have h2 : (header_line_named (cstr "Upgrade") (cstr "Upgrade: websocket") &&
        decide ((cstr "Upgrade").length + 1 < (cstr "Upgrade: websocket").length)) = true := by
      decide
    have h3 : header_line_value (cstr "Upgrade") (cstr "Upgrade: websocket") 64 =
        cstr "websocket" := by decide
    rw [hlines]
    simp only [header_lookup_amended, List.cons_append, List.nil_append, List.find?_cons, h1, h2,
      h3, Bool.false_and, Option.map_some']
  have hlc : header_lookup_amended (cstr "Connection") 64 lines = some (cstr "Upgrade") := by
    have h1 : header_line_named (cstr "Connection") (cstr "Host: " ++ cfg.host) = false :=
      header_line_named_first _ _ (by decide) (by show c_tolower 72 ≠ c_tolower 67; decide)
    have h2 : (header_line_named (cstr "Connection") (cstr "Upgrade: websocket") &&
        decide ((cstr "Connection").length + 1 < (cstr "Upgrade: websocket").length)) = false := by
      decide
    have h3 : (header_line_named (cstr "Connection") (cstr "Connection: Upgrade") &&
        decide ((cstr "Connection").length + 1 < (cstr "Connection: Upgrade").length)) = true := by
      decide
    have h4 : header_line_value (cstr "Connection") (cstr "Connection: Upgrade") 64 =
        cstr "Upgrade" := by decide
    rw [hlines]
    simp only [header_lookup_amended, List.cons_append, List.nil_append, List.find?_cons, h1, h2,
      h3, h4, Bool.false_and, Option.map_some']
  have hblen : (header_block first lines).length ≤ got := hgot
  have hfk := ws_http_find_header_value_block first lines tail (cstr "Sec-WebSocket-Key") 128
    got hfirstp hlinesp (by decide) hblen
  have hfu := ws_http_find_header_value_block first lines tail (cstr "Upgrade") 64
    got hfirstp hlinesp (by decide) hblen
  have hfc := ws_http_find_header_value_block first lines tail (cstr "Connection") 64
    got hfirstp hlinesp (by decide) hblen
  rw [hlk] at hfk
  rw [hlu] at hfu
  rw [hlc] at hfc
  have hget : mem_eq (header_block first lines ++ tail) 0 (cstr "GET ") 4 = true := by
    rw [hfirst]
    simp [header_block, mem_eq, cstr]
  have hge4 : ¬ (got < 4) := by omega
  obtain ⟨hok, h28⟩ := ws_compute_accept_ok key hklen
  have hresp : (ws_server_response (ws_compute_accept key [] 64).2).length = 129 := by
    have e : (cstr "HTTP/1.1 101 Switching Protocols\r\nUpgrade: websocket\r\nConnection: Upgrade\r\nSec-WebSocket-Accept: ").length = 97 := by decide
    have e2 : (cstr "\r\n\r\n").length = 4 := by decide
    simp only [ws_server_response, List.length_append, e, e2, h28]
  have htok : ws_http_header_has_token (some (cstr "Upgrade")) (some (cstr "Upgrade")) =
      some true := by decide!
  have hcase : c_strcasecmp_eq (cstr "websocket") (cstr "websocket") = true := by decide
  have hsend := ws_send_all_accepting w1
    (ws_server_response (ws_compute_accept key [] 64).2)
    (ws_server_response (ws_compute_accept key [] 64).2).length (by rw [hro.1, htx]) (by omega)
    (by omega)
  unfold ws_server_handshake
  rw [hd, hrecv]
  simp only [ne_eq, not_true_eq_false, if_false]
  rw [if_neg (by rw [hget]; simp [hge4]), hfk]
  simp only []
  rw [hfu]
  simp only []
  rw [if_neg (by rw [hcase]; simp), hfc]
  simp only []
  rw [htok]
  simp only []
  generalize ws_compute_accept key [] 64 = r at hok h28 hresp hsend ⊢
  obtain ⟨rc2, accept⟩ := r
  simp only at hok h28 hresp hsend ⊢
  subst hok
  rw [if_neg (by simp), if_neg (by omega), hsend]
  simp only [ne_eq, not_true_eq_false, if_false]
  exact ⟨_, _, rfl, by simp [hro.2.1]⟩

/-- A status line that begins `HTTP/1.1 101 ` passes `ws_http_status_is_101`. -/
theorem ws_http_status_is_101_start (rest : List Nat) (len : Nat) (hlen : 13 ≤ len) :
    ws_http_status_is_101 (cstr "HTTP/1.1 101 " ++ rest) len = true := by
  have hP : cstr "HTTP/1.1 101 " = [72, 84, 84, 80, 47, 49, 46, 49, 32, 49, 48, 49, 32] := by
    decide
  have hQ : cstr "HTTP/1." = [72, 84, 84, 80, 47, 49, 46] := by decide
  have hfind : (List.range len).find?
      (fun i => ([72, 84, 84, 80, 47, 49, 46, 49, 32, 49, 48, 49, 32] ++ rest).getD i 0 == 32) =
      some 8 := by
    apply find_range_first _ len 8 (by omega) (by simp)
    intro i hi
    interval_cases i <;> simp
  unfold ws_http_status_is_101
  rw [if_neg (by omega), hP, hQ]
  simp only [hfind]
  simp [mem_eq]
  omega

/-- The 101 response of `ws_server_handshake` as a header block. -/
theorem ws_server_response_block (accept : List Nat) :
    ws_server_response accept =
      header_block (cstr "HTTP/1.1 101 Switching Protocols")
        [cstr "Upgrade: websocket", cstr "Connection: Upgrade",
          cstr "Sec-WebSocket-Accept" ++ [58, 32] ++ accept] := by
  have e1 : cstr "HTTP/1.1 101 Switching Protocols\r\nUpgrade: websocket\r\nConnection: Upgrade\r\nSec-WebSocket-Accept: " =
      cstr "HTTP/1.1 101 Switching Protocols" ++ [13, 10] ++ (cstr "Upgrade: websocket" ++
        [13, 10] ++ (cstr "Connection: Upgrade" ++ [13, 10] ++
          (cstr "Sec-WebSocket-Accept" ++ [58, 32]))) := by decide
  have e2 : cstr "\r\n\r\n" = [13, 10, 13, 10] := by decide
  unfold ws_server_response header_block
  rw [e1, e2]
  simp only [List.map_cons, List.map_nil, List.flatten_cons, List.flatten_nil,
    List.append_assoc, List.nil_append, List.append_nil, List.cons_append]

/-- The header lines of the 101 response are non-empty and hold no LF or NUL. -/
theorem ws_server_response_lines_plain (accept : List Nat)
    (hplain : ∀ b ∈ accept, b ≠ 0 ∧ b ≠ 10 ∧ b ≠ 9 ∧ b ≠ 32) :
    ∀ l ∈ [cstr "Upgrade: websocket", cstr "Connection: Upgrade",
        cstr "Sec-WebSocket-Accept" ++ [58, 32] ++ accept],
      l ≠ [] ∧ ∀ b ∈ l, b ≠ 10 ∧ b ≠ 0 := by
  intro l hl
  simp only [List.mem_cons, List.mem_singleton, List.mem_nil_iff, or_false] at hl
  rcases hl with h | h | h
  · subst h
    exact ⟨by decide, cstr_plain_of_decide _ (by decide)⟩
  · subst h
    exact ⟨by decide, cstr_plain_of_decide _ (by decide)⟩
  · subst h
    exact ⟨by simp [cstr], append_plain _ _ (append_plain _ _
      (cstr_plain_of_decide _ (by decide)) (cstr_plain_of_decide _ (by decide)))
      (fun b hb => ⟨(hplain b hb).2.1, (hplain b hb).1⟩)⟩

/-- The search for the end of the header block in `ws_client_handshake` finds
the end of a block that ends with the first CR LF CR LF of the buffer. -/
theorem ws_find_hdr_end_block (block tail : List Nat) (got : Nat)
    (hend : ∃ pre, block = pre ++ [13, 10, 13, 10])
    (hno : ∀ i, mem_eq (block ++ tail) i [13, 10, 13, 10] 4 = true → block.length ≤ i + 4)
    (hgot : block.length ≤ got) :
    ws_find_hdr_end (block ++ tail) got = block.length := by
  obtain ⟨pre, hpre⟩ := hend
  have hbl : block.length = pre.length + 4 := by rw [hpre]; simp
  have hfind : (List.range (got - 3)).find?
      (fun j => mem_eq (block ++ tail) j [13, 10, 13, 10] 4) = some pre.length := by
    apply find_range_first _ _ pre.length (by omega)
    · rw [hpre]
      simp [mem_eq]
    · intro i hi
      cases hm : mem_eq (block ++ tail) i [13, 10, 13, 10] 4 with
      | false => rfl
      | true =>
        have := hno i hm
        omega
  unfold ws_find_hdr_end
  rw [hfind, hbl]

/-- The validation step of `ws_client_handshake` accepts the 101 response that
carries the accept value of the session's own key. -/
theorem ws_client_handshake_validate_ok (ctx : ws_client_ctx_t) (tail : List Nat)
    (hklen : ctx.key_b64.length ≤ 92)
    (hrx : ctx.rxbuf = ws_server_response (ws_compute_accept ctx.key_b64 [] 64).2 ++ tail)
    (got : Nat) (hgot : 129 ≤ got) :
    (ws_client_handshake_validate ctx got).1 = WS_OK := by
  obtain ⟨hok, h28⟩ := ws_compute_accept_ok ctx.key_b64 hklen
  have hplain := ws_compute_accept_plain ctx.key_b64 hklen
  obtain ⟨accept, hacc⟩ : ∃ a, a = (ws_compute_accept ctx.key_b64 [] 64).2 := ⟨_, rfl⟩
  have hca : ws_compute_accept ctx.key_b64 [] 64 = (WS_OK, accept) := by
    rw [hacc, ← hok]
  rw [← hacc] at h28 hplain hrx
  have hlinesp := ws_server_response_lines_plain accept hplain
  have hrl : (ws_server_response accept).length = 129 := by
    have e : (cstr "HTTP/1.1 101 Switching Protocols\r\nUpgrade: websocket\r\nConnection: Upgrade\r\nSec-WebSocket-Accept: ").length = 97 := by decide
    have e2 : (cstr "\r\n\r\n").length = 4 := by decide
    simp only [ws_server_response, List.length_append, e, e2, h28]
  have hend : ws_find_hdr_end ctx.rxbuf got = 129 := by
    rw [hrx, ← hrl]
    apply ws_find_hdr_end_block _ tail got
    · rw [ws_server_response_block]
      exact header_block_delim _ _
    · intro i h
      rw [ws_server_response_block] at h ⊢
      exact header_block_no_early_delim _ _ tail i
        (fun b hb => (cstr_plain_of_decide _ (by decide) b hb).1)
        (fun l hl => ⟨(hlinesp l hl).1, fun b hb => ((hlinesp l hl).2 b hb).1⟩) h
    · omega
  have hstatus : ws_http_status_is_101 ctx.rxbuf 129 = true := by
    have e : cstr "HTTP/1.1 101 Switching Protocols\r\nUpgrade: websocket\r\nConnection: Upgrade\r\nSec-WebSocket-Accept: " =
        cstr "HTTP/1.1 101 " ++ cstr "Switching Protocols\r\nUpgrade: websocket\r\nConnection: Upgrade\r\nSec-WebSocket-Accept: " := by decide
    rw [hrx]
    unfold ws_server_response
    rw [e, List.append_assoc, List.append_assoc, List.append_assoc]
    exact ws_http_status_is_101_start _ 129 (by omega)
  have hlookup : ws_http_find_header_value ctx.rxbuf 129 (cstr "Sec-WebSocket-Accept") 128 =
      some (some accept) := by
    rw [hrx, ws_server_response_block,
      ws_http_find_header_value_block _ _ tail (cstr "Sec-WebSocket-Accept") 128 129
        (cstr_plain_of_decide _ (by decide)) hlinesp (by decide) ?_]
    · have h1 : (header_line_named (cstr "Sec-WebSocket-Accept") (cstr "Upgrade: websocket") &&
          decide ((cstr "Sec-WebSocket-Accept").length + 1 < (cstr "Upgrade: websocket").length))
          = false := by decide
      have h2 : (header_line_named (cstr "Sec-WebSocket-Accept") (cstr "Connection: Upgrade") &&
          decide ((cstr "Sec-WebSocket-Accept").length + 1 < (cstr "Connection: Upgrade").length))
          = false := by decide
      have h4 : header_line_named (cstr "Sec-WebSocket-Accept")
          (cstr "Sec-WebSocket-Accept" ++ [58, 32] ++ accept) = true := by
        unfold header_line_named
        rw [List.append_assoc, List.take_append_of_le_length (le_refl _), List.take_length,
          List.getD_append_right _ _ _ _ (le_refl _)]
        simp [ascii_ci_eq]
      have h5 : (cstr "Sec-WebSocket-Accept").length + 1 <
          (cstr "Sec-WebSocket-Accept" ++ [58, 32] ++ accept).length := by
        simp
      simp only [header_lookup_amended, List.find?_cons, h1, h2, h4, h5, Bool.true_and,
        decide_True, Option.map_some']
      rw [header_line_value_plain _ accept 128
        (fun b hb => ⟨(hplain b hb).2.2.1, (hplain b hb).2.2.2⟩) (by omega)]
    · rw [← ws_server_response_block, hrl]
  unfold ws_client_handshake_validate
  by_cases hg : got > 129
  · simp [hend, hstatus, hlookup, hca, hg]
  · simp [hend, hstatus, hlookup, hca, hg]

theorem rand_bytes_rx : ∀ (n : Nat) (w : World), (rand_bytes n w).2.rx = w.rx
  | 0, _ => rfl
  | n + 1, w => by
    have := rand_bytes_rx n (rand w).2
    simp only [rand_bytes]
    exact this

theorem ws_client_key_eq (w : World) : ws_client_key w = base64_text (rand_bytes 16 w).1 := by
  unfold ws_client_key
  rw [ws_base64_key _ (rand_bytes_length 16 w)]
  rfl

theorem ws_client_key_plain (w : World) :
    (ws_client_key w).length = 24 ∧ ∀ b ∈ ws_client_key w, b ≠ 0 ∧ b ≠ 10 ∧ b ≠ 9 ∧ b ≠ 32 := by
  rw [ws_client_key_eq]
  refine ⟨?_, fun b hb => base64_text_plain _ b hb⟩
  rw [base64_text_length, rand_bytes_length]

/-- `ws_client_handshake` returns `WS_OK` when the transport takes its request
and has ready, however it cuts it into reads, the 101 response that carries the
accept value of its key, and the receive buffer has room for what is ready. -/
theorem ws_client_handshake_accepts_response (nc : NetCodes) (ctx : ws_client_ctx_t)
    (w : World) (after : List Nat)
    (hnd : nc.NET_NO_DATA ≤ 0) (hto : nc.NET_TIMEOUT ≤ 0) (heof : nc.NET_EOF ≤ 0)
    (htx : w.txScript = [])
    (hreq : (ws_client_request ctx.cfg (ws_client_key w)).length < 512)
    (hrx : rx_avail w.rx =
      ws_server_response (ws_compute_accept (ws_client_key w) [] 64).2 ++ after)
    (hcap : after.length + 131 ≤ ctx.rxcap) (hcap31 : ctx.rxcap ≤ 2 ^ 31) :
    ∃ ctx1 w1, ws_client_handshake nc ctx w = some (WS_OK, ctx1, w1) ∧
      w1.tx = w.tx ++ [ws_client_request ctx.cfg (ws_client_key w)] := by
  obtain ⟨hk24, hkplain⟩ := ws_client_key_plain w
  have hkey := ws_client_key_eq w
  obtain ⟨key, hkeydef⟩ : ∃ key, key = ws_client_key w := ⟨_, rfl⟩
  rw [← hkeydef] at hk24 hkplain hkey hreq hrx ⊢
  have hb64 := ws_base64_key _ (rand_bytes_length 16 w)
  rw [← hkey] at hb64
  have hreq0 : 0 < (ws_client_request ctx.cfg key).length := by
    have e : (cstr "GET ").length = 4 := by decide
    simp only [ws_client_request, List.length_append, e]
    omega
  obtain ⟨hok, h28⟩ := ws_compute_accept_ok key (by omega)
  have hresp := ws_server_response_block (ws_compute_accept key [] 64).2
  have hlinesp := ws_server_response_lines_plain _ (ws_compute_accept_plain key (by omega))
  have hrl : (ws_server_response (ws_compute_accept key [] 64).2).length = 129 := by
    have e : (cstr "HTTP/1.1 101 Switching Protocols\r\nUpgrade: websocket\r\nConnection: Upgrade\r\nSec-WebSocket-Accept: ").length = 97 := by decide
    have e2 : (cstr "\r\n\r\n").length = 4 := by decide
    simp only [ws_server_response, List.length_append, e, e2, h28]
  have hwa := rand_bytes_world 16 w
  have hwarx := rand_bytes_rx 16 w
  unfold ws_client_handshake
  split
  rename_i key_raw wa hrb
  rw [hrb] at hwa hwarx hb64
  simp only at hwa hwarx hb64
  split
  rename_i brc b64 hb
  rw [hb64] at hb
  simp only [Prod.mk.injEq] at hb
  obtain ⟨hbrc, hbt⟩ := hb
  subst hbrc
  subst hbt
  split
  · rename_i hneg
    omega
  show ∃ ctx1 w1, ite _ _ _ = some (WS_OK, ctx1, w1) ∧ _
  split
  · rename_i hbad
    have hbad1 : (ws_client_request ctx.cfg key).length = 0 ∨
        (ws_client_request ctx.cfg key).length ≥ 512 := hbad
    omega
  have hsend := ws_send_all_accepting wa (ws_client_request ctx.cfg key)
    (ws_client_request ctx.cfg key).length (by rw [hwa.1, htx]) hreq0 (by omega)
  rw [List.take_length] at hsend
  split
  · rename_i hnone
    have hnone1 : ws_send_all wa (ws_client_request ctx.cfg key)
        (ws_client_request ctx.cfg key).length = none := hnone
    rw [hsend] at hnone1
    cases hnone1
  rename_i src w2 hsome0
  have hsome : ws_send_all wa (ws_client_request ctx.cfg key)
      (ws_client_request ctx.cfg key).length = some (src, w2) := hsome0
  clear hsome0
  rw [hsend] at hsome
  simp only [Option.some.injEq, Prod.mk.injEq] at hsome
  obtain ⟨hsrc, hw2⟩ := hsome
  subst hsrc
  subst hw2
  rw [if_neg (by simp)]
  obtain ⟨tail, got, wr, hrecv0, hgot, _, _, _, hro⟩ := ws_recv_until_block nc
    { wa with tx := wa.tx ++ [ws_client_request ctx.cfg key] } ctx.rxbuf ctx.rxcap 0
    (ws_server_response (ws_compute_accept key [] 64).2) after hnd hto heof hcap31
    (by rw [hresp]; exact header_block_delim _ _)
    (fun i h => by
      rw [hresp] at h ⊢
      exact header_block_no_early_delim _ _ after i
        (fun b hb => (cstr_plain_of_decide _ (by decide) b hb).1)
        (fun l hl => ⟨(hlinesp l hl).1, fun b hb => ((hlinesp l hl).2 b hb).1⟩) h)
    (by show rx_avail wa.rx = _; rw [hwarx, hrx])
    (by simp only [List.length_append]; omega)
  have hrecv : ws_recv_until nc { wa with tx := wa.tx ++ [ws_client_request ctx.cfg key] }
      ctx.rxbuf ctx.rxcap (cstr "\r\n\r\n") 4 0 = some (WS_OK,
        ws_server_response (ws_compute_accept key [] 64).2 ++ tail, got, wr) := hrecv0
  split
  · rename_i hnone
    have hnone1 : ws_recv_until nc { wa with tx := wa.tx ++ [ws_client_request ctx.cfg key] }
        ctx.rxbuf ctx.rxcap (cstr "\r\n\r\n") 4 0 = none := hnone
    rw [hrecv] at hnone1
    cases hnone1
  rename_i rrc1 rxbuf1 got1 w3 hsome0
  have hsome : ws_recv_until nc { wa with tx := wa.tx ++ [ws_client_request ctx.cfg key] }
      ctx.rxbuf ctx.rxcap (cstr "\r\n\r\n") 4 0 = some (rrc1, rxbuf1, got1, w3) := hsome0
  clear hsome0
  rw [hrecv] at hsome
  simp only [Option.some.injEq, Prod.mk.injEq] at hsome
  obtain ⟨e1, e2, e3, e4⟩ := hsome
  subst e1 e2 e3 e4
  rw [if_neg (by simp)]
  split
  rename_i vrc vctx hv0
  have hv : ws_client_handshake_validate
      { ctx with key_b64 := key,
                 rxbuf := ws_server_response (ws_compute_accept key [] 64).2 ++ tail } got =
      (vrc, vctx) := hv0
  have hvok := ws_client_handshake_validate_ok
    { ctx with key_b64 := key, rxbuf := ws_server_response (ws_compute_accept key [] 64).2 ++ tail }
    tail (by show key.length ≤ 92; omega) rfl got (by omega)
  rw [hv] at hvok
  simp only at hvok
  subst hvok
  exact ⟨_, _, rfl, by rw [hro.2.1]; show wa.tx ++ _ = _; rw [hwa.2]⟩

/-- C38 as amended: the two handshake engines interoperate. Take a client
configuration whose host, resource, origin and subprotocol hold no LF (and, as C
strings, no NUL), whose raw extra headers are absent or are complete header
lines, each non-empty, without LF and ended by CR LF, and whose request is
shorter than 512 bytes; transports that accept what is offered; a server
transport that has the request of `ws_client_handshake` ready and a client
transport that has ready the response that `ws_server_handshake` writes for
that request's `Sec-WebSocket-Key`, each followed by any bytes (`after_s`,
`after_c`) and cut into reads in any way; receive buffers with room for what is
ready and two bytes more. Then both handshakes return `WS_OK`: the client has
sent exactly its request, and the server exactly the 101 response with the
accept value of the client's key. -/
theorem handshake_engines_interoperate (nc : NetCodes) (ctx : ws_client_ctx_t)
    (c : ws_server_client_t) (wc wsrv : World) (extra : List (List Nat))
    (after_c after_s : List Nat)
    (hnd : nc.NET_NO_DATA ≤ 0) (hto : nc.NET_TIMEOUT ≤ 0) (heof : nc.NET_EOF ≤ 0)
    (hextra : extra_header_lines ctx.cfg.extra_headers extra)
    (hextrap : ∀ l ∈ extra, l ≠ [] ∧ ∀ b ∈ l, b ≠ 10 ∧ b ≠ 0)
    (hhost : ∀ b ∈ ctx.cfg.host, b ≠ 10 ∧ b ≠ 0)
    (hres : ∀ b ∈ ctx.cfg.resource, b ≠ 10 ∧ b ≠ 0)
    (horigin : ∀ b ∈ ctx.cfg.origin.getD [], b ≠ 10 ∧ b ≠ 0)
    (hsub : ∀ b ∈ ctx.cfg.subprotocol.getD [], b ≠ 10 ∧ b ≠ 0)
    (hreq : (ws_client_request ctx.cfg (ws_client_key wc)).length < 512)
    (hccap : after_c.length + 131 ≤ ctx.rxcap) (hccap31 : ctx.rxcap ≤ 2 ^ 31)
    (hscap : (ws_client_request ctx.cfg (ws_client_key wc)).length + after_s.length + 2
      ≤ c.rxcap)
    (hscap31 : c.rxcap ≤ 2 ^ 31)
    (hctx : wc.txScript = []) (hstx : wsrv.txScript = [])
    (hsrx : rx_avail wsrv.rx = ws_client_request ctx.cfg (ws_client_key wc) ++ after_s)
    (hcrx : rx_avail wc.rx =
      ws_server_response (ws_compute_accept (ws_client_key wc) [] 64).2 ++ after_c) :
    (∃ ctx1 wc1, ws_client_handshake nc ctx wc = some (WS_OK, ctx1, wc1) ∧
      wc1.tx = wc.tx ++ [ws_client_request ctx.cfg (ws_client_key wc)]) ∧
    (∃ c1 ws1, ws_server_handshake nc c wsrv = some (WS_OK, c1, ws1) ∧
      ws1.tx = wsrv.tx ++
        [ws_server_response (ws_compute_accept (ws_client_key wc) [] 64).2]) := by
  obtain ⟨hk24, hkplain⟩ := ws_client_key_plain wc
  exact ⟨ws_client_handshake_accepts_response nc ctx wc after_c hnd hto heof hctx hreq hcrx hccap
      hccap31,
    ws_server_handshake_accepts_request nc c wsrv ctx.cfg (ws_client_key wc) after_s hnd hto heof
      extra hextra hextrap hhost hres horigin hsub hkplain (by omega) hsrx hstx hscap hscap31⟩

/-- Witness for C38 as amended: `sample_cfg` (host `ws.postman-echo.com`,
resource `/raw`, no optional headers), 2048-byte receive buffers, the key made
from zeros, and each message delivered in two reads. -/
theorem handshake_engines_interoperate_witness :
    (ws_client_request sample_fresh_ctx.cfg (ws_client_key sample_interop_client_world)).length
        < 512 ∧
    (∃ ctx1 wc1, ws_client_handshake sample_codes sample_fresh_ctx sample_interop_client_world =
        some (WS_OK, ctx1, wc1) ∧
      wc1.tx = sample_interop_client_world.tx ++
        [ws_client_request sample_fresh_ctx.cfg (ws_client_key sample_interop_client_world)]) ∧
    (∃ c1 ws1, ws_server_handshake sample_codes sample_server_client
        sample_interop_server_world = some (WS_OK, c1, ws1) ∧
      ws1.tx = sample_interop_server_world.tx ++
        [ws_server_response
          (ws_compute_accept (ws_client_key sample_interop_client_world) [] 64).2]) :=
  ⟨by decide!,
    handshake_engines_interoperate sample_codes sample_fresh_ctx sample_server_client
      sample_interop_client_world sample_interop_server_world [] [] []
      (by decide) (by decide) (by decide) rfl (by decide) (by decide) (by decide) (by decide)
      (by decide) (by decide!) (by decide) (by decide) (by decide!) (by decide) rfl rfl
      (by decide!) (by decide!)⟩

/-- Counterexample for C38 as stated: `sample_cfg` with the extra header string
`X-Test: 1`, which holds no CR and no LF, and a request that fits 512 bytes.
`ws_client_handshake` appends the string as it is, right before the CR LF that
should be the blank line, so the request has no blank line, and
`ws_server_handshake` returns `WS_ERR` for it. -/
theorem handshake_engines_interoperate_counterexample :
    (∀ b ∈ sample_cfg.host ++ sample_cfg.resource ++ cstr "X-Test: 1", b ≠ 13 ∧ b ≠ 10) ∧
    (ws_client_request { sample_cfg with extra_headers := some (cstr "X-Test: 1") }
        (ws_client_key (sample_world []))).length < 512 ∧
    (ws_server_handshake sample_codes sample_server_client
        (sample_world [RxEvent.data
          (ws_client_request { sample_cfg with extra_headers := some (cstr "X-Test: 1") }
            (ws_client_key (sample_world [])))])).map (fun r => r.1) = some WS_ERR :=
  ⟨by decide, by decide!, by decide!⟩

end WS
